import Mathlib

/-!
# DMA / HDMA engine of the SNSF player (snes9x core, `dma.cpp`)

A shallow embedding of `src/in_snsf/snes9x/dma.cpp`.

* Machine integers are naturals or integers with explicit reduction modulo
  `2^16` where the source relies on wrap-around of `uint16_t` registers.
* The global records `CPU`, `PPU`, `Timings`, `DMA[8]` become fields of one
  explicit `Machine` record that is threaded through every function.
* The byte access facade (`S9xGetByte`, `S9xSetPPU`, ...) and the event
  scheduler (`S9xDoHEventProcessing`) are external collaborators.  They are
  gathered in a `Facade` record of oracles.  Every access the engine issues is
  appended to `Machine.log`, and a read returns what the oracle answers for the
  log so far, so that any deterministic memory system is covered.
-/

namespace Snes9x

/-- Modelled from the spec: `snes9x.h`, which defines this constant, is not part
of the sources; the spec (cycle total `8 + 8*N`) and the comments of `dma.cpp`
("8 cycles per byte", "8 cycles per channel") give its value. -/
def SLOW_ONE_CYCLE : Int := 8

/-- One DMA/HDMA channel (`struct SDMA`, used through `DMA[d]`).  The 8-bit
fields hold values below `0x100`, the 16-bit ones values below `0x10000`. -/
structure SDMA where
  ReverseTransfer : Bool
  HDMAIndirectAddressing : Bool
  UnusedBit43x0 : Bool
  AAddressFixed : Bool
  AAddressDecrement : Bool
  TransferMode : Nat
  BAddress : Nat
  AAddress : Nat
  ABank : Nat
  DMACount_Or_HDMAIndirectAddress : Nat
  IndirectBank : Nat
  Address : Nat
  Repeat : Bool
  LineCount : Nat
  UnknownByte : Nat
  DoTransfer : Bool
deriving DecidableEq

/-- The fields of the global `CPU` record that `dma.cpp` reads or writes. -/
structure SCPUState where
  Cycles : Int
  NextEvent : Int
  InDMA : Bool
  InHDMA : Bool
  InDMAorHDMA : Bool
  InWRAMDMAorHDMA : Bool
  HDMARanInDMA : Nat
  CurrentDMAorHDMAChannel : Int
  NMIPending : Bool
deriving DecidableEq

/-- The fields of the global `Timings` record used by `dma.cpp`. -/
structure STimings where
  NMITriggerPos : Int
  NMIDMADelay : Int
  DMACPUSync : Int
deriving DecidableEq

/-- The fields of the global `PPU` record used by `dma.cpp`
(`FullGraphicCount` is `PPU.VMA.FullGraphicCount`). -/
structure SPPU where
  HDMA : Nat
  HDMAEnded : Nat
  FullGraphicCount : Nat
  OAMAddr : Nat
  OAMFlip : Nat
deriving DecidableEq

/-- One access issued by the engine to its collaborators, in the order of the
source: calls of the byte access facade, reads through a resolved host pointer
(`*(base + p)`), and calls of the inlined PPU register handlers. -/
inductive Access where
  | S9xGetByte (Address : Nat)
  | S9xGetWord (Address : Nat)
  | S9xSetByte (Byte Address : Nat)
  | S9xGetPPU (Address : Nat)
  | S9xSetPPU (Byte Address : Nat)
  | ReadPointer (ptr : Nat)
  | REGISTER_2104 (Byte : Nat)
  | REGISTER_2118_linear (Byte : Nat)
  | REGISTER_2118_tile (Byte : Nat)
  | REGISTER_2119_linear (Byte : Nat)
  | REGISTER_2119_tile (Byte : Nat)
  | REGISTER_2180 (Byte : Nat)
deriving DecidableEq

/-- The collaborators of the engine, none of which is defined in `dma.cpp`.

* `MEMMAP_BLOCK_SIZE`, `MEMMAP_MASK`: constants of `memmap.h`.
* `S9xGetByte h a`, `S9xGetWord h a`, `S9xGetPPU h a`, `ReadPointer h q`: the
  value a read of address `a` (host pointer `q`) returns after the accesses `h`.
  While `CPU.InDMA` or `CPU.InHDMA` is set these calls charge no cycles (see the
  comment at the head of `HDMAReadLineCount`), so they leave `CPU.Cycles` alone.
* `S9xGetBasePointer`, `S9xGetMemPointer`: pointer resolution, `none` being
  the null pointer; a host pointer is a natural number.
* `sdd1_decode_buffer`: the address of the static S-DD1 buffer.
* `HDMA_ModeByteCounts`: the table `extern int HDMA_ModeByteCounts[8]`, which
  is defined outside `dma.cpp`, as a function of the index.
* `S9xDoHEventProcessing n cpu`: the `CPU` record left by the event loop
  `while (CPU.Cycles >= CPU.NextEvent) S9xDoHEventProcessing();` when it is
  executed for the `n`-th time (`Machine.tick`) on the record `cpu`.  The loop
  is taken to terminate and to leave the channel under transfer alone; an HDMA
  it runs on that channel shows in `HDMARanInDMA`. -/
structure Facade where
  MEMMAP_BLOCK_SIZE : Nat
  MEMMAP_MASK : Nat
  S9xGetByte : List Access → Nat → Nat
  S9xGetWord : List Access → Nat → Nat
  S9xGetPPU : List Access → Nat → Nat
  ReadPointer : List Access → Nat → Nat
  S9xGetBasePointer : Nat → Option Nat
  S9xGetMemPointer : Nat → Option Nat
  sdd1_decode_buffer : Nat
  HDMA_ModeByteCounts : Nat → Int
  S9xDoHEventProcessing : Nat → SCPUState → SCPUState

/-- The global state `dma.cpp` works on.  `FillRAM_4801` and `FillRAM_420c`
are `Memory.FillRAM[0x4801]` and `Memory.FillRAM[0x420c]`, `SDD1` is
`Settings.SDD1`, `Uniracers` is `SNESGameFixes.Uniracers`.  `log` records the
accesses issued so far, oldest first, and `tick` counts the executions of
`addCyclesInDMA`, that is the per-byte transfer steps.  `exhausted` is set
when a loop of the model uses up its iteration bound before the loop of the
source would have ended, and `underflow` is set when a decrement `--count` of
a byte counter of `S9xDoDMA` yields a negative value; neither is set by a
statement of the source. -/
structure Machine where
  DMA : Fin 8 → SDMA
  CPU : SCPUState
  Timings : STimings
  PPU : SPPU
  FillRAM_4801 : Nat
  FillRAM_420c : Nat
  SDD1 : Bool
  Uniracers : Bool
  HDMAMemPointers : Fin 8 → Option Nat
  OpenBus : Nat
  log : List Access
  tick : Nat
  exhausted : Bool
  underflow : Bool

/-- Result of a piece of `S9xDoDMA` that contains `return false` statements:
`aborted m` when `UPDATE_COUNTERS` returned false and the function returned
false in state `m`, `done m a` when control reached the end of the piece with
locals `a` (the modes 0, 2 and 6 leave the local `b` as it is, which
`Outcome.map` expresses). -/
inductive Outcome (α : Type) where
  | aborted (m : Machine) : Outcome α
  | done (m : Machine) (a : α) : Outcome α

/-- Applies a function to the locals of a completed piece. -/
def Outcome.map {α β : Type} (f : α → β) : Outcome α → Outcome β
  | Outcome.aborted m => Outcome.aborted m
  | Outcome.done m a => Outcome.done m (f a)

/-- A statement group that moves one byte: it reads the machine and the local
offset `p` and returns the machine after the access. -/
abbrev Emit := Machine → Nat → Machine

/-- Assignment `DMA[c] = d`. -/
def setDMA (m : Machine) (c : Fin 8) (d : SDMA) : Machine :=
  { m with DMA := Function.update m.DMA c d }

/-- Assignment `HDMAMemPointers[c] = q`. -/
def setHDMAMemPointer (m : Machine) (c : Fin 8) (q : Option Nat) : Machine :=
  { m with HDMAMemPointers := Function.update m.HDMAMemPointers c q }

/-- Marks that a loop of the model ran out of its iteration bound. -/
def outOfFuel (m : Machine) : Machine :=
  { m with exhausted := true }

/-- Records the value `count` a byte counter has after a decrement `--count`:
`underflow` is set when it is negative. -/
def checkCounter (count : Int) (m : Machine) : Machine :=
  if count < 0 then { m with underflow := true } else m

/-- Appends accesses to the log. -/
def record (m : Machine) (as : List Access) : Machine :=
  { m with log := m.log ++ as }

/-- The function `ADD_CYCLES(n)`: `CPU.Cycles += n`. -/
def ADD_CYCLES (n : Int) (m : Machine) : Machine :=
  { m with CPU := { m.CPU with Cycles := m.CPU.Cycles + n } }

/-- The function `addCyclesInDMA(dma_channel)`: 8 cycles are added, the event loop
runs, and the result is false when an HDMA ran on the channel of the DMA.  In
both cases `CPU.HDMARanInDMA` is cleared. -/
def addCyclesInDMA (F : Facade) (dma_channel : Fin 8) (m : Machine) : Bool × Machine :=
  let m1 := ADD_CYCLES SLOW_ONE_CYCLE m
  let m2 := { m1 with CPU := F.S9xDoHEventProcessing m1.tick m1.CPU, tick := m1.tick + 1 }
  if m2.CPU.HDMARanInDMA &&& (1 <<< dma_channel.val) ≠ 0 then
    (false, { m2 with CPU := { m2.CPU with HDMARanInDMA := 0 } })
  else
    (true, { m2 with CPU := { m2.CPU with HDMARanInDMA := 0 } })

/-- The statements before `return` in the invalid-DMA branch:
`CPU.InDMA = false; CPU.InDMAorHDMA = false; CPU.CurrentDMAorHDMAChannel = -1;`. -/
def leaveInvalidDMA (m : Machine) : Machine :=
  { m with CPU := { m.CPU with InDMA := false, InDMAorHDMA := false,
                               CurrentDMAorHDMAChannel := -1 } }

/-- The statements before `return` elsewhere: `CPU.InDMA = CPU.InDMAorHDMA =
CPU.InWRAMDMAorHDMA = false; CPU.CurrentDMAorHDMAChannel = -1;`. -/
def leaveDMA (m : Machine) : Machine :=
  { m with CPU := { m.CPU with InDMA := false, InDMAorHDMA := false,
                               InWRAMDMAorHDMA := false,
                               CurrentDMAorHDMAChannel := -1 } }

/-- The loop `while (c) { --count; ++AAddress; --c; if (!addCyclesInDMA) ... }`
of the invalid-DMA branch; `c` runs from the byte count down to zero. -/
def invalidLoop (F : Facade) (Channel : Fin 8) : Nat → Machine → Bool × Machine
  | 0, m => (true, m)
  | c + 1, m =>
    let d := m.DMA Channel
    let m1 := setDMA m Channel
      { d with DMACount_Or_HDMAIndirectAddress :=
                 (d.DMACount_Or_HDMAIndirectAddress + 0xFFFF) % 0x10000,
               AAddress := (d.AAddress + 1) % 0x10000 }
    match addCyclesInDMA F Channel m1 with
    | (false, m2) => (false, leaveInvalidDMA m2)
    | (true, m2) => invalidLoop F Channel c m2

/-- The lambda `UPDATE_COUNTERS` of the CPU -> PPU branch.  `aborted` stands
for `return false`, after which every caller returns false at once. -/
def UPDATE_COUNTERS (F : Facade) (Channel : Fin 8) (inc : Int) (m : Machine) (p : Nat) :
    Outcome Nat :=
  let d := m.DMA Channel
  let m1 := setDMA m Channel
    { d with DMACount_Or_HDMAIndirectAddress :=
               (d.DMACount_Or_HDMAIndirectAddress + 0xFFFF) % 0x10000,
             AAddress := (((d.AAddress : Int) + inc) % 0x10000).toNat }
  let p1 := (((p : Int) + inc) % 0x10000).toNat
  match addCyclesInDMA F Channel m1 with
  | (false, m2) => Outcome.aborted (leaveDMA m2)
  | (true, m2) => Outcome.done m2 p1

/-- Slow path, one byte: `Work = S9xGetByte((d->ABank << 16) + p);
S9xSetPPU(Work, Reg + d->BAddress);`. -/
def slowByte (F : Facade) (Channel : Fin 8) (Reg : Nat) : Emit := fun m p =>
  let d := m.DMA Channel
  let Work := F.S9xGetByte m.log ((d.ABank <<< 16) + p) % 0x100
  record m [Access.S9xGetByte ((d.ABank <<< 16) + p), Access.S9xSetPPU Work (Reg + d.BAddress)]

/-- Fast path, one byte through an inlined handler: `Work = *(base + p);
REGISTER_xxxx(Work);`. -/
def fastRegister (F : Facade) (base : Nat) (handler : Nat → Access) : Emit := fun m p =>
  let Work := F.ReadPointer m.log (base + p) % 0x100
  record m [Access.ReadPointer (base + p), handler Work]

/-- Fast path, mode 1 to VMDATAL, second byte of a pair in linear mode:
`OpenBus = *(base + p); REGISTER_2119_linear(OpenBus);`. -/
def fastOpenBus (F : Facade) (base : Nat) : Emit := fun m p =>
  let v := F.ReadPointer m.log (base + p) % 0x100
  { record m [Access.ReadPointer (base + p), Access.REGISTER_2119_linear v] with OpenBus := v }

/-- Fast path, CGDATA: `Work = *(base + p);` and nothing else. -/
def fastReadOnly (base : Nat) : Emit := fun m p =>
  record m [Access.ReadPointer (base + p)]

/-- Fast path, WMDATA while the source is WRAM: no access at all. -/
def fastNothing : Emit := fun m _ => m

/-- Fast path, one byte: `Work = *(base + p); S9xSetPPU(Work, Reg + d->BAddress);`. -/
def fastByte (F : Facade) (Channel : Fin 8) (base : Nat) (Reg : Nat) : Emit := fun m p =>
  let d := m.DMA Channel
  let Work := F.ReadPointer m.log (base + p) % 0x100
  record m [Access.ReadPointer (base + p), Access.S9xSetPPU Work (Reg + d.BAddress)]

/-- The loop `do { byte; if (!UPDATE_COUNTERS()) return false; } while (--count > 0);`
of modes 0, 2 and 6.  The first argument bounds the number of iterations. -/
def loopSingle (F : Facade) (Channel : Fin 8) (inc : Int) (e : Emit) :
    Nat → Int → Machine → Nat → Outcome Nat
  | 0, _, m, p => Outcome.done (outOfFuel m) p
  | fuel + 1, count, m, p =>
    match UPDATE_COUNTERS F Channel inc (e m p) p with
    | Outcome.aborted m1 => Outcome.aborted m1
    | Outcome.done m1 p1 =>
      if count - 1 > 0 then
        loopSingle F Channel inc e fuel (count - 1) (checkCounter (count - 1) m1) p1
      else Outcome.done (checkCounter (count - 1) m1) p1

/-- The variation on Duff's device of modes 1 and 5:
`switch (b) { default: while (count > 1) { byte0; --count; case 1: byte1; --count; } }`.
The flag is true when control stands at `case 1:` and false when it stands at
the loop test.  Returns `p` and `count`. -/
def duffLoop (F : Facade) (Channel : Fin 8) (inc : Int) (e0 e1 : Emit) :
    Nat → Bool → Int → Machine → Nat → Outcome (Nat × Int)
  | 0, _, count, m, p => Outcome.done (outOfFuel m) (p, count)
  | fuel + 1, true, count, m, p =>
    match UPDATE_COUNTERS F Channel inc (e1 m p) p with
    | Outcome.aborted m1 => Outcome.aborted m1
    | Outcome.done m1 p1 =>
      duffLoop F Channel inc e0 e1 fuel false (count - 1) (checkCounter (count - 1) m1) p1
  | fuel + 1, false, count, m, p =>
    if count > 1 then
      match UPDATE_COUNTERS F Channel inc (e0 m p) p with
      | Outcome.aborted m1 => Outcome.aborted m1
      | Outcome.done m1 p1 =>
        duffLoop F Channel inc e0 e1 fuel true (count - 1) (checkCounter (count - 1) m1) p1
    else Outcome.done m (p, count)

/-- The statement after the Duff loop: `if (count == 1) { byte0;
if (!UPDATE_COUNTERS()) return false; b = 1; } else b = 0;`.  Returns `p` and `b`. -/
def pairTail (F : Facade) (Channel : Fin 8) (inc : Int) (e0 : Emit)
    (count : Int) (m : Machine) (p : Nat) : Outcome (Nat × Int) :=
  if count = 1 then
    match UPDATE_COUNTERS F Channel inc (e0 m p) p with
    | Outcome.aborted m1 => Outcome.aborted m1
    | Outcome.done m1 p1 => Outcome.done m1 (p1, 1)
  else Outcome.done m (p, 0)

/-- Modes 1 and 5: the Duff loop entered at `case 1:` when `b == 1`, followed by
`if (count == 1) { byte0; if (!UPDATE_COUNTERS()) return false; b = 1; } else b = 0;`.
Returns `p` and `b`. -/
def loopPair (F : Facade) (Channel : Fin 8) (inc : Int) (e0 e1 : Emit)
    (b count : Int) (m : Machine) (p : Nat) : Outcome (Nat × Int) :=
  match duffLoop F Channel inc e0 e1 (count.toNat + 2) (b == 1) count m p with
  | Outcome.aborted m1 => Outcome.aborted m1
  | Outcome.done m1 (p1, count1) => pairTail F Channel inc e0 count1 m1 p1

/-- The body of `switch (b) { default: do { byte0; if (--count <= 0) { b = 1; break; }
case 1: byte1; ... case 3: byte3; if (--count <= 0) { b = 0; break; } } while (1); }`
of modes 3, 7 and 4.  `k` is the label control stands at (0 for `default:`);
after the byte of label `k` control falls through to label `k + 1`, and from
label 3 the `while (1)` leads back to `default:`.  Returns `p` and `b`. -/
def loopQuad (F : Facade) (Channel : Fin 8) (inc : Int) (e : Nat → Emit) :
    Nat → Nat → Int → Machine → Nat → Outcome (Nat × Int)
  | 0, k, _, m, p => Outcome.done (outOfFuel m) (p, k)
  | fuel + 1, k, count, m, p =>
    match UPDATE_COUNTERS F Channel inc (e k m p) p with
    | Outcome.aborted m1 => Outcome.aborted m1
    | Outcome.done m1 p1 =>
      if count - 1 ≤ 0 then
        Outcome.done (checkCounter (count - 1) m1) (p1, ((k + 1) % 4 : Nat))
      else
        loopQuad F Channel inc e fuel ((k + 1) % 4) (count - 1)
          (checkCounter (count - 1) m1) p1

/-- The label `switch (b)` jumps to in modes 3, 7 and 4. -/
def switchLabel (b : Int) : Nat :=
  if b = 1 then 1 else if b = 2 then 2 else if b = 3 then 3 else 0

/-- Number of iterations that always suffices for a chunk of `count` bytes. -/
def chunkFuel (count : Int) : Nat := count.toNat + 2

/-- DMA SLOW PATH (`if (!base)`): the dispatch on `d->TransferMode` for one
chunk of `count` bytes.  Returns `p` and `b`. -/
def slowChunk (F : Facade) (Channel : Fin 8) (inc : Int) (b count : Int)
    (m : Machine) (p : Nat) : Outcome (Nat × Int) :=
  let d := m.DMA Channel
  if d.TransferMode = 0 ∨ d.TransferMode = 2 ∨ d.TransferMode = 6 then
    Outcome.map (fun p1 => (p1, b))
      (loopSingle F Channel inc (slowByte F Channel 0x2100) (chunkFuel count) count m p)
  else if d.TransferMode = 1 ∨ d.TransferMode = 5 then
    loopPair F Channel inc (slowByte F Channel 0x2100) (slowByte F Channel 0x2101) b count m p
  else if d.TransferMode = 3 ∨ d.TransferMode = 7 then
    loopQuad F Channel inc
      (fun k => slowByte F Channel (if k = 0 ∨ k = 1 then 0x2100 else 0x2101))
      (chunkFuel count) (switchLabel b) count m p
  else if d.TransferMode = 4 then
    loopQuad F Channel inc (fun k => slowByte F Channel (0x2100 + k))
      (chunkFuel count) (switchLabel b) count m p
  else Outcome.done m (p, b)

/-- The statement group selected by `switch (d->BAddress)` in the fast path of
modes 0, 2 and 6.  The tests of `PPU.VMA.FullGraphicCount` and
`CPU.InWRAMDMAorHDMA` are made once, before the loop, as in the source. -/
def fastSingleByte (F : Facade) (Channel : Fin 8) (base : Nat) (m : Machine) : Emit :=
  let d := m.DMA Channel
  if d.BAddress = 0x04 then fastRegister F base Access.REGISTER_2104
  else if d.BAddress = 0x18 then
    if m.PPU.FullGraphicCount = 0 then fastRegister F base Access.REGISTER_2118_linear
    else fastRegister F base Access.REGISTER_2118_tile
  else if d.BAddress = 0x19 then
    if m.PPU.FullGraphicCount = 0 then fastRegister F base Access.REGISTER_2119_linear
    else fastRegister F base Access.REGISTER_2119_tile
  else if d.BAddress = 0x22 then fastReadOnly base
  else if d.BAddress = 0x80 then
    if !m.CPU.InWRAMDMAorHDMA then fastRegister F base Access.REGISTER_2180
    else fastNothing
  else fastByte F Channel base 0x2100

/-- DMA FAST PATH (`base` is not null): the dispatch on `d->TransferMode` for
one chunk of `count` bytes.  Returns `p` and `b`. -/
def fastChunk (F : Facade) (Channel : Fin 8) (inc : Int) (base : Nat) (b count : Int)
    (m : Machine) (p : Nat) : Outcome (Nat × Int) :=
  let d := m.DMA Channel
  if d.TransferMode = 0 ∨ d.TransferMode = 2 ∨ d.TransferMode = 6 then
    Outcome.map (fun p1 => (p1, b))
      (loopSingle F Channel inc (fastSingleByte F Channel base m) (chunkFuel count) count m p)
  else if d.TransferMode = 1 ∨ d.TransferMode = 5 then
    if d.BAddress = 0x18 then
      if m.PPU.FullGraphicCount = 0 then
        loopPair F Channel inc (fastRegister F base Access.REGISTER_2118_linear)
          (fastOpenBus F base) b count m p
      else
        loopPair F Channel inc (fastRegister F base Access.REGISTER_2118_tile)
          (fastRegister F base Access.REGISTER_2119_tile) b count m p
    else
      loopPair F Channel inc (fastByte F Channel base 0x2100) (fastByte F Channel base 0x2101)
        b count m p
  else if d.TransferMode = 3 ∨ d.TransferMode = 7 then
    loopQuad F Channel inc
      (fun k => fastByte F Channel base (if k = 0 ∨ k = 1 then 0x2100 else 0x2101))
      (chunkFuel count) (switchLabel b) count m p
  else if d.TransferMode = 4 then
    loopQuad F Channel inc (fun k => fastByte F Channel base (0x2100 + k))
      (chunkFuel count) (switchLabel b) count m p
  else Outcome.done m (p, b)

/-- The value of `inWRAM_DMA`: `!in_sdd1_dma && (d->ABank == 0x7e || d->ABank == 0x7f
|| (!(d->ABank & 0x40) && d->AAddress < 0x2000))`. -/
def inWRAM (in_sdd1_dma : Bool) (d : SDMA) : Bool :=
  !in_sdd1_dma && (d.ABank == 0x7e || d.ABank == 0x7f ||
    (d.ABank &&& 0x40 == 0 && decide (d.AAddress < 0x2000)))

/-- Assignment `CPU.InWRAMDMAorHDMA = v`. -/
def setInWRAM (m : Machine) (v : Bool) : Machine :=
  { m with CPU := { m.CPU with InWRAMDMAorHDMA := v } }

/-- The statement `if (!base) { DMA SLOW PATH } else { DMA FAST PATH }`. -/
def transferChunk (F : Facade) (Channel : Fin 8) (inc : Int) (base : Option Nat)
    (b count : Int) (m : Machine) (p : Nat) : Outcome (Nat × Int) :=
  match base with
  | none => slowChunk F Channel inc b count m p
  | some q => fastChunk F Channel inc q b count m p

/-- The `while (1)` loop of the CPU -> PPU branch, one iteration per chunk.
Each iteration starts with `if (count > rem) count = rem; rem -= count;
CPU.InWRAMDMAorHDMA = inWRAM_DMA;`.
The first argument bounds the number of chunks. -/
def forwardLoop (F : Facade) (Channel : Fin 8) (inc : Int) (in_sdd1_dma : Bool) :
    Nat → Int → Option Nat → Bool → Int → Int → Machine → Nat → Bool × Machine
  | 0, _, _, _, _, _, m, _ => (true, outOfFuel m)
  | fuel + 1, b, base, inWRAM_DMA, rem, count, m, p =>
    let count := if count > rem then rem else count
    let rem := rem - count
    match transferChunk F Channel inc base b count (setInWRAM m inWRAM_DMA) p with
    | Outcome.aborted m1 => (false, m1)
    | Outcome.done m1 (p1, b1) =>
      if rem ≤ 0 then (true, m1)
      else
        let d := m1.DMA Channel
        forwardLoop F Channel inc in_sdd1_dma fuel b1
          (F.S9xGetBasePointer ((d.ABank <<< 16) + d.AAddress))
          (inWRAM in_sdd1_dma d) rem F.MEMMAP_BLOCK_SIZE m1 p1

/-- The CPU -> PPU branch of `S9xDoDMA` (`if (!d->ReverseTransfer)`), from the
declaration of `b` to the end of the `while (1)` loop.  `count` is the total
number of bytes on entry. -/
def forwardDMA (F : Facade) (Channel : Fin 8) (inc : Int) (in_sdd1_dma : Bool)
    (count : Int) (m : Machine) : Bool × Machine :=
  let d := m.DMA Channel
  let p := d.AAddress
  let base := F.S9xGetBasePointer ((d.ABank <<< 16) + d.AAddress)
  let rem := count
  let count : Int :=
    if d.AAddressFixed then rem
    else if d.AAddressDecrement then ((p &&& F.MEMMAP_MASK : Nat) : Int) + 1
    else (F.MEMMAP_BLOCK_SIZE : Int) - ((p &&& F.MEMMAP_MASK : Nat) : Int)
  let base := if in_sdd1_dma then some F.sdd1_decode_buffer else base
  let p := if in_sdd1_dma then 0 else p
  let count := if in_sdd1_dma then rem else count
  forwardLoop F Channel inc in_sdd1_dma rem.toNat 0 base (inWRAM in_sdd1_dma d) rem count m p

/-- The lambda `UPDATE_COUNTERS` of the PPU -> CPU branch, which has no local
offset `p`. -/
def UPDATE_COUNTERS_reverse (F : Facade) (Channel : Fin 8) (inc : Int) (m : Machine) :
    Outcome Unit :=
  let d := m.DMA Channel
  let m1 := setDMA m Channel
    { d with DMACount_Or_HDMAIndirectAddress :=
               (d.DMACount_Or_HDMAIndirectAddress + 0xFFFF) % 0x10000,
             AAddress := (((d.AAddress : Int) + inc) % 0x10000).toNat }
  match addCyclesInDMA F Channel m1 with
  | (false, m2) => Outcome.aborted (leaveDMA m2)
  | (true, m2) => Outcome.done m2 ()

/-- Reverse DMA, one byte: in the REALLY-SLOW path first
`CPU.InWRAMDMAorHDMA = d->AAddress < 0x2000;`, then in both paths
`Work = S9xGetPPU(Reg + d->BAddress); S9xSetByte(Work, (d->ABank << 16) + d->AAddress);`. -/
def reverseByte (F : Facade) (Channel : Fin 8) (reallySlow : Bool) (Reg : Nat)
    (m : Machine) : Machine :=
  let d := m.DMA Channel
  let m := if reallySlow then
      { m with CPU := { m.CPU with InWRAMDMAorHDMA := decide (d.AAddress < 0x2000) } }
    else m
  let Work := F.S9xGetPPU m.log (Reg + d.BAddress) % 0x100
  record m [Access.S9xGetPPU (Reg + d.BAddress),
            Access.S9xSetByte Work ((d.ABank <<< 16) + d.AAddress)]

/-- One `case` of the reverse `switch (d->TransferMode)` for the registers
`Regs`: after each byte but the last, `if (!--count) break;`, after the last,
`--count; break;`.  Returns `count`. -/
def reverseCase (F : Facade) (Channel : Fin 8) (inc : Int) (reallySlow : Bool) :
    List Nat → Int → Machine → Outcome Int
  | [], count, m => Outcome.done m count
  | [Reg], count, m =>
    match UPDATE_COUNTERS_reverse F Channel inc (reverseByte F Channel reallySlow Reg m) with
    | Outcome.aborted m1 => Outcome.aborted m1
    | Outcome.done m1 _ => Outcome.done (checkCounter (count - 1) m1) (count - 1)
  | Reg :: Reg2 :: Regs, count, m =>
    match UPDATE_COUNTERS_reverse F Channel inc (reverseByte F Channel reallySlow Reg m) with
    | Outcome.aborted m1 => Outcome.aborted m1
    | Outcome.done m1 _ =>
      if count - 1 = 0 then Outcome.done (checkCounter (count - 1) m1) (count - 1)
      else
        reverseCase F Channel inc reallySlow (Reg2 :: Regs) (count - 1)
          (checkCounter (count - 1) m1)

/-- The `default:` case of the reverse switch:
`while (count) { if (!UPDATE_COUNTERS()) return false; --count; }`. -/
def reverseDefault (F : Facade) (Channel : Fin 8) (inc : Int) :
    Nat → Int → Machine → Outcome Int
  | 0, count, m => Outcome.done (outOfFuel m) count
  | fuel + 1, count, m =>
    if count ≠ 0 then
      match UPDATE_COUNTERS_reverse F Channel inc m with
      | Outcome.aborted m1 => Outcome.aborted m1
      | Outcome.done m1 _ =>
        reverseDefault F Channel inc fuel (count - 1) (checkCounter (count - 1) m1)
    else Outcome.done m count

/-- The registers of one `case` of the reverse switch, `none` for `default:`. -/
def reverseRegisters (TransferMode : Nat) : Option (List Nat) :=
  if TransferMode = 0 ∨ TransferMode = 2 ∨ TransferMode = 6 then some [0x2100]
  else if TransferMode = 1 ∨ TransferMode = 5 then some [0x2100, 0x2101]
  else if TransferMode = 3 ∨ TransferMode = 7 then some [0x2100, 0x2100, 0x2101, 0x2101]
  else if TransferMode = 4 then some [0x2100, 0x2101, 0x2102, 0x2103]
  else none

/-- The loop `do { switch (d->TransferMode) { ... } } while (count);` of either
reverse path.  The first argument bounds the number of iterations. -/
def reverseLoop (F : Facade) (Channel : Fin 8) (inc : Int) (reallySlow : Bool) :
    Nat → Int → Machine → Bool × Machine
  | 0, _, m => (true, outOfFuel m)
  | fuel + 1, count, m =>
    let r := match reverseRegisters (m.DMA Channel).TransferMode with
      | some Regs => reverseCase F Channel inc reallySlow Regs count m
      | none => reverseDefault F Channel inc (chunkFuel count) count m
    match r with
    | Outcome.aborted m1 => (false, m1)
    | Outcome.done m1 count1 =>
      if count1 ≠ 0 then reverseLoop F Channel inc reallySlow fuel count1 m1
      else (true, m1)

/-- The PPU -> CPU branch of `S9xDoDMA`. -/
def reverseDMA (F : Facade) (Channel : Fin 8) (inc : Int) (count : Int) (m : Machine) :
    Bool × Machine :=
  let d := m.DMA Channel
  if d.BAddress > 0x80 - 4 ∧ d.BAddress ≤ 0x83 ∧ d.ABank &&& 0x40 = 0 then
    reverseLoop F Channel inc true (chunkFuel count) count m
  else
    reverseLoop F Channel inc false (chunkFuel count) count
      (setInWRAM m (d.ABank == 0x7e || d.ABank == 0x7f))

/-- The byte count of a transfer: `count = d->DMACount_Or_HDMAIndirectAddress;
if (!count) count = 0x10000;`. -/
def transferCount (d : SDMA) : Nat :=
  if d.DMACount_Or_HDMAIndirectAddress = 0 then 0x10000
  else d.DMACount_Or_HDMAIndirectAddress

/-- The condition of the invalid DMA: `(d->ABank == 0x7E || d->ABank == 0x7F) &&
d->BAddress == 0x80 && !d->ReverseTransfer`. -/
def invalidDMA (d : SDMA) : Bool :=
  (d.ABank == 0x7E || d.ABank == 0x7F) && d.BAddress == 0x80 && !d.ReverseTransfer

/-- The increment `inc = d->AAddressFixed ? 0 : (!d->AAddressDecrement ? 1 : -1)`. -/
def increment (d : SDMA) : Int :=
  if d.AAddressFixed then 0 else if !d.AAddressDecrement then 1 else -1

/-- The condition under which the S-DD1 branch sets `in_sdd1_dma`. -/
def sdd1Active (m : Machine) (d : SDMA) : Bool :=
  m.SDD1 && d.AAddressFixed && decide (m.FillRAM_4801 > 0)

/-- The first statements of `S9xDoDMA`: `CPU.InDMA = CPU.InDMAorHDMA = true;
CPU.CurrentDMAorHDMAChannel = Channel;`. -/
def enterDMA (Channel : Fin 8) (m : Machine) : Machine :=
  { m with CPU := { m.CPU with InDMA := true, InDMAorHDMA := true,
                               CurrentDMAorHDMAChannel := (Channel.val : Int) } }

/-- The last statement of `if (Settings.SDD1) { ... Memory.FillRAM[0x4801] = 0; }`. -/
def clearSDD1 (m : Machine) : Machine :=
  if m.SDD1 then { m with FillRAM_4801 := 0 } else m

/-- The statement `if (CPU.NMIPending && Timings.NMITriggerPos != 0xffff)
Timings.NMITriggerPos = CPU.Cycles + Timings.NMIDMADelay;`. -/
def rescheduleNMI (m : Machine) : Machine :=
  if m.CPU.NMIPending && m.Timings.NMITriggerPos != 0xffff then
    { m with Timings := { m.Timings with
        NMITriggerPos := m.CPU.Cycles + m.Timings.NMIDMADelay } }
  else m

/-- The value of `inc` when the transfer starts: the S-DD1 branch overrides
the fixed-address case with `inc = !d->AAddressDecrement ? 1 : -1`. -/
def startIncrement (m : Machine) (d : SDMA) : Int :=
  if sdd1Active m d then (if !d.AAddressDecrement then 1 else -1) else increment d

/-- The function `bool S9xDoDMA(uint8_t Channel)`.  The pointer `in_ptr` of the
S-DD1 branch is never used and is left out. -/
def S9xDoDMA (F : Facade) (Channel : Fin 8) (m0 : Machine) : Bool × Machine :=
  let m := enterDMA Channel m0
  let d := m.DMA Channel
  if invalidDMA d then
    let c := transferCount d
    match invalidLoop F Channel c (ADD_CYCLES SLOW_ONE_CYCLE m) with
    | (false, m1) => (false, m1)
    | (true, m1) => (true, leaveInvalidDMA m1)
  else
    let count : Int := (transferCount d : Nat)
    let in_sdd1_dma := sdd1Active m d
    let inc := startIncrement m d
    let m := ADD_CYCLES SLOW_ONE_CYCLE (clearSDD1 m)
    let r := if !d.ReverseTransfer then forwardDMA F Channel inc in_sdd1_dma count m
             else reverseDMA F Channel inc count m
    match r with
    | (false, m1) => (false, m1)
    | (true, m1) => (true, leaveDMA (rescheduleNMI m1))

/-- The byte `line` of `HDMAReadLineCount`:
`uint8_t line = S9xGetByte((DMA[d].ABank << 16) + DMA[d].Address);`. -/
def lineCountByte (F : Facade) (d : Fin 8) (m : Machine) : Nat :=
  F.S9xGetByte m.log (((m.DMA d).ABank <<< 16) + (m.DMA d).Address) % 0x100

/-- The function `static inline bool HDMAReadLineCount(int d)`. -/
def HDMAReadLineCount (F : Facade) (d : Fin 8) (m0 : Machine) : Bool × Machine :=
  let a := ((m0.DMA d).ABank <<< 16) + (m0.DMA d).Address
  let line := lineCountByte F d m0
  let m := ADD_CYCLES SLOW_ONE_CYCLE (record m0 [Access.S9xGetByte a])
  if line = 0 then
    let m := setDMA m d { m.DMA d with Repeat := false, LineCount := 128 }
    let m :=
      if (m.DMA d).HDMAIndirectAddressing then
        let m :=
          if m.PPU.HDMA &&& (0xfe <<< d.val) ≠ 0 then
            ADD_CYCLES (SLOW_ONE_CYCLE * 2)
              (setDMA m d { m.DMA d with Address := ((m.DMA d).Address + 1) % 0x10000 })
          else ADD_CYCLES SLOW_ONE_CYCLE m
        let w := ((m.DMA d).ABank <<< 16) + (m.DMA d).Address
        let m := setDMA (record m [Access.S9xGetWord w]) d
          { m.DMA d with DMACount_Or_HDMAIndirectAddress := F.S9xGetWord m.log w % 0x10000 }
        setDMA m d { m.DMA d with Address := ((m.DMA d).Address + 1) % 0x10000 }
      else m
    let m := setDMA m d { m.DMA d with Address := ((m.DMA d).Address + 1) % 0x10000 }
    (false, setHDMAMemPointer m d none)
  else
    let m :=
      if line = 0x80 then setDMA m d { m.DMA d with Repeat := true, LineCount := 128 }
      else setDMA m d { m.DMA d with Repeat := (line &&& 0x80 == 0), LineCount := line &&& 0x7f }
    let m := setDMA m d { m.DMA d with Address := ((m.DMA d).Address + 1) % 0x10000 }
    let m := setDMA m d { m.DMA d with DoTransfer := true }
    if (m.DMA d).HDMAIndirectAddressing then
      let m := ADD_CYCLES (SLOW_ONE_CYCLE * 2) m
      let w := ((m.DMA d).ABank <<< 16) + (m.DMA d).Address
      let m := setDMA (record m [Access.S9xGetWord w]) d
        { m.DMA d with DMACount_Or_HDMAIndirectAddress := F.S9xGetWord m.log w % 0x10000 }
      let m := setDMA m d { m.DMA d with Address := ((m.DMA d).Address + 2) % 0x10000 }
      (true, setHDMAMemPointer m d (F.S9xGetMemPointer
        (((m.DMA d).IndirectBank <<< 16) + (m.DMA d).DMACount_Or_HDMAIndirectAddress)))
    else
      (true, setHDMAMemPointer m d (F.S9xGetMemPointer
        (((m.DMA d).ABank <<< 16) + (m.DMA d).Address)))

/-- The state one iteration of the loop of `S9xResetDMA` gives to a channel. -/
def resetChannel : SDMA :=
  { ReverseTransfer := true, HDMAIndirectAddressing := true, AAddressFixed := true,
    AAddressDecrement := true, TransferMode := 7, BAddress := 0xff, AAddress := 0xffff,
    ABank := 0xff, DMACount_Or_HDMAIndirectAddress := 0xffff, IndirectBank := 0xff,
    Address := 0xffff, Repeat := false, LineCount := 0x7f, UnknownByte := 0xff,
    DoTransfer := false, UnusedBit43x0 := true }

/-- The function `void S9xResetDMA()`: `for (int d = 0; d < 8; ++d) { DMA[d].... = ...; }`. -/
def S9xResetDMA (m : Machine) : Machine :=
  (List.finRange 8).foldl (fun m d => setDMA m d resetChannel) m

/-! ## Concrete collaborators and machines -/

/-- An event loop that never finds an event due and reports no HDMA. -/
def quietEvents : Nat → SCPUState → SCPUState :=
  fun _ cpu => { cpu with HDMARanInDMA := 0 }

/-- A facade with 4 KiB memory blocks in which no address resolves to a host
pointer, every memory read returns the low byte of its address, events
never fire and the HDMA byte counts are 1, 2, 2, 4, 4, 4, 2, 4. -/
def quietFacade : Facade :=
  { MEMMAP_BLOCK_SIZE := 0x1000, MEMMAP_MASK := 0xFFF,
    S9xGetByte := fun _ a => a % 0x100,
    S9xGetWord := fun _ a => a % 0x10000,
    S9xGetPPU := fun _ a => a % 0x100,
    ReadPointer := fun _ q => q % 0x100,
    S9xGetBasePointer := fun _ => none,
    S9xGetMemPointer := fun _ => none,
    sdd1_decode_buffer := 0,
    HDMA_ModeByteCounts := fun TransferMode => [1, 2, 2, 4, 4, 4, 2, 4].getD TransferMode 0,
    S9xDoHEventProcessing := quietEvents }

/-- The facade `quietFacade` with an HDMA on channel 0 during the event loop
of step `k` (counted from 0) and no other event. -/
def collidingFacade (k : Nat) : Facade :=
  { quietFacade with
    S9xDoHEventProcessing := fun t cpu =>
      { cpu with HDMARanInDMA := if t = k then 1 else 0 } }

/-- A channel set up for a forward mode-1 transfer of 5 bytes from `$01:0FFE`
to the registers `$2118/$2119`, crossing a block boundary after 2 bytes. -/
def sampleChannel : SDMA :=
  { ReverseTransfer := false, HDMAIndirectAddressing := false, UnusedBit43x0 := false,
    AAddressFixed := false, AAddressDecrement := false, TransferMode := 1,
    BAddress := 0x18, AAddress := 0x0FFE, ABank := 0x01,
    DMACount_Or_HDMAIndirectAddress := 5, IndirectBank := 0, Address := 0,
    Repeat := false, LineCount := 1, UnknownByte := 0, DoTransfer := false }

/-- A machine at rest whose eight channels are all `sampleChannel`. -/
def sampleMachine : Machine :=
  { DMA := fun _ => sampleChannel,
    CPU := { Cycles := 0, NextEvent := 1000, InDMA := false, InHDMA := false,
             InDMAorHDMA := false, InWRAMDMAorHDMA := false, HDMARanInDMA := 0,
             CurrentDMAorHDMAChannel := -1, NMIPending := false },
    Timings := { NMITriggerPos := 0xffff, NMIDMADelay := 24, DMACPUSync := 18 },
    PPU := { HDMA := 0, HDMAEnded := 0, FullGraphicCount := 0, OAMAddr := 0, OAMFlip := 0 },
    FillRAM_4801 := 0, FillRAM_420c := 0, SDD1 := false, Uniracers := false,
    HDMAMemPointers := fun _ => none, OpenBus := 0, log := [], tick := 0,
    exhausted := false, underflow := false }

/-- The machine `sampleMachine` with every channel in the invalid-DMA
configuration (WRAM bank `$7E` to the WRAM data port `$2180`) and a count of 3. -/
def invalidMachine : Machine :=
  { sampleMachine with
    DMA := fun _ => { sampleChannel with ABank := 0x7E, BAddress := 0x80, AAddress := 0,
                                         DMACount_Or_HDMAIndirectAddress := 3 } }

/-- The facade `quietFacade` in which every byte read from memory is `v`. -/
def lineFacade (v : Nat) : Facade :=
  { quietFacade with S9xGetByte := fun _ _ => v }

/-- Reference semantics of a chunk: `n` bytes in a row, the byte with running
index `i` being moved by the statement group `pat i` and followed by
`UPDATE_COUNTERS`; the run stops at the first `UPDATE_COUNTERS` that fails. -/
def transfer (F : Facade) (Channel : Fin 8) (inc : Int) (pat : Nat → Emit) :
    Nat → Nat → Machine → Nat → Outcome Nat
  | 0, _, m, p => Outcome.done m p
  | n + 1, i, m, p =>
    match UPDATE_COUNTERS F Channel inc (pat i m p) p with
    | Outcome.aborted m1 => Outcome.aborted m1
    | Outcome.done m1 p1 => transfer F Channel inc pat n (i + 1) m1 p1

/-- The event loop executed at step `t` leaves bit `c` of `CPU.HDMARanInDMA`
clear: no HDMA ran on channel `c`. -/
def NoCollisionAt (F : Facade) (c : Fin 8) (t : Nat) : Prop :=
  ∀ cpu, (F.S9xDoHEventProcessing t cpu).HDMARanInDMA &&& (1 <<< c.val) = 0

/-- The event loop executed at step `t` leaves bit `c` of `CPU.HDMARanInDMA`
set: an HDMA ran on channel `c`. -/
def CollisionAt (F : Facade) (c : Fin 8) (t : Nat) : Prop :=
  ∀ cpu, (F.S9xDoHEventProcessing t cpu).HDMARanInDMA &&& (1 <<< c.val) ≠ 0

/-- The cycle callback never signals an HDMA collision on channel `c`. -/
def NoCollision (F : Facade) (c : Fin 8) : Prop := ∀ t, NoCollisionAt F c t

/-- Event processing adds no cycles of its own. -/
def NoExtraCycles (F : Facade) : Prop :=
  ∀ t cpu, (F.S9xDoHEventProcessing t cpu).Cycles = cpu.Cycles

/-- The statement groups of modes 1 and 5 as a pattern over the running index. -/
def pairPattern (e0 e1 : Emit) : Nat → Emit := fun j => if j % 2 = 0 then e0 else e1

/-- The Duff loop followed by its closing statement, as one piece. -/
def duffWhole (F : Facade) (c : Fin 8) (inc : Int) (e0 e1 : Emit)
    (fuel : Nat) (atCase1 : Bool) (count : Int) (m : Machine) (p : Nat) :
    Outcome (Nat × Int) :=
  match duffLoop F c inc e0 e1 fuel atCase1 count m p with
  | Outcome.aborted m1 => Outcome.aborted m1
  | Outcome.done m1 (p1, count1) => pairTail F c inc e0 count1 m1 p1

/-! ## What a run of bytes does to the machine -/

/-- Effect of one `UPDATE_COUNTERS` on the channel record: `--count`,
`AAddress += inc`, both on 16 bits. -/
def stepChannel (inc : Int) (d : SDMA) : SDMA :=
  { d with DMACount_Or_HDMAIndirectAddress :=
             (d.DMACount_Or_HDMAIndirectAddress + 0xFFFF) % 0x10000,
           AAddress := (((d.AAddress : Int) + inc) % 0x10000).toNat }

/-- Effect of one `UPDATE_COUNTERS` on the local offset: `p += inc` on 16 bits. -/
def stepOffset (inc : Int) (p : Nat) : Nat := (((p : Int) + inc) % 0x10000).toNat

/-- The machine after the assignments of `UPDATE_COUNTERS` and `addCyclesInDMA`. -/
def afterStep (F : Facade) (c : Fin 8) (inc : Int) (m : Machine) : Machine :=
  { m with
    DMA := Function.update m.DMA c (stepChannel inc (m.DMA c)),
    CPU := { F.S9xDoHEventProcessing m.tick
               { m.CPU with Cycles := m.CPU.Cycles + SLOW_ONE_CYCLE } with HDMARanInDMA := 0 },
    tick := m.tick + 1 }

/-- The part of the machine a statement group that moves a byte leaves alone:
everything but the access log, `OpenBus` and the flags of `CPU`. -/
structure Unchanged (m m1 : Machine) : Prop where
  tick : m1.tick = m.tick
  dma : m1.DMA = m.DMA
  cycles : m1.CPU.Cycles = m.CPU.Cycles
  timings : m1.Timings = m.Timings
  ppu : m1.PPU = m.PPU
  pointers : m1.HDMAMemPointers = m.HDMAMemPointers
  fill4801 : m1.FillRAM_4801 = m.FillRAM_4801
  fill420c : m1.FillRAM_420c = m.FillRAM_420c
  sdd1 : m1.SDD1 = m.SDD1
  uniracers : m1.Uniracers = m.Uniracers
  exhausted : m1.exhausted = m.exhausted
  underflow : m1.underflow = m.underflow

/-- A statement group that leaves the counters alone. -/
def Frame (e : Emit) : Prop := ∀ m p, Unchanged m (e m p)

/-- The relation `Stepped F c inc n m m1`: machine `m1` is machine `m` after exactly `n`
per-byte steps on channel `c`: `n` executions of `addCyclesInDMA`, the count
register and `AAddress` of channel `c` stepped `n` times, `8 * n` cycles
consumed when event processing adds none, everything else outside `CPU`,
the log and `OpenBus` unchanged. -/
structure Stepped (F : Facade) (c : Fin 8) (inc : Int) (n : Nat) (m m1 : Machine) : Prop where
  tick : m1.tick = m.tick + n
  dma : m1.DMA = Function.update m.DMA c ((stepChannel inc)^[n] (m.DMA c))
  cycles : NoExtraCycles F → m1.CPU.Cycles = m.CPU.Cycles + SLOW_ONE_CYCLE * (n : Int)
  timings : m1.Timings = m.Timings
  ppu : m1.PPU = m.PPU
  pointers : m1.HDMAMemPointers = m.HDMAMemPointers
  fill4801 : m1.FillRAM_4801 = m.FillRAM_4801
  fill420c : m1.FillRAM_420c = m.FillRAM_420c
  sdd1 : m1.SDD1 = m.SDD1
  uniracers : m1.Uniracers = m.Uniracers
  exhausted : m1.exhausted = m.exhausted
  underflow : m1.underflow = m.underflow

/-- The predicate `RunsBytes F c inc n m P o`: the piece of code with outcome `o` behaves, from
machine `m`, as a run of `n` bytes moved by statement groups that leave the
counters alone; when it completes, its locals satisfy `P`. -/
def RunsBytes {α : Type} (F : Facade) (c : Fin 8) (inc : Int) (n : Nat) (m : Machine)
    (P : α → Prop) (o : Outcome α) : Prop :=
  ∃ (pat : Nat → Emit) (i p : Nat) (f : Nat → α),
    (∀ j, Frame (pat j)) ∧ (∀ q, P (f q)) ∧ o = Outcome.map f (transfer F c inc pat n i m p)

/-! ## The PPU -> CPU branch -/

/-- The truth value and the machine an outcome stands for. -/
def Outcome.result {α : Type} : Outcome α → Bool × Machine
  | Outcome.aborted m => (false, m)
  | Outcome.done m _ => (true, m)

/-- The statement group of the byte of a reverse transfer as a function of the
local offset, which it does not use. -/
def reverseEmit (F : Facade) (c : Fin 8) (reallySlow : Bool) (Reg : Nat) : Emit :=
  fun m _ => reverseByte F c reallySlow Reg m

/-- The statement groups of a reverse transfer as a cyclic pattern over the
running index. -/
def reversePattern (F : Facade) (c : Fin 8) (reallySlow : Bool) (Regs : List Nat) :
    Nat → Emit :=
  fun j => reverseEmit F c reallySlow (Regs.getD (j % Regs.length) 0)

/-- The machine on which the transfer proper of a valid DMA starts. -/
def startDMA (c : Fin 8) (m : Machine) : Machine :=
  ADD_CYCLES SLOW_ONE_CYCLE (clearSDD1 (enterDMA c m))

/-! ## The destination registers of the slow path -/

/-- The cyclic pattern of register offsets of a transfer mode, as the
specification words it: `[0]` for modes 0, 2, 6, `[0,1]` for modes 1, 5,
`[0,0,1,1]` for modes 3, 7 and `[0,1,2,3]` for mode 4. -/
def pattern (TransferMode : Nat) : List Nat :=
  if TransferMode = 0 ∨ TransferMode = 2 ∨ TransferMode = 6 then [0]
  else if TransferMode = 1 ∨ TransferMode = 5 then [0, 1]
  else if TransferMode = 3 ∨ TransferMode = 7 then [0, 0, 1, 1]
  else if TransferMode = 4 then [0, 1, 2, 3]
  else []

/-- The register offset of the `k`-th byte (counted from 0) according to the
specification: `pat[k mod len(pat)]`. -/
def patternOffset (TransferMode k : Nat) : Nat :=
  (pattern TransferMode).getD (k % (pattern TransferMode).length) 0

/-- The registers written through `S9xSetPPU`, oldest first. -/
def ppuWrites (log : List Access) : List Nat :=
  log.filterMap fun a =>
    match a with
    | Access.S9xSetPPU _ Address => some Address
    | _ => none

/-- The statement groups of the slow path that follow the specified pattern. -/
def slowPattern (F : Facade) (c : Fin 8) (TransferMode : Nat) : Nat → Emit :=
  fun j => slowByte F c (0x2100 + patternOffset TransferMode j)

/-! ## A DMA straight after reset -/

/-- The access writes a byte to CPU-addressable memory. -/
def Access.writesMemory : Access → Bool
  | Access.S9xSetByte _ _ => true
  | _ => false

/-- The access writes a PPU register, through `S9xSetPPU` or through an
inlined register handler. -/
def Access.writesPPU : Access → Bool
  | Access.S9xSetPPU _ _ => true
  | Access.REGISTER_2104 _ => true
  | Access.REGISTER_2118_linear _ => true
  | Access.REGISTER_2118_tile _ => true
  | Access.REGISTER_2119_linear _ => true
  | Access.REGISTER_2119_tile _ => true
  | Access.REGISTER_2180 _ => true
  | _ => false

/-- The predicate `ReverseLog n as`: the accesses `as` are those of `n` bytes moved from the
PPU to memory: `2 * n` accesses, `n` of which write memory through
`S9xSetByte`, the others being reads through `S9xGetPPU`; none writes a PPU
register. -/
structure ReverseLog (n : Nat) (as : List Access) : Prop where
  length : as.length = 2 * n
  writes : (as.filter Access.writesMemory).length = n
  kinds : ∀ a ∈ as, (∃ r, a = Access.S9xGetPPU r) ∨ (∃ w x, a = Access.S9xSetByte w x)
  noPPU : ∀ a ∈ as, a.writesPPU = false

/-- The machine an outcome ends in. -/
def Outcome.machine {α : Type} : Outcome α → Machine
  | Outcome.aborted m => m
  | Outcome.done m _ => m

/-- The machine `sampleMachine` with an NMI pending whose trigger position has
the value `0xffff`. -/
def pendingMachine : Machine :=
  { sampleMachine with CPU := { sampleMachine.CPU with NMIPending := true } }

/-- The machine `sampleMachine` with an NMI pending that is due at position 100. -/
def nmiMachine : Machine :=
  { sampleMachine with
    CPU := { sampleMachine.CPU with NMIPending := true },
    Timings := { sampleMachine.Timings with NMITriggerPos := 100 } }

/-- The machine `sampleMachine` with the value `0xFF` in the `TransferMode` of
every channel. -/
def oddModeMachine : Machine :=
  { sampleMachine with DMA := fun _ => { sampleChannel with TransferMode := 0xFF } }

/-- The machine `sampleMachine` with indirect HDMA addressing and the table
address `0x1000` in every channel; no channel is active in `PPU.HDMA`. -/
def indirectMachine : Machine :=
  { sampleMachine with
    DMA := fun _ => { sampleChannel with HDMAIndirectAddressing := true, Address := 0x1000 } }

/-! ## HDMA -/

/-- The body of the loop of `S9xStartHDMA` for channel `i`. -/
def startHDMAChannel (F : Facade) (i : Fin 8) (m : Machine) : Machine :=
  if m.PPU.HDMA &&& (1 <<< i.val) ≠ 0 then
    let m := { m with CPU := { m.CPU with CurrentDMAorHDMAChannel := (i.val : Int) } }
    let m := setDMA m i { m.DMA i with Address := (m.DMA i).AAddress }
    match HDMAReadLineCount F i m with
    | (false, m1) =>
      { m1 with PPU := { m1.PPU with HDMA := m1.PPU.HDMA &&& (0xFF ^^^ (1 <<< i.val)),
                                     HDMAEnded := m1.PPU.HDMAEnded ||| (1 <<< i.val) } }
    | (true, m1) => m1
  else setDMA m i { m.DMA i with DoTransfer := false }

/-- The function `void S9xStartHDMA()`. -/
def S9xStartHDMA (F : Facade) (m0 : Machine) : Machine :=
  let m := { m0 with PPU := { m0.PPU with HDMA := m0.FillRAM_420c, HDMAEnded := 0 } }
  let m := { m with CPU := { m.CPU with InHDMA := true, InDMAorHDMA := true } }
  let tmpch := m.CPU.CurrentDMAorHDMAChannel
  let m := if m.PPU.HDMA ≠ 0 then ADD_CYCLES m.Timings.DMACPUSync m else m
  let m := (List.finRange 8).foldl (fun m i => startHDMAChannel F i m) m
  { m with CPU := { m.CPU with InHDMA := false, InDMAorHDMA := m.CPU.InDMA,
                               HDMARanInDMA := if m.CPU.InDMA then m.PPU.HDMA else 0,
                               CurrentDMAorHDMAChannel := tmpch } }

/-- The value stored in `CPU.InWRAMDMAorHDMA` by the HDMA paths:
`ShiftedIBank == 0x7e0000 || ShiftedIBank == 0x7f0000 ||
(!(ShiftedIBank & 0x400000) && Addr < 0x2000)`. -/
def hdmaInWRAM (ShiftedIBank Addr : Nat) : Bool :=
  ShiftedIBank == 0x7e0000 || ShiftedIBank == 0x7f0000 ||
    (ShiftedIBank &&& 0x400000 == 0 && decide (Addr < 0x2000))

/-- The lambda `DOBYTE(Addr, RegOff)` of the HDMA REALLY-SLOW PATH, whose
arguments are `uint16_t`, with the `ADD_CYCLES(SLOW_ONE_CYCLE)` that follows
every call. -/
def DOBYTE (F : Facade) (d : Fin 8) (ShiftedIBank Addr RegOff : Nat) (m : Machine) : Machine :=
  let Addr := Addr % 0x10000
  let m := { m with CPU := { m.CPU with InWRAMDMAorHDMA := hdmaInWRAM ShiftedIBank Addr } }
  let Byte := F.S9xGetByte m.log (ShiftedIBank + Addr) % 0x100
  ADD_CYCLES SLOW_ONE_CYCLE
    (record m [Access.S9xGetByte (ShiftedIBank + Addr),
               Access.S9xSetPPU Byte (0x2100 + (m.DMA d).BAddress + RegOff % 0x10000)])

/-- The lambda `DOBYTE(Addr, RegOff)` of the REVERSE HDMA REALLY-SLOW PATH with
the `ADD_CYCLES(SLOW_ONE_CYCLE)` that follows every call. -/
def DOBYTE_reverse (F : Facade) (d : Fin 8) (ShiftedIBank Addr RegOff : Nat) (m : Machine) :
    Machine :=
  let Addr := Addr % 0x10000
  let m := { m with CPU := { m.CPU with InWRAMDMAorHDMA := hdmaInWRAM ShiftedIBank Addr } }
  let Register := 0x2100 + (m.DMA d).BAddress + RegOff % 0x10000
  let Byte := F.S9xGetPPU m.log Register % 0x100
  ADD_CYCLES SLOW_ONE_CYCLE
    (record m [Access.S9xGetPPU Register, Access.S9xSetByte Byte (ShiftedIBank + Addr)])

/-- The calls `DOBYTE(IAddr + k, RegOff)` of one case of the
`switch (p->TransferMode)` of the two REALLY-SLOW paths, as pairs `(k, RegOff)`
in the order of the source; the switch has no `default:`. -/
def reallySlowCase (TransferMode : Nat) : List (Nat × Nat) :=
  if TransferMode = 0 then [(0, 0)]
  else if TransferMode = 5 then [(0, 0), (1, 1), (2, 0), (3, 1)]
  else if TransferMode = 1 then [(0, 0), (1, 1)]
  else if TransferMode = 2 ∨ TransferMode = 6 then [(0, 0), (1, 0)]
  else if TransferMode = 3 ∨ TransferMode = 7 then [(0, 0), (1, 0), (2, 1), (3, 1)]
  else if TransferMode = 4 then [(0, 0), (1, 1), (2, 2), (3, 3)]
  else []

/-- The HDMA REALLY-SLOW PATH after `HDMAMemPointers[d] = nullptr`. -/
def hdmaReallySlow (F : Facade) (d : Fin 8) (ShiftedIBank IAddr : Nat) (m : Machine) :
    Machine :=
  (reallySlowCase (m.DMA d).TransferMode).foldl
    (fun m a => DOBYTE F d ShiftedIBank (IAddr + a.1) a.2 m) m

/-- The REVERSE HDMA REALLY-SLOW PATH after `HDMAMemPointers[d] = nullptr`. -/
def hdmaReverse (F : Facade) (d : Fin 8) (ShiftedIBank IAddr : Nat) (m : Machine) :
    Machine :=
  (reallySlowCase (m.DMA d).TransferMode).foldl
    (fun m a => DOBYTE_reverse F d ShiftedIBank (IAddr + a.1) a.2 m) m

/-- One statement pair of the HDMA SLOW PATH:
`S9xSetPPU(S9xGetByte(Addr + k), Reg + p->BAddress); ADD_CYCLES(SLOW_ONE_CYCLE);`,
where `Addr` is a `uint32_t`. -/
def hdmaSlowByte (F : Facade) (d : Fin 8) (Addr k Reg : Nat) (m : Machine) : Machine :=
  let Byte := F.S9xGetByte m.log (Addr + k) % 0x100
  ADD_CYCLES SLOW_ONE_CYCLE
    (record m [Access.S9xGetByte (Addr + k), Access.S9xSetPPU Byte (Reg + (m.DMA d).BAddress)])

/-- The statement pairs of one case of the `switch (p->TransferMode)` of the
HDMA SLOW PATH, as pairs `(k, Reg)` in the order of the source.  Case 5 moves
two bytes, executes `Addr += 2;` and falls through to case 1. -/
def slowCase (TransferMode : Nat) : List (Nat × Nat) :=
  if TransferMode = 0 then [(0, 0x2100)]
  else if TransferMode = 5 then
    [(0, 0x2100), (1, 0x2101)] ++ [(2 + 0, 0x2100), (2 + 1, 0x2101)]
  else if TransferMode = 1 then [(0, 0x2100), (1, 0x2101)]
  else if TransferMode = 2 ∨ TransferMode = 6 then [(0, 0x2100), (1, 0x2100)]
  else if TransferMode = 3 ∨ TransferMode = 7 then
    [(0, 0x2100), (1, 0x2100), (2, 0x2101), (3, 0x2101)]
  else if TransferMode = 4 then [(0, 0x2100), (1, 0x2101), (2, 0x2102), (3, 0x2103)]
  else []

/-- The HDMA SLOW PATH: `uint32_t Addr = ShiftedIBank + IAddr; switch ...`. -/
def hdmaSlow (F : Facade) (d : Fin 8) (Addr : Nat) (m : Machine) : Machine :=
  (slowCase (m.DMA d).TransferMode).foldl (fun m a => hdmaSlowByte F d Addr a.1 a.2 m) m

/-- One statement pair of the HDMA FAST PATH:
`S9xSetPPU(*(HDMAMemPointers[d] + k), Reg + p->BAddress); ADD_CYCLES(SLOW_ONE_CYCLE);`;
with `openBus` the byte read goes through `OpenBus`. -/
def hdmaFastByte (F : Facade) (d : Fin 8) (q k Reg : Nat) (openBus : Bool) (m : Machine) :
    Machine :=
  let Byte := F.ReadPointer m.log (q + k) % 0x100
  let m := if openBus then { m with OpenBus := Byte } else m
  ADD_CYCLES SLOW_ONE_CYCLE
    (record m [Access.ReadPointer (q + k), Access.S9xSetPPU Byte (Reg + (m.DMA d).BAddress)])

/-- The statement pairs of one case of the `switch (p->TransferMode)` of the
HDMA FAST PATH, as triples `(k, Reg, openBus)` in the order of the source, `k`
being the distance from the pointer the case starts with.  Case 5 moves two
bytes, executes `HDMAMemPointers[d] += 2;` and falls through to case 1, whose
second byte is read into `OpenBus`. -/
def fastCase (TransferMode : Nat) : List (Nat × Nat × Bool) :=
  if TransferMode = 0 then [(0, 0x2100, false)]
  else if TransferMode = 5 then
    [(0, 0x2100, false), (1, 0x2101, false)] ++ [(2 + 0, 0x2100, false), (2 + 1, 0x2101, true)]
  else if TransferMode = 1 then [(0, 0x2100, false), (1, 0x2101, true)]
  else if TransferMode = 2 ∨ TransferMode = 6 then [(0, 0x2100, false), (1, 0x2100, false)]
  else if TransferMode = 3 ∨ TransferMode = 7 then
    [(0, 0x2100, false), (1, 0x2100, false), (2, 0x2101, false), (3, 0x2101, false)]
  else if TransferMode = 4 then
    [(0, 0x2100, false), (1, 0x2101, false), (2, 0x2102, false), (3, 0x2103, false)]
  else []

/-- The HDMA FAST PATH for the pointer `q` held in `HDMAMemPointers[d]`: every
case ends with the pointer advanced past the bytes it has read. -/
def hdmaFast (F : Facade) (d : Fin 8) (q : Nat) (m : Machine) : Machine :=
  let m1 := (fastCase (m.DMA d).TransferMode).foldl
    (fun m a => hdmaFastByte F d q a.1 a.2.1 a.2.2 m) m
  setHDMAMemPointer m1 d (some (q + (fastCase (m.DMA d).TransferMode).length))

/-- The local `ShiftedIBank` of `S9xDoHDMA`. -/
def ShiftedIBank (p : SDMA) : Nat :=
  if p.HDMAIndirectAddressing then p.IndirectBank <<< 16 else p.ABank <<< 16

/-- The local `IAddr` of `S9xDoHDMA`. -/
def IAddr (p : SDMA) : Nat :=
  if p.HDMAIndirectAddressing then p.DMACount_Or_HDMAIndirectAddress else p.Address

/-- The first statements of the body of the first loop of `S9xDoHDMA` for a
channel `d` of the mask: `CPU.InWRAMDMAorHDMA = false;
CPU.CurrentDMAorHDMAChannel = d;` and, after the locals `ShiftedIBank` and
`IAddr`, `if (!HDMAMemPointers[d]) HDMAMemPointers[d] =
S9xGetMemPointer(ShiftedIBank + IAddr);`. -/
def hdmaResolve (F : Facade) (d : Fin 8) (m : Machine) : Machine :=
  let m := { m with CPU := { m.CPU with InWRAMDMAorHDMA := false,
                                        CurrentDMAorHDMAChannel := (d.val : Int) } }
  if m.HDMAMemPointers d = none then
    setHDMAMemPointer m d
      (F.S9xGetMemPointer (ShiftedIBank (m.DMA d) + IAddr (m.DMA d)))
  else m

/-- The statement `if (p->BAddress == 0x04) { if (SNESGameFixes.Uniracers)
{ PPU.OAMAddr = 0x10c; PPU.OAMFlip = 0; } }`. -/
def hdmaUniracers (p : SDMA) (m : Machine) : Machine :=
  if p.BAddress = 0x04 ∧ m.Uniracers = true then
    { m with PPU := { m.PPU with OAMAddr := 0x10c, OAMFlip := 0 } }
  else m

/-- The branch `if (!p->ReverseTransfer) { ... }` of `S9xDoHDMA` for the channel
record `p` of channel `d`. -/
def hdmaForward (F : Facade) (d : Fin 8) (p : SDMA) (m : Machine) : Machine :=
  if ((IAddr p &&& F.MEMMAP_MASK : Nat) : Int) + F.HDMA_ModeByteCounts p.TransferMode
      ≥ (F.MEMMAP_BLOCK_SIZE : Int) then
    hdmaReallySlow F d (ShiftedIBank p) (IAddr p) (setHDMAMemPointer m d none)
  else
    let m := { m with CPU := { m.CPU with
      InWRAMDMAorHDMA := hdmaInWRAM (ShiftedIBank p) (IAddr p) } }
    match m.HDMAMemPointers d with
    | none => hdmaSlow F d (ShiftedIBank p + IAddr p) m
    | some q => hdmaFast F d q m

/-- The body of the first loop of `S9xDoHDMA` for a channel `d` of the mask. -/
def hdmaTransfer (F : Facade) (d : Fin 8) (m : Machine) : Machine :=
  let p := m.DMA d
  let m := hdmaResolve F d m
  if p.DoTransfer then
    let m := hdmaUniracers p m
    if !p.ReverseTransfer then hdmaForward F d p m
    else hdmaReverse F d (ShiftedIBank p) (IAddr p) (setHDMAMemPointer m d none)
  else m

/-- The statements `if (p->DoTransfer) { if (p->HDMAIndirectAddressing)
p->DMACount_Or_HDMAIndirectAddress += HDMA_ModeByteCounts[p->TransferMode];
else p->Address += HDMA_ModeByteCounts[p->TransferMode]; }` of the second loop,
both registers being `uint16_t`. -/
def hdmaAdvance (F : Facade) (p : SDMA) : SDMA :=
  if p.DoTransfer then
    if p.HDMAIndirectAddressing then
      { p with DMACount_Or_HDMAIndirectAddress :=
          (((p.DMACount_Or_HDMAIndirectAddress : Int)
            + F.HDMA_ModeByteCounts p.TransferMode) % 0x10000).toNat }
    else
      { p with Address :=
          (((p.Address : Int) + F.HDMA_ModeByteCounts p.TransferMode) % 0x10000).toNat }
  else p

/-- The body of the second loop of `S9xDoHDMA` for a channel `d` of the mask;
`LineCount` is a `uint8_t`.  It returns the new value of `byte`. -/
def hdmaLine (F : Facade) (d : Fin 8) (byte : Nat) (m : Machine) : Nat × Machine :=
  let m := setDMA m d (hdmaAdvance F (m.DMA d))
  let m := setDMA m d { m.DMA d with DoTransfer := !(m.DMA d).Repeat }
  let m := setDMA m d { m.DMA d with LineCount := ((m.DMA d).LineCount + 0xFF) % 0x100 }
  if (m.DMA d).LineCount = 0 then
    match HDMAReadLineCount F d m with
    | (false, m1) =>
      let m2 := { m1 with PPU := { m1.PPU with
        HDMAEnded := m1.PPU.HDMAEnded ||| (1 <<< d.val) } }
      (byte &&& (0xFF ^^^ (1 <<< d.val)), setDMA m2 d { m2.DMA d with DoTransfer := false })
    | (true, m1) => (byte, m1)
  else (byte, ADD_CYCLES SLOW_ONE_CYCLE m)

/-- The statements of `S9xDoHDMA` before the first loop: `CPU.InHDMA =
CPU.InDMAorHDMA = true; CPU.HDMARanInDMA = CPU.InDMA ? byte : 0;`, the saving
of `temp` and `tmpch`, and `ADD_CYCLES(Timings.DMACPUSync);`. -/
def hdmaEnter (byte : Nat) (m0 : Machine) : Machine :=
  let HDMARanInDMA := if m0.CPU.InDMA then byte else 0
  ADD_CYCLES m0.Timings.DMACPUSync
    { m0 with CPU := { m0.CPU with InHDMA := true, InDMAorHDMA := true,
                                   HDMARanInDMA := HDMARanInDMA } }

/-- The first loop of `S9xDoHDMA`: `for (mask = 1, p = &DMA[0], d = 0; mask;
mask <<= 1, ++p, ++d) { if (byte & mask) { ... } }`, `mask` being a `uint8_t`. -/
def hdmaTransfers (F : Facade) (byte : Nat) (m : Machine) : Machine :=
  (List.finRange 8).foldl
    (fun m d => if byte &&& (1 <<< d.val) ≠ 0 then hdmaTransfer F d m else m) m

/-- The second loop of `S9xDoHDMA`, which tests and updates `byte`. -/
def hdmaLines (F : Facade) (byte : Nat) (m : Machine) : Nat × Machine :=
  (List.finRange 8).foldl
    (fun (r : Nat × Machine) d =>
      if r.1 &&& (1 <<< d.val) ≠ 0 then hdmaLine F d r.1 r.2 else r) (byte, m)

/-- The statements of `S9xDoHDMA` after the second loop: `CPU.InHDMA = false;
CPU.InDMAorHDMA = CPU.InDMA; CPU.InWRAMDMAorHDMA = temp;
CPU.CurrentDMAorHDMAChannel = tmpch;`, the saved values being those of the
machine `m0` at entry. -/
def hdmaLeave (m0 m : Machine) : Machine :=
  { m with CPU := { m.CPU with InHDMA := false, InDMAorHDMA := m.CPU.InDMA,
                               InWRAMDMAorHDMA := m0.CPU.InWRAMDMAorHDMA,
                               CurrentDMAorHDMAChannel := m0.CPU.CurrentDMAorHDMAChannel } }

/-- The function `uint8_t S9xDoHDMA(uint8_t byte)`: it returns the mask and the
machine after the call. -/
def S9xDoHDMA (F : Facade) (byte : Nat) (m0 : Machine) : Nat × Machine :=
  let r := hdmaLines F byte (hdmaTransfers F byte (hdmaEnter byte m0))
  (r.1, hdmaLeave m0 r.2)

/-- The access with the byte it carries erased: what is accessed, whatever the
value moved. -/
def Access.shape : Access → Access
  | Access.S9xGetByte a => Access.S9xGetByte a
  | Access.S9xGetWord a => Access.S9xGetWord a
  | Access.S9xSetByte _ a => Access.S9xSetByte 0 a
  | Access.S9xGetPPU a => Access.S9xGetPPU a
  | Access.S9xSetPPU _ a => Access.S9xSetPPU 0 a
  | Access.ReadPointer q => Access.ReadPointer q
  | Access.REGISTER_2104 _ => Access.REGISTER_2104 0
  | Access.REGISTER_2118_linear _ => Access.REGISTER_2118_linear 0
  | Access.REGISTER_2118_tile _ => Access.REGISTER_2118_tile 0
  | Access.REGISTER_2119_linear _ => Access.REGISTER_2119_linear 0
  | Access.REGISTER_2119_tile _ => Access.REGISTER_2119_tile 0
  | Access.REGISTER_2180 _ => Access.REGISTER_2180 0

/-- The number of bytes of one HDMA group per transfer mode as the
specification gives it: `n = [1, 2, 2, 4, 4, 4, 2, 4]`. -/
def specGroupSize (TransferMode : Nat) : Nat :=
  [1, 2, 2, 4, 4, 4, 2, 4].getD TransferMode 0

/-- One HDMA group as the specification describes it, values erased:
`specGroupSize TransferMode` bytes, byte `k` going from `source k` to the
register `0x2100 + BAddress` plus the `k`-th entry of the cyclic pattern of the
DMA engine for the mode. -/
def specGroup (TransferMode BAddress : Nat) (source : Nat → Access) : List Access :=
  (List.range (specGroupSize TransferMode)).flatMap fun k =>
    [source k, Access.S9xSetPPU 0 (0x2100 + BAddress + patternOffset TransferMode k)]

/-- The pointer the first loop of `S9xDoHDMA` holds for channel `d` after
`if (!HDMAMemPointers[d]) HDMAMemPointers[d] = S9xGetMemPointer(ShiftedIBank + IAddr);`. -/
def hdmaPointer (F : Facade) (d : Fin 8) (m : Machine) : Option Nat :=
  if m.HDMAMemPointers d = none then
    F.S9xGetMemPointer (ShiftedIBank (m.DMA d) + IAddr (m.DMA d))
  else m.HDMAMemPointers d

/-- The machine in the second loop of `S9xDoHDMA` when the line counter of
channel `d` has been decremented: the source address advanced,
`p->DoTransfer = !p->Repeat;` and `--p->LineCount` done. -/
def hdmaCounted (F : Facade) (d : Fin 8) (m : Machine) : Machine :=
  setDMA m d { hdmaAdvance F (m.DMA d) with
    DoTransfer := !(m.DMA d).Repeat,
    LineCount := ((m.DMA d).LineCount + 0xFF) % 0x100 }

/-- The value `HDMAReadLineCount` gives to `LineCount` for the line-count byte `v`. -/
def reloadedLineCount (v : Nat) : Nat :=
  if v = 0 ∨ v = 0x80 then 128 else v &&& 0x7F

/-- The first byte of the HDMA table of channel `i`, at `(ABank << 16) + AAddress`,
in a memory whose byte at address `a` is `mem a`. -/
def tableHead (mem : Nat → Nat) (m : Machine) (i : Fin 8) : Nat :=
  mem (((m.DMA i).ABank <<< 16) + (m.DMA i).AAddress) % 0x100

/-- A machine set up for HDMA: channels 0 and 2 are enabled in `FillRAM[0x420c]`;
every channel is `sampleChannel` with `DoTransfer` set, the table address
`0x0100` and a line counter of 2, and the table of channel 0 is at `$01:0F00`. -/
def hdmaMachine : Machine :=
  { sampleMachine with
    FillRAM_420c := 5,
    DMA := fun i =>
      { sampleChannel with
        DoTransfer := true, Address := 0x0100, LineCount := 2,
        AAddress := if i = 0 then 0x0F00 else 0x0FFE } }

/-! ## The flags on return -/

/-- The state of the flags every `return` of `S9xDoDMA` is preceded by:
`CPU.InDMA` and `CPU.InDMAorHDMA` false, `CPU.CurrentDMAorHDMAChannel` -1. -/
def DMAFlagsClear (m : Machine) : Prop :=
  m.CPU.InDMA = false ∧ m.CPU.InDMAorHDMA = false ∧ m.CPU.CurrentDMAorHDMAChannel = -1

/-- The property of a piece of `S9xDoDMA` that its `return false` statements
are reached with the flags cleared. -/
def Outcome.clearsFlags {α : Type} (o : Outcome α) : Prop :=
  ∀ m, o = Outcome.aborted m → DMAFlagsClear m

/-- The two fields of `CPU` that belong to an enclosing DMA and that the HDMA
functions do not touch between their first and their last statements. -/
def hdmaKept (m : Machine) : Bool × Nat := (m.CPU.InDMA, m.CPU.HDMARanInDMA)

/-- The statements of `S9xStartHDMA` before its loop. -/
def startHDMAEnter (m0 : Machine) : Machine :=
  let m := { m0 with PPU := { m0.PPU with HDMA := m0.FillRAM_420c, HDMAEnded := 0 } }
  let m := { m with CPU := { m.CPU with InHDMA := true, InDMAorHDMA := true } }
  if m.PPU.HDMA ≠ 0 then ADD_CYCLES m.Timings.DMACPUSync m else m

/-- The statements of `S9xStartHDMA` after its loop, `tmpch` being the value
of `CPU.CurrentDMAorHDMAChannel` in the machine `m0` at entry. -/
def startHDMALeave (m0 m : Machine) : Machine :=
  { m with CPU := { m.CPU with InHDMA := false, InDMAorHDMA := m.CPU.InDMA,
                               HDMARanInDMA := if m.CPU.InDMA then m.PPU.HDMA else 0,
                               CurrentDMAorHDMAChannel := m0.CPU.CurrentDMAorHDMAChannel } }

/-- The range of a line counter: `1 <= LineCount <= 128`. -/
def LineCountInRange (p : SDMA) : Prop := 1 ≤ p.LineCount ∧ p.LineCount ≤ 128

/-- A facade like `quietFacade` in which every address resolves to a host
pointer: the host address of the byte at SNES address `a` is `0x1000000 + a`,
so the base pointer of a bank is `0x1000000 + (bank << 16)`. -/
def pointerFacade : Facade :=
  { quietFacade with
    S9xGetBasePointer := fun a => some (0x1000000 + (a / 0x10000) * 0x10000),
    S9xGetMemPointer := fun a => some (0x1000000 + a) }

/-- The predicate `Segments R i n pre as`: the accesses `as`, issued after the
accesses `pre`, split into `n` consecutive groups numbered `i`, `i + 1`, ...,
`i + n - 1`; group `k` satisfies `R k before group`, where `before` are all
the accesses issued before the group. -/
def Segments (R : Nat → List Access → List Access → Prop) :
    Nat → Nat → List Access → List Access → Prop
  | _, 0, _, as => as = []
  | i, n + 1, pre, as =>
    ∃ s rest, as = s ++ rest ∧ R i pre s ∧ Segments R (i + 1) n (pre ++ s) rest

/-- The access that reads the byte at offset `p` of bank `bank`: through
`S9xGetByte` when the base pointer is null, through the base pointer
otherwise. -/
def sourceRead (base : Option Nat) (bank p : Nat) : Access :=
  match base with
  | none => Access.S9xGetByte ((bank <<< 16) + p)
  | some q => Access.ReadPointer (q + p)

/-- The accesses of one byte of a CPU -> PPU transfer whose source is offset
`p` of bank `bank`: none at all, or the read of the source followed by writes
of PPU registers only. -/
def ByteGroup (base : Option Nat) (bank p : Nat) (s : List Access) : Prop :=
  s = [] ∨ ∃ ws, s = sourceRead base bank p :: ws ∧ ∀ w ∈ ws, w.writesPPU = true

/-- The predicate `RunsGroups F c inc n m p Q o`: the piece of code with outcome `o` behaves, from
machine `m` and offset `p`, as a run of `n` bytes, each moved by a statement
group that leaves the counters alone and whose accesses satisfy `Q` of the
channel record, the offset and the log before the group; when it completes it
returns the offset after the run. -/
def RunsGroups (F : Facade) (c : Fin 8) (inc : Int) (n : Nat) (m : Machine) (p : Nat)
    (Q : SDMA → Nat → List Access → List Access → Prop) (o : Outcome (Nat × Int)) : Prop :=
  ∃ (pat : Nat → Emit) (i : Nat) (b : Nat → Int),
    (∀ j, Frame (pat j))
    ∧ (∀ j m1 p1, ∃ s, (pat j m1 p1).log = m1.log ++ s ∧ Q (m1.DMA c) p1 m1.log s)
    ∧ o = Outcome.map (fun q => (q, b q)) (transfer F c inc pat n i m p)

/-- The predicate `Emits c Q e`: the statement group `e` appends to the log accesses that satisfy
`Q` of the channel record, the offset and the log before the group. -/
def Emits (c : Fin 8) (Q : SDMA → Nat → List Access → List Access → Prop) (e : Emit) : Prop :=
  ∀ m p, ∃ s, (e m p).log = m.log ++ s ∧ Q (m.DMA c) p m.log s

/-- The accesses of byte `k` of a PPU -> CPU transfer as the specification
gives them: the read of register `0x2100 + BAddress + pat[k mod len(pat)]`
followed by the write of the byte read to `(ABank << 16) + address`; `pre`
are the accesses issued before. -/
def reverseGroup (F : Facade) (d : SDMA) (k address : Nat) (pre s : List Access) : Prop :=
  s = [Access.S9xGetPPU (0x2100 + d.BAddress + patternOffset d.TransferMode k),
       Access.S9xSetByte
         (F.S9xGetPPU pre (0x2100 + d.BAddress + patternOffset d.TransferMode k) % 0x100)
         ((d.ABank <<< 16) + address)]

/-- The machine `sampleMachine` with every channel set up for a PPU -> CPU
transfer: 5 bytes in mode 1 from `$2118/$2119` to `$01:0FFE`. -/
def reverseMachine : Machine :=
  { sampleMachine with DMA := fun _ => { sampleChannel with ReverseTransfer := true } }

/-- The increment of the source address as the specification words it: 0 when
`AAddressFixed` is set, whatever `AAddressDecrement`, -1 when only
`AAddressDecrement` is set, +1 otherwise. -/
def specIncrement (d : SDMA) : Int :=
  if d.AAddressFixed then 0 else if d.AAddressDecrement then -1 else 1

/-- The source address of byte `k` according to the specification:
`(AAddress + k * inc) mod 0x10000` for the value of `AAddress` on entry. -/
def specAddress (d : SDMA) (k : Nat) : Nat :=
  (((d.AAddress : Int) + (k : Int) * specIncrement d) % 0x10000).toNat

/-- Two addresses lie in the same memory block. -/
def sameBlock (F : Facade) (a b : Nat) : Prop :=
  a / F.MEMMAP_BLOCK_SIZE = b / F.MEMMAP_BLOCK_SIZE

/-- The invariant of the `while (1)` loop of the CPU -> PPU branch for a
non-fixed address: at the head of an iteration with local offset `p` and
chunk size `count` (before `if (count > rem) count = rem;`), the chunk has
between 1 and `MEMMAP_BLOCK_SIZE` bytes and runs, in the direction of `inc`,
from `p` to the end of the memory block of `p`. -/
def chunkInvariant (F : Facade) (inc : Int) (p : Nat) (count : Int) : Prop :=
  p < 0x10000 ∧ 1 ≤ count ∧ count ≤ (F.MEMMAP_BLOCK_SIZE : Int)
  ∧ (inc = 1 → ((p % F.MEMMAP_BLOCK_SIZE : Nat) : Int) + count = (F.MEMMAP_BLOCK_SIZE : Int))
  ∧ (inc = -1 → count = ((p % F.MEMMAP_BLOCK_SIZE : Nat) : Int) + 1)

/-- The accesses of byte `k` of a CPU -> PPU transfer of channel record `d`
with respect to the chunks of the transfer: byte `k` is byte `j` of a chunk of
`cnt` bytes with `1 <= cnt <= MEMMAP_BLOCK_SIZE`; the base pointer of the
chunk was resolved at the address of its first byte, byte `k - j`, which lies
in the memory block of the address of byte `k`; and the accesses are those of
a byte read at offset `specAddress d k`. -/
def inChunk (F : Facade) (d : SDMA) (k : Nat) (s : List Access) : Prop :=
  ∃ (j : Nat) (cnt : Int), j ≤ k ∧ (j : Int) < cnt ∧ 1 ≤ cnt
    ∧ cnt ≤ (F.MEMMAP_BLOCK_SIZE : Int)
    ∧ sameBlock F ((d.ABank <<< 16) + specAddress d (k - j))
        ((d.ABank <<< 16) + specAddress d k)
    ∧ ByteGroup (F.S9xGetBasePointer ((d.ABank <<< 16) + specAddress d (k - j))) d.ABank
        (specAddress d k) s

/-! ## The register writes of the fast path -/

/-- The value and the register an access writes to the PPU side, through
`S9xSetPPU` or through an inlined register handler. -/
def Access.write : Access → Option (Nat × Nat)
  | Access.S9xSetPPU Byte Address => some (Byte, Address)
  | Access.REGISTER_2104 Byte => some (Byte, 0x2104)
  | Access.REGISTER_2118_linear Byte => some (Byte, 0x2118)
  | Access.REGISTER_2118_tile Byte => some (Byte, 0x2118)
  | Access.REGISTER_2119_linear Byte => some (Byte, 0x2119)
  | Access.REGISTER_2119_tile Byte => some (Byte, 0x2119)
  | Access.REGISTER_2180 Byte => some (Byte, 0x2180)
  | _ => none

/-- The write the specification gives for a byte `v` moved by the fast path of
modes 0, 2 and 6 to `0x2100 + B`: the handler of OAM data for `0x04`, of VRAM
data low or high, in its linear or tile variant, for `0x18` and `0x19`, of the
WRAM data port for `0x80`, and the generic register write otherwise. -/
def specFastWrite (B FullGraphicCount v : Nat) : Access :=
  if B = 0x04 then Access.REGISTER_2104 v
  else if B = 0x18 then
    if FullGraphicCount = 0 then Access.REGISTER_2118_linear v else Access.REGISTER_2118_tile v
  else if B = 0x19 then
    if FullGraphicCount = 0 then Access.REGISTER_2119_linear v else Access.REGISTER_2119_tile v
  else if B = 0x80 then Access.REGISTER_2180 v
  else Access.S9xSetPPU v (0x2100 + B)

/-- The accesses of one byte at offset `p` in the fast path of modes 0, 2 and
6, for destination `0x2100 + B`: only the read for CGDATA (`0x22`), nothing for
WMDATA (`0x80`) while `CPU.InWRAMDMAorHDMA` is set, and otherwise the read of
`base + p` followed by the write of the byte read. -/
def fastGroup (F : Facade) (base B FullGraphicCount : Nat) (inWRAM : Bool) (p : Nat)
    (pre s : List Access) : Prop :=
  if B = 0x22 then s = [Access.ReadPointer (base + p)]
  else if B = 0x80 ∧ inWRAM = true then s = []
  else s = [Access.ReadPointer (base + p),
            specFastWrite B FullGraphicCount (F.ReadPointer pre (base + p) % 0x100)]

/-- The accesses of one byte at offset `p` of bank `bank` in the slow path of
modes 0, 2 and 6: the read through `S9xGetByte` and the write of the byte read
to `0x2100 + B` through `S9xSetPPU`. -/
def slowGroup (F : Facade) (bank B p : Nat) (pre s : List Access) : Prop :=
  s = [Access.S9xGetByte ((bank <<< 16) + p),
       Access.S9xSetPPU (F.S9xGetByte pre ((bank <<< 16) + p) % 0x100) (0x2100 + B)]

/-- The machine `sampleMachine` with every channel set up for a mode 0 transfer
of 3 bytes from `$01:0100` to CGDATA (`$2122`). -/
def cgramMachine : Machine :=
  { sampleMachine with
    DMA := fun _ => { sampleChannel with TransferMode := 0, BAddress := 0x22,
                                         AAddress := 0x0100,
                                         DMACount_Or_HDMAIndirectAddress := 3 } }

/-- The machine `sampleMachine` with every channel set up for a mode 0 transfer
of 3 bytes from the WRAM mirror at `$01:0100` to WMDATA (`$2180`). -/
def wramMachine : Machine :=
  { sampleMachine with
    DMA := fun _ => { sampleChannel with TransferMode := 0, BAddress := 0x80,
                                         AAddress := 0x0100,
                                         DMACount_Or_HDMAIndirectAddress := 3 } }

/-- One HDMA group as the specification describes it, with the bytes moved:
byte `k` of the `specGroupSize TransferMode` bytes is read by the access
`source k`, which returns `value h k` when `h` are the accesses issued before
it, and is written to the register `0x2100 + BAddress` plus the `k`-th entry
of the cyclic pattern of the mode; `pre` are the accesses issued before the
group. -/
def specGroupOf (TransferMode BAddress : Nat) (source : Nat → Access)
    (value : List Access → Nat → Nat) (pre : List Access) : List Access :=
  (List.range (specGroupSize TransferMode)).foldl
    (fun acc k => acc ++ [source k,
      Access.S9xSetPPU (value (pre ++ acc) k % 0x100)
        (0x2100 + BAddress + patternOffset TransferMode k)]) []

/-- One HDMA group in the PPU -> CPU direction as the specification describes
it, with the bytes moved: byte `k` is read from the register `0x2100 +
BAddress` plus the `k`-th entry of the cyclic pattern of the mode and written
to the address `target k`. -/
def specGroupReverseOf (F : Facade) (TransferMode BAddress : Nat) (target : Nat → Nat)
    (pre : List Access) : List Access :=
  (List.range (specGroupSize TransferMode)).foldl
    (fun acc k => acc ++ [Access.S9xGetPPU (0x2100 + BAddress + patternOffset TransferMode k),
      Access.S9xSetByte
        (F.S9xGetPPU (pre ++ acc) (0x2100 + BAddress + patternOffset TransferMode k) % 0x100)
        (target k)]) []
/-- The pointer cached for channel `d` is in step with the source address of
the channel: it is null or it is the host pointer of `ShiftedIBank + IAddr`. -/
def PointerCoherent (F : Facade) (d : Fin 8) (m : Machine) : Prop :=
  m.HDMAMemPointers d = none
    ∨ m.HDMAMemPointers d = F.S9xGetMemPointer (ShiftedIBank (m.DMA d) + IAddr (m.DMA d))

/-! ## The source of every byte of a CPU -> PPU transfer -/

/-- The value of `inWRAM_DMA` without S-DD1 for a source at offset `a` of bank
`bank`: `bank == 0x7e || bank == 0x7f || (!(bank & 0x40) && a < 0x2000)`. -/
def wramSource (bank a : Nat) : Bool :=
  bank == 0x7e || bank == 0x7f || (bank &&& 0x40 == 0 && decide (a < 0x2000))

/-- The case in which the fast path steps over a byte without any access: a
chunk read through a base pointer in mode 0, 2 or 6 whose destination is the
WRAM data port `$2180` while `CPU.InWRAMDMAorHDMA` is set. -/
def skipsAccess (base : Option Nat) (TransferMode BAddress : Nat) (inWRAM : Bool) : Prop :=
  base ≠ none ∧ (TransferMode = 0 ∨ TransferMode = 2 ∨ TransferMode = 6)
    ∧ BAddress = 0x80 ∧ inWRAM = true

/-- The accesses of one byte of a CPU -> PPU transfer whose source is offset
`p` of bank `bank`, in a chunk with base pointer `base`: no access at all
exactly in the case `skipsAccess`, and otherwise the read of the source,
through `S9xGetByte` when `base` is null and at `base + p` when it is not,
followed by writes of PPU registers only. -/
def sourceGroup (base : Option Nat) (TransferMode BAddress : Nat) (inWRAM : Bool)
    (bank p : Nat) (s : List Access) : Prop :=
  ByteGroup base bank p s ∧ (s = [] ↔ skipsAccess base TransferMode BAddress inWRAM)

/-- The accesses of byte `k` (counted from 0) of a transfer whose channel
record on entry is `d`, `pre` being the accesses issued before.  In the
PPU -> CPU direction: the read of the register and the write of the byte read
to `(ABank << 16) + specAddress d k`.  In the CPU -> PPU direction: byte `k`
is byte `j` of a chunk whose base pointer was resolved at the address of its
first byte, byte `k - j`, and the accesses are those of `sourceGroup` for the
offset `specAddress d k`. -/
def byteMoved (F : Facade) (d : SDMA) (k : Nat) (pre s : List Access) : Prop :=
  if d.ReverseTransfer then reverseGroup F d k (specAddress d k) pre s
  else ∃ j, j ≤ k
    ∧ sourceGroup (F.S9xGetBasePointer ((d.ABank <<< 16) + specAddress d (k - j)))
        d.TransferMode d.BAddress (wramSource d.ABank (specAddress d (k - j))) d.ABank
        (specAddress d k) s

/-! ## `S9xDoDMA` with event processing that runs HDMA -/

/-- The event loop `while (CPU.Cycles >= CPU.NextEvent) S9xDoHEventProcessing();`
of `addCyclesInDMA` as a function of the whole machine: `E n m` is the machine
the loop leaves when it is executed for the `n`-th time (`Machine.tick`) on the
machine `m`.  `S9xDoHEventProcessing` is not defined in `dma.cpp`; by the
comment in `addCyclesInDMA` it is where HDMA is done, that is where
`S9xStartHDMA` and `S9xDoHDMA` run, which write the channel records, the
cached pointers, `PPU` and `CPU` and issue accesses of their own. -/
abbrev Events := Nat → Machine → Machine

namespace Reentrant

/-- The function `addCyclesInDMA(dma_channel)` with the event loop `E`: 8 cycles
are added, the event loop runs on the whole machine, and the result is false
when an HDMA ran on the channel of the DMA.  In both cases `CPU.HDMARanInDMA`
is cleared.  The counter `tick` and the flags `exhausted` and `underflow`
belong to the model and are kept whatever the event loop does. -/
def addCyclesInDMA (E : Events) (dma_channel : Fin 8) (m : Machine) : Bool × Machine :=
  let m1 := ADD_CYCLES SLOW_ONE_CYCLE m
  let m2 := { E m1.tick m1 with tick := m1.tick + 1, exhausted := m1.exhausted,
                                underflow := m1.underflow }
  if m2.CPU.HDMARanInDMA &&& (1 <<< dma_channel.val) ≠ 0 then
    (false, { m2 with CPU := { m2.CPU with HDMARanInDMA := 0 } })
  else
    (true, { m2 with CPU := { m2.CPU with HDMARanInDMA := 0 } })

/-- The loop `while (c) { --count; ++AAddress; --c; if (!addCyclesInDMA) ... }`
of the invalid-DMA branch; `c` runs from the byte count down to zero.
The event loop of `addCyclesInDMA` is `E`. -/
def invalidLoop (E : Events) (Channel : Fin 8) : Nat → Machine → Bool × Machine
  | 0, m => (true, m)
  | c + 1, m =>
    let d := m.DMA Channel
    let m1 := setDMA m Channel
      { d with DMACount_Or_HDMAIndirectAddress :=
                 (d.DMACount_Or_HDMAIndirectAddress + 0xFFFF) % 0x10000,
               AAddress := (d.AAddress + 1) % 0x10000 }
    match addCyclesInDMA E Channel m1 with
    | (false, m2) => (false, leaveInvalidDMA m2)
    | (true, m2) => invalidLoop E Channel c m2

/-- The lambda `UPDATE_COUNTERS` of the CPU -> PPU branch.  `aborted` stands
for `return false`, after which every caller returns false at once.
The event loop of `addCyclesInDMA` is `E`. -/
def UPDATE_COUNTERS (E : Events) (Channel : Fin 8) (inc : Int) (m : Machine) (p : Nat) :
    Outcome Nat :=
  let d := m.DMA Channel
  let m1 := setDMA m Channel
    { d with DMACount_Or_HDMAIndirectAddress :=
               (d.DMACount_Or_HDMAIndirectAddress + 0xFFFF) % 0x10000,
             AAddress := (((d.AAddress : Int) + inc) % 0x10000).toNat }
  let p1 := (((p : Int) + inc) % 0x10000).toNat
  match addCyclesInDMA E Channel m1 with
  | (false, m2) => Outcome.aborted (leaveDMA m2)
  | (true, m2) => Outcome.done m2 p1

/-- The loop `do { byte; if (!UPDATE_COUNTERS()) return false; } while (--count > 0);`
of modes 0, 2 and 6.  The first argument bounds the number of iterations.
The event loop of `addCyclesInDMA` is `E`. -/
def loopSingle (E : Events) (Channel : Fin 8) (inc : Int) (e : Emit) :
    Nat → Int → Machine → Nat → Outcome Nat
  | 0, _, m, p => Outcome.done (outOfFuel m) p
  | fuel + 1, count, m, p =>
    match UPDATE_COUNTERS E Channel inc (e m p) p with
    | Outcome.aborted m1 => Outcome.aborted m1
    | Outcome.done m1 p1 =>
      if count - 1 > 0 then
        loopSingle E Channel inc e fuel (count - 1) (checkCounter (count - 1) m1) p1
      else Outcome.done (checkCounter (count - 1) m1) p1

/-- The variation on Duff's device of modes 1 and 5:
`switch (b) { default: while (count > 1) { byte0; --count; case 1: byte1; --count; } }`.
The flag is true when control stands at `case 1:` and false when it stands at
the loop test.  Returns `p` and `count`.
The event loop of `addCyclesInDMA` is `E`. -/
def duffLoop (E : Events) (Channel : Fin 8) (inc : Int) (e0 e1 : Emit) :
    Nat → Bool → Int → Machine → Nat → Outcome (Nat × Int)
  | 0, _, count, m, p => Outcome.done (outOfFuel m) (p, count)
  | fuel + 1, true, count, m, p =>
    match UPDATE_COUNTERS E Channel inc (e1 m p) p with
    | Outcome.aborted m1 => Outcome.aborted m1
    | Outcome.done m1 p1 =>
      duffLoop E Channel inc e0 e1 fuel false (count - 1) (checkCounter (count - 1) m1) p1
  | fuel + 1, false, count, m, p =>
    if count > 1 then
      match UPDATE_COUNTERS E Channel inc (e0 m p) p with
      | Outcome.aborted m1 => Outcome.aborted m1
      | Outcome.done m1 p1 =>
        duffLoop E Channel inc e0 e1 fuel true (count - 1) (checkCounter (count - 1) m1) p1
    else Outcome.done m (p, count)

/-- The statement after the Duff loop: `if (count == 1) { byte0;
if (!UPDATE_COUNTERS()) return false; b = 1; } else b = 0;`.  Returns `p` and `b`.
The event loop of `addCyclesInDMA` is `E`. -/
def pairTail (E : Events) (Channel : Fin 8) (inc : Int) (e0 : Emit)
    (count : Int) (m : Machine) (p : Nat) : Outcome (Nat × Int) :=
  if count = 1 then
    match UPDATE_COUNTERS E Channel inc (e0 m p) p with
    | Outcome.aborted m1 => Outcome.aborted m1
    | Outcome.done m1 p1 => Outcome.done m1 (p1, 1)
  else Outcome.done m (p, 0)

/-- Modes 1 and 5: the Duff loop entered at `case 1:` when `b == 1`, followed by
`if (count == 1) { byte0; if (!UPDATE_COUNTERS()) return false; b = 1; } else b = 0;`.
Returns `p` and `b`.
The event loop of `addCyclesInDMA` is `E`. -/
def loopPair (E : Events) (Channel : Fin 8) (inc : Int) (e0 e1 : Emit)
    (b count : Int) (m : Machine) (p : Nat) : Outcome (Nat × Int) :=
  match duffLoop E Channel inc e0 e1 (count.toNat + 2) (b == 1) count m p with
  | Outcome.aborted m1 => Outcome.aborted m1
  | Outcome.done m1 (p1, count1) => pairTail E Channel inc e0 count1 m1 p1

/-- The body of `switch (b) { default: do { byte0; if (--count <= 0) { b = 1; break; }
case 1: byte1; ... case 3: byte3; if (--count <= 0) { b = 0; break; } } while (1); }`
of modes 3, 7 and 4.  `k` is the label control stands at (0 for `default:`);
after the byte of label `k` control falls through to label `k + 1`, and from
label 3 the `while (1)` leads back to `default:`.  Returns `p` and `b`.
The event loop of `addCyclesInDMA` is `E`. -/
def loopQuad (E : Events) (Channel : Fin 8) (inc : Int) (e : Nat → Emit) :
    Nat → Nat → Int → Machine → Nat → Outcome (Nat × Int)
  | 0, k, _, m, p => Outcome.done (outOfFuel m) (p, k)
  | fuel + 1, k, count, m, p =>
    match UPDATE_COUNTERS E Channel inc (e k m p) p with
    | Outcome.aborted m1 => Outcome.aborted m1
    | Outcome.done m1 p1 =>
      if count - 1 ≤ 0 then
        Outcome.done (checkCounter (count - 1) m1) (p1, ((k + 1) % 4 : Nat))
      else
        loopQuad E Channel inc e fuel ((k + 1) % 4) (count - 1)
          (checkCounter (count - 1) m1) p1

/-- DMA SLOW PATH (`if (!base)`): the dispatch on `d->TransferMode` for one
chunk of `count` bytes.  Returns `p` and `b`.
The event loop of `addCyclesInDMA` is `E`. -/
def slowChunk (F : Facade) (E : Events) (Channel : Fin 8) (inc : Int) (b count : Int)
    (m : Machine) (p : Nat) : Outcome (Nat × Int) :=
  let d := m.DMA Channel
  if d.TransferMode = 0 ∨ d.TransferMode = 2 ∨ d.TransferMode = 6 then
    Outcome.map (fun p1 => (p1, b))
      (loopSingle E Channel inc (slowByte F Channel 0x2100) (chunkFuel count) count m p)
  else if d.TransferMode = 1 ∨ d.TransferMode = 5 then
    loopPair E Channel inc (slowByte F Channel 0x2100) (slowByte F Channel 0x2101) b count m p
  else if d.TransferMode = 3 ∨ d.TransferMode = 7 then
    loopQuad E Channel inc
      (fun k => slowByte F Channel (if k = 0 ∨ k = 1 then 0x2100 else 0x2101))
      (chunkFuel count) (switchLabel b) count m p
  else if d.TransferMode = 4 then
    loopQuad E Channel inc (fun k => slowByte F Channel (0x2100 + k))
      (chunkFuel count) (switchLabel b) count m p
  else Outcome.done m (p, b)

/-- DMA FAST PATH (`base` is not null): the dispatch on `d->TransferMode` for
one chunk of `count` bytes.  Returns `p` and `b`.
The event loop of `addCyclesInDMA` is `E`. -/
def fastChunk (F : Facade) (E : Events) (Channel : Fin 8) (inc : Int) (base : Nat)
    (b count : Int) (m : Machine) (p : Nat) : Outcome (Nat × Int) :=
  let d := m.DMA Channel
  if d.TransferMode = 0 ∨ d.TransferMode = 2 ∨ d.TransferMode = 6 then
    Outcome.map (fun p1 => (p1, b))
      (loopSingle E Channel inc (fastSingleByte F Channel base m) (chunkFuel count) count m p)
  else if d.TransferMode = 1 ∨ d.TransferMode = 5 then
    if d.BAddress = 0x18 then
      if m.PPU.FullGraphicCount = 0 then
        loopPair E Channel inc (fastRegister F base Access.REGISTER_2118_linear)
          (fastOpenBus F base) b count m p
      else
        loopPair E Channel inc (fastRegister F base Access.REGISTER_2118_tile)
          (fastRegister F base Access.REGISTER_2119_tile) b count m p
    else
      loopPair E Channel inc (fastByte F Channel base 0x2100) (fastByte F Channel base 0x2101)
        b count m p
  else if d.TransferMode = 3 ∨ d.TransferMode = 7 then
    loopQuad E Channel inc
      (fun k => fastByte F Channel base (if k = 0 ∨ k = 1 then 0x2100 else 0x2101))
      (chunkFuel count) (switchLabel b) count m p
  else if d.TransferMode = 4 then
    loopQuad E Channel inc (fun k => fastByte F Channel base (0x2100 + k))
      (chunkFuel count) (switchLabel b) count m p
  else Outcome.done m (p, b)

/-- The statement `if (!base) { DMA SLOW PATH } else { DMA FAST PATH }`.
The event loop of `addCyclesInDMA` is `E`. -/
def transferChunk (F : Facade) (E : Events) (Channel : Fin 8) (inc : Int) (base : Option Nat)
    (b count : Int) (m : Machine) (p : Nat) : Outcome (Nat × Int) :=
  match base with
  | none => slowChunk F E Channel inc b count m p
  | some q => fastChunk F E Channel inc q b count m p

/-- The `while (1)` loop of the CPU -> PPU branch, one iteration per chunk.
Each iteration starts with `if (count > rem) count = rem; rem -= count;
CPU.InWRAMDMAorHDMA = inWRAM_DMA;`.
The first argument bounds the number of chunks.
The event loop of `addCyclesInDMA` is `E`. -/
def forwardLoop (F : Facade) (E : Events) (Channel : Fin 8) (inc : Int) (in_sdd1_dma : Bool) :
    Nat → Int → Option Nat → Bool → Int → Int → Machine → Nat → Bool × Machine
  | 0, _, _, _, _, _, m, _ => (true, outOfFuel m)
  | fuel + 1, b, base, inWRAM_DMA, rem, count, m, p =>
    let count := if count > rem then rem else count
    let rem := rem - count
    match transferChunk F E Channel inc base b count (setInWRAM m inWRAM_DMA) p with
    | Outcome.aborted m1 => (false, m1)
    | Outcome.done m1 (p1, b1) =>
      if rem ≤ 0 then (true, m1)
      else
        let d := m1.DMA Channel
        forwardLoop F E Channel inc in_sdd1_dma fuel b1
          (F.S9xGetBasePointer ((d.ABank <<< 16) + d.AAddress))
          (inWRAM in_sdd1_dma d) rem F.MEMMAP_BLOCK_SIZE m1 p1

/-- The CPU -> PPU branch of `S9xDoDMA` (`if (!d->ReverseTransfer)`), from the
declaration of `b` to the end of the `while (1)` loop.  `count` is the total
number of bytes on entry.
The event loop of `addCyclesInDMA` is `E`. -/
def forwardDMA (F : Facade) (E : Events) (Channel : Fin 8) (inc : Int) (in_sdd1_dma : Bool)
    (count : Int) (m : Machine) : Bool × Machine :=
  let d := m.DMA Channel
  let p := d.AAddress
  let base := F.S9xGetBasePointer ((d.ABank <<< 16) + d.AAddress)
  let rem := count
  let count : Int :=
    if d.AAddressFixed then rem
    else if d.AAddressDecrement then ((p &&& F.MEMMAP_MASK : Nat) : Int) + 1
    else (F.MEMMAP_BLOCK_SIZE : Int) - ((p &&& F.MEMMAP_MASK : Nat) : Int)
  let base := if in_sdd1_dma then some F.sdd1_decode_buffer else base
  let p := if in_sdd1_dma then 0 else p
  let count := if in_sdd1_dma then rem else count
  forwardLoop F E Channel inc in_sdd1_dma rem.toNat 0 base (inWRAM in_sdd1_dma d) rem count m p

/-- The lambda `UPDATE_COUNTERS` of the PPU -> CPU branch, which has no local
offset `p`.
The event loop of `addCyclesInDMA` is `E`. -/
def UPDATE_COUNTERS_reverse (E : Events) (Channel : Fin 8) (inc : Int) (m : Machine) :
    Outcome Unit :=
  let d := m.DMA Channel
  let m1 := setDMA m Channel
    { d with DMACount_Or_HDMAIndirectAddress :=
               (d.DMACount_Or_HDMAIndirectAddress + 0xFFFF) % 0x10000,
             AAddress := (((d.AAddress : Int) + inc) % 0x10000).toNat }
  match addCyclesInDMA E Channel m1 with
  | (false, m2) => Outcome.aborted (leaveDMA m2)
  | (true, m2) => Outcome.done m2 ()

/-- One `case` of the reverse `switch (d->TransferMode)` for the registers
`Regs`: after each byte but the last, `if (!--count) break;`, after the last,
`--count; break;`.  Returns `count`.
The event loop of `addCyclesInDMA` is `E`. -/
def reverseCase (F : Facade) (E : Events) (Channel : Fin 8) (inc : Int) (reallySlow : Bool) :
    List Nat → Int → Machine → Outcome Int
  | [], count, m => Outcome.done m count
  | [Reg], count, m =>
    match UPDATE_COUNTERS_reverse E Channel inc (reverseByte F Channel reallySlow Reg m) with
    | Outcome.aborted m1 => Outcome.aborted m1
    | Outcome.done m1 _ => Outcome.done (checkCounter (count - 1) m1) (count - 1)
  | Reg :: Reg2 :: Regs, count, m =>
    match UPDATE_COUNTERS_reverse E Channel inc (reverseByte F Channel reallySlow Reg m) with
    | Outcome.aborted m1 => Outcome.aborted m1
    | Outcome.done m1 _ =>
      if count - 1 = 0 then Outcome.done (checkCounter (count - 1) m1) (count - 1)
      else
        reverseCase F E Channel inc reallySlow (Reg2 :: Regs) (count - 1)
          (checkCounter (count - 1) m1)

/-- The `default:` case of the reverse switch:
`while (count) { if (!UPDATE_COUNTERS()) return false; --count; }`.
The event loop of `addCyclesInDMA` is `E`. -/
def reverseDefault (E : Events) (Channel : Fin 8) (inc : Int) :
    Nat → Int → Machine → Outcome Int
  | 0, count, m => Outcome.done (outOfFuel m) count
  | fuel + 1, count, m =>
    if count ≠ 0 then
      match UPDATE_COUNTERS_reverse E Channel inc m with
      | Outcome.aborted m1 => Outcome.aborted m1
      | Outcome.done m1 _ =>
        reverseDefault E Channel inc fuel (count - 1) (checkCounter (count - 1) m1)
    else Outcome.done m count

/-- The loop `do { switch (d->TransferMode) { ... } } while (count);` of either
reverse path.  The first argument bounds the number of iterations.
The event loop of `addCyclesInDMA` is `E`. -/
def reverseLoop (F : Facade) (E : Events) (Channel : Fin 8) (inc : Int) (reallySlow : Bool) :
    Nat → Int → Machine → Bool × Machine
  | 0, _, m => (true, outOfFuel m)
  | fuel + 1, count, m =>
    let r := match reverseRegisters (m.DMA Channel).TransferMode with
      | some Regs => reverseCase F E Channel inc reallySlow Regs count m
      | none => reverseDefault E Channel inc (chunkFuel count) count m
    match r with
    | Outcome.aborted m1 => (false, m1)
    | Outcome.done m1 count1 =>
      if count1 ≠ 0 then reverseLoop F E Channel inc reallySlow fuel count1 m1
      else (true, m1)

/-- The PPU -> CPU branch of `S9xDoDMA`.
The event loop of `addCyclesInDMA` is `E`. -/
def reverseDMA (F : Facade) (E : Events) (Channel : Fin 8) (inc : Int) (count : Int) (m : Machine) :
    Bool × Machine :=
  let d := m.DMA Channel
  if d.BAddress > 0x80 - 4 ∧ d.BAddress ≤ 0x83 ∧ d.ABank &&& 0x40 = 0 then
    reverseLoop F E Channel inc true (chunkFuel count) count m
  else
    reverseLoop F E Channel inc false (chunkFuel count) count
      (setInWRAM m (d.ABank == 0x7e || d.ABank == 0x7f))

/-- The function `bool S9xDoDMA(uint8_t Channel)`.  The pointer `in_ptr` of the
S-DD1 branch is never used and is left out.
The event loop of `addCyclesInDMA` is `E`. -/
def S9xDoDMA (F : Facade) (E : Events) (Channel : Fin 8) (m0 : Machine) : Bool × Machine :=
  let m := enterDMA Channel m0
  let d := m.DMA Channel
  if invalidDMA d then
    let c := transferCount d
    match invalidLoop E Channel c (ADD_CYCLES SLOW_ONE_CYCLE m) with
    | (false, m1) => (false, m1)
    | (true, m1) => (true, leaveInvalidDMA m1)
  else
    let count : Int := (transferCount d : Nat)
    let in_sdd1_dma := sdd1Active m d
    let inc := startIncrement m d
    let m := ADD_CYCLES SLOW_ONE_CYCLE (clearSDD1 m)
    let r := if !d.ReverseTransfer then forwardDMA F E Channel inc in_sdd1_dma count m
             else reverseDMA F E Channel inc count m
    match r with
    | (false, m1) => (false, m1)
    | (true, m1) => (true, leaveDMA (rescheduleNMI m1))

end Reentrant

/-- Event processing that changes the `CPU` record only, as the event loop of
the facade `F` does. -/
def cpuEvents (F : Facade) : Events :=
  fun t m => { m with CPU := F.S9xDoHEventProcessing t m.CPU }

end Snes9x

namespace SSEQPlayer

/-- The expression `static_cast<char>(tmp < 10 ? tmp + '0' : tmp - 10 + 'a')` of
`NumToHexString`. -/
def hexChar (tmp : Nat) : Char :=
  Char.ofNat (if tmp < 10 then tmp + '0'.toNat else tmp - 10 + 'a'.toNat)

/-- The function template `NumToHexString<T>(const T &num)` for an integer
type `T` of `size` bytes, `num` being the value of the argument, negative for
a negative value of a signed type.  The loop counter and `len` are `uint8_t`;
`num >> (i * 4)` is the arithmetic shift of the promoted value and `tmp` is a
`uint8_t`; `hex = ch + hex` puts each new character in front. -/
def NumToHexString (size : Nat) (num : Int) : String :=
  let len := (size * 2) % 0x100
  "0x" ++ (List.range len).foldl
    (fun hex i =>
      let tmp := (Int.land (Int.shiftRight num (i * 4)) 0xF).toNat % 0x100
      String.singleton (hexChar tmp) ++ hex) ""

/-- The function template `ReadLE<T>(const std::uint8_t *arr)` for an unsigned
type `T` of `size` bytes.  In `arr[i] << (i * 8)` the byte is promoted to `int`
and the shift is done on 32 bits, of which `% 0x100000000` keeps the bit
pattern; `finalVal |= ...` stores the low `8 * size` bits of the result. -/
def ReadLE (size : Nat) (arr : List Nat) : Nat :=
  (List.range size).foldl
    (fun finalVal i =>
      (finalVal ||| ((arr.getD i 0 <<< (i * 8)) % 0x100000000)) % 2 ^ (8 * size)) 0

/-- The fields of `struct PseudoFile`: the bytes `*data` and the 32-bit
position `pos`. -/
structure PseudoFile where
  data : List Nat
  pos : Nat

/-- The member template `PseudoFile::ReadLE<T>()` for a type `T` of `size` bytes,
which reads `(*this->data)[this->pos++]` in the place of `arr[i]`; it returns
the value and the file after the call. -/
def PseudoFile.ReadLE (size : Nat) (file : PseudoFile) : Nat × PseudoFile :=
  (List.range size).foldl
    (fun (r : Nat × PseudoFile) i =>
      ((r.1 ||| ((r.2.data.getD r.2.pos 0 <<< (i * 8)) % 0x100000000)) % 2 ^ (8 * size),
       { r.2 with pos := (r.2.pos + 1) % 0x100000000 })) (0, file)

/-- Value of a lowercase hexadecimal digit as the specification reads it: the
position of the character in `0123456789abcdef`, and 16 for any other
character. -/
def hexDigitValue (ch : Char) : Nat :=
  "0123456789abcdef".data.indexOf ch

/-- Value of a string of hexadecimal digits as the specification reads it,
most significant digit first. -/
def hexValue : List Char → Nat
  | [] => 0
  | ch :: rest => hexDigitValue ch * 16 ^ rest.length + hexValue rest

/-! ## The conversion functions -/

/-- The table `static const std::int8_t lut[]` of `Cnv_Sine`. -/
def Cnv_Sine.lut : List Int :=
  [0, 6, 12, 19, 25, 31, 37, 43, 49, 54, 60, 65, 71, 76, 81, 85, 90, 94,
   98, 102, 106, 109, 112, 115, 117, 120, 122, 123, 125, 126, 126, 127, 127]

/-- The constant `static const int lut_size = sizeof(lut) / sizeof(std::int8_t);`
of `Cnv_Sine`: the number of entries of the table. -/
def Cnv_Sine.lut_size : Int := Cnv_Sine.lut.length

/-- The read `lut[i]` for an `int` index `i`: `none` when `i` is not an index
of the table, where the read of the source is undefined. -/
def Cnv_Sine.read (i : Int) : Option Int :=
  if 0 ≤ i then Cnv_Sine.lut[i.toNat]? else none

/-- The statements of `Cnv_Sine` after the two declarations, as a function of
the value of `lut_size`. -/
def Cnv_Sine.body (lut_size arg : Int) : Option Int :=
  if arg < lut_size then Cnv_Sine.read arg
  else if arg < 2 * lut_size then Cnv_Sine.read (2 * lut_size - arg)
  else if arg < 3 * lut_size then (Cnv_Sine.read (arg - 2 * lut_size)).map (fun v => -v)
  else (Cnv_Sine.read (4 * lut_size - arg)).map (fun v => -v)

/-- The function `int Cnv_Sine(int arg)`; the result is `none` when the table
is read outside its bounds. -/
def Cnv_Sine (arg : Int) : Option Int :=
  Cnv_Sine.body Cnv_Sine.lut_size arg

/-- The function `std::uint16_t Cnv_Fall(int fall)`; the result is `none` when
the division is by zero.  `fall << 1` is `fall * 2`, the division of two `int`
truncates, and `& 0xFFFF` followed by the conversion to `std::uint16_t` keeps
the value modulo `0x10000`. -/
def Cnv_Fall (fall : Int) : Option Nat :=
  let fall := if Int.land fall 0x80 ≠ 0 then 0 else fall
  if fall = 0x7F then some 0xFFFF
  else if fall = 0x7E then some 0x3C00
  else if fall < 0x32 then some ((fall * 2 + 1) % 0x10000).toNat
  else if 0x7E - fall = 0 then none
  else some ((Int.tdiv 0x1E00 (0x7E - fall)) % 0x10000).toNat

end SSEQPlayer

/-! # Theorems -/

namespace Snes9x

/-! ## The loops of the source refine the reference semantics -/

theorem checkCounter_nonneg (count : Int) (m : Machine) (h : 0 ≤ count) :
    checkCounter count m = m := by
  unfold checkCounter
  rw [if_neg (by omega)]

theorem loopSingle_eq (F : Facade) (c : Fin 8) (inc : Int) (e : Emit) :
    ∀ (fuel : Nat) (count : Int) (i : Nat) (m : Machine) (p : Nat),
      1 ≤ count → count.toNat ≤ fuel →
      loopSingle F c inc e fuel count m p
        = transfer F c inc (fun _ => e) count.toNat i m p := by
  intro fuel
  induction fuel with
  | zero => intro count i m p h1 h2; omega
  | succ fuel ih =>
    intro count i m p h1 h2
    obtain ⟨k, hk⟩ : ∃ k, count.toNat = k + 1 := ⟨count.toNat - 1, by omega⟩
    have hcc : ∀ mm, checkCounter (count - 1) mm = mm :=
      fun mm => checkCounter_nonneg _ mm (by omega)
    rw [hk]
    simp only [loopSingle, transfer, hcc]
    cases h : UPDATE_COUNTERS F c inc (e m p) p with
    | aborted m1 => rfl
    | done m1 p1 =>
      simp only []
      by_cases hc : count - 1 > 0
      · rw [if_pos hc, ih (count - 1) (i + 1) m1 p1 (by omega) (by omega)]
        have hk2 : (count - 1).toNat = k := by omega
        rw [hk2]
      · rw [if_neg hc]
        have hk0 : k = 0 := by omega
        subst hk0
        rfl

theorem loopQuad_eq (F : Facade) (c : Fin 8) (inc : Int) (e : Nat → Emit) :
    ∀ (fuel : Nat) (count : Int) (i : Nat) (m : Machine) (p : Nat),
      1 ≤ count → count.toNat ≤ fuel →
      loopQuad F c inc e fuel (i % 4) count m p
        = Outcome.map (fun q => (q, (((i + count.toNat) % 4 : Nat) : Int)))
            (transfer F c inc (fun j => e (j % 4)) count.toNat i m p) := by
  intro fuel
  induction fuel with
  | zero => intro count i m p h1 h2; omega
  | succ fuel ih =>
    intro count i m p h1 h2
    obtain ⟨k, hk⟩ : ∃ k, count.toNat = k + 1 := ⟨count.toNat - 1, by omega⟩
    have hcc : ∀ mm, checkCounter (count - 1) mm = mm :=
      fun mm => checkCounter_nonneg _ mm (by omega)
    rw [hk]
    simp only [loopQuad, transfer, hcc]
    cases h : UPDATE_COUNTERS F c inc (e (i % 4) m p) p with
    | aborted m1 => rfl
    | done m1 p1 =>
      simp only []
      have hmod : (i % 4 + 1) % 4 = (i + 1) % 4 := by omega
      by_cases hc : count - 1 ≤ 0
      · rw [if_pos hc]
        have hk0 : k = 0 := by omega
        subst hk0
        simp only [transfer, Outcome.map, hmod]
      · rw [if_neg hc, hmod, ih (count - 1) (i + 1) m1 p1 (by omega) (by omega)]
        have hk2 : (count - 1).toNat = k := by omega
        rw [hk2]
        have hidx : i + 1 + k = i + (k + 1) := by omega
        rw [hidx]

theorem duffWhole_eq (F : Facade) (c : Fin 8) (inc : Int) (e0 e1 : Emit) :
    ∀ (fuel : Nat) (count : Int) (i : Nat) (m : Machine) (p : Nat),
      count.toNat + 1 ≤ fuel →
      (i % 2 = 0 → 0 ≤ count →
        duffWhole F c inc e0 e1 fuel false count m p
          = Outcome.map (fun q => (q, (((i + count.toNat) % 2 : Nat) : Int)))
              (transfer F c inc (pairPattern e0 e1) count.toNat i m p)) ∧
      (i % 2 = 1 → 1 ≤ count →
        duffWhole F c inc e0 e1 fuel true count m p
          = Outcome.map (fun q => (q, (((i + count.toNat) % 2 : Nat) : Int)))
              (transfer F c inc (pairPattern e0 e1) count.toNat i m p)) := by
  intro fuel
  induction fuel with
  | zero => intro count i m p h; omega
  | succ fuel ih =>
    intro count i m p hf
    constructor
    · intro hi h0
      by_cases hc : count > 1
      · obtain ⟨k, hk⟩ : ∃ k, count.toNat = k + 1 := ⟨count.toNat - 1, by omega⟩
        have hpat : pairPattern e0 e1 i = e0 := by simp [pairPattern, hi]
        have hcc : ∀ mm, checkCounter (count - 1) mm = mm :=
          fun mm => checkCounter_nonneg _ mm (by omega)
        rw [hk]
        simp only [duffWhole, duffLoop, transfer, if_pos hc, hpat, hcc]
        cases h : UPDATE_COUNTERS F c inc (e0 m p) p with
        | aborted m1 => rfl
        | done m1 p1 =>
          simp only []
          have hB := (ih (count - 1) (i + 1) m1 p1 (by omega)).2 (by omega) (by omega)
          simp only [duffWhole] at hB
          rw [hB]
          have hk2 : (count - 1).toNat = k := by omega
          have hidx : i + 1 + k = i + (k + 1) := by omega
          rw [hk2, hidx]
      · by_cases h1 : count = 1
        · subst h1
          have hpat : pairPattern e0 e1 i = e0 := by simp [pairPattern, hi]
          have hb : ((((i + 1) % 2 : Nat)) : Int) = 1 := by omega
          simp only [duffWhole, duffLoop, pairTail, transfer, hpat, Int.toNat_one]
          simp only [gt_iff_lt, lt_self_iff_false, ↓reduceIte]
          cases h : UPDATE_COUNTERS F c inc (e0 m p) p with
          | aborted m1 => rfl
          | done m1 p1 => simp only [Outcome.map, transfer, hb]
        · have h00 : count = 0 := by omega
          subst h00
          have hb : ((((i + 0) % 2 : Nat)) : Int) = 0 := by omega
          simp only [duffWhole, duffLoop, pairTail, transfer, Int.toNat_zero, Outcome.map, hb]
          simp
    · intro hi h1
      obtain ⟨k, hk⟩ : ∃ k, count.toNat = k + 1 := ⟨count.toNat - 1, by omega⟩
      have hpat : pairPattern e0 e1 i = e1 := by simp [pairPattern, hi]
      have hcc : ∀ mm, checkCounter (count - 1) mm = mm :=
        fun mm => checkCounter_nonneg _ mm (by omega)
      rw [hk]
      simp only [duffWhole, duffLoop, transfer, hpat, hcc]
      cases h : UPDATE_COUNTERS F c inc (e1 m p) p with
      | aborted m1 => rfl
      | done m1 p1 =>
        simp only []
        have hA := (ih (count - 1) (i + 1) m1 p1 (by omega)).1 (by omega) (by omega)
        simp only [duffWhole] at hA
        rw [hA]
        have hk2 : (count - 1).toNat = k := by omega
        have hidx : i + 1 + k = i + (k + 1) := by omega
        rw [hk2, hidx]

theorem loopPair_eq (F : Facade) (c : Fin 8) (inc : Int) (e0 e1 : Emit)
    (b count : Int) (m : Machine) (p : Nat) (h1 : 1 ≤ count) :
    loopPair F c inc e0 e1 b count m p
      = Outcome.map
          (fun q => (q, ((((if b = 1 then 1 else 0) + count.toNat) % 2 : Nat) : Int)))
          (transfer F c inc (pairPattern e0 e1) count.toNat (if b = 1 then 1 else 0) m p) := by
  have h := duffWhole_eq F c inc e0 e1 (count.toNat + 2) count (if b = 1 then 1 else 0) m p
    (by omega)
  by_cases hb : b = 1
  · have h2 := h.2 (by simp [hb]) h1
    simp only [duffWhole] at h2
    simp only [loopPair, hb, beq_self_eq_true]
    simpa [hb] using h2
  · have h2 := h.1 (by simp [hb]) (by omega)
    simp only [duffWhole] at h2
    have hbeq : (b == 1) = false := by simpa using hb
    simp only [loopPair, hbeq]
    simpa [hb] using h2

theorem UPDATE_COUNTERS_done (F : Facade) (c : Fin 8) (inc : Int) (m : Machine) (p : Nat)
    (h : NoCollisionAt F c m.tick) :
    UPDATE_COUNTERS F c inc m p = Outcome.done (afterStep F c inc m) (stepOffset inc p) := by
  have h2 := h { m.CPU with Cycles := m.CPU.Cycles + SLOW_ONE_CYCLE }
  simp [UPDATE_COUNTERS, addCyclesInDMA, ADD_CYCLES, setDMA, h2, afterStep, stepChannel,
    stepOffset]

theorem UPDATE_COUNTERS_aborted (F : Facade) (c : Fin 8) (inc : Int) (m : Machine) (p : Nat)
    (h : CollisionAt F c m.tick) :
    UPDATE_COUNTERS F c inc m p = Outcome.aborted (leaveDMA (afterStep F c inc m)) := by
  have h2 := h { m.CPU with Cycles := m.CPU.Cycles + SLOW_ONE_CYCLE }
  simp [UPDATE_COUNTERS, addCyclesInDMA, ADD_CYCLES, setDMA, h2, afterStep, stepChannel]

theorem UPDATE_COUNTERS_reverse_eq (F : Facade) (c : Fin 8) (inc : Int) (m : Machine) :
    UPDATE_COUNTERS_reverse F c inc m
      = Outcome.map (fun _ => ()) (UPDATE_COUNTERS F c inc m 0) := by
  simp only [UPDATE_COUNTERS_reverse, UPDATE_COUNTERS]
  split <;> rfl

theorem Unchanged.stepped (F : Facade) (c : Fin 8) (inc : Int) {m m1 : Machine}
    (h : Unchanged m m1) : Stepped F c inc 0 m m1 where
  tick := by simp [h.tick]
  dma := by simp [h.dma]
  cycles := by intro _; simp [h.cycles]
  timings := h.timings
  ppu := h.ppu
  pointers := h.pointers
  fill4801 := h.fill4801
  fill420c := h.fill420c
  sdd1 := h.sdd1
  uniracers := h.uniracers
  exhausted := h.exhausted
  underflow := h.underflow

theorem Unchanged.refl (m : Machine) : Unchanged m m :=
  ⟨rfl, rfl, rfl, rfl, rfl, rfl, rfl, rfl, rfl, rfl, rfl, rfl⟩

theorem Stepped.trans {F : Facade} {c : Fin 8} {inc : Int} {a b : Nat} {m m1 m2 : Machine}
    (h1 : Stepped F c inc a m m1) (h2 : Stepped F c inc b m1 m2) :
    Stepped F c inc (a + b) m m2 where
  tick := by rw [h2.tick, h1.tick]; omega
  dma := by
    rw [h2.dma, h1.dma, Function.update_same, Function.update_idem, Nat.add_comm a b,
      Function.iterate_add_apply]
  cycles := by
    intro hn
    rw [h2.cycles hn, h1.cycles hn]
    push_cast
    ring
  timings := h2.timings.trans h1.timings
  ppu := h2.ppu.trans h1.ppu
  pointers := h2.pointers.trans h1.pointers
  fill4801 := h2.fill4801.trans h1.fill4801
  fill420c := h2.fill420c.trans h1.fill420c
  sdd1 := h2.sdd1.trans h1.sdd1
  uniracers := h2.uniracers.trans h1.uniracers
  exhausted := h2.exhausted.trans h1.exhausted
  underflow := h2.underflow.trans h1.underflow

theorem afterStep_stepped (F : Facade) (c : Fin 8) (inc : Int) (m : Machine) :
    Stepped F c inc 1 m (afterStep F c inc m) where
  tick := rfl
  dma := rfl
  cycles := by
    intro hn
    simp [afterStep, hn m.tick]
  timings := rfl
  ppu := rfl
  pointers := rfl
  fill4801 := rfl
  fill420c := rfl
  sdd1 := rfl
  uniracers := rfl
  exhausted := rfl
  underflow := rfl

theorem leaveDMA_unchanged (m : Machine) : Unchanged m (leaveDMA m) :=
  ⟨rfl, rfl, rfl, rfl, rfl, rfl, rfl, rfl, rfl, rfl, rfl, rfl⟩

theorem transfer_done (F : Facade) (c : Fin 8) (inc : Int) (pat : Nat → Emit)
    (hpat : ∀ j, Frame (pat j)) :
    ∀ (n i : Nat) (m : Machine) (p : Nat),
      (∀ t, m.tick ≤ t → t < m.tick + n → NoCollisionAt F c t) →
      ∃ m1, transfer F c inc pat n i m p = Outcome.done m1 ((stepOffset inc)^[n] p)
        ∧ Stepped F c inc n m m1 := by
  intro n
  induction n with
  | zero =>
    intro i m p _
    exact ⟨m, rfl, (Unchanged.refl m).stepped F c _⟩
  | succ n ih =>
    intro i m p h
    have hu : Unchanged m (pat i m p) := hpat i m p
    have hnc : NoCollisionAt F c (pat i m p).tick := by
      rw [hu.tick]; exact h m.tick (le_refl _) (by omega)
    have hs1 : Stepped F c inc 1 m (afterStep F c inc (pat i m p)) := by
      have := (hu.stepped F c inc).trans
        (afterStep_stepped F c inc (pat i m p))
      simpa using this
    obtain ⟨m1, he, hs⟩ := ih (i + 1) (afterStep F c inc (pat i m p)) (stepOffset inc p)
      (by
        intro t ht1 ht2
        rw [hs1.tick] at ht1 ht2
        exact h t (by omega) (by omega))
    refine ⟨m1, ?_, ?_⟩
    · simp only [transfer, UPDATE_COUNTERS_done F c inc _ p hnc, he,
        Function.iterate_succ_apply]
    · have := hs1.trans hs
      rwa [Nat.add_comm 1 n] at this

theorem transfer_aborted (F : Facade) (c : Fin 8) (inc : Int) (pat : Nat → Emit)
    (hpat : ∀ j, Frame (pat j)) :
    ∀ (n j i : Nat) (m : Machine) (p : Nat), j < n →
      (∀ t, m.tick ≤ t → t < m.tick + j → NoCollisionAt F c t) →
      CollisionAt F c (m.tick + j) →
      ∃ m1, transfer F c inc pat n i m p = Outcome.aborted m1
        ∧ Stepped F c inc (j + 1) m m1 := by
  intro n
  induction n with
  | zero => intro j i m p hj; omega
  | succ n ih =>
    intro j i m p hj h hcol
    have hu : Unchanged m (pat i m p) := hpat i m p
    have hs1 : Stepped F c inc 1 m (afterStep F c inc (pat i m p)) := by
      have := (hu.stepped F c inc).trans
        (afterStep_stepped F c inc (pat i m p))
      simpa using this
    cases j with
    | zero =>
      have hc : CollisionAt F c (pat i m p).tick := by
        rw [hu.tick]; simpa using hcol
      refine ⟨leaveDMA (afterStep F c inc (pat i m p)), ?_, ?_⟩
      · simp only [transfer, UPDATE_COUNTERS_aborted F c inc _ p hc]
      · have := hs1.trans ((leaveDMA_unchanged (afterStep F c inc (pat i m p))).stepped F c inc)
        simpa using this
    | succ j =>
      have hnc : NoCollisionAt F c (pat i m p).tick := by
        rw [hu.tick]; exact h m.tick (le_refl _) (by omega)
      obtain ⟨m1, he, hs⟩ := ih j (i + 1) (afterStep F c inc (pat i m p)) (stepOffset inc p)
        (by omega)
        (by
          intro t ht1 ht2
          rw [hs1.tick] at ht1 ht2
          exact h t (by omega) (by omega))
        (by
          rw [hs1.tick]
          have : m.tick + 1 + j = m.tick + (j + 1) := by omega
          rw [this]; exact hcol)
      refine ⟨m1, ?_, ?_⟩
      · simp only [transfer, UPDATE_COUNTERS_done F c inc _ p hnc, he]
      · have := hs1.trans hs
        rwa [Nat.add_comm 1 (j + 1)] at this

theorem RunsBytes.done {α : Type} {F : Facade} {c : Fin 8} {inc : Int} {n : Nat}
    {m : Machine} {P : α → Prop} {o : Outcome α} (h : RunsBytes F c inc n m P o)
    (hnc : ∀ t, m.tick ≤ t → t < m.tick + n → NoCollisionAt F c t) :
    ∃ m1 a, o = Outcome.done m1 a ∧ P a ∧ Stepped F c inc n m m1 := by
  obtain ⟨pat, i, p, f, hpat, hP, ho⟩ := h
  obtain ⟨m1, he, hs⟩ := transfer_done F c inc pat hpat n i m p hnc
  exact ⟨m1, f _, by rw [ho, he]; rfl, hP _, hs⟩

theorem RunsBytes.aborted {α : Type} {F : Facade} {c : Fin 8} {inc : Int} {n : Nat}
    {m : Machine} {P : α → Prop} {o : Outcome α} (h : RunsBytes F c inc n m P o)
    (j : Nat) (hj : j < n)
    (hnc : ∀ t, m.tick ≤ t → t < m.tick + j → NoCollisionAt F c t)
    (hcol : CollisionAt F c (m.tick + j)) :
    ∃ m1, o = Outcome.aborted m1 ∧ Stepped F c inc (j + 1) m m1 := by
  obtain ⟨pat, i, p, f, hpat, _, ho⟩ := h
  obtain ⟨m1, he, hs⟩ := transfer_aborted F c inc pat hpat n j i m p hj hnc hcol
  exact ⟨m1, by rw [ho, he]; rfl, hs⟩

/-! ## The statement groups leave the counters alone -/

theorem slowByte_frame (F : Facade) (c : Fin 8) (Reg : Nat) : Frame (slowByte F c Reg) :=
  fun _ _ => ⟨rfl, rfl, rfl, rfl, rfl, rfl, rfl, rfl, rfl, rfl, rfl, rfl⟩

theorem fastRegister_frame (F : Facade) (base : Nat) (handler : Nat → Access) :
    Frame (fastRegister F base handler) :=
  fun _ _ => ⟨rfl, rfl, rfl, rfl, rfl, rfl, rfl, rfl, rfl, rfl, rfl, rfl⟩

theorem fastOpenBus_frame (F : Facade) (base : Nat) : Frame (fastOpenBus F base) :=
  fun _ _ => ⟨rfl, rfl, rfl, rfl, rfl, rfl, rfl, rfl, rfl, rfl, rfl, rfl⟩

theorem fastReadOnly_frame (base : Nat) : Frame (fastReadOnly base) :=
  fun _ _ => ⟨rfl, rfl, rfl, rfl, rfl, rfl, rfl, rfl, rfl, rfl, rfl, rfl⟩

theorem fastNothing_frame : Frame fastNothing :=
  fun _ _ => ⟨rfl, rfl, rfl, rfl, rfl, rfl, rfl, rfl, rfl, rfl, rfl, rfl⟩

theorem fastByte_frame (F : Facade) (c : Fin 8) (base Reg : Nat) :
    Frame (fastByte F c base Reg) :=
  fun _ _ => ⟨rfl, rfl, rfl, rfl, rfl, rfl, rfl, rfl, rfl, rfl, rfl, rfl⟩

theorem fastSingleByte_frame (F : Facade) (c : Fin 8) (base : Nat) (m : Machine) :
    Frame (fastSingleByte F c base m) := by
  unfold fastSingleByte
  simp only []
  split_ifs
  all_goals first
    | exact fastRegister_frame F base _
    | exact fastReadOnly_frame base
    | exact fastNothing_frame
    | exact fastByte_frame F c base _

theorem pairPattern_frame (e0 e1 : Emit) (h0 : Frame e0) (h1 : Frame e1) (j : Nat) :
    Frame (pairPattern e0 e1 j) := by
  unfold pairPattern
  split_ifs
  · exact h0
  · exact h1

theorem switchLabel_lt (b : Int) : switchLabel b < 4 := by
  unfold switchLabel
  split_ifs <;> omega

/-! ## Every chunk is a run of `count` bytes -/

theorem loopSingle_runs (F : Facade) (c : Fin 8) (inc : Int) (e : Emit) (he : Frame e)
    (b count : Int) (m : Machine) (p : Nat) (h1 : 1 ≤ count) :
    RunsBytes F c inc count.toNat m (fun _ => True)
      (Outcome.map (fun p1 => (p1, b)) (loopSingle F c inc e (chunkFuel count) count m p)) := by
  refine ⟨fun _ => e, 0, p, fun p1 => (p1, b), fun _ => he, fun _ => trivial, ?_⟩
  rw [loopSingle_eq F c inc e (chunkFuel count) count 0 m p h1 (by unfold chunkFuel; omega)]

theorem loopPair_runs (F : Facade) (c : Fin 8) (inc : Int) (e0 e1 : Emit)
    (h0 : Frame e0) (he1 : Frame e1) (b count : Int) (m : Machine) (p : Nat)
    (h1 : 1 ≤ count) :
    RunsBytes F c inc count.toNat m (fun _ => True) (loopPair F c inc e0 e1 b count m p) :=
  ⟨pairPattern e0 e1, _, p, _, pairPattern_frame e0 e1 h0 he1, fun _ => trivial,
    loopPair_eq F c inc e0 e1 b count m p h1⟩

theorem loopQuad_runs (F : Facade) (c : Fin 8) (inc : Int) (e : Nat → Emit)
    (he : ∀ k, Frame (e k)) (b count : Int) (m : Machine) (p : Nat) (h1 : 1 ≤ count) :
    RunsBytes F c inc count.toNat m (fun _ => True)
      (loopQuad F c inc e (chunkFuel count) (switchLabel b) count m p) := by
  have h := loopQuad_eq F c inc e (chunkFuel count) count (switchLabel b) m p h1
    (by unfold chunkFuel; omega)
  rw [Nat.mod_eq_of_lt (switchLabel_lt b)] at h
  exact ⟨fun j => e (j % 4), _, p, _, fun j => he (j % 4), fun _ => trivial, h⟩

theorem slowChunk_runs (F : Facade) (c : Fin 8) (inc : Int) (b count : Int)
    (m : Machine) (p : Nat) (hmode : (m.DMA c).TransferMode ≤ 7) (h1 : 1 ≤ count) :
    RunsBytes F c inc count.toNat m (fun _ => True) (slowChunk F c inc b count m p) := by
  unfold slowChunk
  simp only []
  split_ifs with hA hB hC hD
  · exact loopSingle_runs F c inc _ (slowByte_frame F c _) b count m p h1
  · exact loopPair_runs F c inc _ _ (slowByte_frame F c _) (slowByte_frame F c _) b count m p h1
  · exact loopQuad_runs F c inc _ (fun _ => slowByte_frame F c _) b count m p h1
  · exact loopQuad_runs F c inc _ (fun _ => slowByte_frame F c _) b count m p h1
  · omega

theorem fastChunk_runs (F : Facade) (c : Fin 8) (inc : Int) (base : Nat) (b count : Int)
    (m : Machine) (p : Nat) (hmode : (m.DMA c).TransferMode ≤ 7) (h1 : 1 ≤ count) :
    RunsBytes F c inc count.toNat m (fun _ => True) (fastChunk F c inc base b count m p) := by
  unfold fastChunk
  simp only []
  split_ifs with hA hB hC hD hE hF
  · exact loopSingle_runs F c inc _ (fastSingleByte_frame F c base m) b count m p h1
  · exact loopPair_runs F c inc _ _ (fastRegister_frame F base _) (fastOpenBus_frame F base)
      b count m p h1
  · exact loopPair_runs F c inc _ _ (fastRegister_frame F base _) (fastRegister_frame F base _)
      b count m p h1
  · exact loopPair_runs F c inc _ _ (fastByte_frame F c base _) (fastByte_frame F c base _)
      b count m p h1
  · exact loopQuad_runs F c inc _ (fun _ => fastByte_frame F c base _) b count m p h1
  · exact loopQuad_runs F c inc _ (fun _ => fastByte_frame F c base _) b count m p h1
  · omega

/-! ## The chunk loop of the CPU -> PPU branch -/

theorem iterate_stepChannel_config (inc : Int) (n : Nat) (d : SDMA) :
    ((stepChannel inc)^[n] d).TransferMode = d.TransferMode
    ∧ ((stepChannel inc)^[n] d).BAddress = d.BAddress
    ∧ ((stepChannel inc)^[n] d).ABank = d.ABank
    ∧ ((stepChannel inc)^[n] d).ReverseTransfer = d.ReverseTransfer := by
  induction n generalizing d with
  | zero => exact ⟨rfl, rfl, rfl, rfl⟩
  | succ n ih =>
    rw [Function.iterate_succ_apply]
    exact ih (stepChannel inc d)

theorem Stepped.transferMode {F : Facade} {c : Fin 8} {inc : Int} {n : Nat}
    {m m1 : Machine} (h : Stepped F c inc n m m1) :
    (m1.DMA c).TransferMode = (m.DMA c).TransferMode := by
  rw [h.dma, Function.update_same]
  exact (iterate_stepChannel_config inc n _).1

theorem setInWRAM_unchanged (m : Machine) (v : Bool) : Unchanged m (setInWRAM m v) :=
  ⟨rfl, rfl, rfl, rfl, rfl, rfl, rfl, rfl, rfl, rfl, rfl, rfl⟩

theorem transferChunk_runs (F : Facade) (c : Fin 8) (inc : Int) (base : Option Nat)
    (b count : Int) (m : Machine) (p : Nat) (hmode : (m.DMA c).TransferMode ≤ 7)
    (h1 : 1 ≤ count) :
    RunsBytes F c inc count.toNat m (fun _ => True)
      (transferChunk F c inc base b count m p) := by
  cases base with
  | none => exact slowChunk_runs F c inc b count m p hmode h1
  | some q => exact fastChunk_runs F c inc q b count m p hmode h1

theorem forwardLoop_done (F : Facade) (c : Fin 8) (inc : Int) (sdd : Bool)
    (hB : 0 < F.MEMMAP_BLOCK_SIZE) :
    ∀ (fuel : Nat) (b : Int) (base : Option Nat) (inW : Bool) (rem count : Int)
      (m : Machine) (p : Nat),
      (m.DMA c).TransferMode ≤ 7 → 1 ≤ rem → 1 ≤ count → rem.toNat ≤ fuel →
      (∀ t, m.tick ≤ t → t < m.tick + rem.toNat → NoCollisionAt F c t) →
      ∃ m1, forwardLoop F c inc sdd fuel b base inW rem count m p = (true, m1)
        ∧ Stepped F c inc rem.toNat m m1 := by
  intro fuel
  induction fuel with
  | zero => intro b base inW rem count m p _ h1 _ h2; omega
  | succ fuel ih =>
    intro b base inW rem count m p hmode hrem hcount hfuel hnc
    have hu := setInWRAM_unchanged m inW
    obtain ⟨m1, a, he, -, hs⟩ :=
      (transferChunk_runs F c inc base b (if count > rem then rem else count)
        (setInWRAM m inW) p hmode (by split_ifs <;> omega)).done
        (by
          intro t ht1 ht2
          rw [hu.tick] at ht1 ht2
          exact hnc t ht1 (by split_ifs at ht2 <;> omega))
    have hs0 : Stepped F c inc (if count > rem then rem else count).toNat m m1 := by
      have := (hu.stepped F c inc).trans hs
      simpa using this
    rw [forwardLoop]
    simp only [he]
    by_cases hlast : rem - (if count > rem then rem else count) ≤ 0
    · rw [if_pos hlast]
      refine ⟨m1, rfl, ?_⟩
      have hn : (if count > rem then rem else count).toNat = rem.toNat := by
        split_ifs at hlast ⊢ <;> omega
      rwa [hn] at hs0
    · rw [if_neg hlast]
      obtain ⟨m2, he2, hs2⟩ := ih a.2
        (F.S9xGetBasePointer (((m1.DMA c).ABank <<< 16) + (m1.DMA c).AAddress))
        (inWRAM sdd (m1.DMA c)) (rem - (if count > rem then rem else count))
        F.MEMMAP_BLOCK_SIZE m1 a.1
        (by rw [hs0.transferMode]; exact hmode)
        (by omega) (by omega)
        (by split_ifs at hlast ⊢ <;> omega)
        (by
          intro t ht1 ht2
          rw [hs0.tick] at ht1 ht2
          exact hnc t (by omega) (by split_ifs at hlast ht1 ht2 ⊢ <;> omega))
      refine ⟨m2, he2, ?_⟩
      have hn : (if count > rem then rem else count).toNat
          + (rem - (if count > rem then rem else count)).toNat = rem.toNat := by
        split_ifs at hlast ⊢ <;> omega
      have := hs0.trans hs2
      rwa [hn] at this

/-- The size of the first chunk of a CPU -> PPU transfer is at least one byte. -/
theorem firstChunk_pos (F : Facade) (hM : F.MEMMAP_MASK < F.MEMMAP_BLOCK_SIZE) (d : SDMA)
    (sdd : Bool) (rem : Int) (hrem : 1 ≤ rem) :
    1 ≤ (if sdd then rem else
          if d.AAddressFixed then rem
          else if d.AAddressDecrement then ((d.AAddress &&& F.MEMMAP_MASK : Nat) : Int) + 1
          else (F.MEMMAP_BLOCK_SIZE : Int) - ((d.AAddress &&& F.MEMMAP_MASK : Nat) : Int)) := by
  have hle : d.AAddress &&& F.MEMMAP_MASK ≤ F.MEMMAP_MASK := Nat.and_le_right
  split_ifs <;> omega

theorem forwardDMA_done (F : Facade) (c : Fin 8) (inc : Int) (sdd : Bool) (count : Int)
    (m : Machine) (hM : F.MEMMAP_MASK < F.MEMMAP_BLOCK_SIZE)
    (hmode : (m.DMA c).TransferMode ≤ 7) (hcount : 1 ≤ count)
    (hnc : ∀ t, m.tick ≤ t → t < m.tick + count.toNat → NoCollisionAt F c t) :
    ∃ m1, forwardDMA F c inc sdd count m = (true, m1) ∧ Stepped F c inc count.toNat m m1 := by
  unfold forwardDMA
  exact forwardLoop_done F c inc sdd (by omega) count.toNat 0 _ _ count _ m _ hmode hcount
    (firstChunk_pos F hM (m.DMA c) sdd count hcount) (le_refl _) hnc

theorem UPDATE_COUNTERS_cases (F : Facade) (c : Fin 8) (inc : Int) (m : Machine) (p : Nat) :
    (UPDATE_COUNTERS F c inc m p = Outcome.done (afterStep F c inc m) (stepOffset inc p)
      ∧ UPDATE_COUNTERS_reverse F c inc m = Outcome.done (afterStep F c inc m) ())
    ∨ (UPDATE_COUNTERS F c inc m p = Outcome.aborted (leaveDMA (afterStep F c inc m))
      ∧ UPDATE_COUNTERS_reverse F c inc m = Outcome.aborted (leaveDMA (afterStep F c inc m))) := by
  by_cases h : (F.S9xDoHEventProcessing m.tick
      { m.CPU with Cycles := m.CPU.Cycles + SLOW_ONE_CYCLE }).HDMARanInDMA &&& (1 <<< c.val) = 0
  · left
    simp [UPDATE_COUNTERS, UPDATE_COUNTERS_reverse, addCyclesInDMA, ADD_CYCLES, setDMA, h,
      afterStep, stepChannel, stepOffset]
  · right
    simp [UPDATE_COUNTERS, UPDATE_COUNTERS_reverse, addCyclesInDMA, ADD_CYCLES, setDMA, h,
      afterStep, stepChannel]

theorem transfer_add (F : Facade) (c : Fin 8) (inc : Int) (pat : Nat → Emit) :
    ∀ (a b i : Nat) (m : Machine) (p : Nat),
      transfer F c inc pat (a + b) i m p
        = match transfer F c inc pat a i m p with
          | Outcome.aborted m1 => Outcome.aborted m1
          | Outcome.done m1 p1 => transfer F c inc pat b (i + a) m1 p1 := by
  intro a
  induction a with
  | zero => intro b i m p; simp [transfer]
  | succ a ih =>
    intro b i m p
    have hab : a + 1 + b = (a + b) + 1 := by omega
    rw [hab]
    simp only [transfer]
    cases h : UPDATE_COUNTERS F c inc (pat i m p) p with
    | aborted m1 => rfl
    | done m1 p1 =>
      simp only []
      rw [ih b (i + 1) m1 p1]
      have hidx : i + 1 + a = i + (a + 1) := by omega
      rw [hidx]

theorem transfer_done_inv (F : Facade) (c : Fin 8) (inc : Int) (pat : Nat → Emit)
    (hpat : ∀ j, Frame (pat j)) :
    ∀ (n i : Nat) (m : Machine) (p : Nat) (m1 : Machine) (p1 : Nat),
      transfer F c inc pat n i m p = Outcome.done m1 p1 → Stepped F c inc n m m1 := by
  intro n
  induction n with
  | zero =>
    intro i m p m1 p1 h
    simp only [transfer, Outcome.done.injEq] at h
    rw [← h.1]
    exact (Unchanged.refl m).stepped F c inc
  | succ n ih =>
    intro i m p m1 p1 h
    simp only [transfer] at h
    rcases UPDATE_COUNTERS_cases F c inc (pat i m p) p with ⟨h1, -⟩ | ⟨h1, -⟩
    · rw [h1] at h
      have hs := ((hpat i m p).stepped F c inc).trans
        ((afterStep_stepped F c inc (pat i m p)).trans (ih _ _ _ _ _ h))
      have hn : 0 + (1 + n) = n + 1 := by omega
      rwa [hn] at hs
    · rw [h1] at h
      simp at h

theorem reverseEmit_frame (F : Facade) (c : Fin 8) (reallySlow : Bool) (Reg : Nat) :
    Frame (reverseEmit F c reallySlow Reg) := by
  intro m p
  unfold reverseEmit reverseByte
  simp only []
  split_ifs <;> exact ⟨rfl, rfl, rfl, rfl, rfl, rfl, rfl, rfl, rfl, rfl, rfl, rfl⟩

theorem reverseCase_eq (F : Facade) (c : Fin 8) (inc : Int) (rs : Bool) (pat : Nat → Emit) :
    ∀ (Regs : List Nat) (count : Int) (m : Machine) (i p : Nat),
      Regs ≠ [] → 1 ≤ count →
      (∀ k, k < Regs.length → pat (i + k) = reverseEmit F c rs (Regs.getD k 0)) →
      reverseCase F c inc rs Regs count m
        = Outcome.map (fun _ => count - (min count.toNat Regs.length : Nat))
            (transfer F c inc pat (min count.toNat Regs.length) i m p) := by
  intro Regs
  induction Regs with
  | nil => intro count m i p h; exact absurd rfl h
  | cons Reg Regs ih =>
    intro count m i p _ hcount hpat
    have hcc : ∀ mm, checkCounter (count - 1) mm = mm :=
      fun mm => checkCounter_nonneg _ mm (by omega)
    have hp0 : pat i = reverseEmit F c rs Reg := by
      have := hpat 0 (by simp)
      simpa using this
    cases Regs with
    | nil =>
      have hmin : min count.toNat [Reg].length = 1 := by
        simp only [List.length_singleton]; omega
      rw [hmin]
      simp only [reverseCase, transfer, hp0, hcc]
      rcases UPDATE_COUNTERS_cases F c inc (reverseEmit F c rs Reg m p) p with ⟨h1, h2⟩ | ⟨h1, h2⟩
      · simp only [reverseEmit] at h1 h2
        simp only [reverseEmit, h1, h2, Outcome.map, Nat.cast_one]
      · simp only [reverseEmit] at h1 h2
        simp only [reverseEmit, h1, h2, Outcome.map]
    | cons Reg2 Regs =>
      obtain ⟨k, hk⟩ : ∃ k, min count.toNat (Reg :: Reg2 :: Regs).length = k + 1 :=
        ⟨min count.toNat (Reg :: Reg2 :: Regs).length - 1, by
          simp only [List.length_cons]; omega⟩
      rw [hk]
      simp only [reverseCase, transfer, hp0, hcc]
      rcases UPDATE_COUNTERS_cases F c inc (reverseEmit F c rs Reg m p) p with ⟨h1, h2⟩ | ⟨h1, h2⟩
      · simp only [reverseEmit] at h1 h2
        simp only [reverseEmit, h1, h2]
        by_cases hc : count - 1 = 0
        · have hk0 : k = 0 := by
            simp only [List.length_cons] at hk; omega
          subst hk0
          simp only [if_pos hc, transfer, Outcome.map, zero_add, Nat.cast_one]
        · rw [if_neg hc]
          have hih := ih (count - 1) (afterStep F c inc (reverseByte F c rs Reg m)) (i + 1)
            (stepOffset inc p) (by simp) (by omega)
            (by
              intro k2 hk2
              have := hpat (k2 + 1) (by simp only [List.length_cons] at hk2 ⊢; omega)
              have hidx : i + 1 + k2 = i + (k2 + 1) := by omega
              rw [hidx, this]
              simp)
          have hk2 : min (count - 1).toNat (Reg2 :: Regs).length = k := by
            simp only [List.length_cons] at hk ⊢; omega
          rw [hih, hk2]
          have hcast : count - 1 - (k : Int) = count - ((k + 1 : Nat) : Int) := by
            push_cast; ring
          rw [hcast]
      · simp only [reverseEmit] at h1 h2
        simp only [reverseEmit, h1, h2, Outcome.map]

theorem reverseLoop_eq (F : Facade) (c : Fin 8) (inc : Int) (rs : Bool) (Regs : List Nat)
    (hRegs : Regs ≠ []) :
    ∀ (fuel : Nat) (count : Int) (m : Machine) (i p : Nat),
      reverseRegisters (m.DMA c).TransferMode = some Regs → i % Regs.length = 0 →
      1 ≤ count → count.toNat ≤ fuel →
      reverseLoop F c inc rs fuel count m
        = Outcome.result (transfer F c inc (reversePattern F c rs Regs) count.toNat i m p) := by
  have hlen : 0 < Regs.length := List.length_pos.mpr hRegs
  intro fuel
  induction fuel with
  | zero => intro count m i p _ _ h1 h2; omega
  | succ fuel ih =>
    intro count m i p hregs hi hcount hfuel
    have hpat : ∀ k, k < Regs.length →
        reversePattern F c rs Regs (i + k) = reverseEmit F c rs (Regs.getD k 0) := by
      intro k hk
      have hmod : (i + k) % Regs.length = k := by
        rw [Nat.add_mod, hi, zero_add, Nat.mod_mod, Nat.mod_eq_of_lt hk]
      simp only [reversePattern, hmod]
    have hR := transfer_add F c inc (reversePattern F c rs Regs) (min count.toNat Regs.length)
      (count.toNat - min count.toNat Regs.length) i m p
    have hsum : min count.toNat Regs.length + (count.toNat - min count.toNat Regs.length)
        = count.toNat := by omega
    rw [hsum] at hR
    rw [reverseLoop, hR]
    simp only [hregs]
    rw [reverseCase_eq F c inc rs (reversePattern F c rs Regs) Regs count m i p hRegs hcount hpat]
    cases h : transfer F c inc (reversePattern F c rs Regs) (min count.toNat Regs.length) i m p with
    | aborted m1 => rfl
    | done m1 p1 =>
      simp only [Outcome.map]
      have hs := transfer_done_inv F c inc (reversePattern F c rs Regs)
        (fun j => reverseEmit_frame F c rs _) _ _ _ _ _ _ h
      by_cases hc : count - (min count.toNat Regs.length : Nat) ≠ 0
      · rw [if_pos hc]
        have hfull : min count.toNat Regs.length = Regs.length := by omega
        rw [ih (count - (min count.toNat Regs.length : Nat)) m1
          (i + min count.toNat Regs.length) p1
          (by rw [hs.transferMode]; exact hregs)
          (by rw [hfull, Nat.add_mod_right]; exact hi)
          (by omega) (by omega)]
        have hn : (count - (min count.toNat Regs.length : Nat)).toNat
            = count.toNat - min count.toNat Regs.length := by omega
        rw [hn]
      · rw [if_neg hc]
        have hn : count.toNat - min count.toNat Regs.length = 0 := by omega
        rw [hn]
        rfl

theorem reverseRegisters_some (mode : Nat) (h : mode ≤ 7) :
    ∃ Regs, reverseRegisters mode = some Regs ∧ Regs ≠ [] := by
  unfold reverseRegisters
  split_ifs
  · exact ⟨_, rfl, by simp⟩
  · exact ⟨_, rfl, by simp⟩
  · exact ⟨_, rfl, by simp⟩
  · exact ⟨_, rfl, by simp⟩
  · omega

theorem reverseLoop_done (F : Facade) (c : Fin 8) (inc : Int) (rs : Bool) (count : Int)
    (m : Machine) (hmode : (m.DMA c).TransferMode ≤ 7) (hcount : 1 ≤ count)
    (hnc : ∀ t, m.tick ≤ t → t < m.tick + count.toNat → NoCollisionAt F c t) :
    ∃ m1, reverseLoop F c inc rs (chunkFuel count) count m = (true, m1)
      ∧ Stepped F c inc count.toNat m m1 := by
  obtain ⟨Regs, hregs, hne⟩ := reverseRegisters_some _ hmode
  obtain ⟨m1, he, hs⟩ := transfer_done F c inc (reversePattern F c rs Regs)
    (fun j => reverseEmit_frame F c rs _) count.toNat 0 m 0 hnc
  refine ⟨m1, ?_, hs⟩
  rw [reverseLoop_eq F c inc rs Regs hne (chunkFuel count) count m 0 0 hregs (by simp) hcount
    (by unfold chunkFuel; omega), he]
  rfl

theorem reverseDMA_done (F : Facade) (c : Fin 8) (inc : Int) (count : Int)
    (m : Machine) (hmode : (m.DMA c).TransferMode ≤ 7) (hcount : 1 ≤ count)
    (hnc : ∀ t, m.tick ≤ t → t < m.tick + count.toNat → NoCollisionAt F c t) :
    ∃ m1, reverseDMA F c inc count m = (true, m1) ∧ Stepped F c inc count.toNat m m1 := by
  unfold reverseDMA
  simp only []
  split_ifs
  · exact reverseLoop_done F c inc true count m hmode hcount hnc
  · obtain ⟨m1, he, hs⟩ := reverseLoop_done F c inc false count
      (setInWRAM m ((m.DMA c).ABank == 0x7e || (m.DMA c).ABank == 0x7f)) hmode hcount hnc
    refine ⟨m1, he, ?_⟩
    have := ((setInWRAM_unchanged m _).stepped F c inc).trans hs
    simpa using this

theorem stepChannel_one (d : SDMA) :
    stepChannel 1 d =
      { d with DMACount_Or_HDMAIndirectAddress :=
                 (d.DMACount_Or_HDMAIndirectAddress + 0xFFFF) % 0x10000,
               AAddress := (d.AAddress + 1) % 0x10000 } := by
  have h : (((d.AAddress : Int) + 1) % 0x10000).toNat = (d.AAddress + 1) % 0x10000 := by omega
  simp only [stepChannel, h]

theorem invalidLoop_done (F : Facade) (c : Fin 8) :
    ∀ (n : Nat) (m : Machine),
      (∀ t, m.tick ≤ t → t < m.tick + n → NoCollisionAt F c t) →
      ∃ m1, invalidLoop F c n m = (true, m1) ∧ Stepped F c 1 n m m1 ∧ m1.log = m.log := by
  intro n
  induction n with
  | zero => intro m _; exact ⟨m, rfl, (Unchanged.refl m).stepped F c 1, rfl⟩
  | succ n ih =>
    intro m hnc
    have h2 := hnc m.tick (le_refl _) (by omega)
      { m.CPU with Cycles := m.CPU.Cycles + SLOW_ONE_CYCLE }
    have hstep : addCyclesInDMA F c (setDMA m c
        { m.DMA c with
          DMACount_Or_HDMAIndirectAddress :=
            ((m.DMA c).DMACount_Or_HDMAIndirectAddress + 0xFFFF) % 0x10000,
          AAddress := ((m.DMA c).AAddress + 1) % 0x10000 }) = (true, afterStep F c 1 m) := by
      simp [addCyclesInDMA, ADD_CYCLES, setDMA, h2, afterStep, stepChannel_one]
    obtain ⟨m1, he, hs, hl⟩ := ih (afterStep F c 1 m) (by
      intro t ht1 ht2
      exact hnc t (by simp only [afterStep] at ht1; omega)
        (by simp only [afterStep] at ht2; omega))
    refine ⟨m1, ?_, ?_, ?_⟩
    · simp only [invalidLoop, hstep, he]
    · have := (afterStep_stepped F c 1 m).trans hs
      rwa [Nat.add_comm 1 n] at this
    · rw [hl]; rfl

theorem invalidLoop_aborted (F : Facade) (c : Fin 8) :
    ∀ (n j : Nat) (m : Machine), j < n →
      (∀ t, m.tick ≤ t → t < m.tick + j → NoCollisionAt F c t) →
      CollisionAt F c (m.tick + j) →
      ∃ m1, invalidLoop F c n m = (false, m1) ∧ Stepped F c 1 (j + 1) m m1
        ∧ m1.log = m.log := by
  intro n
  induction n with
  | zero => intro j m hj; omega
  | succ n ih =>
    intro j m hj hnc hcol
    cases j with
    | zero =>
      have h2 := hcol { m.CPU with Cycles := m.CPU.Cycles + SLOW_ONE_CYCLE }
      simp only [Nat.add_zero] at h2
      have hstep : addCyclesInDMA F c (setDMA m c
          { m.DMA c with
            DMACount_Or_HDMAIndirectAddress :=
              ((m.DMA c).DMACount_Or_HDMAIndirectAddress + 0xFFFF) % 0x10000,
            AAddress := ((m.DMA c).AAddress + 1) % 0x10000 })
          = (false, afterStep F c 1 m) := by
        simp [addCyclesInDMA, ADD_CYCLES, setDMA, h2, afterStep, stepChannel_one]
      refine ⟨leaveInvalidDMA (afterStep F c 1 m), ?_, ?_, rfl⟩
      · simp only [invalidLoop, hstep]
      · have hu : Unchanged (afterStep F c 1 m) (leaveInvalidDMA (afterStep F c 1 m)) :=
          ⟨rfl, rfl, rfl, rfl, rfl, rfl, rfl, rfl, rfl, rfl, rfl, rfl⟩
        have := (afterStep_stepped F c 1 m).trans (hu.stepped F c 1)
        simpa using this
    | succ j =>
      have h2 := hnc m.tick (le_refl _) (by omega)
        { m.CPU with Cycles := m.CPU.Cycles + SLOW_ONE_CYCLE }
      have hstep : addCyclesInDMA F c (setDMA m c
          { m.DMA c with
            DMACount_Or_HDMAIndirectAddress :=
              ((m.DMA c).DMACount_Or_HDMAIndirectAddress + 0xFFFF) % 0x10000,
            AAddress := ((m.DMA c).AAddress + 1) % 0x10000 }) = (true, afterStep F c 1 m) := by
        simp [addCyclesInDMA, ADD_CYCLES, setDMA, h2, afterStep, stepChannel_one]
      obtain ⟨m1, he, hs, hl⟩ := ih j (afterStep F c 1 m) (by omega)
        (by
          intro t ht1 ht2
          exact hnc t (by simp only [afterStep] at ht1; omega)
            (by simp only [afterStep] at ht2; omega))
        (by
          have : (afterStep F c 1 m).tick + j = m.tick + (j + 1) := by
            simp only [afterStep]; omega
          rw [this]; exact hcol)
      refine ⟨m1, ?_, ?_, ?_⟩
      · simp only [invalidLoop, hstep, he]
      · have := (afterStep_stepped F c 1 m).trans hs
        rwa [Nat.add_comm 1 (j + 1)] at this
      · rw [hl]; rfl

/-! ## `S9xDoDMA` as a whole -/

theorem transferCount_pos (d : SDMA) : 1 ≤ ((transferCount d : Nat) : Int) := by
  unfold transferCount
  split_ifs <;> omega

theorem S9xDoDMA_invalid_done (F : Facade) (c : Fin 8) (m : Machine)
    (hinv : invalidDMA (m.DMA c) = true)
    (hnc : ∀ t, m.tick ≤ t → t < m.tick + transferCount (m.DMA c) → NoCollisionAt F c t) :
    ∃ m1, S9xDoDMA F c m = (true, leaveInvalidDMA m1)
      ∧ Stepped F c 1 (transferCount (m.DMA c)) (ADD_CYCLES SLOW_ONE_CYCLE (enterDMA c m)) m1
      ∧ m1.log = m.log := by
  obtain ⟨m1, he, hs, hl⟩ := invalidLoop_done F c (transferCount (m.DMA c))
    (ADD_CYCLES SLOW_ONE_CYCLE (enterDMA c m)) hnc
  refine ⟨m1, ?_, hs, hl⟩
  have hinv2 : invalidDMA ((enterDMA c m).DMA c) = true := hinv
  have he2 : invalidLoop F c (transferCount ((enterDMA c m).DMA c))
      (ADD_CYCLES SLOW_ONE_CYCLE (enterDMA c m)) = (true, m1) := he
  simp only [S9xDoDMA, hinv2, if_true, he2]

theorem S9xDoDMA_invalid_aborted (F : Facade) (c : Fin 8) (m : Machine) (j : Nat)
    (hinv : invalidDMA (m.DMA c) = true) (hj : j < transferCount (m.DMA c))
    (hnc : ∀ t, m.tick ≤ t → t < m.tick + j → NoCollisionAt F c t)
    (hcol : CollisionAt F c (m.tick + j)) :
    ∃ m1, S9xDoDMA F c m = (false, m1)
      ∧ Stepped F c 1 (j + 1) (ADD_CYCLES SLOW_ONE_CYCLE (enterDMA c m)) m1
      ∧ m1.log = m.log := by
  obtain ⟨m1, he, hs, hl⟩ := invalidLoop_aborted F c (transferCount (m.DMA c)) j
    (ADD_CYCLES SLOW_ONE_CYCLE (enterDMA c m)) hj hnc hcol
  refine ⟨m1, ?_, hs, hl⟩
  have hinv2 : invalidDMA ((enterDMA c m).DMA c) = true := hinv
  have he2 : invalidLoop F c (transferCount ((enterDMA c m).DMA c))
      (ADD_CYCLES SLOW_ONE_CYCLE (enterDMA c m)) = (false, m1) := he
  simp only [S9xDoDMA, hinv2, if_true, he2]

theorem clearSDD1_tick (m : Machine) : (clearSDD1 m).tick = m.tick := by
  unfold clearSDD1; split_ifs <;> rfl

theorem clearSDD1_DMA (m : Machine) : (clearSDD1 m).DMA = m.DMA := by
  unfold clearSDD1; split_ifs <;> rfl

theorem clearSDD1_CPU (m : Machine) : (clearSDD1 m).CPU = m.CPU := by
  unfold clearSDD1; split_ifs <;> rfl

theorem clearSDD1_log (m : Machine) : (clearSDD1 m).log = m.log := by
  unfold clearSDD1; split_ifs <;> rfl

theorem startDMA_tick (c : Fin 8) (m : Machine) : (startDMA c m).tick = m.tick := by
  simp only [startDMA, ADD_CYCLES, clearSDD1_tick, enterDMA]

theorem startDMA_DMA (c : Fin 8) (m : Machine) : (startDMA c m).DMA = m.DMA := by
  simp only [startDMA, ADD_CYCLES, clearSDD1_DMA, enterDMA]

theorem startDMA_log (c : Fin 8) (m : Machine) : (startDMA c m).log = m.log := by
  simp only [startDMA, ADD_CYCLES, clearSDD1_log, enterDMA]

theorem startDMA_Cycles (c : Fin 8) (m : Machine) :
    (startDMA c m).CPU.Cycles = m.CPU.Cycles + SLOW_ONE_CYCLE := by
  simp only [startDMA, ADD_CYCLES, clearSDD1_CPU, enterDMA]

theorem S9xDoDMA_valid_done (F : Facade) (c : Fin 8) (m : Machine)
    (hM : F.MEMMAP_MASK < F.MEMMAP_BLOCK_SIZE)
    (hinv : invalidDMA (m.DMA c) = false) (hmode : (m.DMA c).TransferMode ≤ 7)
    (hnc : ∀ t, m.tick ≤ t → t < m.tick + transferCount (m.DMA c) → NoCollisionAt F c t) :
    ∃ m1, S9xDoDMA F c m = (true, leaveDMA (rescheduleNMI m1))
      ∧ Stepped F c (startIncrement (enterDMA c m) (m.DMA c)) (transferCount (m.DMA c))
          (startDMA c m) m1 := by
  have hinv2 : invalidDMA ((enterDMA c m).DMA c) = false := hinv
  have hmode2 : ((startDMA c m).DMA c).TransferMode ≤ 7 := by rw [startDMA_DMA]; exact hmode
  have hnc2 : ∀ t, (startDMA c m).tick ≤ t →
      t < (startDMA c m).tick + ((transferCount (m.DMA c) : Nat) : Int).toNat →
      NoCollisionAt F c t := by
    intro t ht1 ht2
    rw [startDMA_tick] at ht1 ht2
    exact hnc t ht1 (by simpa using ht2)
  by_cases hrev : (m.DMA c).ReverseTransfer = true
  · obtain ⟨m1, he, hs⟩ := reverseDMA_done F c (startIncrement (enterDMA c m) (m.DMA c))
      (transferCount (m.DMA c)) (startDMA c m) hmode2 (transferCount_pos _) hnc2
    refine ⟨m1, ?_, by simpa using hs⟩
    have hrev2 : ((enterDMA c m).DMA c).ReverseTransfer = true := hrev
    have he2 : reverseDMA F c (startIncrement (enterDMA c m) ((enterDMA c m).DMA c))
        (transferCount ((enterDMA c m).DMA c))
        (ADD_CYCLES SLOW_ONE_CYCLE (clearSDD1 (enterDMA c m))) = (true, m1) := he
    simp only [S9xDoDMA, hinv2, hrev2, he2]
    simp
  · obtain ⟨m1, he, hs⟩ := forwardDMA_done F c (startIncrement (enterDMA c m) (m.DMA c))
      (sdd1Active (enterDMA c m) (m.DMA c)) (transferCount (m.DMA c)) (startDMA c m) hM
      hmode2 (transferCount_pos _) hnc2
    refine ⟨m1, ?_, by simpa using hs⟩
    have hrev2 : ((enterDMA c m).DMA c).ReverseTransfer = false := by
      simpa using hrev
    have he2 : forwardDMA F c (startIncrement (enterDMA c m) ((enterDMA c m).DMA c))
        (sdd1Active (enterDMA c m) ((enterDMA c m).DMA c))
        (transferCount ((enterDMA c m).DMA c))
        (ADD_CYCLES SLOW_ONE_CYCLE (clearSDD1 (enterDMA c m))) = (true, m1) := he
    simp only [S9xDoDMA, hinv2, hrev2, he2]
    simp

theorem quietFacade_noCollision (c : Fin 8) : NoCollision quietFacade c := by
  intro t cpu
  simp [quietFacade, quietEvents]

theorem quietFacade_noExtraCycles : NoExtraCycles quietFacade := by
  intro t cpu
  rfl

theorem collidingFacade_before (k t : Nat) (h : t ≠ k) (c : Fin 8) :
    NoCollisionAt (collidingFacade k) c t := by
  intro cpu
  simp [collidingFacade, h]

theorem collidingFacade_at (k : Nat) : CollisionAt (collidingFacade k) 0 k := by
  intro cpu
  simp [collidingFacade]

/-! ## Arithmetic of the stepped registers -/

theorem iterate_stepChannel_count (inc : Int) (n : Nat) (d : SDMA) :
    ((stepChannel inc)^[n + 1] d).DMACount_Or_HDMAIndirectAddress
      = (d.DMACount_Or_HDMAIndirectAddress + (n + 1) * 0xFFFF) % 0x10000 := by
  induction n generalizing d with
  | zero => simp [stepChannel]
  | succ n ih =>
    rw [Function.iterate_succ_apply, ih (stepChannel inc d)]
    simp only [stepChannel]
    omega

theorem iterate_stepChannel_AAddress (inc : Int) (hinc : inc = 0 ∨ inc = 1 ∨ inc = -1)
    (n : Nat) (d : SDMA) :
    ((stepChannel inc)^[n + 1] d).AAddress
      = (((d.AAddress : Int) + ((n + 1 : Nat) : Int) * inc) % 0x10000).toNat := by
  induction n generalizing d with
  | zero => simp [stepChannel]
  | succ n ih =>
    rw [Function.iterate_succ_apply, ih (stepChannel inc d)]
    simp only [stepChannel]
    rcases hinc with h | h | h <;> subst h <;> push_cast <;> omega

theorem increment_cases (d : SDMA) : increment d = 0 ∨ increment d = 1 ∨ increment d = -1 := by
  unfold increment
  split_ifs <;> simp

theorem transferCount_register (inc : Int) (d : SDMA) :
    ((stepChannel inc)^[transferCount d] d).DMACount_Or_HDMAIndirectAddress = 0 := by
  obtain ⟨k, hk⟩ : ∃ k, transferCount d = k + 1 :=
    ⟨transferCount d - 1, by have := transferCount_pos d; omega⟩
  rw [hk, iterate_stepChannel_count]
  unfold transferCount at hk
  split_ifs at hk <;> omega

/-! ## Claims about `S9xDoDMA` -/

theorem rescheduleNMI_Cycles (m : Machine) : (rescheduleNMI m).CPU.Cycles = m.CPU.Cycles := by
  unfold rescheduleNMI; split_ifs <;> rfl

theorem rescheduleNMI_log (m : Machine) : (rescheduleNMI m).log = m.log := by
  unfold rescheduleNMI; split_ifs <;> rfl

theorem rescheduleNMI_DMA (m : Machine) : (rescheduleNMI m).DMA = m.DMA := by
  unfold rescheduleNMI; split_ifs <;> rfl

theorem rescheduleNMI_tick (m : Machine) : (rescheduleNMI m).tick = m.tick := by
  unfold rescheduleNMI; split_ifs <;> rfl

/-- C5, as stated, fails: the invalid DMA of 3 bytes of `invalidMachine` starts
with `AAddress = 0` and ends with `AAddress = 3`, the loop executing
`++d->AAddress` once per byte. -/
theorem C5_counterexample :
    (invalidMachine.DMA 0).ABank = 0x7E ∧ (invalidMachine.DMA 0).BAddress = 0x80
    ∧ (invalidMachine.DMA 0).ReverseTransfer = false
    ∧ (S9xDoDMA quietFacade 0 invalidMachine).1 = true
    ∧ ((S9xDoDMA quietFacade 0 invalidMachine).2.DMA 0).AAddress = 3
    ∧ ((S9xDoDMA quietFacade 0 invalidMachine).2.DMA 0).AAddress
        ≠ (invalidMachine.DMA 0).AAddress := by
  decide

/-- C5, amended: in the invalid-DMA configuration a completed `S9xDoDMA`
decrements the count once per byte down to 0, consumes `8 + 8 * N` cycles when
event processing adds none, and increments `AAddress` once per byte: on return
`AAddress` is its initial value plus `N`, modulo `0x10000`. -/
theorem C5_invalid_DMA_advances_AAddress (F : Facade) (c : Fin 8) (m : Machine)
    (hbank : (m.DMA c).ABank = 0x7E ∨ (m.DMA c).ABank = 0x7F)
    (hreg : (m.DMA c).BAddress = 0x80) (hfwd : (m.DMA c).ReverseTransfer = false)
    (hnc : NoCollision F c) :
    (S9xDoDMA F c m).1 = true
    ∧ (S9xDoDMA F c m).2.tick = m.tick + transferCount (m.DMA c)
    ∧ ((S9xDoDMA F c m).2.DMA c).DMACount_Or_HDMAIndirectAddress = 0
    ∧ ((S9xDoDMA F c m).2.DMA c).AAddress
        = ((m.DMA c).AAddress + transferCount (m.DMA c)) % 0x10000
    ∧ (NoExtraCycles F → (S9xDoDMA F c m).2.CPU.Cycles
        = m.CPU.Cycles + 8 + 8 * (transferCount (m.DMA c) : Int)) := by
  have hinv : invalidDMA (m.DMA c) = true := by
    rcases hbank with h | h <;> simp [invalidDMA, h, hreg, hfwd]
  obtain ⟨m1, he, hs, -⟩ := S9xDoDMA_invalid_done F c m hinv (fun t _ _ => hnc t)
  obtain ⟨k, hk⟩ : ∃ k, transferCount (m.DMA c) = k + 1 :=
    ⟨transferCount (m.DMA c) - 1, by have := transferCount_pos (m.DMA c); omega⟩
  rw [he]
  refine ⟨rfl, hs.tick, ?_, ?_, ?_⟩
  · show (m1.DMA c).DMACount_Or_HDMAIndirectAddress = 0
    rw [hs.dma, Function.update_same]
    exact transferCount_register 1 (m.DMA c)
  · show (m1.DMA c).AAddress = _
    rw [hs.dma, Function.update_same]
    show ((stepChannel 1)^[transferCount (m.DMA c)] (m.DMA c)).AAddress = _
    rw [hk, iterate_stepChannel_AAddress 1 (by simp)]
    push_cast
    omega
  · intro hn
    show m1.CPU.Cycles = _
    rw [hs.cycles hn]
    simp only [ADD_CYCLES, enterDMA, SLOW_ONE_CYCLE]

/-- Witness of the amended C5 on `invalidMachine`. -/
theorem C5_witness :
    (S9xDoDMA quietFacade 0 invalidMachine).1 = true
    ∧ (S9xDoDMA quietFacade 0 invalidMachine).2.tick
        = invalidMachine.tick + transferCount (invalidMachine.DMA 0)
    ∧ ((S9xDoDMA quietFacade 0 invalidMachine).2.DMA 0).DMACount_Or_HDMAIndirectAddress = 0
    ∧ ((S9xDoDMA quietFacade 0 invalidMachine).2.DMA 0).AAddress
        = ((invalidMachine.DMA 0).AAddress + transferCount (invalidMachine.DMA 0)) % 0x10000
    ∧ (S9xDoDMA quietFacade 0 invalidMachine).2.CPU.Cycles
        = invalidMachine.CPU.Cycles + 8 + 8 * (transferCount (invalidMachine.DMA 0) : Int) :=
  have h := C5_invalid_DMA_advances_AAddress quietFacade 0 invalidMachine (by decide)
    (by decide) (by decide) (by intro t cpu; simp [quietFacade, quietEvents])
  ⟨h.1, h.2.1, h.2.2.1, h.2.2.2.1, h.2.2.2.2 (by intro t cpu; rfl)⟩

/-- C6: every completed `S9xDoDMA` of `N` bytes (valid or invalid
configuration, either direction, mode in 0..7), when event processing adds no
cycles of its own, increases `CPU.Cycles` by `SLOW_ONE_CYCLE * (1 + N)`, that
is by `8 + 8 * N`. -/
theorem C6_cycles_of_completed_DMA (F : Facade) (c : Fin 8) (m : Machine)
    (hM : F.MEMMAP_MASK < F.MEMMAP_BLOCK_SIZE)
    (hmode : (m.DMA c).TransferMode ≤ 7) (hnc : NoCollision F c)
    (hquiet : NoExtraCycles F) :
    (S9xDoDMA F c m).1 = true
    ∧ (S9xDoDMA F c m).2.CPU.Cycles
        = m.CPU.Cycles + SLOW_ONE_CYCLE * (1 + (transferCount (m.DMA c) : Int))
    ∧ (S9xDoDMA F c m).2.CPU.Cycles
        = m.CPU.Cycles + 8 + 8 * (transferCount (m.DMA c) : Int) := by
  have key : (S9xDoDMA F c m).1 = true ∧ (S9xDoDMA F c m).2.CPU.Cycles
      = m.CPU.Cycles + SLOW_ONE_CYCLE + SLOW_ONE_CYCLE * (transferCount (m.DMA c) : Int) := by
    by_cases hinv : invalidDMA (m.DMA c) = true
    · obtain ⟨m1, he, hs, -⟩ := S9xDoDMA_invalid_done F c m hinv (fun t _ _ => hnc t)
      rw [he]
      refine ⟨rfl, ?_⟩
      show m1.CPU.Cycles = _
      rw [hs.cycles hquiet]
      rfl
    · obtain ⟨m1, he, hs⟩ := S9xDoDMA_valid_done F c m hM (by simpa using hinv) hmode
        (fun t _ _ => hnc t)
      rw [he]
      refine ⟨rfl, ?_⟩
      show (rescheduleNMI m1).CPU.Cycles = _
      rw [rescheduleNMI_Cycles, hs.cycles hquiet, startDMA_Cycles]
  refine ⟨key.1, ?_, ?_⟩
  · rw [key.2]; ring
  · rw [key.2]; simp only [SLOW_ONE_CYCLE]

/-- Witness of C6: the 5-byte transfer of `sampleMachine` takes 48 cycles. -/
theorem C6_witness :
    (S9xDoDMA quietFacade 0 sampleMachine).1 = true
    ∧ (S9xDoDMA quietFacade 0 sampleMachine).2.CPU.Cycles
        = sampleMachine.CPU.Cycles
          + SLOW_ONE_CYCLE * (1 + (transferCount (sampleMachine.DMA 0) : Int))
    ∧ (S9xDoDMA quietFacade 0 sampleMachine).2.CPU.Cycles
        = sampleMachine.CPU.Cycles + 8 + 8 * (transferCount (sampleMachine.DMA 0) : Int) :=
  C6_cycles_of_completed_DMA quietFacade 0 sampleMachine (by decide) (by decide)
    (by intro t cpu; simp [quietFacade, quietEvents]) (by intro t cpu; rfl)

theorem loopPair_eq_at (F : Facade) (c : Fin 8) (inc : Int) (e0 e1 : Emit)
    (i : Nat) (count : Int) (m : Machine) (p : Nat) (h1 : 1 ≤ count) :
    loopPair F c inc e0 e1 ((i % 2 : Nat) : Int) count m p
      = Outcome.map (fun q => (q, (((i + count.toNat) % 2 : Nat) : Int)))
          (transfer F c inc (pairPattern e0 e1) count.toNat i m p) := by
  have h := duffWhole_eq F c inc e0 e1 (count.toNat + 2) count i m p (by omega)
  rcases Nat.mod_two_eq_zero_or_one i with hi | hi
  · have h2 := h.1 hi (by omega)
    simp only [duffWhole] at h2
    simp only [loopPair, hi]
    exact h2
  · have h2 := h.2 hi h1
    simp only [duffWhole] at h2
    simp only [loopPair, hi]
    exact h2

theorem switchLabel_mod (i : Nat) : switchLabel ((i % 4 : Nat) : Int) = i % 4 := by
  have h : i % 4 < 4 := Nat.mod_lt _ (by decide)
  unfold switchLabel
  interval_cases i % 4 <;> simp

theorem slowChunk_eq (F : Facade) (c : Fin 8) (inc : Int) (i : Nat) (count : Int)
    (m : Machine) (p : Nat) (hmode : (m.DMA c).TransferMode ≤ 7) (h1 : 1 ≤ count) :
    slowChunk F c inc ((i % (pattern (m.DMA c).TransferMode).length : Nat) : Int) count m p
      = Outcome.map
          (fun q => (q, (((i + count.toNat) % (pattern (m.DMA c).TransferMode).length : Nat)
            : Int)))
          (transfer F c inc (slowPattern F c (m.DMA c).TransferMode) count.toNat i m p) := by
  unfold slowChunk
  simp only []
  split_ifs with hA hB hC hD
  · have hp : pattern (m.DMA c).TransferMode = [0] := by simp [pattern, hA]
    have hpat : slowPattern F c (m.DMA c).TransferMode = fun _ => slowByte F c 0x2100 := by
      funext j
      simp [slowPattern, patternOffset, hp]
    rw [loopSingle_eq F c inc _ (chunkFuel count) count i m p h1 (by unfold chunkFuel; omega),
      hpat, hp]
    simp
  · have hp : pattern (m.DMA c).TransferMode = [0, 1] := by simp [pattern, hA, hB]
    have hpat : slowPattern F c (m.DMA c).TransferMode
        = pairPattern (slowByte F c 0x2100) (slowByte F c 0x2101) := by
      funext j
      rcases Nat.mod_two_eq_zero_or_one j with hj | hj <;>
        simp [slowPattern, patternOffset, hp, pairPattern, hj]
    rw [hpat, hp]
    exact loopPair_eq_at F c inc _ _ i count m p h1
  · have hp : pattern (m.DMA c).TransferMode = [0, 0, 1, 1] := by simp [pattern, hA, hB, hC]
    have hpat : slowPattern F c (m.DMA c).TransferMode
        = fun j => (fun k => slowByte F c (if k = 0 ∨ k = 1 then 0x2100 else 0x2101)) (j % 4) := by
      funext j
      have hj : j % 4 < 4 := Nat.mod_lt _ (by decide)
      simp only [slowPattern, patternOffset, hp, List.length_cons, List.length_nil]
      interval_cases j % 4 <;> simp
    rw [hpat, hp]
    simp only [List.length_cons, List.length_nil, Nat.reduceAdd]
    rw [switchLabel_mod]
    exact loopQuad_eq F c inc _ (chunkFuel count) count i m p h1 (by unfold chunkFuel; omega)
  · have hp : pattern (m.DMA c).TransferMode = [0, 1, 2, 3] := by
      simp [pattern, hA, hB, hC, hD]
    have hpat : slowPattern F c (m.DMA c).TransferMode
        = fun j => (fun k => slowByte F c (0x2100 + k)) (j % 4) := by
      funext j
      have hj : j % 4 < 4 := Nat.mod_lt _ (by decide)
      simp only [slowPattern, patternOffset, hp, List.length_cons, List.length_nil]
      interval_cases j % 4 <;> simp
    rw [hpat, hp]
    simp only [List.length_cons, List.length_nil, Nat.reduceAdd]
    rw [switchLabel_mod]
    exact loopQuad_eq F c inc _ (chunkFuel count) count i m p h1 (by unfold chunkFuel; omega)
  · omega

theorem ppuWrites_slowByte (F : Facade) (c : Fin 8) (Reg : Nat) (m : Machine) (p : Nat) :
    ppuWrites (slowByte F c Reg m p).log = ppuWrites m.log ++ [Reg + (m.DMA c).BAddress] := by
  simp [ppuWrites, slowByte, record, List.filterMap_append]

theorem transfer_slow_log (F : Facade) (c : Fin 8) (inc : Int) (mode : Nat) :
    ∀ (n i : Nat) (m : Machine) (p : Nat) (m1 : Machine) (p1 : Nat),
      transfer F c inc (slowPattern F c mode) n i m p = Outcome.done m1 p1 →
      ppuWrites m1.log = ppuWrites m.log
        ++ (List.range' i n).map (fun j => 0x2100 + patternOffset mode j + (m.DMA c).BAddress) := by
  intro n
  induction n with
  | zero =>
    intro i m p m1 p1 h
    simp only [transfer, Outcome.done.injEq] at h
    simp [← h.1]
  | succ n ih =>
    intro i m p m1 p1 h
    simp only [transfer] at h
    rcases UPDATE_COUNTERS_cases F c inc (slowPattern F c mode i m p) p with ⟨h1, -⟩ | ⟨h1, -⟩
    · rw [h1] at h
      have hih := ih (i + 1) _ _ m1 p1 h
      have hB : ((afterStep F c inc (slowPattern F c mode i m p)).DMA c).BAddress
          = (m.DMA c).BAddress := by
        simp [afterStep, stepChannel, slowPattern, slowByte, record]
      have hlog : (afterStep F c inc (slowPattern F c mode i m p)).log
          = (slowByte F c (0x2100 + patternOffset mode i) m p).log := rfl
      rw [hih, hB, hlog, ppuWrites_slowByte, List.range'_succ, List.map_cons,
        List.append_assoc]
      rfl
    · rw [h1] at h
      simp at h

theorem Stepped.BAddress {F : Facade} {c : Fin 8} {inc : Int} {n : Nat}
    {m m1 : Machine} (h : Stepped F c inc n m m1) :
    (m1.DMA c).BAddress = (m.DMA c).BAddress := by
  rw [h.dma, Function.update_same]
  exact (iterate_stepChannel_config inc n _).2.1

theorem forwardLoop_slow (F : Facade) (c : Fin 8) (inc : Int) (sdd : Bool)
    (hB : 0 < F.MEMMAP_BLOCK_SIZE) (hslow : ∀ a, F.S9xGetBasePointer a = none)
    (mode B : Nat) (hmode : mode ≤ 7) :
    ∀ (fuel i : Nat) (inW : Bool) (rem count : Int) (m : Machine) (p : Nat),
      (m.DMA c).TransferMode = mode → (m.DMA c).BAddress = B →
      1 ≤ rem → 1 ≤ count → rem.toNat ≤ fuel →
      (∀ t, m.tick ≤ t → t < m.tick + rem.toNat → NoCollisionAt F c t) →
      ∃ m1, forwardLoop F c inc sdd fuel ((i % (pattern mode).length : Nat) : Int) none inW
              rem count m p = (true, m1)
        ∧ Stepped F c inc rem.toNat m m1
        ∧ ppuWrites m1.log = ppuWrites m.log
            ++ (List.range' i rem.toNat).map (fun j => 0x2100 + patternOffset mode j + B) := by
  intro fuel
  induction fuel with
  | zero => intro i inW rem count m p _ _ h1 _ h2; omega
  | succ fuel ih =>
    intro i inW rem count m p hm hb hrem hcount hfuel hnc
    have hu := setInWRAM_unchanged m inW
    have hm2 : ((setInWRAM m inW).DMA c).TransferMode = mode := hm
    have hc1 : 1 ≤ (if count > rem then rem else count) := by split_ifs <;> omega
    have heq := slowChunk_eq F c inc i (if count > rem then rem else count) (setInWRAM m inW) p
      (by rw [hm2]; exact hmode) hc1
    rw [hm2] at heq
    obtain ⟨m1, he, hs⟩ := transfer_done F c inc (slowPattern F c mode)
      (fun j => slowByte_frame F c _) (if count > rem then rem else count).toNat i
      (setInWRAM m inW) p
      (by
        intro t ht1 ht2
        rw [hu.tick] at ht1 ht2
        exact hnc t ht1 (by split_ifs at ht2 <;> omega))
    have hlog := transfer_slow_log F c inc mode _ _ _ _ _ _ he
    have hlog2 : ppuWrites m1.log = ppuWrites m.log
        ++ (List.range' i (if count > rem then rem else count).toNat).map
            (fun j => 0x2100 + patternOffset mode j + B) := by
      rw [hlog]
      show ppuWrites m.log ++ _ = _
      have hb2 : ((setInWRAM m inW).DMA c).BAddress = B := hb
      rw [hb2]
    have hs0 : Stepped F c inc (if count > rem then rem else count).toNat m m1 := by
      have := (hu.stepped F c inc).trans hs
      simpa using this
    rw [forwardLoop]
    simp only [transferChunk, heq, he, Outcome.map]
    by_cases hlast : rem - (if count > rem then rem else count) ≤ 0
    · rw [if_pos hlast]
      have hn : (if count > rem then rem else count).toNat = rem.toNat := by
        split_ifs at hlast ⊢ <;> omega
      refine ⟨m1, rfl, ?_, ?_⟩
      · rwa [hn] at hs0
      · rwa [hn] at hlog2
    · rw [if_neg hlast, hslow]
      obtain ⟨m2, he2, hs2, hl2⟩ := ih (i + (if count > rem then rem else count).toNat)
        (inWRAM sdd (m1.DMA c)) (rem - (if count > rem then rem else count))
        F.MEMMAP_BLOCK_SIZE m1 ((stepOffset inc)^[(if count > rem then rem else count).toNat] p)
        (by rw [hs0.transferMode]; exact hm)
        (by rw [hs0.BAddress]; exact hb)
        (by omega) (by omega)
        (by split_ifs at hlast ⊢ <;> omega)
        (by
          intro t ht1 ht2
          rw [hs0.tick] at ht1 ht2
          exact hnc t (by omega) (by split_ifs at hlast ht1 ht2 ⊢ <;> omega))
      refine ⟨m2, he2, ?_, ?_⟩
      · have hn : (if count > rem then rem else count).toNat
            + (rem - (if count > rem then rem else count)).toNat = rem.toNat := by
          split_ifs at hlast ⊢ <;> omega
        have := hs0.trans hs2
        rwa [hn] at this
      · have hn : (rem - (if count > rem then rem else count)).toNat
            + (if count > rem then rem else count).toNat = rem.toNat := by
          split_ifs at hlast ⊢ <;> omega
        rw [hl2, hlog2, List.append_assoc, ← List.map_append, List.range'_append_1, hn]

theorem forwardDMA_slow (F : Facade) (c : Fin 8) (inc : Int) (count : Int) (m : Machine)
    (hM : F.MEMMAP_MASK < F.MEMMAP_BLOCK_SIZE) (hslow : ∀ a, F.S9xGetBasePointer a = none)
    (hmode : (m.DMA c).TransferMode ≤ 7) (hcount : 1 ≤ count)
    (hnc : ∀ t, m.tick ≤ t → t < m.tick + count.toNat → NoCollisionAt F c t) :
    ∃ m1, forwardDMA F c inc false count m = (true, m1)
      ∧ Stepped F c inc count.toNat m m1
      ∧ ppuWrites m1.log = ppuWrites m.log
          ++ (List.range' 0 count.toNat).map
              (fun j => 0x2100 + patternOffset (m.DMA c).TransferMode j + (m.DMA c).BAddress) := by
  have h := forwardLoop_slow F c inc false (by omega) hslow (m.DMA c).TransferMode
    (m.DMA c).BAddress hmode count.toNat 0 (inWRAM false (m.DMA c)) count
    (if false = true then count else
      if (m.DMA c).AAddressFixed then count
      else if (m.DMA c).AAddressDecrement then
        (((m.DMA c).AAddress &&& F.MEMMAP_MASK : Nat) : Int) + 1
      else (F.MEMMAP_BLOCK_SIZE : Int) - (((m.DMA c).AAddress &&& F.MEMMAP_MASK : Nat) : Int))
    m (m.DMA c).AAddress rfl rfl hcount
    (firstChunk_pos F hM (m.DMA c) false count hcount) (le_refl _) hnc
  simp only [Nat.zero_mod, Nat.cast_zero] at h
  unfold forwardDMA
  simp only [hslow, Bool.false_eq_true, if_false] at h ⊢
  exact h

/-- C2: in a forward DMA that is not the invalid-WRAM case and uses the slow
path (no address resolves to a base pointer, no S-DD1 redirection), with mode
in 0..7 and no collision, the `k`-th transferred byte (`k < N`) is written to
register `0x2100 + BAddress + pat[k mod len(pat)]`, however the transfer is
split into memory blocks: the registers written are exactly the list of these
`N` registers. -/
theorem C2_slow_path_register_pattern (F : Facade) (c : Fin 8) (m : Machine)
    (hM : F.MEMMAP_MASK < F.MEMMAP_BLOCK_SIZE) (hslow : ∀ a, F.S9xGetBasePointer a = none)
    (hsdd : sdd1Active m (m.DMA c) = false)
    (hinv : invalidDMA (m.DMA c) = false) (hfwd : (m.DMA c).ReverseTransfer = false)
    (hmode : (m.DMA c).TransferMode ≤ 7) (hnc : NoCollision F c) :
    (S9xDoDMA F c m).1 = true
    ∧ ppuWrites (S9xDoDMA F c m).2.log = ppuWrites m.log
        ++ (List.range (transferCount (m.DMA c))).map
            (fun k => 0x2100 + (m.DMA c).BAddress + patternOffset (m.DMA c).TransferMode k)
    ∧ ∀ k, k < transferCount (m.DMA c) →
        (ppuWrites (S9xDoDMA F c m).2.log)[(ppuWrites m.log).length + k]?
          = some (0x2100 + (m.DMA c).BAddress + patternOffset (m.DMA c).TransferMode k) := by
  have hinv2 : invalidDMA ((enterDMA c m).DMA c) = false := hinv
  have hfwd2 : ((enterDMA c m).DMA c).ReverseTransfer = false := hfwd
  have hsdd2 : sdd1Active (enterDMA c m) ((enterDMA c m).DMA c) = false := hsdd
  obtain ⟨m1, he, -, hl⟩ := forwardDMA_slow F c (startIncrement (enterDMA c m) (m.DMA c))
    (transferCount (m.DMA c)) (startDMA c m) hM hslow
    (by rw [startDMA_DMA]; exact hmode) (transferCount_pos _) (fun t _ _ => hnc t)
  have he2 : forwardDMA F c (startIncrement (enterDMA c m) ((enterDMA c m).DMA c)) false
      (transferCount ((enterDMA c m).DMA c))
      (ADD_CYCLES SLOW_ONE_CYCLE (clearSDD1 (enterDMA c m))) = (true, m1) := he
  have hres : S9xDoDMA F c m = (true, leaveDMA (rescheduleNMI m1)) := by
    simp only [S9xDoDMA, hinv2, hfwd2, hsdd2, he2]
    simp
  have hfun : (fun j => 0x2100 + patternOffset (m.DMA c).TransferMode j + (m.DMA c).BAddress)
      = (fun k => 0x2100 + (m.DMA c).BAddress + patternOffset (m.DMA c).TransferMode k) := by
    funext j; omega
  have hlist : ppuWrites (S9xDoDMA F c m).2.log = ppuWrites m.log
      ++ (List.range (transferCount (m.DMA c))).map
          (fun k => 0x2100 + (m.DMA c).BAddress + patternOffset (m.DMA c).TransferMode k) := by
    rw [hres]
    show ppuWrites (rescheduleNMI m1).log = _
    rw [rescheduleNMI_log, hl, startDMA_log, startDMA_DMA, hfun, List.range_eq_range']
    simp
  refine ⟨by rw [hres], hlist, ?_⟩
  intro k hk
  rw [hlist, List.getElem?_append_right (by omega)]
  simp [hk]

/-- Witness of C2: the mode-1 transfer of `sampleMachine`, split after 2 bytes
by a block boundary, writes `$2118 $2119 $2118 $2119 $2118`. -/
theorem C2_witness :
    (S9xDoDMA quietFacade 0 sampleMachine).1 = true
    ∧ ppuWrites (S9xDoDMA quietFacade 0 sampleMachine).2.log = ppuWrites sampleMachine.log
        ++ (List.range (transferCount (sampleMachine.DMA 0))).map
            (fun k => 0x2100 + (sampleMachine.DMA 0).BAddress
              + patternOffset (sampleMachine.DMA 0).TransferMode k)
    ∧ (ppuWrites (S9xDoDMA quietFacade 0 sampleMachine).2.log)[
          (ppuWrites sampleMachine.log).length + 3]?
        = some (0x2100 + (sampleMachine.DMA 0).BAddress
            + patternOffset (sampleMachine.DMA 0).TransferMode 3) :=
  have h := C2_slow_path_register_pattern quietFacade 0 sampleMachine (by decide)
    (fun _ => rfl) (by decide) (by decide) (by decide) (by decide)
    (by intro t cpu; simp [quietFacade, quietEvents])
  ⟨h.1, h.2.1, h.2.2 3 (by decide)⟩

/-! ## Claims about `HDMAReadLineCount` -/

/-- C7, as stated, fails: the line-count byte `0x45`, whose high bit is clear,
sets `Repeat` to true, and the byte `0xC5`, whose high bit is set, sets it to
false. -/
theorem C7_counterexample :
    lineCountByte (lineFacade 0x45) 0 sampleMachine = 0x45
    ∧ ((HDMAReadLineCount (lineFacade 0x45) 0 sampleMachine).2.DMA 0).Repeat = true
    ∧ lineCountByte (lineFacade 0xC5) 0 sampleMachine = 0xC5
    ∧ ((HDMAReadLineCount (lineFacade 0xC5) 0 sampleMachine).2.DMA 0).Repeat = false := by
  decide

/-- C7, amended: for every line-count byte `v` other than 0 read by
`HDMAReadLineCount`, `Repeat` is set to true exactly when `v` is `0x80` or the
high bit of `v` is clear: `0x80` gives true, `0x45` gives true and `0xC5`
gives false. -/
theorem C7_repeat_flag (F : Facade) (d : Fin 8) (m : Machine)
    (hv : lineCountByte F d m ≠ 0) :
    (((HDMAReadLineCount F d m).2.DMA d).Repeat = true
      ↔ (lineCountByte F d m = 0x80 ∨ lineCountByte F d m &&& 0x80 = 0))
    ∧ (lineCountByte F d m = 0x80 → ((HDMAReadLineCount F d m).2.DMA d).Repeat = true)
    ∧ (lineCountByte F d m = 0x45 → ((HDMAReadLineCount F d m).2.DMA d).Repeat = true)
    ∧ (lineCountByte F d m = 0xC5 → ((HDMAReadLineCount F d m).2.DMA d).Repeat = false) := by
  have key : ((HDMAReadLineCount F d m).2.DMA d).Repeat
      = (decide (lineCountByte F d m = 0x80) || (lineCountByte F d m &&& 0x80 == 0)) := by
    unfold HDMAReadLineCount
    simp only [hv, if_false]
    by_cases h80 : lineCountByte F d m = 0x80
    · simp only [h80, if_true]
      split_ifs <;> simp [setDMA, setHDMAMemPointer, ADD_CYCLES, record]
    · simp only [h80, if_false]
      split_ifs <;> simp [setDMA, setHDMAMemPointer, ADD_CYCLES, record]
  refine ⟨?_, ?_, ?_, ?_⟩
  · rw [key]; simp
  · intro h; rw [key, h]; decide
  · intro h; rw [key, h]; decide
  · intro h; rw [key, h]; decide

/-- Witness of the amended C7: the line-count byte `0x45`. -/
theorem C7_witness :
    (((HDMAReadLineCount (lineFacade 0x45) 0 sampleMachine).2.DMA 0).Repeat = true
      ↔ (lineCountByte (lineFacade 0x45) 0 sampleMachine = 0x80
          ∨ lineCountByte (lineFacade 0x45) 0 sampleMachine &&& 0x80 = 0))
    ∧ ((HDMAReadLineCount (lineFacade 0x45) 0 sampleMachine).2.DMA 0).Repeat = true :=
  have h := C7_repeat_flag (lineFacade 0x45) 0 sampleMachine (by decide)
  ⟨h.1, h.2.2.1 (by decide)⟩

/-- C8: for every channel and every line-count byte `v` read by
`HDMAReadLineCount`: the function returns false if and only if `v = 0`;
`LineCount` is 128 when `v` is `0x00` or `0x80` and `v & 0x7F` otherwise; when
`v = 0`, `Repeat` is false and the cached HDMA pointer of the channel is
null; when `v ≠ 0`, `DoTransfer` is true. -/
theorem C8_line_count_byte (F : Facade) (d : Fin 8) (m : Machine) :
    ((HDMAReadLineCount F d m).1 = false ↔ lineCountByte F d m = 0)
    ∧ ((HDMAReadLineCount F d m).2.DMA d).LineCount
        = (if lineCountByte F d m = 0x00 ∨ lineCountByte F d m = 0x80 then 128
           else lineCountByte F d m &&& 0x7F)
    ∧ (lineCountByte F d m = 0 →
        ((HDMAReadLineCount F d m).2.DMA d).Repeat = false
        ∧ (HDMAReadLineCount F d m).2.HDMAMemPointers d = none)
    ∧ (lineCountByte F d m ≠ 0 → ((HDMAReadLineCount F d m).2.DMA d).DoTransfer = true) := by
  by_cases h0 : lineCountByte F d m = 0
  · have hr : (HDMAReadLineCount F d m).1 = false
        ∧ ((HDMAReadLineCount F d m).2.DMA d).LineCount = 128
        ∧ ((HDMAReadLineCount F d m).2.DMA d).Repeat = false
        ∧ (HDMAReadLineCount F d m).2.HDMAMemPointers d = none := by
      unfold HDMAReadLineCount
      simp only [h0, if_true]
      split_ifs <;> simp [setDMA, setHDMAMemPointer, ADD_CYCLES, record]
    refine ⟨by simp [hr.1, h0], by simp [hr.2.1, h0], fun _ => ⟨hr.2.2.1, hr.2.2.2⟩, ?_⟩
    intro h; exact absurd h0 h
  · have hr : (HDMAReadLineCount F d m).1 = true
        ∧ ((HDMAReadLineCount F d m).2.DMA d).LineCount
            = (if lineCountByte F d m = 0x80 then 128 else lineCountByte F d m &&& 0x7F)
        ∧ ((HDMAReadLineCount F d m).2.DMA d).DoTransfer = true := by
      unfold HDMAReadLineCount
      simp only [h0, if_false]
      by_cases h80 : lineCountByte F d m = 0x80
      · simp only [h80, if_true]
        split_ifs <;> simp [setDMA, setHDMAMemPointer, ADD_CYCLES, record]
      · simp only [h80, if_false]
        split_ifs <;> simp [setDMA, setHDMAMemPointer, ADD_CYCLES, record]
    refine ⟨by simp [hr.1, h0], by simp [hr.2.1, h0], fun h => absurd h h0, fun _ => hr.2.2⟩

/-! ## Claims about `S9xResetDMA` -/

theorem S9xResetDMA_eq (m : Machine) :
    S9xResetDMA m = { m with DMA := fun _ => resetChannel } := by
  have hfr : List.finRange 8 = [0, 1, 2, 3, 4, 5, 6, 7] := by decide
  have hDMA : (S9xResetDMA m).DMA = fun _ => resetChannel := by
    funext c
    simp only [S9xResetDMA, hfr, List.foldl, setDMA]
    fin_cases c <;> simp [Function.update]
  have hrest : ∀ (l : List (Fin 8)) (m : Machine),
      (l.foldl (fun m d => setDMA m d resetChannel) m)
        = { m with DMA := (l.foldl (fun m d => setDMA m d resetChannel) m).DMA } := by
    intro l
    induction l with
    | nil => intro m; rfl
    | cons a l ih =>
      intro m
      simp only [List.foldl]
      rw [ih (setDMA m a resetChannel)]
      rfl
  have h := hrest (List.finRange 8) m
  have hD : ((List.finRange 8).foldl (fun m d => setDMA m d resetChannel) m).DMA
      = fun _ => resetChannel := hDMA
  rw [hD] at h
  exact h

/-- C9: after `S9xResetDMA`, whatever the prior state, each of the 8 channels
has `AAddressFixed`, `AAddressDecrement`, `HDMAIndirectAddressing` and
`ReverseTransfer` true, `TransferMode = 7`, `BAddress = ABank = IndirectBank =
0xFF`, `AAddress = Address = count = 0xFFFF`, `Repeat = false`, `LineCount =
0x7F` and `DoTransfer = false`; hence `S9xResetDMA` is idempotent. -/
theorem C9_S9xResetDMA_state (m : Machine) (c : Fin 8) :
    ((S9xResetDMA m).DMA c).AAddressFixed = true
    ∧ ((S9xResetDMA m).DMA c).AAddressDecrement = true
    ∧ ((S9xResetDMA m).DMA c).HDMAIndirectAddressing = true
    ∧ ((S9xResetDMA m).DMA c).ReverseTransfer = true
    ∧ ((S9xResetDMA m).DMA c).TransferMode = 7
    ∧ ((S9xResetDMA m).DMA c).BAddress = 0xFF
    ∧ ((S9xResetDMA m).DMA c).ABank = 0xFF
    ∧ ((S9xResetDMA m).DMA c).IndirectBank = 0xFF
    ∧ ((S9xResetDMA m).DMA c).AAddress = 0xFFFF
    ∧ ((S9xResetDMA m).DMA c).Address = 0xFFFF
    ∧ ((S9xResetDMA m).DMA c).DMACount_Or_HDMAIndirectAddress = 0xFFFF
    ∧ ((S9xResetDMA m).DMA c).Repeat = false
    ∧ ((S9xResetDMA m).DMA c).LineCount = 0x7F
    ∧ ((S9xResetDMA m).DMA c).DoTransfer = false
    ∧ S9xResetDMA (S9xResetDMA m) = S9xResetDMA m := by
  rw [S9xResetDMA_eq (S9xResetDMA m), S9xResetDMA_eq m]
  exact ⟨rfl, rfl, rfl, rfl, rfl, rfl, rfl, rfl, rfl, rfl, rfl, rfl, rfl, rfl, rfl⟩

theorem ReverseLog.zero : ReverseLog 0 [] :=
  ⟨rfl, rfl, by simp, by simp⟩

theorem ReverseLog.append {a b : Nat} {as bs : List Access}
    (h1 : ReverseLog a as) (h2 : ReverseLog b bs) : ReverseLog (a + b) (as ++ bs) where
  length := by rw [List.length_append, h1.length, h2.length]; omega
  writes := by rw [List.filter_append, List.length_append, h1.writes, h2.writes]
  kinds := by
    intro x hx
    rcases List.mem_append.mp hx with h | h
    · exact h1.kinds x h
    · exact h2.kinds x h
  noPPU := by
    intro x hx
    rcases List.mem_append.mp hx with h | h
    · exact h1.noPPU x h
    · exact h2.noPPU x h

theorem reverseEmit_log (F : Facade) (c : Fin 8) (rs : Bool) (Reg : Nat) (m : Machine)
    (p : Nat) :
    ∃ as, (reverseEmit F c rs Reg m p).log = m.log ++ as ∧ ReverseLog 1 as := by
  refine ⟨[Access.S9xGetPPU (Reg + (m.DMA c).BAddress),
    Access.S9xSetByte (F.S9xGetPPU m.log (Reg + (m.DMA c).BAddress) % 0x100)
      (((m.DMA c).ABank <<< 16) + (m.DMA c).AAddress)], ?_, ?_⟩
  · unfold reverseEmit reverseByte
    simp only []
    split_ifs <;> rfl
  · refine ⟨rfl, rfl, ?_, ?_⟩
    · intro a ha
      simp only [List.mem_cons, List.mem_singleton, List.mem_nil_iff, or_false] at ha
      rcases ha with h | h
      · exact Or.inl ⟨_, h⟩
      · exact Or.inr ⟨_, _, h⟩
    · intro a ha
      simp only [List.mem_cons, List.mem_singleton, List.mem_nil_iff, or_false] at ha
      rcases ha with h | h <;> subst h <;> rfl

theorem transfer_reverse_log (F : Facade) (c : Fin 8) (inc : Int) (rs : Bool)
    (Regs : List Nat) :
    ∀ (n i : Nat) (m : Machine) (p : Nat) (m1 : Machine) (p1 : Nat),
      transfer F c inc (reversePattern F c rs Regs) n i m p = Outcome.done m1 p1 →
      ∃ as, m1.log = m.log ++ as ∧ ReverseLog n as := by
  intro n
  induction n with
  | zero =>
    intro i m p m1 p1 h
    simp only [transfer, Outcome.done.injEq] at h
    exact ⟨[], by simp [← h.1], ReverseLog.zero⟩
  | succ n ih =>
    intro i m p m1 p1 h
    simp only [transfer] at h
    rcases UPDATE_COUNTERS_cases F c inc (reversePattern F c rs Regs i m p) p with
      ⟨h1, -⟩ | ⟨h1, -⟩
    · rw [h1] at h
      obtain ⟨bs, hb, hrb⟩ := ih (i + 1) _ _ m1 p1 h
      obtain ⟨as, ha, hra⟩ := reverseEmit_log F c rs (Regs.getD (i % Regs.length) 0) m p
      have hlog : (afterStep F c inc (reversePattern F c rs Regs i m p)).log
          = (reverseEmit F c rs (Regs.getD (i % Regs.length) 0) m p).log := rfl
      refine ⟨as ++ bs, ?_, ?_⟩
      · rw [hb, hlog, ha, List.append_assoc]
      · have := hra.append hrb
        rwa [Nat.add_comm 1 n] at this
    · rw [h1] at h
      simp at h

theorem reverseDMA_log (F : Facade) (c : Fin 8) (inc : Int) (count : Int)
    (m : Machine) (hmode : (m.DMA c).TransferMode ≤ 7) (hcount : 1 ≤ count)
    (hnc : ∀ t, m.tick ≤ t → t < m.tick + count.toNat → NoCollisionAt F c t) :
    ∃ m1 as, reverseDMA F c inc count m = (true, m1) ∧ Stepped F c inc count.toNat m m1
      ∧ m1.log = m.log ++ as ∧ ReverseLog count.toNat as := by
  obtain ⟨Regs, hregs, hne⟩ := reverseRegisters_some _ hmode
  have main : ∀ (rs : Bool) (m0 : Machine), Unchanged m m0 → m0.log = m.log →
      ∃ m1 as, reverseLoop F c inc rs (chunkFuel count) count m0 = (true, m1)
        ∧ Stepped F c inc count.toNat m m1 ∧ m1.log = m.log ++ as
        ∧ ReverseLog count.toNat as := by
    intro rs m0 hu hl
    have hregs0 : reverseRegisters (m0.DMA c).TransferMode = some Regs := by
      rw [hu.dma]; exact hregs
    obtain ⟨m1, he, hs⟩ := transfer_done F c inc (reversePattern F c rs Regs)
      (fun j => reverseEmit_frame F c rs _) count.toNat 0 m0 0
      (by intro t ht1 ht2; rw [hu.tick] at ht1 ht2; exact hnc t ht1 ht2)
    obtain ⟨as, ha, hra⟩ := transfer_reverse_log F c inc rs Regs _ _ _ _ _ _ he
    refine ⟨m1, as, ?_, ?_, by rw [ha, hl], hra⟩
    · rw [reverseLoop_eq F c inc rs Regs hne (chunkFuel count) count m0 0 0 hregs0 (by simp)
        hcount (by unfold chunkFuel; omega), he]
      rfl
    · have := (hu.stepped F c inc).trans hs
      simpa using this
  unfold reverseDMA
  simp only []
  split_ifs
  · exact main true m (Unchanged.refl m) rfl
  · exact main false _ (setInWRAM_unchanged m _) rfl

/-- The run of `S9xDoDMA` on a channel in its reset state: it completes after
`0xFFFF` steps and its accesses are those of `0xFFFF` bytes moved from the PPU
to memory. -/
theorem S9xDoDMA_after_reset (F : Facade) (c : Fin 8) (m : Machine) (hnc : NoCollision F c) :
    (S9xDoDMA F c (S9xResetDMA m)).1 = true
    ∧ (S9xDoDMA F c (S9xResetDMA m)).2.tick = m.tick + 0xFFFF
    ∧ ∃ as, (S9xDoDMA F c (S9xResetDMA m)).2.log = m.log ++ as ∧ ReverseLog 0xFFFF as := by
  have hd : (S9xResetDMA m).DMA c = resetChannel := by rw [S9xResetDMA_eq]
  have hN : transferCount ((S9xResetDMA m).DMA c) = 0xFFFF := by rw [hd]; decide
  have hinv2 : invalidDMA ((enterDMA c (S9xResetDMA m)).DMA c) = false := by
    show invalidDMA ((S9xResetDMA m).DMA c) = false
    rw [hd]; decide
  have hrev2 : ((enterDMA c (S9xResetDMA m)).DMA c).ReverseTransfer = true := by
    show ((S9xResetDMA m).DMA c).ReverseTransfer = true
    rw [hd]; rfl
  obtain ⟨m1, as, he, hs, hl, hra⟩ := reverseDMA_log F c
    (startIncrement (enterDMA c (S9xResetDMA m)) ((S9xResetDMA m).DMA c))
    (transferCount ((S9xResetDMA m).DMA c)) (startDMA c (S9xResetDMA m))
    (by rw [startDMA_DMA, hd]; decide) (transferCount_pos _) (fun t _ _ => hnc t)
  have he2 : reverseDMA F c
      (startIncrement (enterDMA c (S9xResetDMA m)) ((enterDMA c (S9xResetDMA m)).DMA c))
      (transferCount ((enterDMA c (S9xResetDMA m)).DMA c))
      (ADD_CYCLES SLOW_ONE_CYCLE (clearSDD1 (enterDMA c (S9xResetDMA m)))) = (true, m1) := he
  have hres : S9xDoDMA F c (S9xResetDMA m) = (true, leaveDMA (rescheduleNMI m1)) := by
    simp only [S9xDoDMA, hinv2, hrev2, he2]
    simp
  have hlog0 : (S9xResetDMA m).log = m.log := by rw [S9xResetDMA_eq]
  have htick0 : (S9xResetDMA m).tick = m.tick := by rw [S9xResetDMA_eq]
  have hNat : ((transferCount ((S9xResetDMA m).DMA c) : Nat) : Int).toNat = 0xFFFF := by
    rw [hN]; rfl
  rw [hNat] at hs hra
  rw [hres]
  refine ⟨rfl, ?_, as, ?_, hra⟩
  · show (rescheduleNMI m1).tick = _
    rw [rescheduleNMI_tick, hs.tick, startDMA_tick, htick0]
  · show (rescheduleNMI m1).log = _
    rw [rescheduleNMI_log, hl, startDMA_log, hlog0]

/-- C10, as stated, fails: after `S9xResetDMA`, `S9xDoDMA(0)` on a quiet facade
completes and issues `0xFFFF` writes to memory through `S9xSetByte`, so bytes
are moved. -/
theorem C10_counterexample :
    (S9xDoDMA quietFacade 0 (S9xResetDMA sampleMachine)).1 = true
    ∧ ((S9xDoDMA quietFacade 0 (S9xResetDMA sampleMachine)).2.log.filter
        Access.writesMemory).length = 0xFFFF := by
  obtain ⟨h1, -, as, hl, hra⟩ := S9xDoDMA_after_reset quietFacade 0 sampleMachine
    (quietFacade_noCollision 0)
  refine ⟨h1, ?_⟩
  rw [hl]
  simpa [sampleMachine] using hra.writes

/-- C10, amended: for every channel `c`, `S9xResetDMA` followed at once by
`S9xDoDMA(c)` with no collision returns true after exactly `0xFFFF` per-byte
steps (the count `0xFFFF` is taken literally) and moves `0xFFFF` bytes from
the PPU to memory: each step reads a PPU register through `S9xGetPPU` and
writes the byte to memory through `S9xSetByte`; no PPU register is written. -/
theorem C10_reset_then_DMA (F : Facade) (c : Fin 8) (m : Machine) (hnc : NoCollision F c) :
    (S9xDoDMA F c (S9xResetDMA m)).1 = true
    ∧ (S9xDoDMA F c (S9xResetDMA m)).2.tick = m.tick + 0xFFFF
    ∧ ∃ as, (S9xDoDMA F c (S9xResetDMA m)).2.log = m.log ++ as
        ∧ as.length = 2 * 0xFFFF
        ∧ (as.filter Access.writesMemory).length = 0xFFFF
        ∧ (∀ a ∈ as, (∃ r, a = Access.S9xGetPPU r) ∨ (∃ w x, a = Access.S9xSetByte w x))
        ∧ (∀ a ∈ as, a.writesPPU = false) := by
  obtain ⟨h1, h2, as, hl, hra⟩ := S9xDoDMA_after_reset F c m hnc
  exact ⟨h1, h2, as, hl, hra.length, hra.writes, hra.kinds, hra.noPPU⟩

/-- Witness of the amended C10: channel 0 of `sampleMachine` after reset. -/
theorem C10_witness :
    (S9xDoDMA quietFacade 0 (S9xResetDMA sampleMachine)).1 = true
    ∧ (S9xDoDMA quietFacade 0 (S9xResetDMA sampleMachine)).2.tick = sampleMachine.tick + 0xFFFF :=
  have h := C10_reset_then_DMA quietFacade 0 sampleMachine
    (by intro t cpu; simp [quietFacade, quietEvents])
  ⟨h.1, h.2.1⟩

/-! ## What every run of `S9xDoDMA` keeps, completed or aborted -/

theorem transfer_inv (F : Facade) (c : Fin 8) (inc : Int) (pat : Nat → Emit)
    (hpat : ∀ j, Frame (pat j)) :
    ∀ (n i : Nat) (m : Machine) (p : Nat),
      ∃ k, k ≤ n ∧ Stepped F c inc k m (transfer F c inc pat n i m p).machine := by
  intro n
  induction n with
  | zero =>
    intro i m p
    exact ⟨0, le_refl _, (Unchanged.refl m).stepped F c inc⟩
  | succ n ih =>
    intro i m p
    have hs1 : Stepped F c inc 1 m (afterStep F c inc (pat i m p)) := by
      have := ((hpat i m p).stepped F c inc).trans (afterStep_stepped F c inc (pat i m p))
      simpa using this
    simp only [transfer]
    rcases UPDATE_COUNTERS_cases F c inc (pat i m p) p with ⟨h1, -⟩ | ⟨h1, -⟩
    · rw [h1]
      obtain ⟨k, hk, hs⟩ := ih (i + 1) (afterStep F c inc (pat i m p)) (stepOffset inc p)
      exact ⟨1 + k, by omega, hs1.trans hs⟩
    · rw [h1]
      refine ⟨1, by omega, ?_⟩
      have := hs1.trans ((leaveDMA_unchanged (afterStep F c inc (pat i m p))).stepped F c inc)
      simpa using this

theorem RunsBytes.inv {α : Type} {F : Facade} {c : Fin 8} {inc : Int} {n : Nat}
    {m : Machine} {P : α → Prop} {o : Outcome α} (h : RunsBytes F c inc n m P o) :
    ∃ k, k ≤ n ∧ Stepped F c inc k m o.machine := by
  obtain ⟨pat, i, p, f, hpat, _, ho⟩ := h
  obtain ⟨k, hk, hs⟩ := transfer_inv F c inc pat hpat n i m p
  refine ⟨k, hk, ?_⟩
  rw [ho]
  cases h2 : transfer F c inc pat n i m p with
  | aborted m1 => rw [h2] at hs; exact hs
  | done m1 p1 => rw [h2] at hs; exact hs

theorem transferChunk_inv (F : Facade) (c : Fin 8) (inc : Int) (base : Option Nat)
    (b count : Int) (m : Machine) (p : Nat) (h1 : 1 ≤ count) :
    ∃ k, k ≤ count.toNat
      ∧ Stepped F c inc k m (transferChunk F c inc base b count m p).machine := by
  by_cases hmode : (m.DMA c).TransferMode ≤ 7
  · exact (transferChunk_runs F c inc base b count m p hmode h1).inv
  · refine ⟨0, Nat.zero_le _, ?_⟩
    have hnone : transferChunk F c inc base b count m p = Outcome.done m (p, b) := by
      cases base with
      | none =>
        simp only [transferChunk, slowChunk]
        rw [if_neg (by omega), if_neg (by omega), if_neg (by omega), if_neg (by omega)]
      | some q =>
        simp only [transferChunk, fastChunk]
        rw [if_neg (by omega), if_neg (by omega), if_neg (by omega), if_neg (by omega)]
    rw [hnone]
    exact (Unchanged.refl m).stepped F c inc

theorem forwardLoop_inv (F : Facade) (c : Fin 8) (inc : Int) (sdd : Bool)
    (hB : 0 < F.MEMMAP_BLOCK_SIZE) :
    ∀ (fuel : Nat) (b : Int) (base : Option Nat) (inW : Bool) (rem count : Int)
      (m : Machine) (p : Nat),
      1 ≤ rem → 1 ≤ count → rem.toNat ≤ fuel →
      ∃ k, k ≤ rem.toNat
        ∧ Stepped F c inc k m (forwardLoop F c inc sdd fuel b base inW rem count m p).2 := by
  intro fuel
  induction fuel with
  | zero => intro b base inW rem count m p h1 _ h2; omega
  | succ fuel ih =>
    intro b base inW rem count m p hrem hcount hfuel
    have hu := setInWRAM_unchanged m inW
    obtain ⟨k, hk, hs⟩ := transferChunk_inv F c inc base b (if count > rem then rem else count)
      (setInWRAM m inW) p (by split_ifs <;> omega)
    have hs0 := (hu.stepped F c inc).trans hs
    rw [Nat.zero_add] at hs0
    rw [forwardLoop]
    cases he : transferChunk F c inc base b (if count > rem then rem else count)
        (setInWRAM m inW) p with
    | aborted m1 =>
      rw [he] at hs0
      exact ⟨k, by split_ifs at hk <;> omega, hs0⟩
    | done m1 a =>
      rw [he] at hs0
      simp only []
      by_cases hlast : rem - (if count > rem then rem else count) ≤ 0
      · rw [if_pos hlast]
        exact ⟨k, by split_ifs at hk <;> omega, hs0⟩
      · rw [if_neg hlast]
        obtain ⟨k2, hk2, hs2⟩ := ih a.2
          (F.S9xGetBasePointer (((m1.DMA c).ABank <<< 16) + (m1.DMA c).AAddress))
          (inWRAM sdd (m1.DMA c)) (rem - (if count > rem then rem else count))
          F.MEMMAP_BLOCK_SIZE m1 a.1 (by omega) (by omega)
          (by split_ifs at hlast ⊢ <;> omega)
        exact ⟨k + k2, by split_ifs at hk hk2 hlast ⊢ <;> omega, hs0.trans hs2⟩

theorem forwardDMA_inv (F : Facade) (c : Fin 8) (inc : Int) (sdd : Bool) (count : Int)
    (m : Machine) (hM : F.MEMMAP_MASK < F.MEMMAP_BLOCK_SIZE) (hcount : 1 ≤ count) :
    ∃ k, k ≤ count.toNat ∧ Stepped F c inc k m (forwardDMA F c inc sdd count m).2 := by
  unfold forwardDMA
  exact forwardLoop_inv F c inc sdd (by omega) count.toNat 0 _ _ count _ m _ hcount
    (firstChunk_pos F hM (m.DMA c) sdd count hcount) (le_refl _)

theorem Outcome.result_snd {α : Type} (o : Outcome α) : (Outcome.result o).2 = o.machine := by
  cases o <;> rfl

theorem reverseDefault_inv (F : Facade) (c : Fin 8) (inc : Int) :
    ∀ (fuel : Nat) (count : Int) (m : Machine), 0 ≤ count → count.toNat < fuel →
      ∃ k, k ≤ count.toNat
        ∧ Stepped F c inc k m (reverseDefault F c inc fuel count m).machine
        ∧ ∀ m1 count1, reverseDefault F c inc fuel count m = Outcome.done m1 count1 →
            count1 = 0 := by
  intro fuel
  induction fuel with
  | zero => intro count m _ h; omega
  | succ fuel ih =>
    intro count m hcount hfuel
    rw [reverseDefault]
    by_cases hc : count ≠ 0
    · rw [if_pos hc]
      rcases UPDATE_COUNTERS_cases F c inc m 0 with ⟨-, h1⟩ | ⟨-, h1⟩
      · rw [h1]
        simp only []
        rw [checkCounter_nonneg _ _ (by omega)]
        obtain ⟨k, hk, hs, hz⟩ := ih (count - 1) (afterStep F c inc m) (by omega) (by omega)
        exact ⟨1 + k, by omega, (afterStep_stepped F c inc m).trans hs, hz⟩
      · rw [h1]
        refine ⟨1, by omega, ?_, by intro m1 count1 h; simp at h⟩
        have := (afterStep_stepped F c inc m).trans
          ((leaveDMA_unchanged (afterStep F c inc m)).stepped F c inc)
        simpa using this
    · rw [if_neg hc]
      refine ⟨0, Nat.zero_le _, (Unchanged.refl m).stepped F c inc, ?_⟩
      intro m1 count1 h
      simp only [Outcome.done.injEq] at h
      omega

theorem reverseLoop_inv (F : Facade) (c : Fin 8) (inc : Int) (rs : Bool) (count : Int)
    (m : Machine) (hcount : 1 ≤ count) :
    ∃ k, k ≤ count.toNat
      ∧ Stepped F c inc k m (reverseLoop F c inc rs (chunkFuel count) count m).2 := by
  by_cases hmode : (m.DMA c).TransferMode ≤ 7
  · obtain ⟨Regs, hregs, hne⟩ := reverseRegisters_some _ hmode
    rw [reverseLoop_eq F c inc rs Regs hne (chunkFuel count) count m 0 0 hregs (by simp) hcount
      (by unfold chunkFuel; omega), Outcome.result_snd]
    exact transfer_inv F c inc (reversePattern F c rs Regs)
      (fun j => reverseEmit_frame F c rs _) count.toNat 0 m 0
  · have hnone : reverseRegisters (m.DMA c).TransferMode = none := by
      unfold reverseRegisters
      rw [if_neg (by omega), if_neg (by omega), if_neg (by omega), if_neg (by omega)]
    obtain ⟨k, hk, hs, hz⟩ := reverseDefault_inv F c inc (chunkFuel count) count m (by omega)
      (by unfold chunkFuel; omega)
    refine ⟨k, hk, ?_⟩
    have hf : chunkFuel count = (count.toNat + 1) + 1 := rfl
    rw [hf, reverseLoop]
    simp only [hnone]
    cases he : reverseDefault F c inc (chunkFuel count) count m with
    | aborted m1 => rw [he] at hs; exact hs
    | done m1 count1 =>
      rw [he] at hs
      have h0 := hz m1 count1 he
      simp only [h0, ne_eq, not_true_eq_false, if_false]
      exact hs

theorem reverseDMA_inv (F : Facade) (c : Fin 8) (inc : Int) (count : Int)
    (m : Machine) (hcount : 1 ≤ count) :
    ∃ k, k ≤ count.toNat ∧ Stepped F c inc k m (reverseDMA F c inc count m).2 := by
  unfold reverseDMA
  simp only []
  split_ifs
  · exact reverseLoop_inv F c inc true count m hcount
  · obtain ⟨k, hk, hs⟩ := reverseLoop_inv F c inc false count
      (setInWRAM m ((m.DMA c).ABank == 0x7e || (m.DMA c).ABank == 0x7f)) hcount
    refine ⟨k, hk, ?_⟩
    have := ((setInWRAM_unchanged m _).stepped F c inc).trans hs
    simpa using this

theorem invalidLoop_inv (F : Facade) (c : Fin 8) :
    ∀ (n : Nat) (m : Machine),
      ∃ k, k ≤ n ∧ Stepped F c 1 k m (invalidLoop F c n m).2 := by
  intro n
  induction n with
  | zero => intro m; exact ⟨0, le_refl _, (Unchanged.refl m).stepped F c 1⟩
  | succ n ih =>
    intro m
    by_cases h : (F.S9xDoHEventProcessing m.tick
        { m.CPU with Cycles := m.CPU.Cycles + SLOW_ONE_CYCLE }).HDMARanInDMA
          &&& (1 <<< c.val) = 0
    · have hstep : addCyclesInDMA F c (setDMA m c
          { m.DMA c with
            DMACount_Or_HDMAIndirectAddress :=
              ((m.DMA c).DMACount_Or_HDMAIndirectAddress + 0xFFFF) % 0x10000,
            AAddress := ((m.DMA c).AAddress + 1) % 0x10000 }) = (true, afterStep F c 1 m) := by
        simp [addCyclesInDMA, ADD_CYCLES, setDMA, h, afterStep, stepChannel_one]
      obtain ⟨k, hk, hs⟩ := ih (afterStep F c 1 m)
      refine ⟨1 + k, by omega, ?_⟩
      simp only [invalidLoop, hstep]
      exact (afterStep_stepped F c 1 m).trans hs
    · have hstep : addCyclesInDMA F c (setDMA m c
          { m.DMA c with
            DMACount_Or_HDMAIndirectAddress :=
              ((m.DMA c).DMACount_Or_HDMAIndirectAddress + 0xFFFF) % 0x10000,
            AAddress := ((m.DMA c).AAddress + 1) % 0x10000 })
          = (false, afterStep F c 1 m) := by
        simp [addCyclesInDMA, ADD_CYCLES, setDMA, h, afterStep, stepChannel_one]
      refine ⟨1, by omega, ?_⟩
      simp only [invalidLoop, hstep]
      have hu : Unchanged (afterStep F c 1 m) (leaveInvalidDMA (afterStep F c 1 m)) :=
        ⟨rfl, rfl, rfl, rfl, rfl, rfl, rfl, rfl, rfl, rfl, rfl, rfl⟩
      have := (afterStep_stepped F c 1 m).trans (hu.stepped F c 1)
      simpa using this

theorem S9xDoDMA_valid_inv (F : Facade) (c : Fin 8) (m : Machine)
    (hM : F.MEMMAP_MASK < F.MEMMAP_BLOCK_SIZE) (hinv : invalidDMA (m.DMA c) = false) :
    ∃ k m1, k ≤ transferCount (m.DMA c)
      ∧ Stepped F c (startIncrement (enterDMA c m) (m.DMA c)) k (startDMA c m) m1
      ∧ (S9xDoDMA F c m = (true, leaveDMA (rescheduleNMI m1))
          ∨ S9xDoDMA F c m = (false, m1)) := by
  have hinv2 : invalidDMA ((enterDMA c m).DMA c) = false := hinv
  by_cases hrev : (m.DMA c).ReverseTransfer = true
  · obtain ⟨k, hk, hs⟩ := reverseDMA_inv F c (startIncrement (enterDMA c m) (m.DMA c))
      (transferCount (m.DMA c)) (startDMA c m) (transferCount_pos _)
    have hrev2 : ((enterDMA c m).DMA c).ReverseTransfer = true := hrev
    refine ⟨k, _, by simpa using hk, hs, ?_⟩
    cases he : reverseDMA F c (startIncrement (enterDMA c m) (m.DMA c))
        (transferCount (m.DMA c)) (startDMA c m) with
    | mk b m1 =>
      have he2 : reverseDMA F c (startIncrement (enterDMA c m) ((enterDMA c m).DMA c))
          (transferCount ((enterDMA c m).DMA c))
          (ADD_CYCLES SLOW_ONE_CYCLE (clearSDD1 (enterDMA c m))) = (b, m1) := he
      cases b with
      | true =>
        left
        simp only [S9xDoDMA, hinv2, hrev2, he2]
        simp
      | false =>
        right
        simp only [S9xDoDMA, hinv2, hrev2, he2]
        simp
  · obtain ⟨k, hk, hs⟩ := forwardDMA_inv F c (startIncrement (enterDMA c m) (m.DMA c))
      (sdd1Active (enterDMA c m) (m.DMA c)) (transferCount (m.DMA c)) (startDMA c m) hM
      (transferCount_pos _)
    have hrev2 : ((enterDMA c m).DMA c).ReverseTransfer = false := by
      simpa using hrev
    refine ⟨k, _, by simpa using hk, hs, ?_⟩
    cases he : forwardDMA F c (startIncrement (enterDMA c m) (m.DMA c))
        (sdd1Active (enterDMA c m) (m.DMA c)) (transferCount (m.DMA c)) (startDMA c m) with
    | mk b m1 =>
      have he2 : forwardDMA F c (startIncrement (enterDMA c m) ((enterDMA c m).DMA c))
          (sdd1Active (enterDMA c m) ((enterDMA c m).DMA c))
          (transferCount ((enterDMA c m).DMA c))
          (ADD_CYCLES SLOW_ONE_CYCLE (clearSDD1 (enterDMA c m))) = (b, m1) := he
      cases b with
      | true =>
        left
        simp only [S9xDoDMA, hinv2, hrev2, he2]
        simp
      | false =>
        right
        simp only [S9xDoDMA, hinv2, hrev2, he2]
        simp

theorem S9xDoDMA_invalid_inv (F : Facade) (c : Fin 8) (m : Machine)
    (hinv : invalidDMA (m.DMA c) = true) :
    ∃ k m1, k ≤ transferCount (m.DMA c)
      ∧ Stepped F c 1 k (ADD_CYCLES SLOW_ONE_CYCLE (enterDMA c m)) m1
      ∧ (S9xDoDMA F c m = (true, leaveInvalidDMA m1) ∨ S9xDoDMA F c m = (false, m1)) := by
  have hinv2 : invalidDMA ((enterDMA c m).DMA c) = true := hinv
  obtain ⟨k, hk, hs⟩ := invalidLoop_inv F c (transferCount (m.DMA c))
    (ADD_CYCLES SLOW_ONE_CYCLE (enterDMA c m))
  refine ⟨k, _, hk, hs, ?_⟩
  cases he : invalidLoop F c (transferCount (m.DMA c))
      (ADD_CYCLES SLOW_ONE_CYCLE (enterDMA c m)) with
  | mk b m1 =>
    have he2 : invalidLoop F c (transferCount ((enterDMA c m).DMA c))
        (ADD_CYCLES SLOW_ONE_CYCLE (enterDMA c m)) = (b, m1) := he
    cases b with
    | true => left; simp only [S9xDoDMA, hinv2, if_true, he2]
    | false => right; simp only [S9xDoDMA, hinv2, if_true, he2]

/-! ## Claims about the frame of `S9xDoDMA` and about `addCyclesInDMA` -/

theorem startDMA_flags (c : Fin 8) (m : Machine) :
    (startDMA c m).Timings = m.Timings ∧ (startDMA c m).exhausted = m.exhausted
    ∧ (startDMA c m).underflow = m.underflow := by
  unfold startDMA clearSDD1 ADD_CYCLES enterDMA
  split_ifs <;> exact ⟨rfl, rfl, rfl⟩

theorem rescheduleNMI_flags (m : Machine) :
    (rescheduleNMI m).exhausted = m.exhausted ∧ (rescheduleNMI m).underflow = m.underflow
    ∧ (rescheduleNMI m).CPU = m.CPU := by
  unfold rescheduleNMI
  split_ifs <;> exact ⟨rfl, rfl, rfl⟩

theorem bit_set_iff (x i : Nat) : x &&& (1 <<< i) ≠ 0 ↔ x.testBit i = true := by
  rw [Nat.one_shiftLeft, Nat.and_two_pow]
  cases h : x.testBit i <;> simp

theorem iterate_stepChannel_frame (inc : Int) (n : Nat) (d : SDMA) :
    ∃ count address, (stepChannel inc)^[n] d
      = { d with DMACount_Or_HDMAIndirectAddress := count, AAddress := address } := by
  induction n generalizing d with
  | zero => exact ⟨d.DMACount_Or_HDMAIndirectAddress, d.AAddress, rfl⟩
  | succ n ih =>
    rw [Function.iterate_succ_apply]
    obtain ⟨count, address, h⟩ := ih (stepChannel inc d)
    exact ⟨count, address, by rw [h]; rfl⟩

/-- C15, as stated, fails: on `pendingMachine` an NMI is pending and the
trigger position is `0xffff`; the DMA completes at cycle 48 and the trigger
position is still `0xffff`, not `48 + 24`. -/
theorem C15_counterexample :
    (S9xDoDMA quietFacade 0 pendingMachine).1 = true
    ∧ (S9xDoDMA quietFacade 0 pendingMachine).2.CPU.NMIPending = true
    ∧ (S9xDoDMA quietFacade 0 pendingMachine).2.CPU.Cycles = 48
    ∧ (S9xDoDMA quietFacade 0 pendingMachine).2.Timings.NMIDMADelay = 24
    ∧ (S9xDoDMA quietFacade 0 pendingMachine).2.Timings.NMITriggerPos = 0xffff
    ∧ (S9xDoDMA quietFacade 0 pendingMachine).2.Timings.NMITriggerPos
        ≠ (S9xDoDMA quietFacade 0 pendingMachine).2.CPU.Cycles
          + (S9xDoDMA quietFacade 0 pendingMachine).2.Timings.NMIDMADelay := by
  decide

/-- C15, amended: when `S9xDoDMA` returns true for a channel that is not in the
invalid-DMA configuration, with `CPU.NMIPending` set when the transfer ends and
a trigger position other than `0xffff`, `Timings.NMITriggerPos` is on return
`CPU.Cycles` at the end of the transfer plus `Timings.NMIDMADelay`; with a
trigger position of `0xffff` it stays `0xffff`.  When `S9xDoDMA` returns false,
`Timings` is as before the call. -/
theorem C15_NMI_trigger_position (F : Facade) (c : Fin 8) (m : Machine)
    (hM : F.MEMMAP_MASK < F.MEMMAP_BLOCK_SIZE) :
    ((S9xDoDMA F c m).1 = true → invalidDMA (m.DMA c) = false →
      (S9xDoDMA F c m).2.CPU.NMIPending = true →
      (S9xDoDMA F c m).2.Timings.NMITriggerPos
        = (if m.Timings.NMITriggerPos = 0xffff then 0xffff
           else (S9xDoDMA F c m).2.CPU.Cycles + m.Timings.NMIDMADelay)
      ∧ (S9xDoDMA F c m).2.Timings.NMIDMADelay = m.Timings.NMIDMADelay)
    ∧ ((S9xDoDMA F c m).1 = false → (S9xDoDMA F c m).2.Timings = m.Timings) := by
  constructor
  · intro htrue hinv hnmi
    obtain ⟨k, m1, -, hs, he | he⟩ := S9xDoDMA_valid_inv F c m hM hinv
    · rw [he] at hnmi ⊢
      have ht : m1.Timings = m.Timings := hs.timings.trans (startDMA_flags c m).1
      have hnmi1 : m1.CPU.NMIPending = true := by
        have h2 : (rescheduleNMI m1).CPU.NMIPending = true := hnmi
        rwa [(rescheduleNMI_flags m1).2.2] at h2
      show (rescheduleNMI m1).Timings.NMITriggerPos
          = (if m.Timings.NMITriggerPos = 0xffff then 0xffff
             else (rescheduleNMI m1).CPU.Cycles + m.Timings.NMIDMADelay)
        ∧ (rescheduleNMI m1).Timings.NMIDMADelay = m.Timings.NMIDMADelay
      rw [(rescheduleNMI_flags m1).2.2]
      unfold rescheduleNMI
      by_cases hpos : m.Timings.NMITriggerPos = 0xffff
      · simp [hnmi1, ht, hpos]
      · simp [hnmi1, ht, hpos]
    · rw [he] at htrue
      exact absurd htrue (by simp)
  · intro hfalse
    by_cases hinv : invalidDMA (m.DMA c) = true
    · obtain ⟨k, m1, -, hs, he | he⟩ := S9xDoDMA_invalid_inv F c m hinv
      · rw [he] at hfalse
        exact absurd hfalse (by simp)
      · rw [he]
        exact hs.timings
    · obtain ⟨k, m1, -, hs, he | he⟩ := S9xDoDMA_valid_inv F c m hM (by simpa using hinv)
      · rw [he] at hfalse
        exact absurd hfalse (by simp)
      · rw [he]
        exact hs.timings.trans (startDMA_flags c m).1

/-- Witness of the amended C15: on `nmiMachine` the DMA completes and the
trigger position becomes the final cycle count plus the delay; with a
collision at the second byte of `sampleMachine` the timings are untouched. -/
theorem C15_witness :
    ((S9xDoDMA quietFacade 0 nmiMachine).2.Timings.NMITriggerPos
        = (if nmiMachine.Timings.NMITriggerPos = 0xffff then 0xffff
           else (S9xDoDMA quietFacade 0 nmiMachine).2.CPU.Cycles
             + nmiMachine.Timings.NMIDMADelay)
      ∧ (S9xDoDMA quietFacade 0 nmiMachine).2.Timings.NMIDMADelay
          = nmiMachine.Timings.NMIDMADelay)
    ∧ (S9xDoDMA (collidingFacade 1) 0 sampleMachine).2.Timings = sampleMachine.Timings :=
  ⟨(C15_NMI_trigger_position quietFacade 0 nmiMachine (by decide)).1 (by decide) (by decide)
      (by decide),
   (C15_NMI_trigger_position (collidingFacade 1) 0 sampleMachine (by decide)).2 (by decide)⟩

/-- C16: `S9xDoDMA` is total for every channel and every channel configuration,
any value of `TransferMode` included: the loops of the function end by their
own exit conditions within the iteration bounds of the model (`exhausted`
stays false), no decrement of a per-chunk byte counter yields a negative
value (`underflow` stays false), and the cycle callback is called at most `N`
times, `N` being the byte count of the transfer. -/
theorem C16_S9xDoDMA_total (F : Facade) (c : Fin 8) (m : Machine)
    (hM : F.MEMMAP_MASK < F.MEMMAP_BLOCK_SIZE)
    (hexhausted : m.exhausted = false) (hunderflow : m.underflow = false) :
    (S9xDoDMA F c m).2.exhausted = false
    ∧ (S9xDoDMA F c m).2.underflow = false
    ∧ (S9xDoDMA F c m).2.tick ≤ m.tick + transferCount (m.DMA c) := by
  by_cases hinv : invalidDMA (m.DMA c) = true
  · obtain ⟨k, m1, hk, hs, he | he⟩ := S9xDoDMA_invalid_inv F c m hinv
    · rw [he]
      refine ⟨hs.exhausted.trans hexhausted, hs.underflow.trans hunderflow, ?_⟩
      show m1.tick ≤ _
      rw [hs.tick]
      exact Nat.add_le_add_left hk _
    · rw [he]
      refine ⟨hs.exhausted.trans hexhausted, hs.underflow.trans hunderflow, ?_⟩
      show m1.tick ≤ _
      rw [hs.tick]
      exact Nat.add_le_add_left hk _
  · obtain ⟨k, m1, hk, hs, he | he⟩ := S9xDoDMA_valid_inv F c m hM (by simpa using hinv)
    · rw [he]
      refine ⟨?_, ?_, ?_⟩
      · show (rescheduleNMI m1).exhausted = false
        rw [(rescheduleNMI_flags m1).1, hs.exhausted, (startDMA_flags c m).2.1, hexhausted]
      · show (rescheduleNMI m1).underflow = false
        rw [(rescheduleNMI_flags m1).2.1, hs.underflow, (startDMA_flags c m).2.2, hunderflow]
      · show (rescheduleNMI m1).tick ≤ _
        rw [rescheduleNMI_tick, hs.tick, startDMA_tick]
        exact Nat.add_le_add_left hk _
    · rw [he]
      refine ⟨?_, ?_, ?_⟩
      · rw [hs.exhausted, (startDMA_flags c m).2.1, hexhausted]
      · rw [hs.underflow, (startDMA_flags c m).2.2, hunderflow]
      · show m1.tick ≤ _
        rw [hs.tick, startDMA_tick]
        exact Nat.add_le_add_left hk _

/-- Witness of C16 on a channel whose `TransferMode` is `0xFF`. -/
theorem C16_witness :
    (S9xDoDMA quietFacade 0 oddModeMachine).2.exhausted = false
    ∧ (S9xDoDMA quietFacade 0 oddModeMachine).2.underflow = false
    ∧ (S9xDoDMA quietFacade 0 oddModeMachine).2.tick
        ≤ oddModeMachine.tick + transferCount (oddModeMachine.DMA 0) :=
  C16_S9xDoDMA_total quietFacade 0 oddModeMachine (by decide) rfl rfl

/-- C17: `addCyclesInDMA(c)` returns false exactly when bit `c` of
`CPU.HDMARanInDMA` is set in the `CPU` record the event loop leaves after the
8 cycles were added; whatever the result, `CPU.HDMARanInDMA` is 0 on return. -/
theorem C17_addCyclesInDMA_result (F : Facade) (c : Fin 8) (m : Machine) :
    ((addCyclesInDMA F c m).1 = false ↔
      (F.S9xDoHEventProcessing m.tick
        { m.CPU with Cycles := m.CPU.Cycles + SLOW_ONE_CYCLE }).HDMARanInDMA.testBit c.val
        = true)
    ∧ (addCyclesInDMA F c m).2.CPU.HDMARanInDMA = 0 := by
  rw [← bit_set_iff]
  unfold addCyclesInDMA ADD_CYCLES
  simp only []
  split_ifs with h
  · exact ⟨⟨fun _ => h, fun _ => rfl⟩, rfl⟩
  · exact ⟨⟨fun h2 => absurd h2 (by simp), fun h2 => absurd h2 h⟩, rfl⟩

/-- C18: in the channel array `S9xDoDMA(c)` changes nothing but the count
register and `AAddress` of channel `c`: the other seven channels are as
before, and channel `c` is its former record with new values of those two
fields at most. -/
theorem C18_S9xDoDMA_channel_frame (F : Facade) (c : Fin 8) (m : Machine)
    (hM : F.MEMMAP_MASK < F.MEMMAP_BLOCK_SIZE) :
    (∀ j, j ≠ c → (S9xDoDMA F c m).2.DMA j = m.DMA j)
    ∧ ∃ count address, (S9xDoDMA F c m).2.DMA c
        = { m.DMA c with DMACount_Or_HDMAIndirectAddress := count, AAddress := address } := by
  have key : ∃ inc k, (S9xDoDMA F c m).2.DMA
      = Function.update m.DMA c ((stepChannel inc)^[k] (m.DMA c)) := by
    by_cases hinv : invalidDMA (m.DMA c) = true
    · obtain ⟨k, m1, -, hs, he | he⟩ := S9xDoDMA_invalid_inv F c m hinv
      · exact ⟨1, k, by rw [he]; exact hs.dma⟩
      · exact ⟨1, k, by rw [he]; exact hs.dma⟩
    · obtain ⟨k, m1, -, hs, he | he⟩ := S9xDoDMA_valid_inv F c m hM (by simpa using hinv)
      · refine ⟨startIncrement (enterDMA c m) (m.DMA c), k, ?_⟩
        rw [he]
        show (rescheduleNMI m1).DMA = _
        rw [rescheduleNMI_DMA, hs.dma, startDMA_DMA]
      · refine ⟨startIncrement (enterDMA c m) (m.DMA c), k, ?_⟩
        rw [he, hs.dma, startDMA_DMA]
  obtain ⟨inc, k, h⟩ := key
  rw [h]
  refine ⟨fun j hj => Function.update_noteq hj _ _, ?_⟩
  rw [Function.update_same]
  exact iterate_stepChannel_frame inc k (m.DMA c)

/-- Witness of C18 on the five-byte transfer of `sampleMachine`. -/
theorem C18_witness :
    (∀ j, j ≠ (0 : Fin 8) → (S9xDoDMA quietFacade 0 sampleMachine).2.DMA j = sampleMachine.DMA j)
    ∧ ∃ count address, (S9xDoDMA quietFacade 0 sampleMachine).2.DMA 0
        = { sampleMachine.DMA 0 with
            DMACount_Or_HDMAIndirectAddress := count, AAddress := address } :=
  C18_S9xDoDMA_channel_frame quietFacade 0 sampleMachine (by decide)

/-! ## The table address after `HDMAReadLineCount` -/

/-- C14, as stated, fails: channel 0 of `indirectMachine` uses indirect
addressing, its line-count byte is at `$01:1000` and reads 0, and no
higher-numbered channel is active; `HDMAReadLineCount` reads the word at
`$01:1000`, the position of the line-count byte itself, and leaves `Address`
at `0x1002`, two bytes past that position. -/
theorem C14_counterexample :
    (indirectMachine.DMA 0).HDMAIndirectAddressing = true
    ∧ (indirectMachine.DMA 0).Address = 0x1000
    ∧ lineCountByte (lineFacade 0) 0 indirectMachine = 0
    ∧ (HDMAReadLineCount (lineFacade 0) 0 indirectMachine).2.log
        = [Access.S9xGetByte 0x11000, Access.S9xGetWord 0x11000]
    ∧ ((HDMAReadLineCount (lineFacade 0) 0 indirectMachine).2.DMA 0).Address = 0x1002
    ∧ ((HDMAReadLineCount (lineFacade 0) 0 indirectMachine).2.DMA 0).Address
        ≠ ((indirectMachine.DMA 0).Address + 3) % 0x10000 := by
  decide

/-- C14, amended: `HDMAReadLineCount` on a channel without indirect addressing
advances `Address` by 1.  On a channel with indirect addressing, when the
line-count byte is not 0 or a higher-numbered channel is active in `PPU.HDMA`,
it reads with `S9xGetWord` the word at the table position following the
line-count byte, stores it in the indirect-address register and leaves
`Address` 3 past the line-count byte; when the line-count byte is 0 and no
higher-numbered channel is active, the word is read at the position of the
line-count byte itself and `Address` ends 2 past it.  All positions are taken
modulo `0x10000` within the bank `ABank`. -/
theorem C14_table_address (F : Facade) (d : Fin 8) (m : Machine) :
    ((m.DMA d).HDMAIndirectAddressing = false →
      ((HDMAReadLineCount F d m).2.DMA d).Address = ((m.DMA d).Address + 1) % 0x10000
      ∧ (HDMAReadLineCount F d m).2.log
          = m.log ++ [Access.S9xGetByte (((m.DMA d).ABank <<< 16) + (m.DMA d).Address)])
    ∧ ((m.DMA d).HDMAIndirectAddressing = true →
        (lineCountByte F d m ≠ 0 ∨ m.PPU.HDMA &&& (0xfe <<< d.val) ≠ 0) →
        ((HDMAReadLineCount F d m).2.DMA d).Address = ((m.DMA d).Address + 3) % 0x10000
        ∧ ((HDMAReadLineCount F d m).2.DMA d).DMACount_Or_HDMAIndirectAddress
            = F.S9xGetWord
                (m.log ++ [Access.S9xGetByte (((m.DMA d).ABank <<< 16) + (m.DMA d).Address)])
                (((m.DMA d).ABank <<< 16) + ((m.DMA d).Address + 1) % 0x10000) % 0x10000
        ∧ (HDMAReadLineCount F d m).2.log
            = m.log ++ [Access.S9xGetByte (((m.DMA d).ABank <<< 16) + (m.DMA d).Address),
                Access.S9xGetWord
                  (((m.DMA d).ABank <<< 16) + ((m.DMA d).Address + 1) % 0x10000)])
    ∧ ((m.DMA d).HDMAIndirectAddressing = true →
        lineCountByte F d m = 0 → m.PPU.HDMA &&& (0xfe <<< d.val) = 0 →
        ((HDMAReadLineCount F d m).2.DMA d).Address = ((m.DMA d).Address + 2) % 0x10000
        ∧ ((HDMAReadLineCount F d m).2.DMA d).DMACount_Or_HDMAIndirectAddress
            = F.S9xGetWord
                (m.log ++ [Access.S9xGetByte (((m.DMA d).ABank <<< 16) + (m.DMA d).Address)])
                (((m.DMA d).ABank <<< 16) + (m.DMA d).Address) % 0x10000
        ∧ (HDMAReadLineCount F d m).2.log
            = m.log ++ [Access.S9xGetByte (((m.DMA d).ABank <<< 16) + (m.DMA d).Address),
                Access.S9xGetWord (((m.DMA d).ABank <<< 16) + (m.DMA d).Address)]) := by
  refine ⟨?_, ?_, ?_⟩
  · intro hind
    unfold HDMAReadLineCount
    simp only []
    by_cases h0 : lineCountByte F d m = 0
    · simp [h0, hind, setDMA, setHDMAMemPointer, ADD_CYCLES, record]
    · by_cases h80 : lineCountByte F d m = 0x80
      · simp [h80, hind, setDMA, setHDMAMemPointer, ADD_CYCLES, record]
      · simp [h0, h80, hind, setDMA, setHDMAMemPointer, ADD_CYCLES, record]
  · intro hind hcase
    unfold HDMAReadLineCount
    simp only []
    by_cases h0 : lineCountByte F d m = 0
    · have hhigh : m.PPU.HDMA &&& (0xfe <<< d.val) ≠ 0 := by
        rcases hcase with h | h
        · exact absurd h0 h
        · exact h
      simp [h0, hind, hhigh, setDMA, setHDMAMemPointer, ADD_CYCLES, record]
    · by_cases h80 : lineCountByte F d m = 0x80
      · simp [h80, hind, setDMA, setHDMAMemPointer, ADD_CYCLES, record]
      · simp [h0, h80, hind, setDMA, setHDMAMemPointer, ADD_CYCLES, record]
  · intro hind h0 hhigh
    unfold HDMAReadLineCount
    simp [h0, hind, hhigh, setDMA, setHDMAMemPointer, ADD_CYCLES, record]

/-- Witness of the amended C14 on channel 0 of `indirectMachine`: with the
line-count byte 5 `Address` ends 3 past the byte, with the line-count byte 0
and no other channel active it ends 2 past it. -/
theorem C14_witness :
    ((HDMAReadLineCount (lineFacade 5) 0 indirectMachine).2.DMA 0).Address
        = ((indirectMachine.DMA 0).Address + 3) % 0x10000
    ∧ ((HDMAReadLineCount (lineFacade 0) 0 indirectMachine).2.DMA 0).Address
        = ((indirectMachine.DMA 0).Address + 2) % 0x10000 :=
  ⟨((C14_table_address (lineFacade 5) 0 indirectMachine).2.1 rfl (Or.inl (by decide))).1,
   ((C14_table_address (lineFacade 0) 0 indirectMachine).2.2 rfl (by decide) (by decide)).1⟩

/-! ## Folds over the eight channels -/

theorem foldl_view_not_mem {S V ι : Type} (f : S → ι → S) (view : ι → S → V)
    (hframe : ∀ s i j, j ≠ i → view j (f s i) = view j s) :
    ∀ (l : List ι) (s0 : S) (i : ι), i ∉ l → view i (l.foldl f s0) = view i s0 := by
  intro l
  induction l with
  | nil => intro s0 i _; rfl
  | cons a l ih =>
    intro s0 i hi
    rw [List.foldl_cons, ih (f s0 a) i (fun h => hi (List.mem_cons_of_mem a h)),
      hframe s0 a i (fun h => hi (h ▸ List.mem_cons_self a l))]

theorem foldl_invariant {S ι : Type} (f : S → ι → S) (G : S → Prop)
    (hG : ∀ s i, G s → G (f s i)) :
    ∀ (l : List ι) (s0 : S), G s0 → G (l.foldl f s0) := by
  intro l
  induction l with
  | nil => intro s0 h; exact h
  | cons a l ih => intro s0 h; exact ih (f s0 a) (hG s0 a h)

theorem foldl_view {S V ι : Type} (f : S → ι → S) (view : ι → S → V) (G : S → Prop)
    (hG : ∀ s i, G s → G (f s i))
    (hframe : ∀ s i j, j ≠ i → view j (f s i) = view j s) :
    ∀ (l : List ι) (s0 : S) (i : ι), l.Nodup → i ∈ l → G s0 →
      ∃ s, G s ∧ view i s = view i s0 ∧ view i (l.foldl f s0) = view i (f s i) := by
  intro l
  induction l with
  | nil => intro s0 i _ hi; exact absurd hi (List.not_mem_nil i)
  | cons a l ih =>
    intro s0 i hnd hi h0
    rw [List.nodup_cons] at hnd
    rw [List.foldl_cons]
    by_cases hia : i = a
    · subst hia
      exact ⟨s0, h0, rfl, foldl_view_not_mem f view hframe l (f s0 i) i hnd.1⟩
    · have hil : i ∈ l := by
        rcases List.mem_cons.mp hi with h | h
        · exact absurd h hia
        · exact h
      obtain ⟨s, hs, hv, hr⟩ := ih (f s0 a) i hnd.2 hil (hG s0 a h0)
      exact ⟨s, hs, hv.trans (hframe s0 a i hia), hr⟩

/-! ## The effect of `HDMAReadLineCount` on the machine -/

theorem HDMAReadLineCount_effect (F : Facade) (d : Fin 8) (m : Machine) :
    ((HDMAReadLineCount F d m).1 = false ↔ lineCountByte F d m = 0)
    ∧ (HDMAReadLineCount F d m).2.PPU = m.PPU
    ∧ (∀ j, j ≠ d → (HDMAReadLineCount F d m).2.DMA j = m.DMA j)
    ∧ (∀ j, j ≠ d → (HDMAReadLineCount F d m).2.HDMAMemPointers j = m.HDMAMemPointers j)
    ∧ ∃ address count rep,
        (HDMAReadLineCount F d m).2.DMA d
          = { m.DMA d with
              Address := address, DMACount_Or_HDMAIndirectAddress := count, Repeat := rep,
              LineCount := if lineCountByte F d m = 0 ∨ lineCountByte F d m = 0x80 then 128
                           else lineCountByte F d m &&& 0x7F,
              DoTransfer := if lineCountByte F d m = 0 then (m.DMA d).DoTransfer else true }
        ∧ ((m.DMA d).HDMAIndirectAddressing = false →
            address = ((m.DMA d).Address + 1) % 0x10000
            ∧ count = (m.DMA d).DMACount_Or_HDMAIndirectAddress)
        ∧ ((m.DMA d).HDMAIndirectAddressing = true →
            address = ((m.DMA d).Address + 3) % 0x10000
            ∨ address = ((m.DMA d).Address + 2) % 0x10000) := by
  have hne : ∀ j, j ≠ d → ∀ (f : Fin 8 → SDMA) (x : SDMA), Function.update f d x j = f j :=
    fun j hj f x => Function.update_noteq hj x f
  have hnp : ∀ j, j ≠ d → ∀ (f : Fin 8 → Option Nat) (x : Option Nat),
      Function.update f d x j = f j :=
    fun j hj f x => Function.update_noteq hj x f
  refine ⟨?_, ?_, ?_, ?_, ((HDMAReadLineCount F d m).2.DMA d).Address,
    ((HDMAReadLineCount F d m).2.DMA d).DMACount_Or_HDMAIndirectAddress,
    ((HDMAReadLineCount F d m).2.DMA d).Repeat, ?_, ?_, ?_⟩
  · by_cases h0 : lineCountByte F d m = 0 <;>
      by_cases h80 : lineCountByte F d m = 0x80 <;>
      by_cases hind : (m.DMA d).HDMAIndirectAddressing = true <;>
      by_cases hhigh : m.PPU.HDMA &&& (0xfe <<< d.val) = 0 <;>
      unfold HDMAReadLineCount <;>
      simp [h0, h80, hind, hhigh, setDMA, setHDMAMemPointer, ADD_CYCLES, record]
  · by_cases h0 : lineCountByte F d m = 0 <;>
      by_cases h80 : lineCountByte F d m = 0x80 <;>
      by_cases hind : (m.DMA d).HDMAIndirectAddressing = true <;>
      by_cases hhigh : m.PPU.HDMA &&& (0xfe <<< d.val) = 0 <;>
      unfold HDMAReadLineCount <;>
      simp [h0, h80, hind, hhigh, setDMA, setHDMAMemPointer, ADD_CYCLES, record]
  · intro j hj
    by_cases h0 : lineCountByte F d m = 0 <;>
      by_cases h80 : lineCountByte F d m = 0x80 <;>
      by_cases hind : (m.DMA d).HDMAIndirectAddressing = true <;>
      by_cases hhigh : m.PPU.HDMA &&& (0xfe <<< d.val) = 0 <;>
      unfold HDMAReadLineCount <;>
      simp [h0, h80, hind, hhigh, setDMA, setHDMAMemPointer, ADD_CYCLES, record, hne j hj]
  · intro j hj
    by_cases h0 : lineCountByte F d m = 0 <;>
      by_cases h80 : lineCountByte F d m = 0x80 <;>
      by_cases hind : (m.DMA d).HDMAIndirectAddressing = true <;>
      by_cases hhigh : m.PPU.HDMA &&& (0xfe <<< d.val) = 0 <;>
      unfold HDMAReadLineCount <;>
      simp [h0, h80, hind, hhigh, setDMA, setHDMAMemPointer, ADD_CYCLES, record, hnp j hj]
  · by_cases h0 : lineCountByte F d m = 0 <;>
      by_cases h80 : lineCountByte F d m = 0x80 <;>
      by_cases hind : (m.DMA d).HDMAIndirectAddressing = true <;>
      by_cases hhigh : m.PPU.HDMA &&& (0xfe <<< d.val) = 0 <;>
      unfold HDMAReadLineCount <;>
      simp [h0, h80, hind, hhigh, setDMA, setHDMAMemPointer, ADD_CYCLES, record]
  · intro hind
    by_cases h0 : lineCountByte F d m = 0 <;>
      by_cases h80 : lineCountByte F d m = 0x80 <;>
      by_cases hhigh : m.PPU.HDMA &&& (0xfe <<< d.val) = 0 <;>
      unfold HDMAReadLineCount <;>
      simp [h0, h80, hind, hhigh, setDMA, setHDMAMemPointer, ADD_CYCLES, record]
  · intro hind
    by_cases h0 : lineCountByte F d m = 0 <;>
      by_cases h80 : lineCountByte F d m = 0x80 <;>
      by_cases hhigh : m.PPU.HDMA &&& (0xfe <<< d.val) = 0 <;>
      unfold HDMAReadLineCount <;>
      simp [h0, h80, hind, hhigh, setDMA, setHDMAMemPointer, ADD_CYCLES, record]

/-! ## Bits of the channel masks -/

theorem testBit_clear (x i j : Nat) (hj : j < 8) :
    (x &&& (0xFF ^^^ (1 <<< i))).testBit j = (x.testBit j && !decide (i = j)) := by
  have hff : (0xFF : Nat) = 2 ^ 8 - 1 := rfl
  rw [Nat.testBit_and, Nat.testBit_xor, Nat.one_shiftLeft, Nat.testBit_two_pow, hff,
    Nat.testBit_two_pow_sub_one]
  simp [hj]

theorem testBit_set (x i j : Nat) :
    (x ||| (1 <<< i)).testBit j = (x.testBit j || decide (i = j)) := by
  rw [Nat.testBit_or, Nat.one_shiftLeft, Nat.testBit_two_pow]

theorem mask_bounds (x y i : Nat) (hx : x < 0x100) (hy : y < 0x100) (hi : i < 8) :
    x &&& (0xFF ^^^ (1 <<< i)) < 0x100 ∧ y ||| (1 <<< i) < 0x100 := by
  constructor
  · exact lt_of_le_of_lt Nat.and_le_left hx
  · have h2 : (0x100 : Nat) = 2 ^ 8 := rfl
    rw [h2] at hy ⊢
    apply Nat.or_lt_two_pow hy
    rw [Nat.one_shiftLeft]
    exact Nat.pow_lt_pow_right (by decide) hi

theorem eq_of_testBit_below (x y : Nat) (hx : x < 0x100) (hy : y < 0x100)
    (h : ∀ j : Fin 8, x.testBit j.val = y.testBit j.val) : x = y := by
  apply Nat.eq_of_testBit_eq
  intro k
  by_cases hk : k < 8
  · exact h ⟨k, hk⟩
  · have hp : (0x100 : Nat) ≤ 2 ^ k := by
      have h2 : (0x100 : Nat) = 2 ^ 8 := rfl
      rw [h2]
      exact Nat.pow_le_pow_right (by decide) (by omega)
    rw [Nat.testBit_lt_two_pow (lt_of_lt_of_le hx hp),
      Nat.testBit_lt_two_pow (lt_of_lt_of_le hy hp)]

/-! ## One channel of `S9xStartHDMA` -/

theorem startHDMAChannel_frame (F : Facade) (i : Fin 8) (s : Machine) :
    (∀ j : Fin 8, j ≠ i →
      (startHDMAChannel F i s).DMA j = s.DMA j
      ∧ (startHDMAChannel F i s).PPU.HDMA.testBit j.val = s.PPU.HDMA.testBit j.val
      ∧ (startHDMAChannel F i s).PPU.HDMAEnded.testBit j.val = s.PPU.HDMAEnded.testBit j.val)
    ∧ (s.PPU.HDMA < 0x100 ∧ s.PPU.HDMAEnded < 0x100 →
        (startHDMAChannel F i s).PPU.HDMA < 0x100
        ∧ (startHDMAChannel F i s).PPU.HDMAEnded < 0x100) := by
  have heff := HDMAReadLineCount_effect F i
    (setDMA { s with CPU := { s.CPU with CurrentDMAorHDMAChannel := (i.val : Int) } } i
      { s.DMA i with Address := (s.DMA i).AAddress })
  obtain ⟨-, hppu, hdma, -, -⟩ := heff
  unfold startHDMAChannel
  by_cases hbit : s.PPU.HDMA &&& (1 <<< i.val) ≠ 0
  · rw [if_pos hbit]
    simp only []
    cases hR : HDMAReadLineCount F i
      (setDMA { s with CPU := { s.CPU with CurrentDMAorHDMAChannel := (i.val : Int) } } i
        { s.DMA i with Address := (s.DMA i).AAddress }) with
    | mk b s3 =>
      rw [hR] at hppu hdma
      simp only at hppu hdma
      have hppu2 : s3.PPU = s.PPU := hppu
      cases b with
      | true =>
        simp only []
        refine ⟨fun j hj => ⟨?_, by rw [hppu2], by rw [hppu2]⟩, fun hb => by rw [hppu2]; exact hb⟩
        rw [hdma j hj]
        exact Function.update_noteq hj _ _
      | false =>
        simp only []
        refine ⟨fun j hj => ⟨?_, ?_, ?_⟩, fun hb => ?_⟩
        · rw [hdma j hj]
          exact Function.update_noteq hj _ _
        · rw [hppu2, testBit_clear _ _ _ j.isLt]
          have : i.val ≠ j.val := fun h => hj (Fin.ext h.symm)
          simp [this]
        · rw [hppu2, testBit_set]
          have : i.val ≠ j.val := fun h => hj (Fin.ext h.symm)
          simp [this]
        · rw [hppu2]
          exact mask_bounds _ _ _ hb.1 hb.2 i.isLt
  · rw [if_neg hbit]
    exact ⟨fun j hj => ⟨Function.update_noteq hj _ _, rfl, rfl⟩, fun hb => hb⟩

theorem startHDMAChannel_effect (F : Facade) (mem : Nat → Nat)
    (hmem : ∀ h a, F.S9xGetByte h a = mem a) (i : Fin 8) (s : Machine) :
    (s.PPU.HDMA.testBit i.val = false →
      (startHDMAChannel F i s).DMA i = { s.DMA i with DoTransfer := false }
      ∧ (startHDMAChannel F i s).PPU.HDMA.testBit i.val = false
      ∧ (startHDMAChannel F i s).PPU.HDMAEnded.testBit i.val = s.PPU.HDMAEnded.testBit i.val)
    ∧ (s.PPU.HDMA.testBit i.val = true →
        (startHDMAChannel F i s).PPU.HDMA.testBit i.val = decide (tableHead mem s i ≠ 0)
        ∧ (startHDMAChannel F i s).PPU.HDMAEnded.testBit i.val
            = (s.PPU.HDMAEnded.testBit i.val || decide (tableHead mem s i = 0))
        ∧ ∃ address count rep,
            (startHDMAChannel F i s).DMA i
              = { s.DMA i with
                  Address := address, DMACount_Or_HDMAIndirectAddress := count, Repeat := rep,
                  LineCount := if tableHead mem s i = 0 ∨ tableHead mem s i = 0x80 then 128
                               else tableHead mem s i &&& 0x7F,
                  DoTransfer := if tableHead mem s i = 0 then (s.DMA i).DoTransfer else true }
            ∧ ((s.DMA i).HDMAIndirectAddressing = false →
                address = ((s.DMA i).AAddress + 1) % 0x10000
                ∧ count = (s.DMA i).DMACount_Or_HDMAIndirectAddress)
            ∧ ((s.DMA i).HDMAIndirectAddressing = true →
                address = ((s.DMA i).AAddress + 3) % 0x10000
                ∨ address = ((s.DMA i).AAddress + 2) % 0x10000)) := by
  constructor
  · intro hbit
    have hbit2 : ¬ (s.PPU.HDMA &&& (1 <<< i.val) ≠ 0) := by
      rw [bit_set_iff, hbit]; simp
    unfold startHDMAChannel
    rw [if_neg hbit2]
    exact ⟨Function.update_same _ _ _, hbit, rfl⟩
  · intro hbit
    have hbit2 : s.PPU.HDMA &&& (1 <<< i.val) ≠ 0 := (bit_set_iff _ _).mpr hbit
    have heff := HDMAReadLineCount_effect F i
      (setDMA { s with CPU := { s.CPU with CurrentDMAorHDMAChannel := (i.val : Int) } } i
        { s.DMA i with Address := (s.DMA i).AAddress })
    have hv : lineCountByte F i
        (setDMA { s with CPU := { s.CPU with CurrentDMAorHDMAChannel := (i.val : Int) } } i
          { s.DMA i with Address := (s.DMA i).AAddress }) = tableHead mem s i := by
      simp [lineCountByte, setDMA, tableHead, hmem]
    rw [hv] at heff
    obtain ⟨hret, hppu, -, -, address, count, rep, hd, hni, hi⟩ := heff
    unfold startHDMAChannel
    rw [if_pos hbit2]
    simp only []
    cases hR : HDMAReadLineCount F i
      (setDMA { s with CPU := { s.CPU with CurrentDMAorHDMAChannel := (i.val : Int) } } i
        { s.DMA i with Address := (s.DMA i).AAddress }) with
    | mk b s3 =>
      rw [hR] at hret hppu hd
      simp only at hret hppu hd
      have hppu2 : s3.PPU = s.PPU := hppu
      have hd2 : s3.DMA i = { s.DMA i with
          Address := address, DMACount_Or_HDMAIndirectAddress := count, Repeat := rep,
          LineCount := if tableHead mem s i = 0 ∨ tableHead mem s i = 0x80 then 128
                       else tableHead mem s i &&& 0x7F,
          DoTransfer := if tableHead mem s i = 0 then (s.DMA i).DoTransfer else true } := by
        rw [hd]
        simp [setDMA]
      have hni2 : (s.DMA i).HDMAIndirectAddressing = false →
          address = ((s.DMA i).AAddress + 1) % 0x10000
          ∧ count = (s.DMA i).DMACount_Or_HDMAIndirectAddress := by
        intro h
        have := hni (by simpa [setDMA] using h)
        simpa [setDMA] using this
      have hi2 : (s.DMA i).HDMAIndirectAddressing = true →
          address = ((s.DMA i).AAddress + 3) % 0x10000
          ∨ address = ((s.DMA i).AAddress + 2) % 0x10000 := by
        intro h
        have := hi (by simpa [setDMA] using h)
        simpa [setDMA] using this
      cases b with
      | true =>
        have hv0 : tableHead mem s i ≠ 0 := fun h => by
          have := hret.mpr h
          simp at this
        simp only []
        refine ⟨by rw [hppu2, hbit]; simp [hv0], by rw [hppu2]; simp [hv0],
          address, count, rep, hd2, hni2, hi2⟩
      | false =>
        have hv0 : tableHead mem s i = 0 := hret.mp rfl
        simp only []
        refine ⟨?_, ?_, address, count, rep, hd2, hni2, hi2⟩
        · rw [hppu2, testBit_clear _ _ _ i.isLt]
          simp [hv0]
        · rw [hppu2, testBit_set]
          simp [hv0]

/-! ## Claims about `S9xStartHDMA` -/

theorem S9xStartHDMA_fold (F : Facade) (m : Machine) :
    ∃ m1, m1.DMA = m.DMA ∧ m1.PPU.HDMA = m.FillRAM_420c ∧ m1.PPU.HDMAEnded = 0
      ∧ (S9xStartHDMA F m).PPU
          = ((List.finRange 8).foldl (fun s i => startHDMAChannel F i s) m1).PPU
      ∧ (S9xStartHDMA F m).DMA
          = ((List.finRange 8).foldl (fun s i => startHDMAChannel F i s) m1).DMA := by
  unfold S9xStartHDMA
  simp only []
  by_cases hE : m.FillRAM_420c ≠ 0
  · rw [if_pos hE]
    exact ⟨ADD_CYCLES m.Timings.DMACPUSync
      { m with PPU := { m.PPU with HDMA := m.FillRAM_420c, HDMAEnded := 0 },
               CPU := { m.CPU with InHDMA := true, InDMAorHDMA := true } },
      rfl, rfl, rfl, rfl, rfl⟩
  · rw [if_neg hE]
    exact ⟨{ m with PPU := { m.PPU with HDMA := m.FillRAM_420c, HDMAEnded := 0 },
                    CPU := { m.CPU with InHDMA := true, InDMAorHDMA := true } },
      rfl, rfl, rfl, rfl, rfl⟩

theorem S9xStartHDMA_channel (F : Facade) (mem : Nat → Nat) (m : Machine)
    (hmem : ∀ h a, F.S9xGetByte h a = mem a) (hE : m.FillRAM_420c < 0x100) :
    ((S9xStartHDMA F m).PPU.HDMA < 0x100 ∧ (S9xStartHDMA F m).PPU.HDMAEnded < 0x100)
    ∧ ∀ i : Fin 8,
      (S9xStartHDMA F m).PPU.HDMA.testBit i.val
        = (m.FillRAM_420c.testBit i.val && decide (tableHead mem m i ≠ 0))
      ∧ (S9xStartHDMA F m).PPU.HDMAEnded.testBit i.val
        = (m.FillRAM_420c.testBit i.val && decide (tableHead mem m i = 0))
      ∧ (m.FillRAM_420c.testBit i.val = false →
          (S9xStartHDMA F m).DMA i = { m.DMA i with DoTransfer := false })
      ∧ (m.FillRAM_420c.testBit i.val = true →
          ∃ address count rep,
            (S9xStartHDMA F m).DMA i
              = { m.DMA i with
                  Address := address, DMACount_Or_HDMAIndirectAddress := count, Repeat := rep,
                  LineCount := if tableHead mem m i = 0 ∨ tableHead mem m i = 0x80 then 128
                               else tableHead mem m i &&& 0x7F,
                  DoTransfer := if tableHead mem m i = 0 then (m.DMA i).DoTransfer else true }
            ∧ ((m.DMA i).HDMAIndirectAddressing = false →
                address = ((m.DMA i).AAddress + 1) % 0x10000
                ∧ count = (m.DMA i).DMACount_Or_HDMAIndirectAddress)
            ∧ ((m.DMA i).HDMAIndirectAddressing = true →
                address = ((m.DMA i).AAddress + 3) % 0x10000
                ∨ address = ((m.DMA i).AAddress + 2) % 0x10000)) := by
  obtain ⟨m1, hdma1, hhdma1, hended1, hppu, hdma⟩ := S9xStartHDMA_fold F m
  rw [hppu, hdma]
  have hG : ∀ (s : Machine) (i : Fin 8), (s.PPU.HDMA < 0x100 ∧ s.PPU.HDMAEnded < 0x100) →
      ((startHDMAChannel F i s).PPU.HDMA < 0x100
        ∧ (startHDMAChannel F i s).PPU.HDMAEnded < 0x100) :=
    fun s i h => (startHDMAChannel_frame F i s).2 h
  have hG1 : m1.PPU.HDMA < 0x100 ∧ m1.PPU.HDMAEnded < 0x100 := by
    rw [hhdma1, hended1]; exact ⟨hE, by decide⟩
  refine ⟨foldl_invariant (fun s i => startHDMAChannel F i s)
    (fun s => s.PPU.HDMA < 0x100 ∧ s.PPU.HDMAEnded < 0x100) hG _ m1 hG1, ?_⟩
  intro i
  obtain ⟨s, -, hv, hr⟩ := foldl_view (fun s i => startHDMAChannel F i s)
    (fun (j : Fin 8) (s : Machine) =>
      (s.DMA j, s.PPU.HDMA.testBit j.val, s.PPU.HDMAEnded.testBit j.val))
    (fun s => s.PPU.HDMA < 0x100 ∧ s.PPU.HDMAEnded < 0x100) hG
    (fun s i j hj => by
      obtain ⟨h1, h2, h3⟩ := (startHDMAChannel_frame F i s).1 j hj
      simp only [h1, h2, h3])
    (List.finRange 8) m1 i (List.nodup_finRange 8) (List.mem_finRange i) hG1
  simp only [Prod.mk.injEq] at hv hr
  obtain ⟨hv1, hv2, hv3⟩ := hv
  obtain ⟨hr1, hr2, hr3⟩ := hr
  rw [hdma1] at hv1
  rw [hhdma1] at hv2
  rw [hended1, Nat.zero_testBit] at hv3
  have hhead : tableHead mem s i = tableHead mem m i := by
    unfold tableHead; rw [hv1]
  have heff := startHDMAChannel_effect F mem hmem i s
  rw [hhead, hv1, hv2, hv3] at heff
  rw [hr1, hr2, hr3]
  cases hb : m.FillRAM_420c.testBit i.val with
  | false =>
    obtain ⟨h1, h2, h3⟩ := heff.1 hb
    refine ⟨by rw [h2]; simp, by rw [h3]; simp, fun _ => h1, fun h => absurd h (by simp)⟩
  | true =>
    obtain ⟨h1, h2, h3⟩ := heff.2 hb
    refine ⟨by rw [h1]; simp, by rw [h2]; simp, fun h => absurd h (by simp), fun _ => h3⟩

/-- C11: let `E = FillRAM[0x420c]` and let memory be stable under reads.  After
`S9xStartHDMA`, bit `i` of `PPU.HDMA` is set exactly when bit `i` of `E` is set
and the byte at `(ABank << 16) + AAddress` of channel `i` is not zero, and bit
`i` of `PPU.HDMAEnded` is set exactly when bit `i` of `E` is set and that byte
is zero; the two masks are disjoint and their union is `E`.  A channel enabled
in `E` has its line count taken from the byte at `AAddress` and its `Address`
past that position (by 1 without indirect addressing); a channel not enabled
in `E` is its former record with `DoTransfer = false`. -/
theorem C11_S9xStartHDMA_masks (F : Facade) (mem : Nat → Nat) (m : Machine)
    (hmem : ∀ h a, F.S9xGetByte h a = mem a) (hE : m.FillRAM_420c < 0x100) :
    (∀ i : Fin 8, ((S9xStartHDMA F m).PPU.HDMA.testBit i.val = true
        ↔ m.FillRAM_420c.testBit i.val = true ∧ tableHead mem m i ≠ 0))
    ∧ (∀ i : Fin 8, ((S9xStartHDMA F m).PPU.HDMAEnded.testBit i.val = true
        ↔ m.FillRAM_420c.testBit i.val = true ∧ tableHead mem m i = 0))
    ∧ (S9xStartHDMA F m).PPU.HDMA &&& (S9xStartHDMA F m).PPU.HDMAEnded = 0
    ∧ (S9xStartHDMA F m).PPU.HDMA ||| (S9xStartHDMA F m).PPU.HDMAEnded = m.FillRAM_420c
    ∧ (∀ i : Fin 8, m.FillRAM_420c.testBit i.val = true →
        ∃ address count rep,
          (S9xStartHDMA F m).DMA i
            = { m.DMA i with
                Address := address, DMACount_Or_HDMAIndirectAddress := count, Repeat := rep,
                LineCount := if tableHead mem m i = 0 ∨ tableHead mem m i = 0x80 then 128
                             else tableHead mem m i &&& 0x7F,
                DoTransfer := if tableHead mem m i = 0 then (m.DMA i).DoTransfer else true }
          ∧ ((m.DMA i).HDMAIndirectAddressing = false →
              address = ((m.DMA i).AAddress + 1) % 0x10000
              ∧ count = (m.DMA i).DMACount_Or_HDMAIndirectAddress)
          ∧ ((m.DMA i).HDMAIndirectAddressing = true →
              address = ((m.DMA i).AAddress + 3) % 0x10000
              ∨ address = ((m.DMA i).AAddress + 2) % 0x10000))
    ∧ (∀ i : Fin 8, m.FillRAM_420c.testBit i.val = false →
        (S9xStartHDMA F m).DMA i = { m.DMA i with DoTransfer := false }) := by
  obtain ⟨⟨hb1, hb2⟩, hch⟩ := S9xStartHDMA_channel F mem m hmem hE
  refine ⟨?_, ?_, ?_, ?_, fun i h => (hch i).2.2.2 h, fun i h => (hch i).2.2.1 h⟩
  · intro i
    rw [(hch i).1]
    simp
  · intro i
    rw [(hch i).2.1]
    simp
  · apply eq_of_testBit_below _ _ (lt_of_le_of_lt Nat.and_le_left hb1) (by decide)
    intro j
    rw [Nat.testBit_and, (hch j).1, (hch j).2.1, Nat.zero_testBit]
    cases m.FillRAM_420c.testBit j.val <;> by_cases h : tableHead mem m j = 0 <;> simp [h]
  · have h2 : (0x100 : Nat) = 2 ^ 8 := rfl
    apply eq_of_testBit_below _ _ (by rw [h2] at hb1 hb2 ⊢; exact Nat.or_lt_two_pow hb1 hb2) hE
    intro j
    rw [Nat.testBit_or, (hch j).1, (hch j).2.1]
    cases m.FillRAM_420c.testBit j.val <;> by_cases h : tableHead mem m j = 0 <;> simp [h]

/-! ## The byte groups of `S9xDoHDMA` -/

theorem foldl_bytes {α : Type} (g : Machine → α → Machine) (seg : SDMA → α → List Access)
    (d : Fin 8)
    (hg : ∀ s a, (g s a).DMA = s.DMA ∧ (g s a).PPU = s.PPU
      ∧ (g s a).HDMAMemPointers = s.HDMAMemPointers
      ∧ (g s a).log.map Access.shape = s.log.map Access.shape ++ seg (s.DMA d) a) :
    ∀ (L : List α) (s : Machine),
      (L.foldl g s).DMA = s.DMA ∧ (L.foldl g s).PPU = s.PPU
      ∧ (L.foldl g s).HDMAMemPointers = s.HDMAMemPointers
      ∧ (L.foldl g s).log.map Access.shape
          = s.log.map Access.shape ++ L.flatMap (seg (s.DMA d)) := by
  intro L
  induction L with
  | nil => intro s; simp
  | cons a L ih =>
    intro s
    obtain ⟨h1, h2, h3, h4⟩ := hg s a
    obtain ⟨i1, i2, i3, i4⟩ := ih (g s a)
    rw [List.foldl_cons]
    refine ⟨i1.trans h1, i2.trans h2, i3.trans h3, ?_⟩
    rw [i4, h4, h1, List.flatMap_cons, List.append_assoc]

theorem DOBYTE_keeps (F : Facade) (d : Fin 8) (B A R : Nat) (s : Machine) :
    (DOBYTE F d B A R s).DMA = s.DMA ∧ (DOBYTE F d B A R s).PPU = s.PPU
    ∧ (DOBYTE F d B A R s).HDMAMemPointers = s.HDMAMemPointers
    ∧ (DOBYTE F d B A R s).log.map Access.shape
        = s.log.map Access.shape ++ [Access.S9xGetByte (B + A % 0x10000),
            Access.S9xSetPPU 0 (0x2100 + (s.DMA d).BAddress + R % 0x10000)] := by
  refine ⟨rfl, rfl, rfl, ?_⟩
  simp [DOBYTE, ADD_CYCLES, record, Access.shape]

theorem hdmaSlowByte_keeps (F : Facade) (d : Fin 8) (A k R : Nat) (s : Machine) :
    (hdmaSlowByte F d A k R s).DMA = s.DMA ∧ (hdmaSlowByte F d A k R s).PPU = s.PPU
    ∧ (hdmaSlowByte F d A k R s).HDMAMemPointers = s.HDMAMemPointers
    ∧ (hdmaSlowByte F d A k R s).log.map Access.shape
        = s.log.map Access.shape
          ++ [Access.S9xGetByte (A + k), Access.S9xSetPPU 0 (R + (s.DMA d).BAddress)] := by
  refine ⟨rfl, rfl, rfl, ?_⟩
  simp [hdmaSlowByte, ADD_CYCLES, record, Access.shape]

theorem hdmaFastByte_keeps (F : Facade) (d : Fin 8) (q k R : Nat) (ob : Bool) (s : Machine) :
    (hdmaFastByte F d q k R ob s).DMA = s.DMA ∧ (hdmaFastByte F d q k R ob s).PPU = s.PPU
    ∧ (hdmaFastByte F d q k R ob s).HDMAMemPointers = s.HDMAMemPointers
    ∧ (hdmaFastByte F d q k R ob s).log.map Access.shape
        = s.log.map Access.shape
          ++ [Access.ReadPointer (q + k), Access.S9xSetPPU 0 (R + (s.DMA d).BAddress)] := by
  cases ob
  · refine ⟨rfl, rfl, rfl, ?_⟩
    simp [hdmaFastByte, ADD_CYCLES, record, Access.shape]
  · refine ⟨rfl, rfl, rfl, ?_⟩
    simp [hdmaFastByte, ADD_CYCLES, record, Access.shape]

theorem hdmaReallySlow_group (F : Facade) (d : Fin 8) (B I : Nat) (s : Machine)
    (hmode : (s.DMA d).TransferMode ≤ 7) :
    (hdmaReallySlow F d B I s).DMA = s.DMA ∧ (hdmaReallySlow F d B I s).PPU = s.PPU
    ∧ (hdmaReallySlow F d B I s).HDMAMemPointers = s.HDMAMemPointers
    ∧ (hdmaReallySlow F d B I s).log.map Access.shape
        = s.log.map Access.shape
          ++ specGroup (s.DMA d).TransferMode (s.DMA d).BAddress
              (fun k => Access.S9xGetByte (B + (I + k) % 0x10000)) := by
  obtain ⟨h1, h2, h3, h4⟩ := foldl_bytes
    (fun m (a : Nat × Nat) => DOBYTE F d B (I + a.1) a.2 m)
    (fun p a => [Access.S9xGetByte (B + (I + a.1) % 0x10000),
      Access.S9xSetPPU 0 (0x2100 + p.BAddress + a.2 % 0x10000)]) d
    (fun s a => DOBYTE_keeps F d B (I + a.1) a.2 s)
    (reallySlowCase (s.DMA d).TransferMode) s
  refine ⟨h1, h2, h3, ?_⟩
  unfold hdmaReallySlow
  rw [h4]
  congr 1
  generalize (s.DMA d).TransferMode = mode at hmode
  interval_cases mode <;> rfl

theorem hdmaSlow_group (F : Facade) (d : Fin 8) (A : Nat) (s : Machine)
    (hmode : (s.DMA d).TransferMode ≤ 7) :
    (hdmaSlow F d A s).DMA = s.DMA ∧ (hdmaSlow F d A s).PPU = s.PPU
    ∧ (hdmaSlow F d A s).HDMAMemPointers = s.HDMAMemPointers
    ∧ (hdmaSlow F d A s).log.map Access.shape
        = s.log.map Access.shape
          ++ specGroup (s.DMA d).TransferMode (s.DMA d).BAddress
              (fun k => Access.S9xGetByte (A + k)) := by
  obtain ⟨h1, h2, h3, h4⟩ := foldl_bytes
    (fun m (a : Nat × Nat) => hdmaSlowByte F d A a.1 a.2 m)
    (fun p a => [Access.S9xGetByte (A + a.1), Access.S9xSetPPU 0 (a.2 + p.BAddress)]) d
    (fun s a => hdmaSlowByte_keeps F d A a.1 a.2 s)
    (slowCase (s.DMA d).TransferMode) s
  refine ⟨h1, h2, h3, ?_⟩
  unfold hdmaSlow
  rw [h4]
  congr 1
  generalize (s.DMA d).TransferMode = mode at hmode
  generalize (s.DMA d).BAddress = reg
  interval_cases mode <;> simp [slowCase, specGroup, specGroupSize, patternOffset, pattern,
    List.range, List.range.loop] <;> omega

theorem hdmaFast_group (F : Facade) (d : Fin 8) (q : Nat) (s : Machine)
    (hmode : (s.DMA d).TransferMode ≤ 7) :
    (hdmaFast F d q s).DMA = s.DMA ∧ (hdmaFast F d q s).PPU = s.PPU
    ∧ (∀ j, j ≠ d → (hdmaFast F d q s).HDMAMemPointers j = s.HDMAMemPointers j)
    ∧ (hdmaFast F d q s).HDMAMemPointers d = some (q + specGroupSize (s.DMA d).TransferMode)
    ∧ (hdmaFast F d q s).log.map Access.shape
        = s.log.map Access.shape
          ++ specGroup (s.DMA d).TransferMode (s.DMA d).BAddress
              (fun k => Access.ReadPointer (q + k)) := by
  obtain ⟨h1, h2, h3, h4⟩ := foldl_bytes
    (fun m (a : Nat × Nat × Bool) => hdmaFastByte F d q a.1 a.2.1 a.2.2 m)
    (fun p a => [Access.ReadPointer (q + a.1), Access.S9xSetPPU 0 (a.2.1 + p.BAddress)]) d
    (fun s a => hdmaFastByte_keeps F d q a.1 a.2.1 a.2.2 s)
    (fastCase (s.DMA d).TransferMode) s
  unfold hdmaFast
  simp only [setHDMAMemPointer]
  refine ⟨h1, h2, ?_, ?_, ?_⟩
  · intro j hj
    show Function.update _ d _ j = _
    rw [Function.update_noteq hj, h3]
  · show Function.update _ d _ d = _
    rw [Function.update_same]
    congr 2
    generalize (s.DMA d).TransferMode = mode at hmode
    interval_cases mode <;> rfl
  · show List.map Access.shape (List.foldl _ s _).log = _
    rw [h4]
    congr 1
    generalize (s.DMA d).TransferMode = mode at hmode
    generalize (s.DMA d).BAddress = reg
    interval_cases mode <;> simp [fastCase, specGroup, specGroupSize, patternOffset, pattern,
      List.range, List.range.loop] <;> omega

theorem foldl_keeps {α : Type} (g : Machine → α → Machine)
    (hg : ∀ s a, (g s a).DMA = s.DMA ∧ (g s a).PPU = s.PPU
      ∧ (g s a).HDMAMemPointers = s.HDMAMemPointers) :
    ∀ (L : List α) (s : Machine),
      (L.foldl g s).DMA = s.DMA ∧ (L.foldl g s).PPU = s.PPU
      ∧ (L.foldl g s).HDMAMemPointers = s.HDMAMemPointers := by
  intro L
  induction L with
  | nil => intro s; exact ⟨rfl, rfl, rfl⟩
  | cons a L ih =>
    intro s
    obtain ⟨h1, h2, h3⟩ := hg s a
    obtain ⟨i1, i2, i3⟩ := ih (g s a)
    exact ⟨i1.trans h1, i2.trans h2, i3.trans h3⟩

theorem hdmaReallySlow_keeps (F : Facade) (d : Fin 8) (B I : Nat) (t : Machine) :
    (hdmaReallySlow F d B I t).DMA = t.DMA ∧ (hdmaReallySlow F d B I t).PPU = t.PPU
    ∧ (hdmaReallySlow F d B I t).HDMAMemPointers = t.HDMAMemPointers := by
  unfold hdmaReallySlow
  exact foldl_keeps (fun m (a : Nat × Nat) => DOBYTE F d B (I + a.1) a.2 m)
    (fun s a => ⟨rfl, rfl, rfl⟩) (reallySlowCase (t.DMA d).TransferMode) t

theorem hdmaReverse_keeps (F : Facade) (d : Fin 8) (B I : Nat) (t : Machine) :
    (hdmaReverse F d B I t).DMA = t.DMA ∧ (hdmaReverse F d B I t).PPU = t.PPU
    ∧ (hdmaReverse F d B I t).HDMAMemPointers = t.HDMAMemPointers := by
  unfold hdmaReverse
  exact foldl_keeps (fun m (a : Nat × Nat) => DOBYTE_reverse F d B (I + a.1) a.2 m)
    (fun s a => ⟨rfl, rfl, rfl⟩) (reallySlowCase (t.DMA d).TransferMode) t

theorem hdmaSlow_keeps (F : Facade) (d : Fin 8) (A : Nat) (t : Machine) :
    (hdmaSlow F d A t).DMA = t.DMA ∧ (hdmaSlow F d A t).PPU = t.PPU
    ∧ (hdmaSlow F d A t).HDMAMemPointers = t.HDMAMemPointers := by
  unfold hdmaSlow
  exact foldl_keeps (fun m (a : Nat × Nat) => hdmaSlowByte F d A a.1 a.2 m)
    (fun s a => ⟨rfl, rfl, rfl⟩) (slowCase (t.DMA d).TransferMode) t

theorem hdmaFast_keeps (F : Facade) (d : Fin 8) (q : Nat) (t : Machine) :
    (hdmaFast F d q t).DMA = t.DMA ∧ (hdmaFast F d q t).PPU = t.PPU
    ∧ ∀ j, j ≠ d → (hdmaFast F d q t).HDMAMemPointers j = t.HDMAMemPointers j := by
  obtain ⟨h1, h2, h3⟩ := foldl_keeps
    (fun m (a : Nat × Nat × Bool) => hdmaFastByte F d q a.1 a.2.1 a.2.2 m)
    (fun s a => ⟨(hdmaFastByte_keeps F d q a.1 a.2.1 a.2.2 s).1,
      (hdmaFastByte_keeps F d q a.1 a.2.1 a.2.2 s).2.1,
      (hdmaFastByte_keeps F d q a.1 a.2.1 a.2.2 s).2.2.1⟩)
    (fastCase (t.DMA d).TransferMode) t
  refine ⟨h1, h2, fun j hj => ?_⟩
  show Function.update _ d _ j = _
  rw [Function.update_noteq hj, h3]

theorem hdmaResolve_keeps (F : Facade) (d : Fin 8) (s : Machine) :
    (hdmaResolve F d s).DMA = s.DMA ∧ (hdmaResolve F d s).PPU = s.PPU
    ∧ (hdmaResolve F d s).log = s.log ∧ (hdmaResolve F d s).Uniracers = s.Uniracers
    ∧ (hdmaResolve F d s).HDMAMemPointers d = hdmaPointer F d s
    ∧ ∀ j, j ≠ d → (hdmaResolve F d s).HDMAMemPointers j = s.HDMAMemPointers j := by
  unfold hdmaResolve hdmaPointer
  simp only []
  split_ifs with h
  · exact ⟨rfl, rfl, rfl, rfl, Function.update_same _ _ _,
      fun j hj => Function.update_noteq hj _ _⟩
  · exact ⟨rfl, rfl, rfl, rfl, rfl, fun j hj => rfl⟩

theorem hdmaUniracers_keeps (p : SDMA) (s : Machine) :
    (hdmaUniracers p s).DMA = s.DMA ∧ (hdmaUniracers p s).PPU.HDMA = s.PPU.HDMA
    ∧ (hdmaUniracers p s).PPU.HDMAEnded = s.PPU.HDMAEnded
    ∧ (hdmaUniracers p s).log = s.log
    ∧ (hdmaUniracers p s).HDMAMemPointers = s.HDMAMemPointers := by
  unfold hdmaUniracers
  split_ifs <;> exact ⟨rfl, rfl, rfl, rfl, rfl⟩

theorem hdmaForward_keeps (F : Facade) (d : Fin 8) (p : SDMA) (s : Machine) :
    (hdmaForward F d p s).DMA = s.DMA ∧ (hdmaForward F d p s).PPU = s.PPU
    ∧ ∀ j, j ≠ d → (hdmaForward F d p s).HDMAMemPointers j = s.HDMAMemPointers j := by
  unfold hdmaForward
  split_ifs with hc
  · obtain ⟨h1, h2, h3⟩ := hdmaReallySlow_keeps F d (ShiftedIBank p) (IAddr p)
      (setHDMAMemPointer s d none)
    refine ⟨h1, h2, fun j hj => ?_⟩
    rw [h3]
    exact Function.update_noteq hj _ _
  · simp only []
    split
    · obtain ⟨h1, h2, h3⟩ := hdmaSlow_keeps F d (ShiftedIBank p + IAddr p)
        { s with CPU := { s.CPU with
          InWRAMDMAorHDMA := hdmaInWRAM (ShiftedIBank p) (IAddr p) } }
      exact ⟨h1, h2, fun j _ => by rw [h3]⟩
    · rename_i q _
      obtain ⟨h1, h2, h3⟩ := hdmaFast_keeps F d q
        { s with CPU := { s.CPU with
          InWRAMDMAorHDMA := hdmaInWRAM (ShiftedIBank p) (IAddr p) } }
      exact ⟨h1, h2, fun j hj => h3 j hj⟩

theorem hdmaTransfer_frame (F : Facade) (d : Fin 8) (s : Machine) :
    (hdmaTransfer F d s).DMA = s.DMA
    ∧ (hdmaTransfer F d s).PPU.HDMA = s.PPU.HDMA
    ∧ (hdmaTransfer F d s).PPU.HDMAEnded = s.PPU.HDMAEnded
    ∧ ∀ j, j ≠ d → (hdmaTransfer F d s).HDMAMemPointers j = s.HDMAMemPointers j := by
  obtain ⟨r1, r2, -, -, -, r6⟩ := hdmaResolve_keeps F d s
  obtain ⟨u1, u2, u3, -, u5⟩ := hdmaUniracers_keeps (s.DMA d) (hdmaResolve F d s)
  unfold hdmaTransfer
  simp only []
  split_ifs with hdo hrev
  · obtain ⟨h1, h2, h3⟩ := hdmaForward_keeps F d (s.DMA d)
      (hdmaUniracers (s.DMA d) (hdmaResolve F d s))
    refine ⟨by rw [h1, u1, r1], by rw [h2, u2, r2], by rw [h2, u3, r2], fun j hj => ?_⟩
    rw [h3 j hj, u5, r6 j hj]
  · obtain ⟨h1, h2, h3⟩ := hdmaReverse_keeps F d (ShiftedIBank (s.DMA d)) (IAddr (s.DMA d))
      (setHDMAMemPointer (hdmaUniracers (s.DMA d) (hdmaResolve F d s)) d none)
    refine ⟨by rw [h1]; exact u1.trans r1, by rw [h2]; exact u2.trans (by rw [r2]),
      by rw [h2]; exact u3.trans (by rw [r2]), fun j hj => ?_⟩
    rw [h3]
    show Function.update _ d _ j = _
    rw [Function.update_noteq hj, u5, r6 j hj]
  · exact ⟨r1, by rw [r2], by rw [r2], r6⟩

theorem hdmaAdvance_keeps (F : Facade) (p : SDMA) :
    (hdmaAdvance F p).Repeat = p.Repeat ∧ (hdmaAdvance F p).LineCount = p.LineCount := by
  unfold hdmaAdvance
  split_ifs <;> exact ⟨rfl, rfl⟩

theorem hdmaLine_eq (F : Facade) (d : Fin 8) (b : Nat) (s : Machine) :
    hdmaLine F d b s
      = if ((s.DMA d).LineCount + 0xFF) % 0x100 = 0 then
          match HDMAReadLineCount F d (hdmaCounted F d s) with
          | (false, m1) =>
            (b &&& (0xFF ^^^ (1 <<< d.val)),
              setDMA { m1 with PPU := { m1.PPU with
                  HDMAEnded := m1.PPU.HDMAEnded ||| (1 <<< d.val) } } d
                { m1.DMA d with DoTransfer := false })
          | (true, m1) => (b, m1)
        else (b, ADD_CYCLES SLOW_ONE_CYCLE (hdmaCounted F d s)) := by
  obtain ⟨h1, h2⟩ := hdmaAdvance_keeps F (s.DMA d)
  simp [hdmaLine, hdmaCounted, setDMA, h1, h2]

theorem hdmaLine_frame (F : Facade) (d : Fin 8) (b : Nat) (s : Machine) :
    (∀ k, (hdmaLine F d b s).1.testBit k = true → b.testBit k = true)
    ∧ ∀ j : Fin 8, j ≠ d →
      (hdmaLine F d b s).2.DMA j = s.DMA j
      ∧ (hdmaLine F d b s).1.testBit j.val = b.testBit j.val
      ∧ (hdmaLine F d b s).2.PPU.HDMAEnded.testBit j.val = s.PPU.HDMAEnded.testBit j.val
      ∧ (hdmaLine F d b s).2.HDMAMemPointers j = s.HDMAMemPointers j := by
  obtain ⟨-, hppu, hdma, hptr, -⟩ := HDMAReadLineCount_effect F d (hdmaCounted F d s)
  have hcd : ∀ j : Fin 8, j ≠ d → (hdmaCounted F d s).DMA j = s.DMA j :=
    fun j hj => Function.update_noteq hj _ _
  rw [hdmaLine_eq]
  by_cases hz : ((s.DMA d).LineCount + 0xFF) % 0x100 = 0
  · rw [if_pos hz]
    cases hR : HDMAReadLineCount F d (hdmaCounted F d s) with
    | mk ok s3 =>
      rw [hR] at hppu hdma hptr
      simp only at hppu hdma hptr
      have hppu2 : s3.PPU = s.PPU := hppu
      cases ok with
      | true =>
        simp only []
        exact ⟨fun k h => h, fun j hj => ⟨(hdma j hj).trans (hcd j hj), trivial, by rw [hppu2],
          hptr j hj⟩⟩
      | false =>
        simp only []
        refine ⟨fun k h => ?_, fun j hj => ⟨?_, ?_, ?_, hptr j hj⟩⟩
        · rw [Nat.testBit_and] at h
          simp only [Bool.and_eq_true] at h
          exact h.1
        · show Function.update _ d _ j = _
          rw [Function.update_noteq hj]
          exact (hdma j hj).trans (hcd j hj)
        · rw [testBit_clear _ _ _ j.isLt]
          have : d.val ≠ j.val := fun h => hj (Fin.ext h.symm)
          simp [this]
        · show (s3.PPU.HDMAEnded ||| (1 <<< d.val)).testBit j.val = _
          rw [hppu2, testBit_set]
          have : d.val ≠ j.val := fun h => hj (Fin.ext h.symm)
          simp [this]
  · rw [if_neg hz]
    exact ⟨fun k h => h, fun j hj => ⟨hcd j hj, rfl, rfl, rfl⟩⟩

theorem hdmaLine_effect (F : Facade) (d : Fin 8) (b : Nat) (s : Machine) :
    (((s.DMA d).LineCount + 0xFF) % 0x100 ≠ 0 →
      (hdmaLine F d b s).1 = b
      ∧ (hdmaLine F d b s).2.DMA d = (hdmaCounted F d s).DMA d
      ∧ (hdmaLine F d b s).2.PPU.HDMAEnded = s.PPU.HDMAEnded)
    ∧ (((s.DMA d).LineCount + 0xFF) % 0x100 = 0 →
      (hdmaLine F d b s).1.testBit d.val
        = (b.testBit d.val && decide (lineCountByte F d (hdmaCounted F d s) ≠ 0))
      ∧ (lineCountByte F d (hdmaCounted F d s) = 0 →
          (hdmaLine F d b s).2.PPU.HDMAEnded.testBit d.val = true
          ∧ ((hdmaLine F d b s).2.DMA d).DoTransfer = false)
      ∧ ((hdmaLine F d b s).2.DMA d).LineCount
          = reloadedLineCount (lineCountByte F d (hdmaCounted F d s))) := by
  obtain ⟨hret, hppu, -, -, address, count, rep, hd, -, -⟩ :=
    HDMAReadLineCount_effect F d (hdmaCounted F d s)
  rw [hdmaLine_eq]
  constructor
  · intro hz
    rw [if_neg hz]
    exact ⟨rfl, rfl, rfl⟩
  · intro hz
    rw [if_pos hz]
    cases hR : HDMAReadLineCount F d (hdmaCounted F d s) with
    | mk ok s3 =>
      rw [hR] at hret hppu hd
      simp only at hret hppu hd
      cases ok with
      | true =>
        have hv0 : lineCountByte F d (hdmaCounted F d s) ≠ 0 := fun h => by
          have := hret.mpr h
          simp at this
        simp only []
        refine ⟨by simp [hv0], fun h => absurd h hv0, ?_⟩
        rw [hd]
        rfl
      | false =>
        have hv0 : lineCountByte F d (hdmaCounted F d s) = 0 := hret.mp rfl
        simp only []
        refine ⟨?_, fun _ => ⟨?_, ?_⟩, ?_⟩
        · rw [testBit_clear _ _ _ d.isLt]
          simp [hv0]
        · show (s3.PPU.HDMAEnded ||| (1 <<< d.val)).testBit d.val = true
          rw [testBit_set]
          simp
        · simp [setDMA]
        · simp only [setDMA, Function.update_same]
          show (s3.DMA d).LineCount = _
          rw [hd]
          rfl

/-! ## `S9xDoHDMA` as a whole -/

theorem hdmaTransfers_frame (F : Facade) (byte : Nat) (m1 : Machine) :
    (hdmaTransfers F byte m1).DMA = m1.DMA
    ∧ (hdmaTransfers F byte m1).PPU.HDMAEnded = m1.PPU.HDMAEnded
    ∧ ∀ j : Fin 8, byte.testBit j.val = false →
        (hdmaTransfers F byte m1).HDMAMemPointers j = m1.HDMAMemPointers j := by
  unfold hdmaTransfers
  have hinv := foldl_invariant
    (fun s (d : Fin 8) => if byte &&& (1 <<< d.val) ≠ 0 then hdmaTransfer F d s else s)
    (fun s => s.DMA = m1.DMA ∧ s.PPU.HDMAEnded = m1.PPU.HDMAEnded)
    (fun s d h => by
      show (if byte &&& (1 <<< d.val) ≠ 0 then hdmaTransfer F d s else s).DMA = m1.DMA
        ∧ (if byte &&& (1 <<< d.val) ≠ 0 then hdmaTransfer F d s else s).PPU.HDMAEnded
            = m1.PPU.HDMAEnded
      split_ifs
      · obtain ⟨h1, -, h3, -⟩ := hdmaTransfer_frame F d s
        exact ⟨h1.trans h.1, h3.trans h.2⟩
      · exact h)
    (List.finRange 8) m1 ⟨rfl, rfl⟩
  refine ⟨hinv.1, hinv.2, fun j hj => ?_⟩
  obtain ⟨s, -, hv, hr⟩ := foldl_view
    (fun s (d : Fin 8) => if byte &&& (1 <<< d.val) ≠ 0 then hdmaTransfer F d s else s)
    (fun (j : Fin 8) (s : Machine) => s.HDMAMemPointers j) (fun _ => True)
    (fun _ _ _ => trivial)
    (fun s i j hji => by
      show (if byte &&& (1 <<< i.val) ≠ 0 then hdmaTransfer F i s else s).HDMAMemPointers j
        = s.HDMAMemPointers j
      split_ifs
      · exact (hdmaTransfer_frame F i s).2.2.2 j hji
      · rfl)
    (List.finRange 8) m1 j (List.nodup_finRange 8) (List.mem_finRange j) trivial
  have hbit : ¬ (byte &&& (1 <<< j.val) ≠ 0) := by
    rw [bit_set_iff, hj]; simp
  simp only [if_neg hbit] at hr
  exact hr.trans hv

theorem hdmaLines_channel (F : Facade) (byte : Nat) (m2 : Machine) :
    (∀ k, (hdmaLines F byte m2).1.testBit k = true → byte.testBit k = true)
    ∧ ∀ d : Fin 8,
      (byte.testBit d.val = false →
        (hdmaLines F byte m2).2.DMA d = m2.DMA d
        ∧ (hdmaLines F byte m2).1.testBit d.val = false
        ∧ (hdmaLines F byte m2).2.PPU.HDMAEnded.testBit d.val = m2.PPU.HDMAEnded.testBit d.val
        ∧ (hdmaLines F byte m2).2.HDMAMemPointers d = m2.HDMAMemPointers d)
      ∧ (byte.testBit d.val = true →
        ∃ (b : Nat) (s : Machine), b.testBit d.val = true ∧ s.DMA d = m2.DMA d
          ∧ s.PPU.HDMAEnded.testBit d.val = m2.PPU.HDMAEnded.testBit d.val
          ∧ (hdmaLines F byte m2).2.DMA d = (hdmaLine F d b s).2.DMA d
          ∧ (hdmaLines F byte m2).1.testBit d.val = (hdmaLine F d b s).1.testBit d.val
          ∧ (hdmaLines F byte m2).2.PPU.HDMAEnded.testBit d.val
              = (hdmaLine F d b s).2.PPU.HDMAEnded.testBit d.val) := by
  have hG : ∀ (r : Nat × Machine) (d : Fin 8),
      (∀ k, r.1.testBit k = true → byte.testBit k = true) →
      (∀ k, (if r.1 &&& (1 <<< d.val) ≠ 0 then hdmaLine F d r.1 r.2 else r).1.testBit k = true
        → byte.testBit k = true) := by
    intro r d h k hk
    split_ifs at hk
    · exact h k ((hdmaLine_frame F d r.1 r.2).1 k hk)
    · exact h k hk
  have hframe : ∀ (r : Nat × Machine) (i j : Fin 8), j ≠ i →
      (fun (j : Fin 8) (r : Nat × Machine) =>
          (r.2.DMA j, r.1.testBit j.val, r.2.PPU.HDMAEnded.testBit j.val,
            r.2.HDMAMemPointers j)) j
        (if r.1 &&& (1 <<< i.val) ≠ 0 then hdmaLine F i r.1 r.2 else r)
      = (fun (j : Fin 8) (r : Nat × Machine) =>
          (r.2.DMA j, r.1.testBit j.val, r.2.PPU.HDMAEnded.testBit j.val,
            r.2.HDMAMemPointers j)) j r := by
    intro r i j hji
    simp only []
    split_ifs
    · obtain ⟨h1, h2, h3, h4⟩ := (hdmaLine_frame F i r.1 r.2).2 j hji
      rw [h1, h2, h3, h4]
    · rfl
  unfold hdmaLines
  constructor
  · exact foldl_invariant
      (fun (r : Nat × Machine) (d : Fin 8) =>
        if r.1 &&& (1 <<< d.val) ≠ 0 then hdmaLine F d r.1 r.2 else r)
      (fun r => ∀ k, r.1.testBit k = true → byte.testBit k = true) hG
      (List.finRange 8) (byte, m2) (fun k h => h)
  · intro d
    obtain ⟨r, -, hv, hr⟩ := foldl_view
      (fun (r : Nat × Machine) (d : Fin 8) =>
        if r.1 &&& (1 <<< d.val) ≠ 0 then hdmaLine F d r.1 r.2 else r)
      (fun (j : Fin 8) (r : Nat × Machine) =>
        (r.2.DMA j, r.1.testBit j.val, r.2.PPU.HDMAEnded.testBit j.val,
          r.2.HDMAMemPointers j))
      (fun r => ∀ k, r.1.testBit k = true → byte.testBit k = true) hG hframe
      (List.finRange 8) (byte, m2) d (List.nodup_finRange 8) (List.mem_finRange d)
      (fun k h => h)
    simp only [Prod.mk.injEq] at hv hr
    obtain ⟨hv1, hv2, hv3, hv4⟩ := hv
    obtain ⟨hr1, hr2, hr3, hr4⟩ := hr
    rw [hr1, hr2, hr3, hr4]
    constructor
    · intro hb
      have hbit : ¬ (r.1 &&& (1 <<< d.val) ≠ 0) := by
        rw [bit_set_iff, hv2, hb]; simp
      rw [if_neg hbit]
      exact ⟨hv1, by rw [hv2, hb], hv3, hv4⟩
    · intro hb
      have hbit : r.1 &&& (1 <<< d.val) ≠ 0 := by
        rw [bit_set_iff, hv2, hb]
      rw [if_pos hbit]
      exact ⟨r.1, r.2, by rw [hv2, hb], hv1, hv3, rfl, rfl, rfl⟩

theorem S9xDoHDMA_channel (F : Facade) (byte : Nat) (m : Machine) :
    (∀ k, (S9xDoHDMA F byte m).1.testBit k = true → byte.testBit k = true)
    ∧ ∀ d : Fin 8,
      (byte.testBit d.val = false →
        (S9xDoHDMA F byte m).2.DMA d = m.DMA d
        ∧ (S9xDoHDMA F byte m).1.testBit d.val = false
        ∧ (S9xDoHDMA F byte m).2.PPU.HDMAEnded.testBit d.val = m.PPU.HDMAEnded.testBit d.val
        ∧ (S9xDoHDMA F byte m).2.HDMAMemPointers d = m.HDMAMemPointers d)
      ∧ (byte.testBit d.val = true →
        ∃ (b : Nat) (s : Machine), b.testBit d.val = true ∧ s.DMA d = m.DMA d
          ∧ s.PPU.HDMAEnded.testBit d.val = m.PPU.HDMAEnded.testBit d.val
          ∧ (S9xDoHDMA F byte m).2.DMA d = (hdmaLine F d b s).2.DMA d
          ∧ (S9xDoHDMA F byte m).1.testBit d.val = (hdmaLine F d b s).1.testBit d.val
          ∧ (S9xDoHDMA F byte m).2.PPU.HDMAEnded.testBit d.val
              = (hdmaLine F d b s).2.PPU.HDMAEnded.testBit d.val) := by
  obtain ⟨f1, f2, f3⟩ := hdmaTransfers_frame F byte (hdmaEnter byte m)
  obtain ⟨g1, g2⟩ := hdmaLines_channel F byte (hdmaTransfers F byte (hdmaEnter byte m))
  have e1 : (hdmaEnter byte m).DMA = m.DMA := rfl
  have e2 : (hdmaEnter byte m).PPU = m.PPU := rfl
  have e3 : (hdmaEnter byte m).HDMAMemPointers = m.HDMAMemPointers := rfl
  rw [e1] at f1
  rw [e2] at f2
  rw [e3] at f3
  refine ⟨g1, fun d => ⟨fun hb => ?_, fun hb => ?_⟩⟩
  · obtain ⟨h1, h2, h3, h4⟩ := (g2 d).1 hb
    exact ⟨h1.trans (by rw [f1]), h2, h3.trans (by rw [f2]), h4.trans (f3 d hb)⟩
  · obtain ⟨b, s, h1, h2, h3, h4, h5, h6⟩ := (g2 d).2 hb
    exact ⟨b, s, h1, h2.trans (by rw [f1]), h3.trans (by rw [f2]), h4, h5, h6⟩

/-- Witness of C11 on `hdmaMachine` with memory bytes equal to the low byte of
their address: channel 2 is enabled and its table starts with `0xFE`, channel
0 is enabled and its table starts with 0, channel 1 is not enabled. -/
theorem C11_witness :
    ((S9xStartHDMA quietFacade hdmaMachine).PPU.HDMA.testBit (2 : Fin 8).val = true
      ↔ hdmaMachine.FillRAM_420c.testBit (2 : Fin 8).val = true
        ∧ tableHead (fun a => a % 0x100) hdmaMachine 2 ≠ 0)
    ∧ ((S9xStartHDMA quietFacade hdmaMachine).PPU.HDMAEnded.testBit (0 : Fin 8).val = true
      ↔ hdmaMachine.FillRAM_420c.testBit (0 : Fin 8).val = true
        ∧ tableHead (fun a => a % 0x100) hdmaMachine 0 = 0)
    ∧ (S9xStartHDMA quietFacade hdmaMachine).PPU.HDMA
        &&& (S9xStartHDMA quietFacade hdmaMachine).PPU.HDMAEnded = 0
    ∧ (S9xStartHDMA quietFacade hdmaMachine).PPU.HDMA
        ||| (S9xStartHDMA quietFacade hdmaMachine).PPU.HDMAEnded = hdmaMachine.FillRAM_420c
    ∧ (S9xStartHDMA quietFacade hdmaMachine).DMA 1
        = { hdmaMachine.DMA 1 with DoTransfer := false } :=
  have h := C11_S9xStartHDMA_masks quietFacade (fun a => a % 0x100) hdmaMachine
    (fun _ _ => rfl) (by decide)
  ⟨h.1 2, h.2.1 0, h.2.2.1, h.2.2.2.1, h.2.2.2.2.2 1 (by decide)⟩

/-! ## Claims about `S9xDoHDMA` -/

/-- C12: `S9xDoHDMA(byte)` returns a sub-mask of `byte`.  A channel whose bit
is not in `byte` is left as it was.  For a channel `d` of `byte` the line
counter is decremented by one on 8 bits; when it does not reach zero the bit
stays set; when it reaches zero the counter is reloaded from the next
line-count byte.  Bit `d` is cleared in the result exactly when the counter
reached zero and that byte is 0, and then bit `d` of `PPU.HDMAEnded` is set
and `DoTransfer` of the channel is false.  The machine `s` is the one in
which the counter of channel `d` has just been decremented. -/
theorem C12_S9xDoHDMA_line_counters (F : Facade) (byte : Nat) (m : Machine) :
    (∀ k, (S9xDoHDMA F byte m).1.testBit k = true → byte.testBit k = true)
    ∧ (S9xDoHDMA F byte m).1 &&& byte = (S9xDoHDMA F byte m).1
    ∧ (∀ d : Fin 8, byte.testBit d.val = false →
        (S9xDoHDMA F byte m).2.DMA d = m.DMA d
        ∧ (S9xDoHDMA F byte m).2.HDMAMemPointers d = m.HDMAMemPointers d
        ∧ (S9xDoHDMA F byte m).1.testBit d.val = false)
    ∧ (∀ d : Fin 8, byte.testBit d.val = true →
        ∃ s : Machine,
          s.DMA d = { hdmaAdvance F (m.DMA d) with
                      DoTransfer := !(m.DMA d).Repeat,
                      LineCount := ((m.DMA d).LineCount + 0xFF) % 0x100 }
          ∧ (((m.DMA d).LineCount + 0xFF) % 0x100 ≠ 0 →
              (S9xDoHDMA F byte m).2.DMA d = s.DMA d
              ∧ (S9xDoHDMA F byte m).1.testBit d.val = true)
          ∧ (((m.DMA d).LineCount + 0xFF) % 0x100 = 0 →
              ((S9xDoHDMA F byte m).2.DMA d).LineCount
                = reloadedLineCount (lineCountByte F d s))
          ∧ ((S9xDoHDMA F byte m).1.testBit d.val = false
              ↔ ((m.DMA d).LineCount + 0xFF) % 0x100 = 0 ∧ lineCountByte F d s = 0)
          ∧ ((S9xDoHDMA F byte m).1.testBit d.val = false →
              (S9xDoHDMA F byte m).2.PPU.HDMAEnded.testBit d.val = true
              ∧ ((S9xDoHDMA F byte m).2.DMA d).DoTransfer = false)) := by
  obtain ⟨hsub, hch⟩ := S9xDoHDMA_channel F byte m
  refine ⟨hsub, ?_, ?_, ?_⟩
  · apply Nat.eq_of_testBit_eq
    intro k
    rw [Nat.testBit_and]
    cases hk : (S9xDoHDMA F byte m).1.testBit k with
    | false => rfl
    | true => rw [hsub k hk]; rfl
  · intro d hb
    obtain ⟨h1, h2, -, h4⟩ := (hch d).1 hb
    exact ⟨h1, h4, h2⟩
  · intro d hb
    obtain ⟨b, s0, hbd, hs0, -, h1, h2, h3⟩ := (hch d).2 hb
    obtain ⟨e1, e2⟩ := hdmaLine_effect F d b s0
    have hc : (hdmaCounted F d s0).DMA d
        = { hdmaAdvance F (m.DMA d) with
            DoTransfer := !(m.DMA d).Repeat,
            LineCount := ((m.DMA d).LineCount + 0xFF) % 0x100 } := by
      simp [hdmaCounted, setDMA, hs0]
    rw [hs0] at e1 e2
    refine ⟨hdmaCounted F d s0, hc, ?_, ?_, ?_, ?_⟩
    · intro hz
      obtain ⟨a1, a2, -⟩ := e1 hz
      exact ⟨h1.trans a2, by rw [h2, a1]; exact hbd⟩
    · intro hz
      rw [h1]
      exact (e2 hz).2.2
    · rw [h2]
      constructor
      · intro hf
        by_cases hz : ((m.DMA d).LineCount + 0xFF) % 0x100 = 0
        · refine ⟨hz, ?_⟩
          have := (e2 hz).1
          rw [hf, hbd] at this
          by_contra hv
          simp [hv] at this
        · rw [(e1 hz).1, hbd] at hf
          exact absurd hf (by simp)
      · rintro ⟨hz, hv⟩
        rw [(e2 hz).1, hv]
        simp
    · intro hf
      rw [h2] at hf
      by_cases hz : ((m.DMA d).LineCount + 0xFF) % 0x100 = 0
      · have hv : lineCountByte F d (hdmaCounted F d s0) = 0 := by
          have := (e2 hz).1
          rw [hf, hbd] at this
          by_contra hv
          simp [hv] at this
        rw [h3, h1]
        exact (e2 hz).2.1 hv
      · rw [(e1 hz).1, hbd] at hf
        exact absurd hf (by simp)

theorem hdmaFast_bytes (F : Facade) (d : Fin 8) (q : Nat) (s : Machine)
    (hmode : (s.DMA d).TransferMode ≤ 7) :
    (hdmaFast F d q s).log
        = s.log ++ specGroupOf (s.DMA d).TransferMode (s.DMA d).BAddress
            (fun k => Access.ReadPointer (q + k)) (fun h k => F.ReadPointer h (q + k)) s.log := by
  obtain ⟨mode, hm⟩ : ∃ mode, (s.DMA d).TransferMode = mode := ⟨_, rfl⟩
  rw [hm] at hmode
  have e1 : ∀ b : Nat, 8448 + b + 1 = 8449 + b := by intro b; omega
  have e2 : ∀ b : Nat, 8448 + b + 2 = 8450 + b := by intro b; omega
  have e3 : ∀ b : Nat, 8448 + b + 3 = 8451 + b := by intro b; omega
  interval_cases mode <;>
    simp [hdmaFast, fastCase, hdmaFastByte, record, ADD_CYCLES, setHDMAMemPointer, specGroupOf,
      specGroupSize, patternOffset, pattern, List.range, List.range.loop, hm, e1, e2, e3]

theorem hdmaSlow_bytes (F : Facade) (d : Fin 8) (A : Nat) (s : Machine)
    (hmode : (s.DMA d).TransferMode ≤ 7) :
    (hdmaSlow F d A s).log
        = s.log ++ specGroupOf (s.DMA d).TransferMode (s.DMA d).BAddress
            (fun k => Access.S9xGetByte (A + k)) (fun h k => F.S9xGetByte h (A + k)) s.log := by
  obtain ⟨mode, hm⟩ : ∃ mode, (s.DMA d).TransferMode = mode := ⟨_, rfl⟩
  rw [hm] at hmode
  have e1 : ∀ b : Nat, 8448 + b + 1 = 8449 + b := by intro b; omega
  have e2 : ∀ b : Nat, 8448 + b + 2 = 8450 + b := by intro b; omega
  have e3 : ∀ b : Nat, 8448 + b + 3 = 8451 + b := by intro b; omega
  interval_cases mode <;>
    simp [hdmaSlow, slowCase, hdmaSlowByte, record, ADD_CYCLES, specGroupOf,
      specGroupSize, patternOffset, pattern, List.range, List.range.loop, hm, e1, e2, e3]

theorem hdmaReallySlow_bytes (F : Facade) (d : Fin 8) (B I : Nat) (s : Machine)
    (hmode : (s.DMA d).TransferMode ≤ 7) :
    (hdmaReallySlow F d B I s).log
        = s.log ++ specGroupOf (s.DMA d).TransferMode (s.DMA d).BAddress
            (fun k => Access.S9xGetByte (B + (I + k) % 0x10000))
            (fun h k => F.S9xGetByte h (B + (I + k) % 0x10000)) s.log := by
  obtain ⟨mode, hm⟩ : ∃ mode, (s.DMA d).TransferMode = mode := ⟨_, rfl⟩
  rw [hm] at hmode
  interval_cases mode <;>
    simp [hdmaReallySlow, reallySlowCase, DOBYTE, record, ADD_CYCLES, specGroupOf,
      specGroupSize, patternOffset, pattern, List.range, List.range.loop, hm]

theorem hdmaReverse_bytes (F : Facade) (d : Fin 8) (B I : Nat) (s : Machine)
    (hmode : (s.DMA d).TransferMode ≤ 7) :
    (hdmaReverse F d B I s).log
        = s.log ++ specGroupReverseOf F (s.DMA d).TransferMode (s.DMA d).BAddress
            (fun k => B + (I + k) % 0x10000) s.log := by
  obtain ⟨mode, hm⟩ : ∃ mode, (s.DMA d).TransferMode = mode := ⟨_, rfl⟩
  rw [hm] at hmode
  interval_cases mode <;>
    simp [hdmaReverse, reallySlowCase, DOBYTE_reverse, record, ADD_CYCLES, specGroupReverseOf,
      specGroupSize, patternOffset, pattern, List.range, List.range.loop, hm]

theorem leaveDMA_clear (m : Machine) : DMAFlagsClear (leaveDMA m) := ⟨rfl, rfl, rfl⟩

theorem leaveInvalidDMA_clear (m : Machine) : DMAFlagsClear (leaveInvalidDMA m) :=
  ⟨rfl, rfl, rfl⟩

theorem Outcome.clearsFlags_done {α : Type} (m : Machine) (a : α) :
    (Outcome.done m a).clearsFlags := by
  intro m1 h
  cases h

theorem Outcome.clearsFlags_aborted {α : Type} (m : Machine) (h : DMAFlagsClear m) :
    (Outcome.aborted m : Outcome α).clearsFlags := by
  intro m1 h1
  cases h1
  exact h

theorem Outcome.clearsFlags_map {α β : Type} (f : α → β) (o : Outcome α)
    (h : o.clearsFlags) : (Outcome.map f o).clearsFlags := by
  cases o with
  | aborted m => exact Outcome.clearsFlags_aborted m (h m rfl)
  | done m a => exact Outcome.clearsFlags_done m (f a)

theorem loopSingle_clears (F : Facade) (c : Fin 8) (inc : Int) (e : Emit) :
    ∀ (fuel : Nat) (count : Int) (m : Machine) (p : Nat),
      (loopSingle F c inc e fuel count m p).clearsFlags := by
  intro fuel
  induction fuel with
  | zero => intro count m p; exact Outcome.clearsFlags_done _ _
  | succ fuel ih =>
    intro count m p
    rcases UPDATE_COUNTERS_cases F c inc (e m p) p with ⟨h1, -⟩ | ⟨h1, -⟩
    · simp only [loopSingle, h1]
      split_ifs
      · exact ih _ _ _
      · exact Outcome.clearsFlags_done _ _
    · simp only [loopSingle, h1]
      exact Outcome.clearsFlags_aborted _ (leaveDMA_clear _)

theorem duffLoop_clears (F : Facade) (c : Fin 8) (inc : Int) (e0 e1 : Emit) :
    ∀ (fuel : Nat) (at1 : Bool) (count : Int) (m : Machine) (p : Nat),
      (duffLoop F c inc e0 e1 fuel at1 count m p).clearsFlags := by
  intro fuel
  induction fuel with
  | zero => intro at1 count m p; exact Outcome.clearsFlags_done _ _
  | succ fuel ih =>
    intro at1 count m p
    cases at1 with
    | true =>
      rcases UPDATE_COUNTERS_cases F c inc (e1 m p) p with ⟨h1, -⟩ | ⟨h1, -⟩
      · simp only [duffLoop, h1]
        exact ih _ _ _ _
      · simp only [duffLoop, h1]
        exact Outcome.clearsFlags_aborted _ (leaveDMA_clear _)
    | false =>
      by_cases hc : count > 1
      · rcases UPDATE_COUNTERS_cases F c inc (e0 m p) p with ⟨h1, -⟩ | ⟨h1, -⟩
        · simp only [duffLoop, if_pos hc, h1]
          exact ih _ _ _ _
        · simp only [duffLoop, if_pos hc, h1]
          exact Outcome.clearsFlags_aborted _ (leaveDMA_clear _)
      · simp only [duffLoop, if_neg hc]
        exact Outcome.clearsFlags_done _ _

theorem pairTail_clears (F : Facade) (c : Fin 8) (inc : Int) (e0 : Emit) (count : Int)
    (m : Machine) (p : Nat) : (pairTail F c inc e0 count m p).clearsFlags := by
  unfold pairTail
  split_ifs
  · rcases UPDATE_COUNTERS_cases F c inc (e0 m p) p with ⟨h1, -⟩ | ⟨h1, -⟩
    · simp only [h1]
      exact Outcome.clearsFlags_done _ _
    · simp only [h1]
      exact Outcome.clearsFlags_aborted _ (leaveDMA_clear _)
  · exact Outcome.clearsFlags_done _ _

theorem loopPair_clears (F : Facade) (c : Fin 8) (inc : Int) (e0 e1 : Emit) (b count : Int)
    (m : Machine) (p : Nat) : (loopPair F c inc e0 e1 b count m p).clearsFlags := by
  unfold loopPair
  have h := duffLoop_clears F c inc e0 e1 (count.toNat + 2) (b == 1) count m p
  cases hd : duffLoop F c inc e0 e1 (count.toNat + 2) (b == 1) count m p with
  | aborted m1 =>
    rw [hd] at h
    exact Outcome.clearsFlags_aborted _ (h m1 rfl)
  | done m1 a => exact pairTail_clears F c inc e0 a.2 m1 a.1

theorem loopQuad_clears (F : Facade) (c : Fin 8) (inc : Int) (e : Nat → Emit) :
    ∀ (fuel k : Nat) (count : Int) (m : Machine) (p : Nat),
      (loopQuad F c inc e fuel k count m p).clearsFlags := by
  intro fuel
  induction fuel with
  | zero => intro k count m p; exact Outcome.clearsFlags_done _ _
  | succ fuel ih =>
    intro k count m p
    rcases UPDATE_COUNTERS_cases F c inc (e k m p) p with ⟨h1, -⟩ | ⟨h1, -⟩
    · simp only [loopQuad, h1]
      split_ifs
      · exact Outcome.clearsFlags_done _ _
      · exact ih _ _ _ _
    · simp only [loopQuad, h1]
      exact Outcome.clearsFlags_aborted _ (leaveDMA_clear _)

theorem transferChunk_clears (F : Facade) (c : Fin 8) (inc : Int) (base : Option Nat)
    (b count : Int) (m : Machine) (p : Nat) :
    (transferChunk F c inc base b count m p).clearsFlags := by
  cases base with
  | none =>
    simp only [transferChunk, slowChunk]
    split_ifs
    · exact Outcome.clearsFlags_map _ _ (loopSingle_clears F c inc _ _ _ _ _)
    · exact loopPair_clears F c inc _ _ _ _ _ _
    · exact loopQuad_clears F c inc _ _ _ _ _ _
    · exact loopQuad_clears F c inc _ _ _ _ _ _
    · exact Outcome.clearsFlags_done _ _
  | some q =>
    simp only [transferChunk, fastChunk]
    split_ifs
    · exact Outcome.clearsFlags_map _ _ (loopSingle_clears F c inc _ _ _ _ _)
    · exact loopPair_clears F c inc _ _ _ _ _ _
    · exact loopPair_clears F c inc _ _ _ _ _ _
    · exact loopPair_clears F c inc _ _ _ _ _ _
    · exact loopQuad_clears F c inc _ _ _ _ _ _
    · exact loopQuad_clears F c inc _ _ _ _ _ _
    · exact Outcome.clearsFlags_done _ _
theorem forwardLoop_clears (F : Facade) (c : Fin 8) (inc : Int) (sdd : Bool) :
    ∀ (fuel : Nat) (b : Int) (base : Option Nat) (inW : Bool) (rem count : Int)
      (m : Machine) (p : Nat),
      (forwardLoop F c inc sdd fuel b base inW rem count m p).1 = false →
      DMAFlagsClear (forwardLoop F c inc sdd fuel b base inW rem count m p).2 := by
  intro fuel
  induction fuel with
  | zero => intro b base inW rem count m p h; simp [forwardLoop] at h
  | succ fuel ih =>
    intro b base inW rem count m p
    have hc := transferChunk_clears F c inc base b (if count > rem then rem else count)
      (setInWRAM m inW) p
    rw [forwardLoop]
    cases ht : transferChunk F c inc base b (if count > rem then rem else count)
        (setInWRAM m inW) p with
    | aborted m1 =>
      intro _
      rw [ht] at hc
      exact hc m1 rfl
    | done m1 a =>
      simp only []
      split_ifs
      all_goals first
        | exact ih _ _ _ _ _ _ _
        | (intro h; exact h.elim)

theorem reverseCase_clears (F : Facade) (c : Fin 8) (inc : Int) (rs : Bool) :
    ∀ (Regs : List Nat) (count : Int) (m : Machine),
      (reverseCase F c inc rs Regs count m).clearsFlags := by
  intro Regs
  induction Regs with
  | nil => intro count m; exact Outcome.clearsFlags_done _ _
  | cons Reg Regs ih =>
    intro count m
    cases Regs with
    | nil =>
      rcases UPDATE_COUNTERS_cases F c inc (reverseByte F c rs Reg m) 0 with ⟨-, h1⟩ | ⟨-, h1⟩
      · simp only [reverseCase, h1]
        exact Outcome.clearsFlags_done _ _
      · simp only [reverseCase, h1]
        exact Outcome.clearsFlags_aborted _ (leaveDMA_clear _)
    | cons Reg2 Regs =>
      rcases UPDATE_COUNTERS_cases F c inc (reverseByte F c rs Reg m) 0 with ⟨-, h1⟩ | ⟨-, h1⟩
      · simp only [reverseCase, h1]
        split_ifs
        · exact Outcome.clearsFlags_done _ _
        · exact ih _ _
      · simp only [reverseCase, h1]
        exact Outcome.clearsFlags_aborted _ (leaveDMA_clear _)

theorem reverseDefault_clears (F : Facade) (c : Fin 8) (inc : Int) :
    ∀ (fuel : Nat) (count : Int) (m : Machine),
      (reverseDefault F c inc fuel count m).clearsFlags := by
  intro fuel
  induction fuel with
  | zero => intro count m; exact Outcome.clearsFlags_done _ _
  | succ fuel ih =>
    intro count m
    by_cases hc : count ≠ 0
    · rcases UPDATE_COUNTERS_cases F c inc m 0 with ⟨-, h1⟩ | ⟨-, h1⟩
      · simp only [reverseDefault, if_pos hc, h1]
        exact ih _ _
      · simp only [reverseDefault, if_pos hc, h1]
        exact Outcome.clearsFlags_aborted _ (leaveDMA_clear _)
    · simp only [reverseDefault, if_neg hc]
      exact Outcome.clearsFlags_done _ _

theorem reverseLoop_clears (F : Facade) (c : Fin 8) (inc : Int) (rs : Bool) :
    ∀ (fuel : Nat) (count : Int) (m : Machine),
      (reverseLoop F c inc rs fuel count m).1 = false →
      DMAFlagsClear (reverseLoop F c inc rs fuel count m).2 := by
  intro fuel
  induction fuel with
  | zero => intro count m h; simp [reverseLoop] at h
  | succ fuel ih =>
    intro count m
    have key : ∀ o : Outcome Int, o.clearsFlags →
        (match o with
          | Outcome.aborted m1 => (false, m1)
          | Outcome.done m1 count1 =>
            if count1 ≠ 0 then reverseLoop F c inc rs fuel count1 m1 else (true, m1)).1 = false →
        DMAFlagsClear (match o with
          | Outcome.aborted m1 => (false, m1)
          | Outcome.done m1 count1 =>
            if count1 ≠ 0 then reverseLoop F c inc rs fuel count1 m1 else (true, m1)).2 := by
      intro o ho
      cases o with
      | aborted m1 => intro _; exact ho m1 rfl
      | done m1 count1 =>
        simp only []
        split_ifs
        · exact ih _ _
        · intro h; simp at h
    rw [reverseLoop]
    cases hR : reverseRegisters (m.DMA c).TransferMode with
    | none => exact key _ (reverseDefault_clears F c inc (chunkFuel count) count m)
    | some Regs => exact key _ (reverseCase_clears F c inc rs Regs count m)

theorem invalidLoop_clears (F : Facade) (c : Fin 8) :
    ∀ (n : Nat) (m : Machine),
      (invalidLoop F c n m).1 = false → DMAFlagsClear (invalidLoop F c n m).2 := by
  intro n
  induction n with
  | zero => intro m h; simp [invalidLoop] at h
  | succ n ih =>
    intro m
    rw [invalidLoop]
    split
    · intro _; exact leaveInvalidDMA_clear _
    · exact ih _

/-- C23: on every return of `S9xDoDMA`, with either result and on every path
(invalid DMA, CPU -> PPU, PPU -> CPU, completed or stopped by an HDMA
collision), `CPU.InDMA` and `CPU.InDMAorHDMA` are false and
`CPU.CurrentDMAorHDMAChannel` is -1. -/
theorem C23_S9xDoDMA_flags_on_return (F : Facade) (c : Fin 8) (m : Machine) :
    (S9xDoDMA F c m).2.CPU.InDMA = false
    ∧ (S9xDoDMA F c m).2.CPU.InDMAorHDMA = false
    ∧ (S9xDoDMA F c m).2.CPU.CurrentDMAorHDMAChannel = -1 := by
  show DMAFlagsClear (S9xDoDMA F c m).2
  unfold S9xDoDMA
  simp only []
  split_ifs with hinv hfwd
  · have h := invalidLoop_clears F c (transferCount ((enterDMA c m).DMA c))
      (ADD_CYCLES SLOW_ONE_CYCLE (enterDMA c m))
    cases hr : invalidLoop F c (transferCount ((enterDMA c m).DMA c))
        (ADD_CYCLES SLOW_ONE_CYCLE (enterDMA c m)) with
    | mk ok m1 =>
      rw [hr] at h
      cases ok with
      | false => exact h rfl
      | true => exact leaveInvalidDMA_clear m1
  · cases hr : forwardDMA F c (startIncrement (enterDMA c m) ((enterDMA c m).DMA c))
        (sdd1Active (enterDMA c m) ((enterDMA c m).DMA c))
        (transferCount ((enterDMA c m).DMA c))
        (ADD_CYCLES SLOW_ONE_CYCLE (clearSDD1 (enterDMA c m))) with
    | mk ok m1 =>
      cases ok with
      | false =>
        have h2 := forwardLoop_clears F c
          (startIncrement (enterDMA c m) ((enterDMA c m).DMA c))
          (sdd1Active (enterDMA c m) ((enterDMA c m).DMA c))
        unfold forwardDMA at hr
        simp only [] at hr
        have h3 := h2 _ _ _ _ _ _ _ _ (by rw [hr])
        rw [hr] at h3
        exact h3
      | true => exact leaveDMA_clear _
  · cases hr : reverseDMA F c (startIncrement (enterDMA c m) ((enterDMA c m).DMA c))
        (transferCount ((enterDMA c m).DMA c))
        (ADD_CYCLES SLOW_ONE_CYCLE (clearSDD1 (enterDMA c m))) with
    | mk ok m1 =>
      cases ok with
      | false =>
        unfold reverseDMA at hr
        simp only [] at hr
        split_ifs at hr
        · have h3 := reverseLoop_clears F c _ _ _ _ _ (by rw [hr])
          rw [hr] at h3
          exact h3
        · have h3 := reverseLoop_clears F c _ _ _ _ _ (by rw [hr])
          rw [hr] at h3
          exact h3
      | true => exact leaveDMA_clear _

/-! ## The flags across `S9xStartHDMA` and `S9xDoHDMA` -/

theorem HDMAReadLineCount_kept (F : Facade) (d : Fin 8) (s : Machine) :
    hdmaKept (HDMAReadLineCount F d s).2 = hdmaKept s := by
  unfold HDMAReadLineCount
  simp only []
  split_ifs <;> rfl

theorem startHDMAChannel_kept (F : Facade) (i : Fin 8) (s : Machine) :
    hdmaKept (startHDMAChannel F i s) = hdmaKept s := by
  unfold startHDMAChannel
  split_ifs
  · simp only []
    split
    · next m1 h =>
      have := HDMAReadLineCount_kept F i (setDMA
        { s with CPU := { s.CPU with CurrentDMAorHDMAChannel := (i.val : Int) } } i
        { s.DMA i with Address := (s.DMA i).AAddress })
      rw [h] at this
      exact this
    · next m1 h =>
      have := HDMAReadLineCount_kept F i (setDMA
        { s with CPU := { s.CPU with CurrentDMAorHDMAChannel := (i.val : Int) } } i
        { s.DMA i with Address := (s.DMA i).AAddress })
      rw [h] at this
      exact this
  · rfl

theorem foldl_kept {α : Type} (g : Machine → α → Machine)
    (hg : ∀ s a, hdmaKept (g s a) = hdmaKept s) :
    ∀ (L : List α) (s : Machine), hdmaKept (L.foldl g s) = hdmaKept s := by
  intro L
  induction L with
  | nil => intro s; rfl
  | cons a L ih => intro s; rw [List.foldl_cons, ih, hg]

theorem DOBYTE_kept (F : Facade) (d : Fin 8) (B A R : Nat) (s : Machine) :
    hdmaKept (DOBYTE F d B A R s) = hdmaKept s := rfl

theorem DOBYTE_reverse_kept (F : Facade) (d : Fin 8) (B A R : Nat) (s : Machine) :
    hdmaKept (DOBYTE_reverse F d B A R s) = hdmaKept s := rfl

theorem hdmaSlowByte_kept (F : Facade) (d : Fin 8) (A k R : Nat) (s : Machine) :
    hdmaKept (hdmaSlowByte F d A k R s) = hdmaKept s := rfl

theorem hdmaFastByte_kept (F : Facade) (d : Fin 8) (q k R : Nat) (ob : Bool) (s : Machine) :
    hdmaKept (hdmaFastByte F d q k R ob s) = hdmaKept s := by
  cases ob <;> rfl

theorem S9xStartHDMA_pieces (F : Facade) (m : Machine) :
    S9xStartHDMA F m
      = startHDMALeave m
          ((List.finRange 8).foldl (fun s i => startHDMAChannel F i s) (startHDMAEnter m)) :=
  rfl

theorem startHDMAEnter_kept (m : Machine) : hdmaKept (startHDMAEnter m) = hdmaKept m := by
  unfold startHDMAEnter
  simp only []
  split_ifs <;> rfl

theorem hdmaTransfer_kept (F : Facade) (d : Fin 8) (s : Machine) :
    hdmaKept (hdmaTransfer F d s) = hdmaKept s := by
  have hres : ∀ t, hdmaKept (hdmaResolve F d t) = hdmaKept t := by
    intro t; unfold hdmaResolve; simp only []; split_ifs <;> rfl
  have huni : ∀ p t, hdmaKept (hdmaUniracers p t) = hdmaKept t := by
    intro p t; unfold hdmaUniracers; split_ifs <;> rfl
  have hrs : ∀ B I t, hdmaKept (hdmaReallySlow F d B I t) = hdmaKept t := by
    intro B I t; unfold hdmaReallySlow
    exact foldl_kept (fun m (a : Nat × Nat) => DOBYTE F d B (I + a.1) a.2 m)
      (fun u a => DOBYTE_kept F d B (I + a.1) a.2 u) (reallySlowCase (t.DMA d).TransferMode) t
  have hrev : ∀ B I t, hdmaKept (hdmaReverse F d B I t) = hdmaKept t := by
    intro B I t; unfold hdmaReverse
    exact foldl_kept (fun m (a : Nat × Nat) => DOBYTE_reverse F d B (I + a.1) a.2 m)
      (fun u a => DOBYTE_reverse_kept F d B (I + a.1) a.2 u)
      (reallySlowCase (t.DMA d).TransferMode) t
  have hslow : ∀ A t, hdmaKept (hdmaSlow F d A t) = hdmaKept t := by
    intro A t; unfold hdmaSlow
    exact foldl_kept (fun m (a : Nat × Nat) => hdmaSlowByte F d A a.1 a.2 m)
      (fun u a => hdmaSlowByte_kept F d A a.1 a.2 u) (slowCase (t.DMA d).TransferMode) t
  have hfast : ∀ q t, hdmaKept (hdmaFast F d q t) = hdmaKept t := by
    intro q t; unfold hdmaFast
    exact foldl_kept (fun m (a : Nat × Nat × Bool) => hdmaFastByte F d q a.1 a.2.1 a.2.2 m)
      (fun u a => hdmaFastByte_kept F d q a.1 a.2.1 a.2.2 u) (fastCase (t.DMA d).TransferMode) t
  have hfwd : ∀ p t, hdmaKept (hdmaForward F d p t) = hdmaKept t := by
    intro p t; unfold hdmaForward
    split_ifs
    · rw [hrs]; rfl
    · simp only []
      split
      · rw [hslow]; rfl
      · rw [hfast]; rfl
  unfold hdmaTransfer
  simp only []
  split_ifs
  · rw [hfwd, huni, hres]
  · rw [hrev]
    show hdmaKept (hdmaUniracers _ _) = _
    rw [huni, hres]
  · rw [hres]

theorem hdmaLine_kept (F : Facade) (d : Fin 8) (b : Nat) (s : Machine) :
    hdmaKept (hdmaLine F d b s).2 = hdmaKept s := by
  rw [hdmaLine_eq]
  have h := HDMAReadLineCount_kept F d (hdmaCounted F d s)
  split_ifs
  · split
    · next m1 hm => rw [hm] at h; exact h
    · next m1 hm => rw [hm] at h; exact h
  · rfl

theorem hdmaLines_kept (F : Facade) (byte : Nat) (s : Machine) :
    hdmaKept (hdmaLines F byte s).2 = hdmaKept s := by
  unfold hdmaLines
  have key : ∀ (L : List (Fin 8)) (r : Nat × Machine),
      hdmaKept (L.foldl (fun (r : Nat × Machine) d =>
        if r.1 &&& (1 <<< d.val) ≠ 0 then hdmaLine F d r.1 r.2 else r) r).2 = hdmaKept r.2 := by
    intro L
    induction L with
    | nil => intro r; rfl
    | cons a L ih =>
      intro r
      rw [List.foldl_cons, ih]
      split_ifs
      · exact hdmaLine_kept F a r.1 r.2
      · rfl
  exact key _ _

theorem hdmaTransfers_kept (F : Facade) (byte : Nat) (s : Machine) :
    hdmaKept (hdmaTransfers F byte s) = hdmaKept s := by
  unfold hdmaTransfers
  refine foldl_kept _ ?_ _ _
  intro t d
  split_ifs
  · exact hdmaTransfer_kept F d t
  · rfl

/-- C24: `S9xDoHDMA` and `S9xStartHDMA` return with `CPU.InDMA` as it was on
entry, `CPU.InHDMA` false, `CPU.InDMAorHDMA` equal to `CPU.InDMA` and
`CPU.CurrentDMAorHDMAChannel` equal to its value on entry; `S9xDoHDMA` also
returns with `CPU.InWRAMDMAorHDMA` equal to its value on entry.
`CPU.HDMARanInDMA` is, on return, the mask given to `S9xDoHDMA`, or the mask
`PPU.HDMA` that `S9xStartHDMA` leaves, when `CPU.InDMA` is set, and 0 otherwise. -/
theorem C24_HDMA_restores_flags (F : Facade) (byte : Nat) (m : Machine) :
    ((S9xDoHDMA F byte m).2.CPU.InDMA = m.CPU.InDMA
      ∧ (S9xDoHDMA F byte m).2.CPU.InHDMA = false
      ∧ (S9xDoHDMA F byte m).2.CPU.InDMAorHDMA = m.CPU.InDMA
      ∧ (S9xDoHDMA F byte m).2.CPU.CurrentDMAorHDMAChannel = m.CPU.CurrentDMAorHDMAChannel
      ∧ (S9xDoHDMA F byte m).2.CPU.InWRAMDMAorHDMA = m.CPU.InWRAMDMAorHDMA
      ∧ (S9xDoHDMA F byte m).2.CPU.HDMARanInDMA = if m.CPU.InDMA then byte else 0)
    ∧ ((S9xStartHDMA F m).CPU.InDMA = m.CPU.InDMA
      ∧ (S9xStartHDMA F m).CPU.InHDMA = false
      ∧ (S9xStartHDMA F m).CPU.InDMAorHDMA = m.CPU.InDMA
      ∧ (S9xStartHDMA F m).CPU.CurrentDMAorHDMAChannel = m.CPU.CurrentDMAorHDMAChannel
      ∧ (S9xStartHDMA F m).CPU.HDMARanInDMA
          = if m.CPU.InDMA then (S9xStartHDMA F m).PPU.HDMA else 0) := by
  constructor
  · have h : hdmaKept (hdmaLines F byte (hdmaTransfers F byte (hdmaEnter byte m))).2
        = (m.CPU.InDMA, if m.CPU.InDMA then byte else 0) := by
      rw [hdmaLines_kept, hdmaTransfers_kept]
      rfl
    have h1 : (hdmaLines F byte (hdmaTransfers F byte (hdmaEnter byte m))).2.CPU.InDMA
        = m.CPU.InDMA := congrArg Prod.fst h
    have h2 : (hdmaLines F byte (hdmaTransfers F byte (hdmaEnter byte m))).2.CPU.HDMARanInDMA
        = if m.CPU.InDMA then byte else 0 := congrArg Prod.snd h
    exact ⟨h1, rfl, h1, rfl, rfl, h2⟩
  · have h : hdmaKept ((List.finRange 8).foldl (fun s i => startHDMAChannel F i s)
        (startHDMAEnter m)) = hdmaKept m := by
      rw [foldl_kept (fun s i => startHDMAChannel F i s)
        (fun s i => startHDMAChannel_kept F i s), startHDMAEnter_kept]
    have h1 : ((List.finRange 8).foldl (fun s i => startHDMAChannel F i s)
        (startHDMAEnter m)).CPU.InDMA = m.CPU.InDMA := congrArg Prod.fst h
    rw [S9xStartHDMA_pieces]
    refine ⟨h1, rfl, h1, rfl, ?_⟩
    show (if _ then _ else _) = _
    rw [h1]
    rfl

/-! ## `DoTransfer` and `LineCount` on return from `S9xDoHDMA` -/

theorem hdmaLine_reload (F : Facade) (d : Fin 8) (b : Nat) (s : Machine)
    (hz : ((s.DMA d).LineCount + 0xFF) % 0x100 = 0)
    (hv : lineCountByte F d (hdmaCounted F d s) ≠ 0) :
    ((hdmaLine F d b s).2.DMA d).DoTransfer = true := by
  obtain ⟨hret, -, -, -, address, count, rep, hd, -, -⟩ :=
    HDMAReadLineCount_effect F d (hdmaCounted F d s)
  rw [hdmaLine_eq, if_pos hz]
  cases hR : HDMAReadLineCount F d (hdmaCounted F d s) with
  | mk ok s3 =>
    rw [hR] at hret hd
    simp only at hret hd
    cases ok with
    | true =>
      simp only []
      rw [hd]
      simp [hv]
    | false => exact absurd (hret.mp rfl) hv

/-- C26: for a channel `d` of the mask given to `S9xDoHDMA`, `DoTransfer` on
return is the negation of `Repeat` when the line counter does not reach zero
in the call, true when it reaches zero and the next line-count byte is not
zero, and false when it reaches zero and that byte is zero.  The machine `s`
is the one in which the counter of channel `d` has just been decremented, and
the byte is read in it. -/
theorem C26_DoTransfer_on_return (F : Facade) (byte : Nat) (m : Machine) (d : Fin 8)
    (hb : byte.testBit d.val = true) :
    ∃ s : Machine,
      s.DMA d = { hdmaAdvance F (m.DMA d) with
                  DoTransfer := !(m.DMA d).Repeat,
                  LineCount := ((m.DMA d).LineCount + 0xFF) % 0x100 }
      ∧ (((m.DMA d).LineCount + 0xFF) % 0x100 ≠ 0 →
          ((S9xDoHDMA F byte m).2.DMA d).DoTransfer = !(m.DMA d).Repeat)
      ∧ (((m.DMA d).LineCount + 0xFF) % 0x100 = 0 → lineCountByte F d s ≠ 0 →
          ((S9xDoHDMA F byte m).2.DMA d).DoTransfer = true)
      ∧ (((m.DMA d).LineCount + 0xFF) % 0x100 = 0 → lineCountByte F d s = 0 →
          ((S9xDoHDMA F byte m).2.DMA d).DoTransfer = false) := by
  obtain ⟨b, s0, -, hs0, -, h1, -, -⟩ := ((S9xDoHDMA_channel F byte m).2 d).2 hb
  obtain ⟨e1, e2⟩ := hdmaLine_effect F d b s0
  have e3 := hdmaLine_reload F d b s0
  have hc : (hdmaCounted F d s0).DMA d
      = { hdmaAdvance F (m.DMA d) with
          DoTransfer := !(m.DMA d).Repeat,
          LineCount := ((m.DMA d).LineCount + 0xFF) % 0x100 } := by
    simp [hdmaCounted, setDMA, hs0]
  rw [hs0] at e1 e2 e3
  refine ⟨hdmaCounted F d s0, hc, ?_, ?_, ?_⟩
  · intro hz
    rw [h1, (e1 hz).2.1, hc]
  · intro hz hv
    rw [h1]
    exact e3 hz hv
  · intro hz hv
    rw [h1]
    exact ((e2 hz).2.1 hv).2

/-- Witness of C26: channel 0 of `hdmaMachine` has a line counter of 2, which
does not reach zero, so `DoTransfer` becomes the negation of `Repeat`. -/
theorem C26_witness :
    (1 : Nat).testBit (0 : Fin 8).val = true
    ∧ ((S9xDoHDMA quietFacade 1 hdmaMachine).2.DMA 0).DoTransfer
        = !(hdmaMachine.DMA 0).Repeat :=
  ⟨by decide,
   (C26_DoTransfer_on_return quietFacade 1 hdmaMachine 0 (by decide)).elim
     (fun _ h => h.2.1 (by decide))⟩

/-! ## The range of the line counters -/

theorem reloadedLineCount_range (v : Nat) (hv : v < 0x100) :
    1 ≤ reloadedLineCount v ∧ reloadedLineCount v ≤ 128 := by
  unfold reloadedLineCount
  split_ifs with h
  · omega
  · have h7 : v &&& 0x7F = v % 128 := Nat.and_pow_two_sub_one_eq_mod v 7
    rw [h7]
    omega

theorem lineCountByte_lt (F : Facade) (d : Fin 8) (m : Machine) :
    lineCountByte F d m < 0x100 := by
  unfold lineCountByte
  omega

theorem HDMAReadLineCount_range (F : Facade) (d : Fin 8) (m : Machine) :
    LineCountInRange ((HDMAReadLineCount F d m).2.DMA d)
    ∧ ∀ j, j ≠ d → (HDMAReadLineCount F d m).2.DMA j = m.DMA j := by
  obtain ⟨-, -, hothers, -, address, count, rep, hd, -, -⟩ := HDMAReadLineCount_effect F d m
  refine ⟨?_, hothers⟩
  rw [hd]
  exact reloadedLineCount_range _ (lineCountByte_lt F d m)

theorem startHDMAChannel_range (F : Facade) (i : Fin 8) (s : Machine)
    (h : ∀ j, LineCountInRange (s.DMA j)) :
    ∀ j, LineCountInRange ((startHDMAChannel F i s).DMA j) := by
  intro j
  unfold startHDMAChannel
  split_ifs with hbit
  · simp only []
    have hr := HDMAReadLineCount_range F i (setDMA
      { s with CPU := { s.CPU with CurrentDMAorHDMAChannel := (i.val : Int) } } i
      { s.DMA i with Address := (s.DMA i).AAddress })
    have key : LineCountInRange ((HDMAReadLineCount F i (setDMA
        { s with CPU := { s.CPU with CurrentDMAorHDMAChannel := (i.val : Int) } } i
        { s.DMA i with Address := (s.DMA i).AAddress })).2.DMA j) := by
      by_cases hj : j = i
      · subst hj; exact hr.1
      · rw [hr.2 j hj]
        simp only [setDMA, Function.update_noteq hj]
        exact h j
    split
    · next m1 hm => rw [hm] at key; exact key
    · next m1 hm => rw [hm] at key; exact key
  · by_cases hj : j = i
    · subst hj
      simp only [setDMA, Function.update_same]
      exact h j
    · simp only [setDMA, Function.update_noteq hj]
      exact h j

/-- C28: `1 <= LineCount <= 128` is an invariant of the HDMA engine.  After
`S9xResetDMA` every channel has `LineCount = 0x7F`; `HDMAReadLineCount(d)`,
whether it returns true or false, leaves the counter of channel `d` in the
range and the other channels alone; `S9xStartHDMA` and `S9xDoHDMA` keep every
counter in the range when every counter is in the range on entry.  In
`S9xDoHDMA` the decrement on 8 bits of the counter of a channel of the mask
then never wraps: the decremented value is the counter minus one. -/
theorem C28_LineCount_range (F : Facade) (byte : Nat) (m : Machine)
    (hinv : ∀ j, LineCountInRange (m.DMA j)) :
    (∀ (m0 : Machine) (j : Fin 8), ((S9xResetDMA m0).DMA j).LineCount = 0x7F
      ∧ LineCountInRange ((S9xResetDMA m0).DMA j))
    ∧ (∀ (m0 : Machine) (d : Fin 8),
        LineCountInRange ((HDMAReadLineCount F d m0).2.DMA d)
        ∧ ∀ j, j ≠ d → (HDMAReadLineCount F d m0).2.DMA j = m0.DMA j)
    ∧ (∀ j, LineCountInRange ((S9xStartHDMA F m).DMA j))
    ∧ (∀ j, LineCountInRange ((S9xDoHDMA F byte m).2.DMA j))
    ∧ (∀ d : Fin 8, byte.testBit d.val = true →
        ((m.DMA d).LineCount + 0xFF) % 0x100 + 1 = (m.DMA d).LineCount
        ∧ ((hdmaCounted F d m).DMA d).LineCount + 1 = (m.DMA d).LineCount
        ∧ (((m.DMA d).LineCount + 0xFF) % 0x100 ≠ 0 →
            ((S9xDoHDMA F byte m).2.DMA d).LineCount + 1 = (m.DMA d).LineCount)) := by
  have hdec : ∀ d : Fin 8,
      ((m.DMA d).LineCount + 0xFF) % 0x100 + 1 = (m.DMA d).LineCount := by
    intro d
    obtain ⟨h1, h2⟩ := hinv d
    omega
  refine ⟨?_, fun m0 d => HDMAReadLineCount_range F d m0, ?_, ?_, ?_⟩
  · intro m0 j
    rw [S9xResetDMA_eq]
    refine ⟨rfl, ?_⟩
    show (1 : Nat) ≤ 0x7F ∧ (0x7F : Nat) ≤ 128
    decide
  · rw [S9xStartHDMA_pieces]
    show ∀ j, LineCountInRange (((List.finRange 8).foldl
      (fun s i => startHDMAChannel F i s) (startHDMAEnter m)).DMA j)
    refine foldl_invariant (fun s i => startHDMAChannel F i s)
      (fun s => ∀ j, LineCountInRange (s.DMA j))
      (fun s i hs => startHDMAChannel_range F i s hs) (List.finRange 8) (startHDMAEnter m) ?_
    intro j
    have : (startHDMAEnter m).DMA = m.DMA := by
      unfold startHDMAEnter
      simp only []
      split_ifs <;> rfl
    rw [this]
    exact hinv j
  · intro j
    obtain ⟨-, hch⟩ := S9xDoHDMA_channel F byte m
    cases hb : byte.testBit j.val with
    | false =>
      rw [((hch j).1 hb).1]
      exact hinv j
    | true =>
      obtain ⟨b, s0, -, hs0, -, h1, -, -⟩ := (hch j).2 hb
      obtain ⟨e1, e2⟩ := hdmaLine_effect F j b s0
      rw [hs0] at e1 e2
      rw [h1]
      by_cases hz : ((m.DMA j).LineCount + 0xFF) % 0x100 = 0
      · unfold LineCountInRange
        rw [(e2 hz).2.2]
        exact reloadedLineCount_range _ (lineCountByte_lt F j _)
      · rw [(e1 hz).2.1]
        have := hdec j
        obtain ⟨h2, h3⟩ := hinv j
        simp only [hdmaCounted, setDMA, Function.update_same, hs0, LineCountInRange]
        omega
  · intro d hb
    refine ⟨hdec d, ?_, ?_⟩
    · simp only [hdmaCounted, setDMA, Function.update_same]
      exact hdec d
    · intro hz
      obtain ⟨b, s0, -, hs0, -, h1, -, -⟩ := ((S9xDoHDMA_channel F byte m).2 d).2 hb
      have e1 := (hdmaLine_effect F d b s0).1
      rw [hs0] at e1
      rw [h1, (e1 hz).2.1]
      simp only [hdmaCounted, setDMA, Function.update_same, hs0]
      exact hdec d

/-- Witness of C28 on `hdmaMachine`, whose line counters are all 2: after
`S9xDoHDMA(5)` the counter of channel 0 is 1, and `S9xStartHDMA` leaves the
counter of channel 2 in the range. -/
theorem C28_witness :
    (∀ j, LineCountInRange (hdmaMachine.DMA j))
    ∧ LineCountInRange ((S9xStartHDMA quietFacade hdmaMachine).DMA 2)
    ∧ LineCountInRange ((S9xDoHDMA quietFacade 5 hdmaMachine).2.DMA 0)
    ∧ ((S9xDoHDMA quietFacade 5 hdmaMachine).2.DMA 0).LineCount + 1
        = (hdmaMachine.DMA 0).LineCount :=
  have hinv : ∀ j, LineCountInRange (hdmaMachine.DMA j) := by
    intro j
    show (1 : Nat) ≤ 2 ∧ (2 : Nat) ≤ 128
    decide
  have h := C28_LineCount_range quietFacade 5 hdmaMachine hinv
  ⟨hinv, h.2.2.1 2, h.2.2.2.1 0, (h.2.2.2.2 0 (by decide)).2.2 (by decide)⟩

/-! ## The block test of the forward HDMA paths -/

theorem and_mask_eq_mod (F : Facade) (s : Nat) (hB : F.MEMMAP_BLOCK_SIZE = 2 ^ s)
    (hM : F.MEMMAP_MASK = 2 ^ s - 1) (a : Nat) :
    a &&& F.MEMMAP_MASK = a % F.MEMMAP_BLOCK_SIZE := by
  rw [hM, hB]
  exact Nat.and_pow_two_sub_one_eq_mod a s

theorem HDMAReadLineCount_coherent (F : Facade) (d : Fin 8) (m : Machine) :
    PointerCoherent F d (HDMAReadLineCount F d m).2 := by
  unfold PointerCoherent
  by_cases h0 : lineCountByte F d m = 0
  · left
    unfold HDMAReadLineCount
    simp [h0, setHDMAMemPointer]
  · right
    by_cases h80 : lineCountByte F d m = 0x80 <;>
      by_cases hind : (m.DMA d).HDMAIndirectAddressing = true <;>
      unfold HDMAReadLineCount <;>
      simp [h0, h80, hind, setDMA, setHDMAMemPointer, ADD_CYCLES, record, ShiftedIBank, IAddr]

theorem ppuWrites_shape (l : List Access) : ppuWrites (l.map Access.shape) = ppuWrites l := by
  induction l with
  | nil => rfl
  | cons a l ih =>
    have hcons : ∀ (x : Access) (xs : List Access),
        ppuWrites (x :: xs) = ppuWrites [x] ++ ppuWrites xs := by
      intro x xs
      show List.filterMap _ ([x] ++ xs) = _
      rw [List.filterMap_append]
      rfl
    rw [List.map_cons, hcons, hcons a, ih]
    cases a <;> rfl

theorem ppuWrites_append (a b : List Access) : ppuWrites (a ++ b) = ppuWrites a ++ ppuWrites b := by
  unfold ppuWrites
  rw [List.filterMap_append]

theorem ppuWrites_specGroup (mode BA : Nat) (src : Nat → Access)
    (hsrc : ∀ k, ppuWrites [src k] = []) :
    ppuWrites (specGroup mode BA src)
      = (List.range (specGroupSize mode)).map
          (fun k => 0x2100 + BA + patternOffset mode k) := by
  unfold specGroup
  induction List.range (specGroupSize mode) with
  | nil => rfl
  | cons k L ih =>
    rw [List.flatMap_cons, ppuWrites_append, ih, List.map_cons]
    have : ppuWrites [src k, Access.S9xSetPPU 0 (0x2100 + BA + patternOffset mode k)]
        = [0x2100 + BA + patternOffset mode k] := by
      have h2 := ppuWrites_append [src k]
        [Access.S9xSetPPU 0 (0x2100 + BA + patternOffset mode k)]
      rw [hsrc k] at h2
      exact h2
    rw [this]
    rfl

theorem specGroupOf_congr (mode BA : Nat) (src src2 : Nat → Access)
    (val val2 : List Access → Nat → Nat) (pre : List Access)
    (h : ∀ k, k < specGroupSize mode → src k = src2 k ∧ ∀ l, val l k = val2 l k) :
    specGroupOf mode BA src val pre = specGroupOf mode BA src2 val2 pre := by
  unfold specGroupOf
  apply List.foldl_ext
  intro acc k hk
  obtain ⟨h1, h2⟩ := h k (List.mem_range.mp hk)
  rw [h1, h2]

/-- C30: for a channel `d` with `TransferMode` in 0..7, any `BAddress` and any
source, the paths of `S9xDoHDMA` move the same group of `n` bytes
(`n = [1,2,2,4,4,4,2,4][mode]`, 4 for mode 5).  The REALLY-SLOW path reads byte
`k` at `ShiftedIBank + (IAddr + k) mod 0x10000` and the SLOW path at
`ShiftedIBank + IAddr + k`, and each writes the byte it has read to `0x2100 +
BAddress + pat[k mod len(pat)]`, so the two issue the same accesses, values
included, whenever `IAddr` plus the group length does not exceed `0xFFFF`.
The FAST path reads byte `k` at offset `k` of the cached pointer and writes
the byte it has read there to the same registers in the same order, and it
leaves the pointer advanced by `n`.  The reverse path reads the same registers
and writes the bytes read to the addresses the REALLY-SLOW path reads. -/
theorem C30_HDMA_paths_agree (F : Facade) (d : Fin 8) (B I q : Nat) (s : Machine)
    (hmode : (s.DMA d).TransferMode ≤ 7) :
    (hdmaReallySlow F d B I s).log
        = s.log ++ specGroupOf (s.DMA d).TransferMode (s.DMA d).BAddress
            (fun k => Access.S9xGetByte (B + (I + k) % 0x10000))
            (fun h k => F.S9xGetByte h (B + (I + k) % 0x10000)) s.log
    ∧ (hdmaSlow F d (B + I) s).log
        = s.log ++ specGroupOf (s.DMA d).TransferMode (s.DMA d).BAddress
            (fun k => Access.S9xGetByte (B + I + k))
            (fun h k => F.S9xGetByte h (B + I + k)) s.log
    ∧ (I + specGroupSize (s.DMA d).TransferMode ≤ 0xFFFF →
        (hdmaReallySlow F d B I s).log = (hdmaSlow F d (B + I) s).log)
    ∧ (hdmaFast F d q s).log
        = s.log ++ specGroupOf (s.DMA d).TransferMode (s.DMA d).BAddress
            (fun k => Access.ReadPointer (q + k)) (fun h k => F.ReadPointer h (q + k)) s.log
    ∧ (hdmaFast F d q s).HDMAMemPointers d = some (q + specGroupSize (s.DMA d).TransferMode)
    ∧ ppuWrites (hdmaSlow F d (B + I) s).log = ppuWrites (hdmaReallySlow F d B I s).log
    ∧ ppuWrites (hdmaFast F d q s).log = ppuWrites (hdmaReallySlow F d B I s).log
    ∧ ppuWrites (hdmaFast F d q s).log
        = ppuWrites s.log
          ++ (List.range (specGroupSize (s.DMA d).TransferMode)).map
              (fun k => 0x2100 + (s.DMA d).BAddress + patternOffset (s.DMA d).TransferMode k)
    ∧ (hdmaReverse F d B I s).log
        = s.log ++ specGroupReverseOf F (s.DMA d).TransferMode (s.DMA d).BAddress
            (fun k => B + (I + k) % 0x10000) s.log := by
  obtain ⟨-, -, -, hrs⟩ := hdmaReallySlow_group F d B I s hmode
  obtain ⟨-, -, -, hsl⟩ := hdmaSlow_group F d (B + I) s hmode
  obtain ⟨-, -, -, hptr, hfa⟩ := hdmaFast_group F d q s hmode
  have w : ∀ (t : Machine) (src : Nat → Access), (∀ k, ppuWrites [src k] = []) →
      t.log.map Access.shape
        = s.log.map Access.shape
          ++ specGroup (s.DMA d).TransferMode (s.DMA d).BAddress src →
      ppuWrites t.log = ppuWrites s.log
        ++ (List.range (specGroupSize (s.DMA d).TransferMode)).map
            (fun k => 0x2100 + (s.DMA d).BAddress
              + patternOffset (s.DMA d).TransferMode k) := by
    intro t src hsrc ht
    rw [← ppuWrites_shape t.log, ht, ppuWrites_append, ppuWrites_shape,
      ppuWrites_specGroup _ _ _ hsrc]
  have w1 := w _ (fun k => Access.S9xGetByte (B + (I + k) % 0x10000)) (fun _ => rfl) hrs
  have w2 := w _ (fun k => Access.S9xGetByte (B + I + k)) (fun _ => rfl) hsl
  have w3 := w _ (fun k => Access.ReadPointer (q + k)) (fun _ => rfl) hfa
  refine ⟨hdmaReallySlow_bytes F d B I s hmode, hdmaSlow_bytes F d (B + I) s hmode, ?_,
    hdmaFast_bytes F d q s hmode, hptr, by rw [w2, w1], by rw [w3, w1], w3,
    hdmaReverse_bytes F d B I s hmode⟩
  intro hfit
  rw [hdmaReallySlow_bytes F d B I s hmode, hdmaSlow_bytes F d (B + I) s hmode]
  congr 1
  apply specGroupOf_congr
  intro k hk
  have : (I + k) % 0x10000 = I + k := Nat.mod_eq_of_lt (by omega)
  rw [this, Nat.add_assoc]
  exact ⟨rfl, fun _ => rfl⟩

/-- Witness of C30 on channel 0 of `hdmaMachine` (mode 1, two bytes to `$2118`
and `$2119`): from `$01:0100` the REALLY-SLOW and the SLOW path issue the same
accesses, and the FAST path writes the bytes `0x00` and `0x01` it reads at the
pointer `0x1010100` and leaves the pointer advanced by 2. -/
theorem C30_witness :
    (hdmaReallySlow quietFacade 0 0x10000 0x100 hdmaMachine).log
        = (hdmaSlow quietFacade 0 (0x10000 + 0x100) hdmaMachine).log
    ∧ (hdmaFast quietFacade 0 0x1010100 hdmaMachine).log
        = [Access.ReadPointer 0x1010100, Access.S9xSetPPU 0x00 0x2118,
           Access.ReadPointer 0x1010101, Access.S9xSetPPU 0x01 0x2119]
    ∧ (hdmaFast quietFacade 0 0x1010100 hdmaMachine).HDMAMemPointers 0
        = some (0x1010100 + specGroupSize (hdmaMachine.DMA 0).TransferMode) :=
  have h := C30_HDMA_paths_agree quietFacade 0 0x10000 0x100 0x1010100 hdmaMachine (by decide)
  ⟨h.2.2.1 (by decide), h.2.2.2.1.trans (by decide), h.2.2.2.2.1⟩

/-! ## The accesses of a transfer, byte by byte -/

theorem Segments.mono {R R2 : Nat → List Access → List Access → Prop} :
    ∀ (n i : Nat) (pre as : List Access),
      (∀ k pre1 s, i ≤ k → k < i + n → R k pre1 s → R2 k pre1 s) →
      Segments R i n pre as → Segments R2 i n pre as := by
  intro n
  induction n with
  | zero => intro i pre as _ h; exact h
  | succ n ih =>
    intro i pre as hR h
    obtain ⟨s, rest, he, h1, h2⟩ := h
    refine ⟨s, rest, he, hR i pre s (le_refl _) (by omega) h1, ?_⟩
    exact ih (i + 1) (pre ++ s) rest (fun k pre1 s1 hk1 hk2 => hR k pre1 s1 (by omega) (by omega)) h2

theorem Segments.join {R : Nat → List Access → List Access → Prop} :
    ∀ (a i b : Nat) (pre l1 l2 : List Access),
      Segments R i a pre l1 → Segments R (i + a) b (pre ++ l1) l2 →
      Segments R i (a + b) pre (l1 ++ l2) := by
  intro a
  induction a with
  | zero =>
    intro i b pre l1 l2 h1 h2
    have : l1 = [] := h1
    subst this
    simpa using h2
  | succ a ih =>
    intro i b pre l1 l2 h1 h2
    obtain ⟨s, rest, he, hs, hr⟩ := h1
    subst he
    have hidx : i + (a + 1) = i + 1 + a := by omega
    rw [hidx, ← List.append_assoc] at h2
    have := ih (i + 1) b (pre ++ s) rest l2 hr h2
    have hn : a + 1 + b = (a + b) + 1 := by omega
    rw [hn]
    exact ⟨s, rest ++ l2, by rw [List.append_assoc], hs, this⟩

theorem Segments.nth {R : Nat → List Access → List Access → Prop} :
    ∀ (n i : Nat) (pre as : List Access), Segments R i n pre as →
      ∀ k, k < n → ∃ before s after, as = before ++ s ++ after ∧ R (i + k) (pre ++ before) s := by
  intro n
  induction n with
  | zero => intro i pre as _ k hk; omega
  | succ n ih =>
    intro i pre as h k hk
    obtain ⟨s, rest, he, hs, hr⟩ := h
    cases k with
    | zero => exact ⟨[], s, rest, by simpa using he, by simpa using hs⟩
    | succ k =>
      obtain ⟨before, s1, after, he1, h1⟩ := ih (i + 1) (pre ++ s) rest hr k (by omega)
      refine ⟨s ++ before, s1, after, ?_, ?_⟩
      · rw [he, he1]; simp
      · have hidx : i + (k + 1) = i + 1 + k := by omega
        rw [hidx, ← List.append_assoc]
        exact h1

theorem afterStep_DMA (F : Facade) (c : Fin 8) (inc : Int) (m : Machine) :
    (afterStep F c inc m).DMA c = stepChannel inc (m.DMA c) := by
  simp [afterStep]

theorem transfer_segments (F : Facade) (c : Fin 8) (inc : Int) (pat : Nat → Emit)
    (Q : Nat → SDMA → Nat → List Access → List Access → Prop)
    (hframe : ∀ j, Frame (pat j))
    (hpat : ∀ j m p, ∃ s, (pat j m p).log = m.log ++ s ∧ Q j (m.DMA c) p m.log s)
    (d0 : SDMA) (p0 : Nat) :
    ∀ (n i k0 : Nat) (m : Machine) (p : Nat) (m1 : Machine) (p1 : Nat),
      m.DMA c = (stepChannel inc)^[k0] d0 → p = (stepOffset inc)^[k0] p0 →
      transfer F c inc pat n i m p = Outcome.done m1 p1 →
      ∃ as, m1.log = m.log ++ as
        ∧ Segments (fun k pre s => Q (i + (k - k0)) ((stepChannel inc)^[k] d0)
            ((stepOffset inc)^[k] p0) pre s) k0 n m.log as := by
  intro n
  induction n with
  | zero =>
    intro i k0 m p m1 p1 _ _ h
    simp only [transfer, Outcome.done.injEq] at h
    exact ⟨[], by rw [← h.1]; simp, rfl⟩
  | succ n ih =>
    intro i k0 m p m1 p1 hd hp h
    simp only [transfer] at h
    rcases UPDATE_COUNTERS_cases F c inc (pat i m p) p with ⟨h1, -⟩ | ⟨h1, -⟩
    · rw [h1] at h
      obtain ⟨s, hs, hQ⟩ := hpat i m p
      have hu : Unchanged m (pat i m p) := hframe i m p
      have hd1 : (afterStep F c inc (pat i m p)).DMA c = (stepChannel inc)^[k0 + 1] d0 := by
        rw [afterStep_DMA, hu.dma, hd, Function.iterate_succ_apply']
      have hp1 : stepOffset inc p = (stepOffset inc)^[k0 + 1] p0 := by
        rw [hp, Function.iterate_succ_apply']
      obtain ⟨as, hlog, hseg⟩ := ih (i + 1) (k0 + 1) _ _ m1 p1 hd1 hp1 h
      have hlog0 : (afterStep F c inc (pat i m p)).log = m.log ++ s := hs
      refine ⟨s ++ as, by rw [hlog, hlog0, List.append_assoc], s, as, rfl, ?_, ?_⟩
      · show Q (i + (k0 - k0)) ((stepChannel inc)^[k0] d0) ((stepOffset inc)^[k0] p0) m.log s
        have : i + (k0 - k0) = i := by omega
        rw [this, ← hd, ← hp]
        exact hQ
      · rw [hlog0] at hseg
        refine Segments.mono n (k0 + 1) _ _ ?_ hseg
        intro k pre1 s1 hk1 _ hq
        have : i + 1 + (k - (k0 + 1)) = i + (k - k0) := by omega
        show Q (i + (k - k0)) _ _ pre1 s1
        rw [← this]
        exact hq
    · rw [h1] at h
      cases h

theorem RunsGroups.completes {F : Facade} {c : Fin 8} {inc : Int} {n : Nat} {m : Machine} {p : Nat}
    {Q : SDMA → Nat → List Access → List Access → Prop} {o : Outcome (Nat × Int)}
    (h : RunsGroups F c inc n m p Q o)
    (hnc : ∀ t, m.tick ≤ t → t < m.tick + n → NoCollisionAt F c t)
    (d0 : SDMA) (p0 k0 : Nat)
    (hd : m.DMA c = (stepChannel inc)^[k0] d0) (hp : p = (stepOffset inc)^[k0] p0) :
    ∃ m1 b1 as, o = Outcome.done m1 ((stepOffset inc)^[n] p, b1)
      ∧ Stepped F c inc n m m1 ∧ m1.log = m.log ++ as
      ∧ Segments (fun k pre s => Q ((stepChannel inc)^[k] d0) ((stepOffset inc)^[k] p0) pre s)
          k0 n m.log as := by
  obtain ⟨pat, i, b, hframe, hpat, ho⟩ := h
  obtain ⟨m1, he, hs⟩ := transfer_done F c inc pat hframe n i m p hnc
  obtain ⟨as, hlog, hseg⟩ := transfer_segments F c inc pat (fun _ => Q) hframe hpat d0 p0
    n i k0 m p m1 _ hd hp he
  exact ⟨m1, b _, as, by rw [ho, he]; rfl, hs, hlog, hseg⟩

theorem loopSingle_groups (F : Facade) (c : Fin 8) (inc : Int)
    (Q : SDMA → Nat → List Access → List Access → Prop) (e : Emit)
    (he : Frame e) (hQ : Emits c Q e) (b count : Int) (m : Machine) (p : Nat)
    (h1 : 1 ≤ count) :
    RunsGroups F c inc count.toNat m p Q
      (Outcome.map (fun p1 => (p1, b)) (loopSingle F c inc e (chunkFuel count) count m p)) := by
  refine ⟨fun _ => e, 0, fun _ => b, fun _ => he, fun _ => hQ, ?_⟩
  rw [loopSingle_eq F c inc e (chunkFuel count) count 0 m p h1 (by unfold chunkFuel; omega)]

theorem loopPair_groups (F : Facade) (c : Fin 8) (inc : Int)
    (Q : SDMA → Nat → List Access → List Access → Prop) (e0 e1 : Emit)
    (h0 : Frame e0) (hf1 : Frame e1) (hQ0 : Emits c Q e0) (hQ1 : Emits c Q e1)
    (b count : Int) (m : Machine) (p : Nat) (h1 : 1 ≤ count) :
    RunsGroups F c inc count.toNat m p Q (loopPair F c inc e0 e1 b count m p) := by
  refine ⟨pairPattern e0 e1, _, fun _ => _, pairPattern_frame e0 e1 h0 hf1, ?_,
    loopPair_eq F c inc e0 e1 b count m p h1⟩
  intro j
  unfold pairPattern
  split_ifs
  · exact hQ0
  · exact hQ1

theorem loopQuad_groups (F : Facade) (c : Fin 8) (inc : Int)
    (Q : SDMA → Nat → List Access → List Access → Prop) (e : Nat → Emit)
    (he : ∀ k, Frame (e k)) (hQ : ∀ k, Emits c Q (e k))
    (b count : Int) (m : Machine) (p : Nat) (h1 : 1 ≤ count) :
    RunsGroups F c inc count.toNat m p Q
      (loopQuad F c inc e (chunkFuel count) (switchLabel b) count m p) := by
  have h := loopQuad_eq F c inc e (chunkFuel count) count (switchLabel b) m p h1
    (by unfold chunkFuel; omega)
  rw [Nat.mod_eq_of_lt (switchLabel_lt b)] at h
  exact ⟨fun j => e (j % 4), _, fun _ => _, fun j => he (j % 4), fun j => hQ (j % 4), h⟩

theorem Emits.strict {c : Fin 8} {base : Option Nat} {e : Emit} (M B : Nat) (W : Bool)
    (h : ∀ m p, ∃ ws, (e m p).log = m.log ++ sourceRead base (m.DMA c).ABank p :: ws
      ∧ ∀ w ∈ ws, w.writesPPU = true)
    (hns : ¬ skipsAccess base M B W) :
    Emits c (fun d p _ s => sourceGroup base M B W d.ABank p s) e := by
  intro m p
  obtain ⟨ws, hlog, hws⟩ := h m p
  refine ⟨_, hlog, Or.inr ⟨ws, rfl, hws⟩, ?_⟩
  constructor
  · intro h0
    cases h0
  · intro hs
    exact absurd hs hns

theorem fastSingleByte_strict (F : Facade) (c : Fin 8) (q : Nat) (m : Machine) (M : Nat)
    (hM : M = 0 ∨ M = 2 ∨ M = 6) :
    Emits c (fun d p _ s =>
        sourceGroup (some q) M (m.DMA c).BAddress m.CPU.InWRAMDMAorHDMA d.ABank p s)
      (fastSingleByte F c q m) := by
  have hreg : ∀ handler : Nat → Access, (∀ v, (handler v).writesPPU = true) →
      ∀ (m1 : Machine) (p : Nat), ∃ ws,
        (fastRegister F q handler m1 p).log
          = m1.log ++ sourceRead (some q) (m1.DMA c).ABank p :: ws
        ∧ ∀ w ∈ ws, w.writesPPU = true :=
    fun handler hh m1 p => ⟨_, rfl, by simp [hh]⟩
  unfold fastSingleByte
  simp only []
  by_cases h04 : (m.DMA c).BAddress = 0x04
  · rw [if_pos h04]
    exact Emits.strict _ _ _ (hreg _ (fun _ => rfl)) (fun h => by
      have := h.2.2.1
      omega)
  rw [if_neg h04]
  by_cases h18 : (m.DMA c).BAddress = 0x18
  · rw [if_pos h18]
    split_ifs <;>
      exact Emits.strict _ _ _ (hreg _ (fun _ => rfl)) (fun h => by
        have := h.2.2.1
        omega)
  rw [if_neg h18]
  by_cases h19 : (m.DMA c).BAddress = 0x19
  · rw [if_pos h19]
    split_ifs <;>
      exact Emits.strict _ _ _ (hreg _ (fun _ => rfl)) (fun h => by
        have := h.2.2.1
        omega)
  rw [if_neg h19]
  by_cases h22 : (m.DMA c).BAddress = 0x22
  · rw [if_pos h22]
    exact Emits.strict _ _ _ (fun m1 p => ⟨[], rfl, by simp⟩) (fun h => by
      have := h.2.2.1
      omega)
  rw [if_neg h22]
  by_cases h80 : (m.DMA c).BAddress = 0x80
  · rw [if_pos h80]
    cases hw : m.CPU.InWRAMDMAorHDMA with
    | false =>
      simp only [Bool.not_false, if_true]
      exact Emits.strict _ _ _ (hreg _ (fun _ => rfl)) (fun h => by
        have := h.2.2.2
        cases this)
    | true =>
      simp only [Bool.not_true, Bool.false_eq_true, if_false]
      intro m1 p
      exact ⟨[], by simp [fastNothing], Or.inl rfl,
        ⟨fun _ => ⟨by simp, hM, h80, rfl⟩, fun _ => rfl⟩⟩
  · rw [if_neg h80]
    exact Emits.strict _ _ _ (fun m1 p => ⟨_, rfl, by simp [Access.writesPPU]⟩) (fun h => by
      exact h80 h.2.2.1)

theorem transferChunk_strict (F : Facade) (c : Fin 8) (inc : Int) (base : Option Nat)
    (b count : Int) (m : Machine) (p : Nat) (hmode : (m.DMA c).TransferMode ≤ 7)
    (h1 : 1 ≤ count) :
    RunsGroups F c inc count.toNat m p
      (fun d p _ s => sourceGroup base (m.DMA c).TransferMode (m.DMA c).BAddress
        m.CPU.InWRAMDMAorHDMA d.ABank p s)
      (transferChunk F c inc base b count m p) := by
  have hslow : ∀ Reg, ∀ (m1 : Machine) (p1 : Nat), ∃ ws,
      (slowByte F c Reg m1 p1).log = m1.log ++ sourceRead none (m1.DMA c).ABank p1 :: ws
      ∧ ∀ w ∈ ws, w.writesPPU = true :=
    fun Reg m1 p1 => ⟨_, rfl, by simp [Access.writesPPU]⟩
  have hnone : ¬ skipsAccess none (m.DMA c).TransferMode (m.DMA c).BAddress
      m.CPU.InWRAMDMAorHDMA := fun h => h.1 rfl
  cases base with
  | none =>
    simp only [transferChunk, slowChunk]
    split_ifs
    · exact loopSingle_groups F c inc _ _ (slowByte_frame F c _)
        (Emits.strict _ _ _ (hslow _) hnone) b count m p h1
    · exact loopPair_groups F c inc _ _ _ (slowByte_frame F c _) (slowByte_frame F c _)
        (Emits.strict _ _ _ (hslow _) hnone) (Emits.strict _ _ _ (hslow _) hnone)
        b count m p h1
    · exact loopQuad_groups F c inc _ _ (fun _ => slowByte_frame F c _)
        (fun _ => Emits.strict _ _ _ (hslow _) hnone) b count m p h1
    · exact loopQuad_groups F c inc _ _ (fun _ => slowByte_frame F c _)
        (fun _ => Emits.strict _ _ _ (hslow _) hnone) b count m p h1
    · omega
  | some q =>
    have hreg : ∀ handler : Nat → Access, (∀ v, (handler v).writesPPU = true) →
        ∀ (m1 : Machine) (p1 : Nat), ∃ ws,
          (fastRegister F q handler m1 p1).log
            = m1.log ++ sourceRead (some q) (m1.DMA c).ABank p1 :: ws
          ∧ ∀ w ∈ ws, w.writesPPU = true :=
      fun handler hh m1 p1 => ⟨_, rfl, by simp [hh]⟩
    have hbus : ∀ (m1 : Machine) (p1 : Nat), ∃ ws,
        (fastOpenBus F q m1 p1).log = m1.log ++ sourceRead (some q) (m1.DMA c).ABank p1 :: ws
        ∧ ∀ w ∈ ws, w.writesPPU = true :=
      fun m1 p1 => ⟨_, rfl, by simp [Access.writesPPU]⟩
    have hbyte : ∀ Reg, ∀ (m1 : Machine) (p1 : Nat), ∃ ws,
        (fastByte F c q Reg m1 p1).log
          = m1.log ++ sourceRead (some q) (m1.DMA c).ABank p1 :: ws
        ∧ ∀ w ∈ ws, w.writesPPU = true :=
      fun Reg m1 p1 => ⟨_, rfl, by simp [Access.writesPPU]⟩
    simp only [transferChunk, fastChunk]
    split_ifs with hA hB hC hD hE hF
    · exact loopSingle_groups F c inc _ _ (fastSingleByte_frame F c q m)
        (fastSingleByte_strict F c q m _ hA) b count m p h1
    · have hns : ¬ skipsAccess (some q) (m.DMA c).TransferMode (m.DMA c).BAddress
          m.CPU.InWRAMDMAorHDMA := fun h => hA h.2.1
      exact loopPair_groups F c inc _ _ _ (fastRegister_frame F q _) (fastOpenBus_frame F q)
        (Emits.strict _ _ _ (hreg Access.REGISTER_2118_linear (fun _ => rfl)) hns)
        (Emits.strict _ _ _ hbus hns)
        b count m p h1
    · have hns : ¬ skipsAccess (some q) (m.DMA c).TransferMode (m.DMA c).BAddress
          m.CPU.InWRAMDMAorHDMA := fun h => hA h.2.1
      exact loopPair_groups F c inc _ _ _ (fastRegister_frame F q _) (fastRegister_frame F q _)
        (Emits.strict _ _ _ (hreg Access.REGISTER_2118_tile (fun _ => rfl)) hns)
        (Emits.strict _ _ _ (hreg Access.REGISTER_2119_tile (fun _ => rfl)) hns) b count m p h1
    · have hns : ¬ skipsAccess (some q) (m.DMA c).TransferMode (m.DMA c).BAddress
          m.CPU.InWRAMDMAorHDMA := fun h => hA h.2.1
      exact loopPair_groups F c inc _ _ _ (fastByte_frame F c q _) (fastByte_frame F c q _)
        (Emits.strict _ _ _ (hbyte _) hns) (Emits.strict _ _ _ (hbyte _) hns) b count m p h1
    · have hns : ¬ skipsAccess (some q) (m.DMA c).TransferMode (m.DMA c).BAddress
          m.CPU.InWRAMDMAorHDMA := fun h => hA h.2.1
      exact loopQuad_groups F c inc _ _ (fun _ => fastByte_frame F c q _)
        (fun _ => Emits.strict _ _ _ (hbyte _) hns) b count m p h1
    · have hns : ¬ skipsAccess (some q) (m.DMA c).TransferMode (m.DMA c).BAddress
          m.CPU.InWRAMDMAorHDMA := fun h => hA h.2.1
      exact loopQuad_groups F c inc _ _ (fun _ => fastByte_frame F c q _)
        (fun _ => Emits.strict _ _ _ (hbyte _) hns) b count m p h1
    · omega

theorem iterate_stepChannel_offset (inc : Int) (n : Nat) (d : SDMA) :
    ((stepChannel inc)^[n] d).AAddress = (stepOffset inc)^[n] d.AAddress := by
  induction n with
  | zero => rfl
  | succ n ih =>
    rw [Function.iterate_succ_apply', Function.iterate_succ_apply', ← ih]
    rfl

theorem inWRAM_eq (d : SDMA) : inWRAM false d = wramSource d.ABank d.AAddress := by
  simp [inWRAM, wramSource]

theorem forwardLoop_segments (F : Facade) (c : Fin 8) (inc : Int)
    (hB : 0 < F.MEMMAP_BLOCK_SIZE) (J : Nat → Int → Prop)
    (hJ : ∀ p count, J p count → 1 ≤ count →
      J ((stepOffset inc)^[count.toNat] p) F.MEMMAP_BLOCK_SIZE)
    (d0 : SDMA) (hmode : d0.TransferMode ≤ 7) :
    ∀ (fuel k0 : Nat) (b : Int) (rem count : Int) (m : Machine),
      m.DMA c = (stepChannel inc)^[k0] d0 →
      1 ≤ rem → 1 ≤ count → rem.toNat ≤ fuel →
      (∀ t, m.tick ≤ t → t < m.tick + rem.toNat → NoCollisionAt F c t) →
      J ((stepOffset inc)^[k0] d0.AAddress) count →
      ∃ m1 as,
        forwardLoop F c inc false fuel b
            (F.S9xGetBasePointer ((d0.ABank <<< 16) + (stepOffset inc)^[k0] d0.AAddress))
            (wramSource d0.ABank ((stepOffset inc)^[k0] d0.AAddress))
            rem count m ((stepOffset inc)^[k0] d0.AAddress) = (true, m1)
        ∧ Stepped F c inc rem.toNat m m1 ∧ m1.log = m.log ++ as
        ∧ Segments (fun k _ s => ∃ (pstart : Nat) (count cnt : Int) (j : Nat),
              J pstart count ∧ 1 ≤ cnt ∧ cnt ≤ count ∧ (j : Int) < cnt
              ∧ j ≤ k ∧ pstart = (stepOffset inc)^[k - j] d0.AAddress
              ∧ sourceGroup (F.S9xGetBasePointer ((d0.ABank <<< 16) + pstart))
                  d0.TransferMode d0.BAddress (wramSource d0.ABank pstart) d0.ABank
                  ((stepOffset inc)^[k] d0.AAddress) s)
            k0 rem.toNat m.log as := by
  intro fuel
  induction fuel with
  | zero => intro k0 b rem count m _ h1 _ h2; omega
  | succ fuel ih =>
    intro k0 b rem count m hd hrem hcount hfuel hnc hJ0
    have hu := setInWRAM_unchanged m
      (wramSource d0.ABank ((stepOffset inc)^[k0] d0.AAddress))
    have hc1 : 1 ≤ (if count > rem then rem else count) := by split_ifs <;> omega
    have hcle : (if count > rem then rem else count) ≤ count := by split_ifs <;> omega
    obtain ⟨hcM, hcB, hcA, -⟩ := iterate_stepChannel_config inc k0 d0
    have hm2 : ((setInWRAM m
        (wramSource d0.ABank ((stepOffset inc)^[k0] d0.AAddress))).DMA c).TransferMode ≤ 7 := by
      show (m.DMA c).TransferMode ≤ 7
      rw [hd, hcM]
      exact hmode
    obtain ⟨m1, b1, as, he, hs, hlog, hseg⟩ :=
      (transferChunk_strict F c inc
        (F.S9xGetBasePointer ((d0.ABank <<< 16) + (stepOffset inc)^[k0] d0.AAddress)) b
        (if count > rem then rem else count)
        (setInWRAM m (wramSource d0.ABank ((stepOffset inc)^[k0] d0.AAddress)))
        ((stepOffset inc)^[k0] d0.AAddress) hm2 hc1).completes
        (by
          intro t ht1 ht2
          rw [hu.tick] at ht1 ht2
          exact hnc t ht1 (by split_ifs at ht2 <;> omega))
        d0 d0.AAddress k0 hd rfl
    have hs0 : Stepped F c inc (if count > rem then rem else count).toNat m m1 := by
      have := (hu.stepped F c inc).trans hs
      simpa using this
    have hlog0 : m1.log = m.log ++ as := hlog
    have hseg0 : Segments (fun k _ s => ∃ (pstart : Nat) (count cnt : Int) (j : Nat),
          J pstart count ∧ 1 ≤ cnt ∧ cnt ≤ count ∧ (j : Int) < cnt
          ∧ j ≤ k ∧ pstart = (stepOffset inc)^[k - j] d0.AAddress
          ∧ sourceGroup (F.S9xGetBasePointer ((d0.ABank <<< 16) + pstart))
              d0.TransferMode d0.BAddress (wramSource d0.ABank pstart) d0.ABank
              ((stepOffset inc)^[k] d0.AAddress) s)
        k0 (if count > rem then rem else count).toNat m.log as := by
      refine Segments.mono _ k0 _ _ ?_ hseg
      intro k pre1 s1 hk1 hk2 hq
      refine ⟨(stepOffset inc)^[k0] d0.AAddress, count, (if count > rem then rem else count),
        k - k0, hJ0, hc1, hcle, by omega, Nat.sub_le k k0, ?_, ?_⟩
      · have hk : k - (k - k0) = k0 := by omega
        rw [hk]
      · have hq2 : sourceGroup _ (m.DMA c).TransferMode (m.DMA c).BAddress
            (wramSource d0.ABank ((stepOffset inc)^[k0] d0.AAddress))
            ((stepChannel inc)^[k] d0).ABank _ s1 := hq
        rw [(iterate_stepChannel_config inc k d0).2.2.1, hd, hcM, hcB] at hq2
        exact hq2
    rw [forwardLoop]
    simp only [he]
    by_cases hlast : rem - (if count > rem then rem else count) ≤ 0
    · rw [if_pos hlast]
      have hn : (if count > rem then rem else count).toNat = rem.toNat := by
        split_ifs at hlast ⊢ <;> omega
      rw [hn] at hs0 hseg0
      exact ⟨m1, as, rfl, hs0, hlog0, hseg0⟩
    · rw [if_neg hlast]
      have hfull : (if count > rem then rem else count) = count := by
        split_ifs at hlast ⊢ <;> omega
      have hd1 : m1.DMA c
          = (stepChannel inc)^[k0 + (if count > rem then rem else count).toNat] d0 := by
        rw [hs0.dma, Function.update_same, hd, ← Function.iterate_add_apply, Nat.add_comm]
      have hA1 : (m1.DMA c).AAddress
          = (stepOffset inc)^[k0 + (if count > rem then rem else count).toNat] d0.AAddress := by
        rw [hd1, iterate_stepChannel_offset]
      have hBk : (m1.DMA c).ABank = d0.ABank := by
        rw [hd1, (iterate_stepChannel_config inc _ d0).2.2.1]
      have hp1 : (stepOffset inc)^[(if count > rem then rem else count).toNat]
            ((stepOffset inc)^[k0] d0.AAddress)
          = (stepOffset inc)^[k0 + (if count > rem then rem else count).toNat] d0.AAddress := by
        rw [← Function.iterate_add_apply, Nat.add_comm]
      have hJ1 : J ((stepOffset inc)^[k0 + (if count > rem then rem else count).toNat]
          d0.AAddress) F.MEMMAP_BLOCK_SIZE := by
        rw [← hp1, hfull]
        exact hJ _ _ hJ0 hcount
      obtain ⟨m2, as2, he2, hs2, hlog2, hseg2⟩ :=
        ih (k0 + (if count > rem then rem else count).toNat) b1
          (rem - (if count > rem then rem else count))
          F.MEMMAP_BLOCK_SIZE m1 hd1 (by omega) (by omega)
          (by split_ifs at hlast ⊢ <;> omega)
          (by
            intro t ht1 ht2
            rw [hs0.tick] at ht1 ht2
            exact hnc t (by omega) (by split_ifs at hlast ht1 ht2 ⊢ <;> omega))
          hJ1
      rw [inWRAM_eq, hBk, hA1, hp1]
      have hn : (if count > rem then rem else count).toNat
          + (rem - (if count > rem then rem else count)).toNat = rem.toNat := by
        split_ifs at hlast ⊢ <;> omega
      refine ⟨m2, as ++ as2, he2, ?_, ?_, ?_⟩
      · have := hs0.trans hs2
        rwa [hn] at this
      · rw [hlog2, hlog0, List.append_assoc]
      · rw [hlog0] at hseg2
        have := Segments.join _ k0 _ m.log as as2 hseg0 hseg2
        rwa [hn] at this

theorem forwardDMA_segments (F : Facade) (c : Fin 8) (inc : Int) (count : Int) (m : Machine)
    (hM : F.MEMMAP_MASK < F.MEMMAP_BLOCK_SIZE) (J : Nat → Int → Prop)
    (hJ : ∀ p count, J p count → 1 ≤ count →
      J ((stepOffset inc)^[count.toNat] p) F.MEMMAP_BLOCK_SIZE)
    (hmode : (m.DMA c).TransferMode ≤ 7) (hcount : 1 ≤ count)
    (hnc : ∀ t, m.tick ≤ t → t < m.tick + count.toNat → NoCollisionAt F c t)
    (hJ0 : J (m.DMA c).AAddress
      (if (m.DMA c).AAddressFixed then count
       else if (m.DMA c).AAddressDecrement then
         (((m.DMA c).AAddress &&& F.MEMMAP_MASK : Nat) : Int) + 1
       else (F.MEMMAP_BLOCK_SIZE : Int) - (((m.DMA c).AAddress &&& F.MEMMAP_MASK : Nat) : Int))) :
    ∃ m1 as, forwardDMA F c inc false count m = (true, m1)
      ∧ Stepped F c inc count.toNat m m1 ∧ m1.log = m.log ++ as
      ∧ Segments (fun k _ s => ∃ (pstart : Nat) (count cnt : Int) (j : Nat),
            J pstart count ∧ 1 ≤ cnt ∧ cnt ≤ count ∧ (j : Int) < cnt
            ∧ j ≤ k ∧ pstart = (stepOffset inc)^[k - j] (m.DMA c).AAddress
            ∧ sourceGroup (F.S9xGetBasePointer (((m.DMA c).ABank <<< 16) + pstart))
                (m.DMA c).TransferMode (m.DMA c).BAddress
                (wramSource (m.DMA c).ABank pstart) (m.DMA c).ABank
                ((stepOffset inc)^[k] (m.DMA c).AAddress) s)
          0 count.toNat m.log as := by
  have h := forwardLoop_segments F c inc (by omega) J hJ (m.DMA c) hmode count.toNat 0 0
    count
    (if (m.DMA c).AAddressFixed then count
       else if (m.DMA c).AAddressDecrement then
         (((m.DMA c).AAddress &&& F.MEMMAP_MASK : Nat) : Int) + 1
       else (F.MEMMAP_BLOCK_SIZE : Int) - (((m.DMA c).AAddress &&& F.MEMMAP_MASK : Nat) : Int))
    m rfl hcount
    (by
      have := firstChunk_pos F hM (m.DMA c) false count hcount
      simpa using this)
    (le_refl _) hnc hJ0
  unfold forwardDMA
  simp only [Bool.false_eq_true, if_false]
  rw [inWRAM_eq]
  exact h

theorem S9xDoDMA_forward_segments (F : Facade) (c : Fin 8) (m : Machine)
    (hM : F.MEMMAP_MASK < F.MEMMAP_BLOCK_SIZE) (J : Nat → Int → Prop)
    (hJ : ∀ p count, J p count → 1 ≤ count →
      J ((stepOffset (increment (m.DMA c)))^[count.toNat] p) F.MEMMAP_BLOCK_SIZE)
    (hsdd : sdd1Active m (m.DMA c) = false)
    (hinv : invalidDMA (m.DMA c) = false) (hfwd : (m.DMA c).ReverseTransfer = false)
    (hmode : (m.DMA c).TransferMode ≤ 7) (hnc : NoCollision F c)
    (hJ0 : J (m.DMA c).AAddress
      (if (m.DMA c).AAddressFixed then ((transferCount (m.DMA c) : Nat) : Int)
       else if (m.DMA c).AAddressDecrement then
         (((m.DMA c).AAddress &&& F.MEMMAP_MASK : Nat) : Int) + 1
       else (F.MEMMAP_BLOCK_SIZE : Int) - (((m.DMA c).AAddress &&& F.MEMMAP_MASK : Nat) : Int))) :
    ∃ m1 as, S9xDoDMA F c m = (true, leaveDMA (rescheduleNMI m1))
      ∧ Stepped F c (increment (m.DMA c)) (transferCount (m.DMA c)) (startDMA c m) m1
      ∧ (S9xDoDMA F c m).2.log = m.log ++ as
      ∧ Segments (fun k _ s => ∃ (pstart : Nat) (count cnt : Int) (j : Nat),
            J pstart count ∧ 1 ≤ cnt ∧ cnt ≤ count ∧ (j : Int) < cnt
            ∧ j ≤ k ∧ pstart = (stepOffset (increment (m.DMA c)))^[k - j] (m.DMA c).AAddress
            ∧ sourceGroup (F.S9xGetBasePointer (((m.DMA c).ABank <<< 16) + pstart))
                (m.DMA c).TransferMode (m.DMA c).BAddress
                (wramSource (m.DMA c).ABank pstart) (m.DMA c).ABank
                ((stepOffset (increment (m.DMA c)))^[k] (m.DMA c).AAddress) s)
          0 (transferCount (m.DMA c)) m.log as := by
  have hinv2 : invalidDMA ((enterDMA c m).DMA c) = false := hinv
  have hfwd2 : ((enterDMA c m).DMA c).ReverseTransfer = false := hfwd
  have hsdd2 : sdd1Active (enterDMA c m) ((enterDMA c m).DMA c) = false := hsdd
  have hinc : startIncrement (enterDMA c m) ((enterDMA c m).DMA c) = increment (m.DMA c) := by
    unfold startIncrement
    rw [hsdd2]
    rfl
  obtain ⟨m1, as, he, hs, hlog, hseg⟩ := forwardDMA_segments F c (increment (m.DMA c))
    (transferCount (m.DMA c)) (startDMA c m) hM J hJ
    (by rw [startDMA_DMA]; exact hmode) (transferCount_pos _) (fun t _ _ => hnc t)
    (by rw [startDMA_DMA]; exact hJ0)
  have he2 : forwardDMA F c (increment (m.DMA c)) false
      (transferCount ((enterDMA c m).DMA c))
      (ADD_CYCLES SLOW_ONE_CYCLE (clearSDD1 (enterDMA c m))) = (true, m1) := he
  have hres : S9xDoDMA F c m = (true, leaveDMA (rescheduleNMI m1)) := by
    simp only [S9xDoDMA, hinv2, hfwd2, hsdd2, hinc, he2]
    simp
  rw [startDMA_DMA, startDMA_log] at hseg
  rw [startDMA_log] at hlog
  refine ⟨m1, as, hres, ?_, ?_, ?_⟩
  · simpa using hs
  · rw [hres]
    show (rescheduleNMI m1).log = _
    rw [rescheduleNMI_log, hlog]
  · simpa using hseg

/-! ## The accesses of the PPU -> CPU branch -/

theorem reverseRegisters_pattern (mode : Nat) (Regs : List Nat)
    (h : reverseRegisters mode = some Regs) (k : Nat) :
    Regs.getD (k % Regs.length) 0 = 0x2100 + patternOffset mode k := by
  unfold reverseRegisters at h
  unfold patternOffset pattern
  split_ifs at h ⊢ with hA hB hC hD
  · cases h
    simp [Nat.mod_one]
  · cases h
    rcases Nat.mod_two_eq_zero_or_one k with h2 | h2 <;> simp [h2]
  · cases h
    have hlt : k % 4 < 4 := Nat.mod_lt _ (by decide)
    simp only [List.length_cons, List.length_nil, Nat.reduceAdd]
    interval_cases k % 4 <;> simp
  · cases h
    have hlt : k % 4 < 4 := Nat.mod_lt _ (by decide)
    simp only [List.length_cons, List.length_nil, Nat.reduceAdd]
    interval_cases k % 4 <;> simp

theorem reverseLoop_segments (F : Facade) (c : Fin 8) (inc : Int) (rs : Bool) (count : Int)
    (m : Machine) (hmode : (m.DMA c).TransferMode ≤ 7) (hcount : 1 ≤ count)
    (hnc : ∀ t, m.tick ≤ t → t < m.tick + count.toNat → NoCollisionAt F c t) :
    ∃ m1 as, reverseLoop F c inc rs (chunkFuel count) count m = (true, m1)
      ∧ Stepped F c inc count.toNat m m1 ∧ m1.log = m.log ++ as
      ∧ Segments (fun k pre s =>
            reverseGroup F (m.DMA c) k ((stepOffset inc)^[k] (m.DMA c).AAddress) pre s)
          0 count.toNat m.log as := by
  obtain ⟨Regs, hregs, hne⟩ := reverseRegisters_some _ hmode
  obtain ⟨m1, he, hs⟩ := transfer_done F c inc (reversePattern F c rs Regs)
    (fun j => reverseEmit_frame F c rs _) count.toNat 0 m 0 hnc
  have hpat : ∀ j (m0 : Machine) (p : Nat), ∃ s,
      (reversePattern F c rs Regs j m0 p).log = m0.log ++ s
      ∧ (fun (j : Nat) (d : SDMA) (_ : Nat) (pre s : List Access) =>
          s = [Access.S9xGetPPU (Regs.getD (j % Regs.length) 0 + d.BAddress),
               Access.S9xSetByte
                 (F.S9xGetPPU pre (Regs.getD (j % Regs.length) 0 + d.BAddress) % 0x100)
                 ((d.ABank <<< 16) + d.AAddress)]) j (m0.DMA c) p m0.log s := by
    intro j m0 p
    cases rs <;> exact ⟨_, rfl, rfl⟩
  obtain ⟨as, hlog, hseg⟩ := transfer_segments F c inc (reversePattern F c rs Regs)
    (fun (j : Nat) (d : SDMA) (_ : Nat) (pre s : List Access) =>
          s = [Access.S9xGetPPU (Regs.getD (j % Regs.length) 0 + d.BAddress),
               Access.S9xSetByte
                 (F.S9xGetPPU pre (Regs.getD (j % Regs.length) 0 + d.BAddress) % 0x100)
                 ((d.ABank <<< 16) + d.AAddress)])
    (fun j => reverseEmit_frame F c rs _) hpat (m.DMA c) 0 count.toNat 0 0 m 0 m1 _ rfl rfl he
  refine ⟨m1, as, ?_, hs, hlog, ?_⟩
  · rw [reverseLoop_eq F c inc rs Regs hne (chunkFuel count) count m 0 0 hregs (by simp) hcount
      (by unfold chunkFuel; omega), he]
    rfl
  · refine Segments.mono _ 0 _ _ ?_ hseg
    intro k pre1 s1 _ _ hq
    have hq2 : s1 = [Access.S9xGetPPU (Regs.getD ((0 + (k - 0)) % Regs.length) 0
          + ((stepChannel inc)^[k] (m.DMA c)).BAddress),
        Access.S9xSetByte
          (F.S9xGetPPU pre1 (Regs.getD ((0 + (k - 0)) % Regs.length) 0
            + ((stepChannel inc)^[k] (m.DMA c)).BAddress) % 0x100)
          ((((stepChannel inc)^[k] (m.DMA c)).ABank <<< 16)
            + ((stepChannel inc)^[k] (m.DMA c)).AAddress)] := hq
    have hk : 0 + (k - 0) = k := by omega
    obtain ⟨-, hB, hA, -⟩ := iterate_stepChannel_config inc k (m.DMA c)
    rw [hk, hB, hA, iterate_stepChannel_offset, reverseRegisters_pattern _ _ hregs k] at hq2
    unfold reverseGroup
    rw [hq2]
    have e : 0x2100 + patternOffset (m.DMA c).TransferMode k + (m.DMA c).BAddress
        = 0x2100 + (m.DMA c).BAddress + patternOffset (m.DMA c).TransferMode k := by omega
    rw [e]

theorem reverseDMA_segments (F : Facade) (c : Fin 8) (inc : Int) (count : Int)
    (m : Machine) (hmode : (m.DMA c).TransferMode ≤ 7) (hcount : 1 ≤ count)
    (hnc : ∀ t, m.tick ≤ t → t < m.tick + count.toNat → NoCollisionAt F c t) :
    ∃ m1 as, reverseDMA F c inc count m = (true, m1)
      ∧ Stepped F c inc count.toNat m m1 ∧ m1.log = m.log ++ as
      ∧ Segments (fun k pre s =>
            reverseGroup F (m.DMA c) k ((stepOffset inc)^[k] (m.DMA c).AAddress) pre s)
          0 count.toNat m.log as := by
  unfold reverseDMA
  simp only []
  split_ifs
  · exact reverseLoop_segments F c inc true count m hmode hcount hnc
  · obtain ⟨m1, as, he, hs, hlog, hseg⟩ := reverseLoop_segments F c inc false count
      (setInWRAM m ((m.DMA c).ABank == 0x7e || (m.DMA c).ABank == 0x7f)) hmode hcount hnc
    refine ⟨m1, as, he, ?_, hlog, hseg⟩
    have := ((setInWRAM_unchanged m _).stepped F c inc).trans hs
    simpa using this

theorem S9xDoDMA_reverse_segments (F : Facade) (c : Fin 8) (m : Machine)
    (hrev : (m.DMA c).ReverseTransfer = true)
    (hmode : (m.DMA c).TransferMode ≤ 7) (hnc : NoCollision F c) :
    ∃ m1 as, S9xDoDMA F c m = (true, leaveDMA (rescheduleNMI m1))
      ∧ Stepped F c (startIncrement (enterDMA c m) (m.DMA c)) (transferCount (m.DMA c))
          (startDMA c m) m1
      ∧ (S9xDoDMA F c m).2.log = m.log ++ as
      ∧ Segments (fun k pre s =>
            reverseGroup F (m.DMA c) k
              ((stepOffset (startIncrement (enterDMA c m) (m.DMA c)))^[k] (m.DMA c).AAddress)
              pre s)
          0 (transferCount (m.DMA c)) m.log as := by
  have hinv2 : invalidDMA ((enterDMA c m).DMA c) = false := by
    show invalidDMA (m.DMA c) = false
    simp [invalidDMA, hrev]
  have hrev2 : ((enterDMA c m).DMA c).ReverseTransfer = true := hrev
  obtain ⟨m1, as, he, hs, hlog, hseg⟩ := reverseDMA_segments F c
    (startIncrement (enterDMA c m) (m.DMA c)) (transferCount (m.DMA c)) (startDMA c m)
    (by rw [startDMA_DMA]; exact hmode) (transferCount_pos _) (fun t _ _ => hnc t)
  have he2 : reverseDMA F c (startIncrement (enterDMA c m) ((enterDMA c m).DMA c))
      (transferCount ((enterDMA c m).DMA c))
      (ADD_CYCLES SLOW_ONE_CYCLE (clearSDD1 (enterDMA c m))) = (true, m1) := he
  have hres : S9xDoDMA F c m = (true, leaveDMA (rescheduleNMI m1)) := by
    simp only [S9xDoDMA, hinv2, hrev2, he2]
    simp
  rw [startDMA_DMA, startDMA_log] at hseg
  rw [startDMA_log] at hlog
  refine ⟨m1, as, hres, ?_, ?_, ?_⟩
  · simpa using hs
  · rw [hres]
    show (rescheduleNMI m1).log = _
    rw [rescheduleNMI_log, hlog]
  · simpa using hseg

theorem Segments.unique {R : Nat → List Access → List Access → Prop}
    (hR : ∀ k pre s s2, R k pre s → R k pre s2 → s = s2) :
    ∀ (n i : Nat) (pre as as2 : List Access),
      Segments R i n pre as → Segments R i n pre as2 → as = as2 := by
  intro n
  induction n with
  | zero =>
    intro i pre as as2 h1 h2
    have e1 : as = [] := h1
    have e2 : as2 = [] := h2
    rw [e1, e2]
  | succ n ih =>
    intro i pre as as2 h1 h2
    obtain ⟨s, rest, he, hs, hr⟩ := h1
    obtain ⟨s2, rest2, he2, hs2, hr2⟩ := h2
    have hss : s = s2 := hR i pre s s2 hs hs2
    subst hss
    rw [he, he2, ih (i + 1) (pre ++ s) rest rest2 hr hr2]

/-- C27: a PPU -> CPU `S9xDoDMA` with a mode in 0..7 that no HDMA collision
stops returns true, and the accesses it issues split into `N` groups, one per
byte: byte `k` (counted from 0) is read from register `0x2100 + BAddress +
pat[k mod len(pat)]`, with the patterns of the forward direction, and written
to `(ABank << 16) + AAddress` for the value `AAddress` has after `k` steps.
The REALLY-SLOW path and the FASTER path, started on machines with the same
channel record and the same log, issue the same accesses; byte by byte they
differ only in the assignment to `CPU.InWRAMDMAorHDMA`. -/
theorem C27_reverse_paths (F : Facade) (c : Fin 8) (m : Machine)
    (hrev : (m.DMA c).ReverseTransfer = true)
    (hmode : (m.DMA c).TransferMode ≤ 7) (hnc : NoCollision F c) :
    (S9xDoDMA F c m).1 = true
    ∧ (∃ as, (S9xDoDMA F c m).2.log = m.log ++ as
        ∧ Segments (fun k pre s =>
              reverseGroup F (m.DMA c) k
                ((stepOffset (startIncrement (enterDMA c m) (m.DMA c)))^[k] (m.DMA c).AAddress)
                pre s)
            0 (transferCount (m.DMA c)) m.log as)
    ∧ (∀ (inc : Int) (v : Bool),
        (reverseLoop F c inc true (chunkFuel (transferCount (m.DMA c)))
            (transferCount (m.DMA c)) m).1 = true
        ∧ (reverseLoop F c inc false (chunkFuel (transferCount (m.DMA c)))
            (transferCount (m.DMA c)) (setInWRAM m v)).1 = true
        ∧ (reverseLoop F c inc true (chunkFuel (transferCount (m.DMA c)))
            (transferCount (m.DMA c)) m).2.log
          = (reverseLoop F c inc false (chunkFuel (transferCount (m.DMA c)))
              (transferCount (m.DMA c)) (setInWRAM m v)).2.log)
    ∧ (∀ (Reg : Nat) (m0 : Machine),
        reverseByte F c true Reg m0
          = setInWRAM (reverseByte F c false Reg m0) (decide ((m0.DMA c).AAddress < 0x2000))) := by
  obtain ⟨m1, as, hres, -, hlog, hseg⟩ := S9xDoDMA_reverse_segments F c m hrev hmode hnc
  refine ⟨by rw [hres], ⟨as, hlog, hseg⟩, ?_, fun _ _ => rfl⟩
  intro inc v
  obtain ⟨a1, as1, he1, -, hl1, hs1⟩ := reverseLoop_segments F c inc true
    (transferCount (m.DMA c)) m hmode (transferCount_pos _) (fun t _ _ => hnc t)
  obtain ⟨a2, as2, he2, -, hl2, hs2⟩ := reverseLoop_segments F c inc false
    (transferCount (m.DMA c)) (setInWRAM m v) hmode (transferCount_pos _) (fun t _ _ => hnc t)
  have heq : as1 = as2 :=
    Segments.unique (fun k pre s s2 h1 h2 => by
      have e1 : s = _ := h1
      have e2 : s2 = _ := h2
      rw [e1, e2]) _ 0 m.log as1 as2 hs1 hs2
  rw [he1, he2]
  refine ⟨rfl, rfl, ?_⟩
  show a1.log = a2.log
  rw [hl1, hl2, heq]
  rfl

/-- Witness of C27: the mode-1 transfer of 5 bytes of `reverseMachine` reads
`$2118 $2119 $2118 $2119 $2118`. -/
theorem C27_witness :
    (S9xDoDMA quietFacade 0 reverseMachine).1 = true
    ∧ ∃ as, (S9xDoDMA quietFacade 0 reverseMachine).2.log = reverseMachine.log ++ as
        ∧ Segments (fun k pre s =>
              reverseGroup quietFacade (reverseMachine.DMA 0) k
                ((stepOffset (startIncrement (enterDMA 0 reverseMachine)
                  (reverseMachine.DMA 0)))^[k] (reverseMachine.DMA 0).AAddress)
                pre s)
            0 (transferCount (reverseMachine.DMA 0)) reverseMachine.log as :=
  have h := C27_reverse_paths quietFacade 0 reverseMachine rfl (by decide)
    (quietFacade_noCollision 0)
  ⟨h.1, h.2.1⟩

/-! ## The source address of every byte -/

theorem increment_eq_spec (d : SDMA) : increment d = specIncrement d := by
  unfold increment specIncrement
  cases d.AAddressFixed <;> cases d.AAddressDecrement <;> rfl

theorem iterate_stepOffset (inc : Int) (hinc : inc = 0 ∨ inc = 1 ∨ inc = -1) (p : Nat)
    (hp : p < 0x10000) (k : Nat) :
    (stepOffset inc)^[k] p = (((p : Int) + (k : Int) * inc) % 0x10000).toNat := by
  induction k with
  | zero => simp; omega
  | succ k ih =>
    rw [Function.iterate_succ_apply', ih]
    unfold stepOffset
    rcases hinc with h | h | h <;> subst h <;> push_cast <;> omega

theorem stepOffset_spec (d : SDMA) (hA : d.AAddress < 0x10000) (k : Nat) :
    (stepOffset (increment d))^[k] d.AAddress = specAddress d k := by
  rw [iterate_stepOffset _ (increment_cases d) _ hA, increment_eq_spec]
  rfl

/-- C22, as stated, fails in its last clause: a byte is not always read or
written.  On `wramMachine`, where every address resolves to a base pointer
(`pointerFacade`), the mode 0 transfer of 3 bytes from the WRAM mirror at
`$01:0100` to WMDATA (`$2180`) is not the invalid-WRAM case, has S-DD1
disabled, returns true with `AAddress` advanced by 3, and issues no access at
all: none of the 3 bytes is read. -/
theorem C22_counterexample :
    invalidDMA (wramMachine.DMA 0) = false ∧ wramMachine.SDD1 = false
    ∧ (wramMachine.DMA 0).ReverseTransfer = false
    ∧ transferCount (wramMachine.DMA 0) = 3
    ∧ pointerFacade.S9xGetBasePointer 0x010100 = some 0x1010000
    ∧ (S9xDoDMA pointerFacade 0 wramMachine).1 = true
    ∧ ((S9xDoDMA pointerFacade 0 wramMachine).2.DMA 0).AAddress
        = (wramMachine.DMA 0).AAddress + 3
    ∧ (S9xDoDMA pointerFacade 0 wramMachine).2.tick = wramMachine.tick + 3
    ∧ (S9xDoDMA pointerFacade 0 wramMachine).2.log = wramMachine.log := by
  decide

/-- C22, amended: a `S9xDoDMA` of `N` bytes that is not the invalid-WRAM case,
with S-DD1 disabled, a mode in 0..7 and no HDMA collision, returns true with
`AAddress = (AAddress on entry + N * inc) mod 0x10000`, where `inc` is 0 when
`AAddressFixed` is set, -1 when only `AAddressDecrement` is set and +1
otherwise, and with `ABank` unchanged.  The accesses it issues split into `N`
groups, one per byte, byte `k` (counted from 0) having the offset `(AAddress on
entry + k * inc) mod 0x10000` in the bank.  In the PPU -> CPU direction the
group is the read of the register and the write of the byte read to
`(ABank << 16) + offset`.  In the CPU -> PPU direction the group starts with
the read of the byte, through `S9xGetByte` at `(ABank << 16) + offset` when the
base pointer of its chunk is null and at that pointer plus the offset when it
is not, the pointer being the one resolved for the first byte of the chunk,
and goes on with register writes only; the group is empty, the byte being
stepped over without any access, exactly when the chunk has a base pointer,
the mode is 0, 2 or 6, the destination is `$2180` and the first byte of the
chunk lies in WRAM. -/
theorem C22_AAddress_progress (F : Facade) (c : Fin 8) (m : Machine)
    (hM : F.MEMMAP_MASK < F.MEMMAP_BLOCK_SIZE) (hA : (m.DMA c).AAddress < 0x10000)
    (hsdd : m.SDD1 = false) (hinv : invalidDMA (m.DMA c) = false)
    (hmode : (m.DMA c).TransferMode ≤ 7) (hnc : NoCollision F c) :
    (S9xDoDMA F c m).1 = true
    ∧ ((S9xDoDMA F c m).2.DMA c).AAddress = specAddress (m.DMA c) (transferCount (m.DMA c))
    ∧ ((S9xDoDMA F c m).2.DMA c).ABank = (m.DMA c).ABank
    ∧ ∃ as, (S9xDoDMA F c m).2.log = m.log ++ as
        ∧ Segments (fun k pre s => byteMoved F (m.DMA c) k pre s)
            0 (transferCount (m.DMA c)) m.log as := by
  have hsa : sdd1Active m (m.DMA c) = false := by simp [sdd1Active, hsdd]
  have hinc : startIncrement (enterDMA c m) (m.DMA c) = increment (m.DMA c) := by
    unfold startIncrement
    have : sdd1Active (enterDMA c m) (m.DMA c) = false := hsa
    rw [this]
    rfl
  have hfinal : ∀ m1 : Machine,
      Stepped F c (increment (m.DMA c)) (transferCount (m.DMA c)) (startDMA c m) m1 →
      ((leaveDMA (rescheduleNMI m1)).DMA c).AAddress
          = specAddress (m.DMA c) (transferCount (m.DMA c))
        ∧ ((leaveDMA (rescheduleNMI m1)).DMA c).ABank = (m.DMA c).ABank := by
    intro m1 hs
    have hd : (leaveDMA (rescheduleNMI m1)).DMA c
        = (stepChannel (increment (m.DMA c)))^[transferCount (m.DMA c)] (m.DMA c) := by
      show (rescheduleNMI m1).DMA c = _
      rw [rescheduleNMI_DMA, hs.dma, Function.update_same, startDMA_DMA]
    rw [hd, iterate_stepChannel_offset, stepOffset_spec _ hA,
      (iterate_stepChannel_config _ _ _).2.2.1]
    exact ⟨rfl, rfl⟩
  cases hrev : (m.DMA c).ReverseTransfer with
  | false =>
    obtain ⟨m1, as, hres, hs, hlog, hseg⟩ := S9xDoDMA_forward_segments F c m hM
      (fun _ _ => True) (fun _ _ _ _ => trivial) hsa hinv hrev hmode hnc trivial
    obtain ⟨f1, f2⟩ := hfinal m1 hs
    refine ⟨by rw [hres], by rw [hres]; exact f1, by rw [hres]; exact f2, as, hlog, ?_⟩
    refine Segments.mono _ 0 _ _ ?_ hseg
    intro k pre1 s1 _ _ hq
    obtain ⟨pstart, count, cnt, j, -, -, -, -, hjk, hp, hg⟩ := hq
    rw [stepOffset_spec _ hA] at hg hp
    rw [hp] at hg
    unfold byteMoved
    rw [hrev]
    exact ⟨j, hjk, hg⟩
  | true =>
    obtain ⟨m1, as, hres, hs, hlog, hseg⟩ := S9xDoDMA_reverse_segments F c m hrev hmode hnc
    rw [hinc] at hs hseg
    obtain ⟨f1, f2⟩ := hfinal m1 hs
    refine ⟨by rw [hres], by rw [hres]; exact f1, by rw [hres]; exact f2, as, hlog, ?_⟩
    refine Segments.mono _ 0 _ _ ?_ hseg
    intro k pre1 s1 _ _ hq
    rw [stepOffset_spec _ hA] at hq
    unfold byteMoved
    rw [hrev]
    exact hq

/-- Witness of the amended C22: the 5 bytes of `sampleMachine` come from
`$01:0FFE` to `$01:1002`, and `AAddress` ends at `0x1003`. -/
theorem C22_witness :
    (S9xDoDMA quietFacade 0 sampleMachine).1 = true
    ∧ ((S9xDoDMA quietFacade 0 sampleMachine).2.DMA 0).AAddress
        = specAddress (sampleMachine.DMA 0) (transferCount (sampleMachine.DMA 0))
    ∧ ((S9xDoDMA quietFacade 0 sampleMachine).2.DMA 0).ABank = (sampleMachine.DMA 0).ABank
    ∧ ∃ as, (S9xDoDMA quietFacade 0 sampleMachine).2.log = sampleMachine.log ++ as
        ∧ Segments (fun k pre s => byteMoved quietFacade (sampleMachine.DMA 0) k pre s)
            0 (transferCount (sampleMachine.DMA 0)) sampleMachine.log as :=
  C22_AAddress_progress quietFacade 0 sampleMachine (by decide) (by decide) rfl (by decide)
    (by decide) (quietFacade_noCollision 0)

/-! ## The chunks of the CPU -> PPU branch stay in their memory block -/

theorem chunkInvariant_next (F : Facade) (s : Nat) (hs : s ≤ 16)
    (hB : F.MEMMAP_BLOCK_SIZE = 2 ^ s) (inc : Int) (hinc : inc = 1 ∨ inc = -1)
    (p : Nat) (count : Int) (h : chunkInvariant F inc p count) (_h1 : 1 ≤ count) :
    chunkInvariant F inc ((stepOffset inc)^[count.toNat] p) F.MEMMAP_BLOCK_SIZE := by
  unfold chunkInvariant at h ⊢
  obtain ⟨hp, hc1, hc2, hi, hd⟩ := h
  rw [iterate_stepOffset inc (by tauto) p hp]
  generalize F.MEMMAP_BLOCK_SIZE = B at *
  interval_cases s <;> norm_num at hB <;> subst hB <;> rcases hinc with h | h <;> subst h <;>
    simp only [forall_true_left, true_implies] at hi hd ⊢ <;>
    refine ⟨by omega, by omega, by omega, ?_, ?_⟩ <;> omega

theorem chunkInvariant_first (F : Facade) (s : Nat)
    (hB : F.MEMMAP_BLOCK_SIZE = 2 ^ s) (hMk : F.MEMMAP_MASK = 2 ^ s - 1) (d : SDMA)
    (hA : d.AAddress < 0x10000) (hfix : d.AAddressFixed = false) (rem : Int) :
    chunkInvariant F (increment d) d.AAddress
      (if d.AAddressFixed then rem
       else if d.AAddressDecrement then ((d.AAddress &&& F.MEMMAP_MASK : Nat) : Int) + 1
       else (F.MEMMAP_BLOCK_SIZE : Int) - ((d.AAddress &&& F.MEMMAP_MASK : Nat) : Int)) := by
  rw [and_mask_eq_mod F s hB hMk]
  have hpos : 0 < F.MEMMAP_BLOCK_SIZE := by rw [hB]; exact Nat.two_pow_pos s
  have hlt : d.AAddress % F.MEMMAP_BLOCK_SIZE < F.MEMMAP_BLOCK_SIZE := Nat.mod_lt _ hpos
  unfold chunkInvariant increment
  cases hdec : d.AAddressDecrement <;> simp [hfix] <;> omega

theorem chunkInvariant_block (F : Facade) (s : Nat) (hs : s ≤ 16)
    (hB : F.MEMMAP_BLOCK_SIZE = 2 ^ s) (inc : Int) (hinc : inc = 1 ∨ inc = -1)
    (bank p : Nat) (count : Int) (h : chunkInvariant F inc p count) (j : Nat)
    (hj : (j : Int) < count) :
    sameBlock F ((bank <<< 16) + p) ((bank <<< 16) + (stepOffset inc)^[j] p) := by
  unfold chunkInvariant at h
  unfold sameBlock
  obtain ⟨hp, hc1, hc2, hi, hd⟩ := h
  rw [iterate_stepOffset inc (by tauto) p hp, Nat.shiftLeft_eq]
  generalize F.MEMMAP_BLOCK_SIZE = B at *
  interval_cases s <;> norm_num at hB <;> subst hB <;> rcases hinc with h | h <;> subst h <;>
    simp only [forall_true_left, true_implies] at hi hd ⊢ <;> omega

/-- C29: in a CPU -> PPU `S9xDoDMA` with a non-fixed address (so without S-DD1
redirection), `MEMMAP_BLOCK_SIZE` a power of two dividing `0x10000` and
`MEMMAP_MASK = MEMMAP_BLOCK_SIZE - 1`, a mode in 0..7 and no HDMA collision,
the invariant `chunkInvariant` holds at the head of the first iteration of
the `while (1)` loop and goes from one iteration to the next, and the
accesses split into `N` groups, one per byte: byte
`k` is read at the offset `(AAddress + k * inc) mod 0x10000`, which is the
value of both `p` and `AAddress` after `k` steps; it belongs to a chunk of at
least 1 and at most `MEMMAP_BLOCK_SIZE` bytes, and the address at which the
base pointer of that chunk was resolved lies in the same memory block as the
address of byte `k`, in both directions and across the wrap of the 16-bit
address inside the bank. -/
theorem C29_chunks_stay_in_block (F : Facade) (c : Fin 8) (m : Machine) (s : Nat)
    (hs : s ≤ 16) (hB : F.MEMMAP_BLOCK_SIZE = 2 ^ s) (hMk : F.MEMMAP_MASK = 2 ^ s - 1)
    (hA : (m.DMA c).AAddress < 0x10000) (hfix : (m.DMA c).AAddressFixed = false)
    (hinv : invalidDMA (m.DMA c) = false) (hfwd : (m.DMA c).ReverseTransfer = false)
    (hmode : (m.DMA c).TransferMode ≤ 7) (hnc : NoCollision F c) :
    (S9xDoDMA F c m).1 = true
    ∧ (∃ as, (S9xDoDMA F c m).2.log = m.log ++ as
        ∧ Segments (fun k _ s => inChunk F (m.DMA c) k s) 0 (transferCount (m.DMA c)) m.log as)
    ∧ (∀ k, ((stepChannel (increment (m.DMA c)))^[k] (m.DMA c)).AAddress
          = specAddress (m.DMA c) k
        ∧ (stepOffset (increment (m.DMA c)))^[k] (m.DMA c).AAddress = specAddress (m.DMA c) k)
    ∧ chunkInvariant F (increment (m.DMA c)) (m.DMA c).AAddress
        (if (m.DMA c).AAddressFixed then ((transferCount (m.DMA c) : Nat) : Int)
         else if (m.DMA c).AAddressDecrement then
           (((m.DMA c).AAddress &&& F.MEMMAP_MASK : Nat) : Int) + 1
         else (F.MEMMAP_BLOCK_SIZE : Int)
           - (((m.DMA c).AAddress &&& F.MEMMAP_MASK : Nat) : Int))
    ∧ (∀ (p : Nat) (count : Int), chunkInvariant F (increment (m.DMA c)) p count →
        chunkInvariant F (increment (m.DMA c))
          ((stepOffset (increment (m.DMA c)))^[count.toNat] p) F.MEMMAP_BLOCK_SIZE) := by
  have hpos : 0 < F.MEMMAP_BLOCK_SIZE := by rw [hB]; exact Nat.two_pow_pos s
  have hM : F.MEMMAP_MASK < F.MEMMAP_BLOCK_SIZE := by rw [hMk, hB]; omega
  have hinc : increment (m.DMA c) = 1 ∨ increment (m.DMA c) = -1 := by
    unfold increment
    cases (m.DMA c).AAddressDecrement <;> simp [hfix]
  have hsa : sdd1Active m (m.DMA c) = false := by simp [sdd1Active, hfix]
  obtain ⟨m1, as, hres, -, hlog, hseg⟩ := S9xDoDMA_forward_segments F c m hM
    (chunkInvariant F (increment (m.DMA c)))
    (fun p count h h1 => chunkInvariant_next F s hs hB _ hinc p count h h1)
    hsa hinv hfwd hmode hnc (chunkInvariant_first F s hB hMk (m.DMA c) hA hfix _)
  refine ⟨by rw [hres], ⟨as, hlog, ?_⟩, ?_,
    chunkInvariant_first F s hB hMk (m.DMA c) hA hfix _, ?_⟩
  · refine Segments.mono _ 0 _ _ ?_ hseg
    intro k pre1 s1 _ _ hq
    obtain ⟨pstart, count, cnt, j, hJ, hc1, hc2, hj, hjk, hp, hg, -⟩ := hq
    have hblk := chunkInvariant_block F s hs hB _ hinc (m.DMA c).ABank pstart count hJ j
      (by omega)
    have hpk : (stepOffset (increment (m.DMA c)))^[j] pstart
        = (stepOffset (increment (m.DMA c)))^[k] (m.DMA c).AAddress := by
      rw [hp, ← Function.iterate_add_apply]
      congr 1
      omega
    rw [hpk, stepOffset_spec _ hA] at hblk
    rw [stepOffset_spec _ hA] at hp hg
    rw [hp] at hblk hg
    exact ⟨j, cnt, hjk, hj, hc1, le_trans hc2 hJ.2.2.1, hblk, hg⟩
  · intro k
    rw [iterate_stepChannel_offset, stepOffset_spec _ hA]
    exact ⟨rfl, rfl⟩
  · intro p count h
    exact chunkInvariant_next F s hs hB _ hinc p count h h.2.1

/-- Witness of C29: the 5 bytes of `sampleMachine` start 2 bytes before the end
of a 4 KiB block. -/
theorem C29_witness :
    (S9xDoDMA quietFacade 0 sampleMachine).1 = true
    ∧ ∃ as, (S9xDoDMA quietFacade 0 sampleMachine).2.log = sampleMachine.log ++ as
        ∧ Segments (fun k _ s => inChunk quietFacade (sampleMachine.DMA 0) k s) 0
            (transferCount (sampleMachine.DMA 0)) sampleMachine.log as :=
  have h := C29_chunks_stay_in_block quietFacade 0 sampleMachine 12 (by decide) rfl rfl
    (by decide) rfl (by decide) rfl (by decide) (quietFacade_noCollision 0)
  ⟨h.1, h.2.1⟩

/-! ## The register writes of the fast path -/

/-- C21, as stated, fails.  With every address resolved to a base pointer
(`pointerFacade`), the mode 0 transfer of 3 bytes to CGDATA of `cgramMachine`
reads the 3 bytes through the pointer and writes no register, and the
transfer of 3 bytes from the WRAM mirror to WMDATA of `wramMachine` issues no
access at all, where the slow path (`quietFacade`) writes each byte to
`$2122`, respectively `$2180`. -/
theorem C21_counterexample :
    (cgramMachine.DMA 0).TransferMode = 0 ∧ (cgramMachine.DMA 0).BAddress = 0x22
    ∧ pointerFacade.S9xGetBasePointer 0x010100 = some 0x1010000
    ∧ (S9xDoDMA pointerFacade 0 cgramMachine).1 = true
    ∧ (S9xDoDMA pointerFacade 0 cgramMachine).2.log
        = [Access.ReadPointer 0x1010100, Access.ReadPointer 0x1010101,
           Access.ReadPointer 0x1010102]
    ∧ (S9xDoDMA pointerFacade 0 cgramMachine).2.log.filterMap Access.write = []
    ∧ (S9xDoDMA quietFacade 0 cgramMachine).2.log.filterMap Access.write
        = [(0x00, 0x2122), (0x01, 0x2122), (0x02, 0x2122)]
    ∧ (wramMachine.DMA 0).TransferMode = 0 ∧ (wramMachine.DMA 0).BAddress = 0x80
    ∧ invalidDMA (wramMachine.DMA 0) = false
    ∧ (S9xDoDMA pointerFacade 0 wramMachine).1 = true
    ∧ (S9xDoDMA pointerFacade 0 wramMachine).2.log = []
    ∧ (S9xDoDMA quietFacade 0 wramMachine).2.log.filterMap Access.write
        = [(0x00, 0x2180), (0x01, 0x2180), (0x02, 0x2180)] := by
  decide

theorem specFastWrite_write (B fgc v : Nat) :
    Access.write (specFastWrite B fgc v) = some (v, 0x2100 + B) := by
  unfold specFastWrite
  split_ifs with h1 h2 h3 h4 h5 h6 <;> simp [Access.write, *]

theorem fastSingleByte_emits (F : Facade) (c : Fin 8) (q : Nat) (m : Machine) :
    Emits c (fun d p pre s => d.BAddress = (m.DMA c).BAddress →
        fastGroup F q (m.DMA c).BAddress m.PPU.FullGraphicCount m.CPU.InWRAMDMAorHDMA p pre s)
      (fastSingleByte F c q m) := by
  intro m1 p
  unfold fastSingleByte fastGroup specFastWrite
  simp only []
  by_cases h04 : (m.DMA c).BAddress = 0x04
  · exact ⟨_, by simp only [h04, if_true]; rfl, fun _ => by simp [h04]⟩
  by_cases h18 : (m.DMA c).BAddress = 0x18
  · by_cases hg : m.PPU.FullGraphicCount = 0
    · exact ⟨_, by simp only [h18, hg, if_true]; rfl, fun _ => by simp [h18, hg]⟩
    · exact ⟨_, by simp only [h18, hg, if_true, if_false]; rfl, fun _ => by simp [h18, hg]⟩
  by_cases h19 : (m.DMA c).BAddress = 0x19
  · by_cases hg : m.PPU.FullGraphicCount = 0
    · exact ⟨_, by simp only [h19, hg, if_true]; rfl, fun _ => by simp [h19, hg]⟩
    · exact ⟨_, by simp only [h19, hg, if_true, if_false]; rfl, fun _ => by simp [h19, hg]⟩
  by_cases h22 : (m.DMA c).BAddress = 0x22
  · exact ⟨_, by simp only [h22, if_true]; rfl, fun _ => by simp [h22]⟩
  by_cases h80 : (m.DMA c).BAddress = 0x80
  · cases hw : m.CPU.InWRAMDMAorHDMA with
    | false =>
      exact ⟨_, by simp only [h80, hw]; rfl, fun _ => by simp [h80, hw]⟩
    | true =>
      exact ⟨[], by simp [h80, hw, fastNothing], fun _ => by simp [h80, hw]⟩
  · refine ⟨[Access.ReadPointer (q + p),
      Access.S9xSetPPU (F.ReadPointer m1.log (q + p) % 0x100) (0x2100 + (m1.DMA c).BAddress)],
      by simp only [h04, h18, h19, h22, h80, if_false]; rfl, fun hB => ?_⟩
    simp only [h04, h18, h19, h22, h80, if_false, false_and, hB]

theorem slowByte_emits (F : Facade) (c : Fin 8) :
    Emits c (fun d p pre s => slowGroup F d.ABank d.BAddress p pre s)
      (slowByte F c 0x2100) := by
  intro m p
  exact ⟨_, rfl, rfl⟩

/-- C21, amended: in a chunk of `count` bytes of the fast path (base pointer
`q`) with `TransferMode` 0, 2 or 6 that no HDMA collision stops, the accesses
split into one group per byte.  For `BAddress = 0x22` (CGDATA) the group is
the read of `q + p` alone; for `BAddress = 0x80` while `CPU.InWRAMDMAorHDMA`
is set it is empty; in every other case it is the read of `q + p` followed by
exactly one write of the byte read to `0x2100 + BAddress`, through the handler
of `0x2104`, `0x2118`/`0x2119` (linear or tile variant) or `0x2180`, or
through `S9xSetPPU`.  The slow path issues for every byte the read through
`S9xGetByte` and the write of the byte read to `0x2100 + BAddress`, so that
wherever the fast path writes, it writes the same value to the same register
as the slow path does for the same byte. -/
theorem C21_fast_path_writes (F : Facade) (c : Fin 8) (inc : Int) (q : Nat) (b count : Int)
    (m : Machine) (p : Nat)
    (hmode : (m.DMA c).TransferMode = 0 ∨ (m.DMA c).TransferMode = 2
      ∨ (m.DMA c).TransferMode = 6)
    (h1 : 1 ≤ count)
    (hnc : ∀ t, m.tick ≤ t → t < m.tick + count.toNat → NoCollisionAt F c t) :
    (∃ m1 b1 as,
        fastChunk F c inc q b count m p
          = Outcome.done m1 ((stepOffset inc)^[count.toNat] p, b1)
        ∧ m1.log = m.log ++ as
        ∧ Segments (fun k pre s =>
              fastGroup F q (m.DMA c).BAddress m.PPU.FullGraphicCount m.CPU.InWRAMDMAorHDMA
                ((stepOffset inc)^[k] p) pre s)
            0 count.toNat m.log as)
    ∧ (∃ m1 b1 as,
        slowChunk F c inc b count m p
          = Outcome.done m1 ((stepOffset inc)^[count.toNat] p, b1)
        ∧ m1.log = m.log ++ as
        ∧ Segments (fun k pre s =>
              slowGroup F (m.DMA c).ABank (m.DMA c).BAddress ((stepOffset inc)^[k] p) pre s)
            0 count.toNat m.log as)
    ∧ (∀ v, Access.write (specFastWrite (m.DMA c).BAddress m.PPU.FullGraphicCount v)
          = some (v, 0x2100 + (m.DMA c).BAddress)
        ∧ Access.write (Access.S9xSetPPU v (0x2100 + (m.DMA c).BAddress))
          = some (v, 0x2100 + (m.DMA c).BAddress)) := by
  refine ⟨?_, ?_, fun v => ⟨specFastWrite_write _ _ v, rfl⟩⟩
  · have hr := loopSingle_groups F c inc _ (fastSingleByte F c q m)
      (fastSingleByte_frame F c q m) (fastSingleByte_emits F c q m) b count m p h1
    obtain ⟨m1, b1, as, he, -, hlog, hseg⟩ := hr.completes hnc (m.DMA c) p 0 rfl rfl
    refine ⟨m1, b1, as, ?_, hlog, ?_⟩
    · unfold fastChunk
      simp only [hmode, if_true]
      exact he
    · refine Segments.mono _ 0 _ _ ?_ hseg
      intro k pre1 s1 _ _ hq
      exact hq (iterate_stepChannel_config inc k (m.DMA c)).2.1
  · have hr := loopSingle_groups F c inc _ (slowByte F c 0x2100)
      (slowByte_frame F c _) (slowByte_emits F c) b count m p h1
    obtain ⟨m1, b1, as, he, -, hlog, hseg⟩ := hr.completes hnc (m.DMA c) p 0 rfl rfl
    refine ⟨m1, b1, as, ?_, hlog, ?_⟩
    · unfold slowChunk
      simp only [hmode, if_true]
      exact he
    · refine Segments.mono _ 0 _ _ ?_ hseg
      intro k pre1 s1 _ _ hq
      obtain ⟨-, hB, hA, -⟩ := iterate_stepChannel_config inc k (m.DMA c)
      have hq2 : slowGroup F ((stepChannel inc)^[k] (m.DMA c)).ABank
          ((stepChannel inc)^[k] (m.DMA c)).BAddress ((stepOffset inc)^[k] p) pre1 s1 := hq
      rw [hB, hA] at hq2
      exact hq2

/-- Witness of C21: a chunk of 3 bytes of `cgramMachine` through the base
pointer `0x1010000`. -/
theorem C21_witness :
    ∃ m1 b1 as,
      fastChunk pointerFacade 0 1 0x1010000 0 3 cgramMachine 0x100
        = Outcome.done m1 ((stepOffset 1)^[(3 : Int).toNat] 0x100, b1)
      ∧ m1.log = cgramMachine.log ++ as
      ∧ Segments (fun k pre s =>
            fastGroup pointerFacade 0x1010000 (cgramMachine.DMA 0).BAddress
              cgramMachine.PPU.FullGraphicCount cgramMachine.CPU.InWRAMDMAorHDMA
              ((stepOffset 1)^[k] 0x100) pre s)
          0 (3 : Int).toNat cgramMachine.log as :=
  (C21_fast_path_writes pointerFacade 0 1 0x1010000 0 3 cgramMachine 0x100
    (Or.inl rfl) (by decide)
    (fun _ _ _ cpu => by simp [pointerFacade, quietFacade, quietEvents])).1

/-! ## `S9xDoDMA` with event processing that runs HDMA -/

theorem addCyclesInDMA_cpuEvents (F : Facade) (c : Fin 8) (m : Machine) :
    Reentrant.addCyclesInDMA (cpuEvents F) c m = addCyclesInDMA F c m := by
  unfold Reentrant.addCyclesInDMA addCyclesInDMA cpuEvents
  rfl

theorem UPDATE_COUNTERS_cpuEvents (F : Facade) (c : Fin 8) (inc : Int) (m : Machine) (p : Nat) :
    Reentrant.UPDATE_COUNTERS (cpuEvents F) c inc m p = UPDATE_COUNTERS F c inc m p := by
  simp only [Reentrant.UPDATE_COUNTERS, UPDATE_COUNTERS, addCyclesInDMA_cpuEvents]

theorem UPDATE_COUNTERS_reverse_cpuEvents (F : Facade) (c : Fin 8) (inc : Int) (m : Machine) :
    Reentrant.UPDATE_COUNTERS_reverse (cpuEvents F) c inc m
      = UPDATE_COUNTERS_reverse F c inc m := by
  simp only [Reentrant.UPDATE_COUNTERS_reverse, UPDATE_COUNTERS_reverse,
    addCyclesInDMA_cpuEvents]

theorem invalidLoop_cpuEvents (F : Facade) (c : Fin 8) :
    ∀ (n : Nat) (m : Machine),
      Reentrant.invalidLoop (cpuEvents F) c n m = invalidLoop F c n m := by
  intro n
  induction n with
  | zero => intro m; rfl
  | succ n ih =>
    intro m
    simp only [Reentrant.invalidLoop, invalidLoop, addCyclesInDMA_cpuEvents, ih]

theorem loopSingle_cpuEvents (F : Facade) (c : Fin 8) (inc : Int) (e : Emit) :
    ∀ (fuel : Nat) (count : Int) (m : Machine) (p : Nat),
      Reentrant.loopSingle (cpuEvents F) c inc e fuel count m p
        = loopSingle F c inc e fuel count m p := by
  intro fuel
  induction fuel with
  | zero => intro count m p; rfl
  | succ fuel ih =>
    intro count m p
    simp only [Reentrant.loopSingle, loopSingle, UPDATE_COUNTERS_cpuEvents, ih]

theorem duffLoop_cpuEvents (F : Facade) (c : Fin 8) (inc : Int) (e0 e1 : Emit) :
    ∀ (fuel : Nat) (at1 : Bool) (count : Int) (m : Machine) (p : Nat),
      Reentrant.duffLoop (cpuEvents F) c inc e0 e1 fuel at1 count m p
        = duffLoop F c inc e0 e1 fuel at1 count m p := by
  intro fuel
  induction fuel with
  | zero => intro at1 count m p; rfl
  | succ fuel ih =>
    intro at1 count m p
    cases at1 <;>
      simp only [Reentrant.duffLoop, duffLoop, UPDATE_COUNTERS_cpuEvents, ih]

theorem pairTail_cpuEvents (F : Facade) (c : Fin 8) (inc : Int) (e0 : Emit) (count : Int)
    (m : Machine) (p : Nat) :
    Reentrant.pairTail (cpuEvents F) c inc e0 count m p = pairTail F c inc e0 count m p := by
  simp only [Reentrant.pairTail, pairTail, UPDATE_COUNTERS_cpuEvents]

theorem loopPair_cpuEvents (F : Facade) (c : Fin 8) (inc : Int) (e0 e1 : Emit) (b count : Int)
    (m : Machine) (p : Nat) :
    Reentrant.loopPair (cpuEvents F) c inc e0 e1 b count m p
      = loopPair F c inc e0 e1 b count m p := by
  simp only [Reentrant.loopPair, loopPair, duffLoop_cpuEvents, pairTail_cpuEvents]

theorem loopQuad_cpuEvents (F : Facade) (c : Fin 8) (inc : Int) (e : Nat → Emit) :
    ∀ (fuel k : Nat) (count : Int) (m : Machine) (p : Nat),
      Reentrant.loopQuad (cpuEvents F) c inc e fuel k count m p
        = loopQuad F c inc e fuel k count m p := by
  intro fuel
  induction fuel with
  | zero => intro k count m p; rfl
  | succ fuel ih =>
    intro k count m p
    simp only [Reentrant.loopQuad, loopQuad, UPDATE_COUNTERS_cpuEvents, ih]

theorem transferChunk_cpuEvents (F : Facade) (c : Fin 8) (inc : Int) (base : Option Nat)
    (b count : Int) (m : Machine) (p : Nat) :
    Reentrant.transferChunk F (cpuEvents F) c inc base b count m p
      = transferChunk F c inc base b count m p := by
  cases base with
  | none =>
    simp only [Reentrant.transferChunk, transferChunk, Reentrant.slowChunk, slowChunk,
      loopSingle_cpuEvents, loopPair_cpuEvents, loopQuad_cpuEvents]
  | some q =>
    simp only [Reentrant.transferChunk, transferChunk, Reentrant.fastChunk, fastChunk,
      loopSingle_cpuEvents, loopPair_cpuEvents, loopQuad_cpuEvents]

theorem forwardLoop_cpuEvents (F : Facade) (c : Fin 8) (inc : Int) (sdd : Bool) :
    ∀ (fuel : Nat) (b : Int) (base : Option Nat) (iw : Bool) (rem count : Int)
      (m : Machine) (p : Nat),
      Reentrant.forwardLoop F (cpuEvents F) c inc sdd fuel b base iw rem count m p
        = forwardLoop F c inc sdd fuel b base iw rem count m p := by
  intro fuel
  induction fuel with
  | zero => intro b base iw rem count m p; rfl
  | succ fuel ih =>
    intro b base iw rem count m p
    simp only [Reentrant.forwardLoop, forwardLoop, transferChunk_cpuEvents, ih]

theorem reverseCase_cpuEvents (F : Facade) (c : Fin 8) (inc : Int) (rs : Bool) :
    ∀ (Regs : List Nat) (count : Int) (m : Machine),
      Reentrant.reverseCase F (cpuEvents F) c inc rs Regs count m
        = reverseCase F c inc rs Regs count m := by
  intro Regs
  induction Regs with
  | nil => intro count m; rfl
  | cons Reg Regs ih =>
    intro count m
    cases Regs with
    | nil =>
      simp only [Reentrant.reverseCase, reverseCase, UPDATE_COUNTERS_reverse_cpuEvents]
    | cons Reg2 Regs =>
      simp only [Reentrant.reverseCase, reverseCase, UPDATE_COUNTERS_reverse_cpuEvents, ih]

theorem reverseDefault_cpuEvents (F : Facade) (c : Fin 8) (inc : Int) :
    ∀ (fuel : Nat) (count : Int) (m : Machine),
      Reentrant.reverseDefault (cpuEvents F) c inc fuel count m
        = reverseDefault F c inc fuel count m := by
  intro fuel
  induction fuel with
  | zero => intro count m; rfl
  | succ fuel ih =>
    intro count m
    simp only [Reentrant.reverseDefault, reverseDefault, UPDATE_COUNTERS_reverse_cpuEvents, ih]

theorem reverseLoop_cpuEvents (F : Facade) (c : Fin 8) (inc : Int) (rs : Bool) :
    ∀ (fuel : Nat) (count : Int) (m : Machine),
      Reentrant.reverseLoop F (cpuEvents F) c inc rs fuel count m
        = reverseLoop F c inc rs fuel count m := by
  intro fuel
  induction fuel with
  | zero => intro count m; rfl
  | succ fuel ih =>
    intro count m
    simp only [Reentrant.reverseLoop, reverseLoop, reverseCase_cpuEvents,
      reverseDefault_cpuEvents, ih]

theorem S9xDoDMA_cpuEvents (F : Facade) (c : Fin 8) (m : Machine) :
    Reentrant.S9xDoDMA F (cpuEvents F) c m = S9xDoDMA F c m := by
  simp only [Reentrant.S9xDoDMA, S9xDoDMA, Reentrant.forwardDMA, forwardDMA,
    Reentrant.reverseDMA, reverseDMA, invalidLoop_cpuEvents, forwardLoop_cpuEvents,
    reverseLoop_cpuEvents]

end Snes9x

namespace SSEQPlayer

/-! ## `NumToHexString` -/

theorem foldl_prepend_data (f : Nat → Char) :
    ∀ (l : List Nat) (acc : String),
      (l.foldl (fun hex i => String.singleton (f i) ++ hex) acc).data
        = (l.reverse.map f) ++ acc.data := by
  intro l
  induction l with
  | nil => intro acc; simp
  | cons a l ih =>
    intro acc
    rw [List.foldl_cons, ih]
    simp [String.singleton]

theorem ldiff_fifteen (n : Nat) : Nat.ldiff 15 n = 15 - n % 16 := by
  have h15 : (15 : Nat) = 2 ^ 4 - 1 := rfl
  have hsub : 15 - n % 16 = 2 ^ 4 - (n % 2 ^ 4 + 1) := by
    have : (2 : Nat) ^ 4 = 16 := rfl
    rw [this]
    omega
  apply Nat.eq_of_testBit_eq
  intro i
  rw [Nat.testBit_ldiff, hsub, Nat.testBit_two_pow_sub_succ (Nat.mod_lt _ (by decide)),
    Nat.testBit_mod_two_pow, h15, Nat.testBit_two_pow_sub_one]
  cases decide (i < 4) <;> cases n.testBit i <;> rfl

theorem land_fifteen (x : Int) : Int.land x 0xF = x % 16 := by
  cases x with
  | ofNat n =>
    show ((Nat.land n 15 : Nat) : Int) = (n : Int) % 16
    have : Nat.land n 15 = n % 16 := Nat.and_pow_two_sub_one_eq_mod n 4
    rw [this]
    rfl
  | negSucc n =>
    show ((Nat.ldiff 15 n : Nat) : Int) = Int.negSucc n % 16
    rw [ldiff_fifteen, Int.negSucc_eq]
    omega

theorem nibble_eq (num : Int) (i : Nat) :
    (Int.land (Int.shiftRight num (i * 4)) 0xF).toNat % 0x100
      = (num / 16 ^ i % 16).toNat := by
  have h1 : Int.shiftRight num (i * 4) = num / 16 ^ i := by
    have := Int.shiftRight_eq_div_pow num (i * 4)
    rw [show (num >>> (i * 4) : Int) = Int.shiftRight num (i * 4) from rfl] at this
    rw [this]
    congr 1
    push_cast
    rw [Nat.mul_comm, pow_mul]
    norm_num
  rw [land_fifteen, h1]
  omega

theorem hexDigitValue_hexChar (t : Nat) (h : t < 16) : hexDigitValue (hexChar t) = t := by
  interval_cases t <;> rfl

theorem emod_pow_succ (x : Int) (n : Nat) :
    x % 16 ^ (n + 1) = x / 16 ^ n % 16 * 16 ^ n + x % 16 ^ n := by
  have hpos : (0 : Int) < 16 ^ n := by positivity
  have h1 := Int.emod_add_ediv x (16 ^ n)
  have h2 := Int.emod_add_ediv (x / 16 ^ n) 16
  have hr1 := Int.emod_nonneg x (ne_of_gt hpos)
  have hr1b := Int.emod_lt_of_pos x hpos
  have hr2 : 0 ≤ x / 16 ^ n % 16 := by omega
  have hr2b : x / 16 ^ n % 16 < 16 := by omega
  have hx : x = (x / 16 ^ n % 16 * 16 ^ n + x % 16 ^ n) + 16 ^ (n + 1) * (x / 16 ^ n / 16) := by
    rw [pow_succ]
    nlinarith [h1, h2]
  have hlt : x / 16 ^ n % 16 * 16 ^ n + x % 16 ^ n < 16 ^ (n + 1) := by
    rw [pow_succ]
    nlinarith
  have hge : 0 ≤ x / 16 ^ n % 16 * 16 ^ n + x % 16 ^ n := by positivity
  conv_lhs => rw [hx]
  rw [Int.add_mul_emod_self_left]
  exact Int.emod_eq_of_lt hge hlt

theorem hexValue_digits (num : Int) (n : Nat) :
    (hexValue ((List.range n).reverse.map (fun i => hexChar ((num / 16 ^ i % 16).toNat)))
      : Int) = num % 16 ^ n := by
  induction n with
  | zero => simp [hexValue, Int.emod_one]
  | succ n ih =>
    rw [List.range_succ, List.reverse_append, List.reverse_singleton, List.singleton_append,
      List.map_cons, hexValue, emod_pow_succ]
    push_cast
    rw [ih, hexDigitValue_hexChar _ (by omega)]
    simp only [List.length_map, List.length_reverse, List.length_range]
    have : ((num / 16 ^ n % 16).toNat : Int) = num / 16 ^ n % 16 := by omega
    rw [this]

/-- C19: for an integer type of 1, 2, 4 or 8 bytes `NumToHexString(num)` is
`0x` followed by `2 * sizeof(T)` lowercase hexadecimal digits whose value, read
with the most significant digit first, is `num` modulo `2 ^ (8 * sizeof(T))`,
that is `num` read as an unsigned integer of that width. -/
theorem C19_NumToHexString_format (size : Nat) (num : Int)
    (hsize : size = 1 ∨ size = 2 ∨ size = 4 ∨ size = 8) :
    ∃ digits : List Char,
      (NumToHexString size num).data = '0' :: 'x' :: digits
      ∧ digits.length = 2 * size
      ∧ (∀ ch ∈ digits, hexDigitValue ch < 16)
      ∧ (hexValue digits : Int) = num % 2 ^ (8 * size) := by
  have hlen : (size * 2) % 0x100 = 2 * size := by omega
  refine ⟨(List.range (2 * size)).reverse.map
    (fun i => hexChar ((num / 16 ^ i % 16).toNat)), ?_, by simp, ?_, ?_⟩
  · unfold NumToHexString
    simp only [hlen, nibble_eq]
    rw [String.data_append, foldl_prepend_data]
    simp
  · intro ch hch
    simp only [List.mem_map, List.mem_reverse, List.mem_range] at hch
    obtain ⟨i, -, rfl⟩ := hch
    rw [hexDigitValue_hexChar _ (by omega)]
    omega
  · have hpow : (16 : Int) ^ (2 * size) = 2 ^ (8 * size) := by
      have h16 : (16 : Int) = 2 ^ 4 := by norm_num
      rw [h16, ← pow_mul]
      congr 1
      ring
    rw [hexValue_digits, hpow]

/-- Witness of C19 for a 16-bit type. -/
theorem C19_witness :
    ∃ digits : List Char,
      (NumToHexString 2 (-2)).data = '0' :: 'x' :: digits
      ∧ digits.length = 2 * 2
      ∧ (∀ ch ∈ digits, hexDigitValue ch < 16)
      ∧ (hexValue digits : Int) = (-2) % 2 ^ (8 * 2) :=
  C19_NumToHexString_format 2 (-2) (Or.inr (Or.inl rfl))

/-! ## `ReadLE` -/

theorem or_shifted_byte (v b i size : Nat) (hv : v < 256 ^ i) (hb : b < 0x100)
    (hi : i < size) (hsize : size ≤ 4) :
    (v ||| ((b <<< (i * 8)) % 0x100000000)) % 2 ^ (8 * size) = v + b * 256 ^ i
      ∧ v + b * 256 ^ i < 256 ^ (i + 1) := by
  have h256 : (256 : Nat) ^ i = 2 ^ (i * 8) := by
    rw [show (256 : Nat) = 2 ^ 8 by norm_num, ← pow_mul, Nat.mul_comm]
  have hlt : v + b * 256 ^ i < 256 ^ (i + 1) := by
    rw [pow_succ]
    nlinarith
  have hle : (256 : Nat) ^ (i + 1) ≤ 256 ^ size := Nat.pow_le_pow_right (by norm_num) hi
  have hsz : (256 : Nat) ^ size = 2 ^ (8 * size) := by
    rw [show (256 : Nat) = 2 ^ 8 by norm_num, ← pow_mul]
  have h32 : (256 : Nat) ^ size ≤ 0x100000000 := by
    calc (256 : Nat) ^ size ≤ 256 ^ 4 := Nat.pow_le_pow_right (by norm_num) hsize
      _ = 0x100000000 := by norm_num
  have hshift : b <<< (i * 8) = 2 ^ (i * 8) * b := by
    rw [Nat.shiftLeft_eq, Nat.mul_comm]
  have hsmall : b <<< (i * 8) < 0x100000000 := by
    rw [hshift, ← h256]
    nlinarith
  rw [Nat.mod_eq_of_lt hsmall, hshift, Nat.or_comm, ← Nat.mul_add_lt_is_or (by rw [← h256]; exact hv),
    ← h256, Nat.mod_eq_of_lt (by rw [← hsz]; nlinarith)]
  exact ⟨by ring, hlt⟩

theorem ReadLE_loop (size : Nat) (arr : List Nat) (hsize : size ≤ 4)
    (hbytes : ∀ b ∈ arr, b < 0x100) :
    ∀ n, n ≤ size →
      (List.range n).foldl
        (fun finalVal i =>
          (finalVal ||| ((arr.getD i 0 <<< (i * 8)) % 0x100000000)) % 2 ^ (8 * size)) 0
        = ∑ i ∈ Finset.range n, arr.getD i 0 * 256 ^ i
      ∧ ∑ i ∈ Finset.range n, arr.getD i 0 * 256 ^ i < 256 ^ n := by
  have hget : ∀ i, arr.getD i 0 < 0x100 := by
    intro i
    by_cases h : i < arr.length
    · rw [List.getD_eq_getElem _ _ h]
      exact hbytes _ (List.getElem_mem _)
    · rw [List.getD_eq_default _ _ (by omega)]
      norm_num
  intro n
  induction n with
  | zero => intro _; simp
  | succ n ih =>
    intro hn
    obtain ⟨h1, h2⟩ := ih (by omega)
    obtain ⟨h3, h4⟩ := or_shifted_byte _ (arr.getD n 0) n size h2 (hget n) (by omega) hsize
    rw [List.range_succ, List.foldl_append, List.foldl_cons, List.foldl_nil, h1,
      Finset.sum_range_succ]
    exact ⟨h3, h4⟩

theorem PseudoFile_loop (size : Nat) (file : PseudoFile) (hsize : size ≤ 4)
    (hbytes : ∀ b ∈ file.data, b < 0x100) (hcap : file.data.length < 0x100000000) :
    ∀ n, n ≤ size → file.pos + n ≤ file.data.length →
      (List.range n).foldl
        (fun (r : Nat × PseudoFile) i =>
          ((r.1 ||| ((r.2.data.getD r.2.pos 0 <<< (i * 8)) % 0x100000000)) % 2 ^ (8 * size),
           { r.2 with pos := (r.2.pos + 1) % 0x100000000 })) (0, file)
        = (∑ i ∈ Finset.range n, file.data.getD (file.pos + i) 0 * 256 ^ i,
           { file with pos := file.pos + n })
      ∧ ∑ i ∈ Finset.range n, file.data.getD (file.pos + i) 0 * 256 ^ i < 256 ^ n := by
  have hget : ∀ i, file.data.getD i 0 < 0x100 := by
    intro i
    by_cases h : i < file.data.length
    · rw [List.getD_eq_getElem _ _ h]
      exact hbytes _ (List.getElem_mem _)
    · rw [List.getD_eq_default _ _ (by omega)]
      norm_num
  intro n
  induction n with
  | zero => intro _ _; simp
  | succ n ih =>
    intro hn hpos
    obtain ⟨h1, h2⟩ := ih (by omega) (by omega)
    obtain ⟨h3, h4⟩ := or_shifted_byte _ (file.data.getD (file.pos + n) 0) n size h2
      (hget _) (by omega) hsize
    rw [List.range_succ, List.foldl_append, List.foldl_cons, List.foldl_nil, h1,
      Finset.sum_range_succ]
    refine ⟨?_, h4⟩
    simp only [h3]
    have hp : (file.pos + n + 1) % 0x100000000 = file.pos + (n + 1) := by omega
    rw [hp]

/-- C20: for an unsigned type of 1, 2 or 4 bytes and an array of at least that
many bytes, `ReadLE<T>(arr)` is the sum of `arr[i] * 256 ^ i` over the bytes of
the type; `PseudoFile::ReadLE<T>` returns that sum for the bytes from `pos` on,
which is the value `ReadLE<T>` gives for them, advances `pos` by `sizeof(T)`
and leaves the data alone. -/
theorem C20_ReadLE_little_endian (size : Nat) (arr : List Nat) (file : PseudoFile)
    (hsize : size = 1 ∨ size = 2 ∨ size = 4)
    (_hlen : size ≤ arr.length) (hbytes : ∀ b ∈ arr, b < 0x100)
    (hpos : file.pos + size ≤ file.data.length) (hdata : ∀ b ∈ file.data, b < 0x100)
    (hcap : file.data.length < 0x100000000) :
    ReadLE size arr = ∑ i ∈ Finset.range size, arr.getD i 0 * 256 ^ i
    ∧ (PseudoFile.ReadLE size file).1
        = ∑ i ∈ Finset.range size, file.data.getD (file.pos + i) 0 * 256 ^ i
    ∧ (PseudoFile.ReadLE size file).1 = ReadLE size (file.data.drop file.pos)
    ∧ (PseudoFile.ReadLE size file).2.pos = file.pos + size
    ∧ (PseudoFile.ReadLE size file).2.data = file.data := by
  have h4 : size ≤ 4 := by omega
  have h1 := (ReadLE_loop size arr h4 hbytes size (le_refl _)).1
  have h2 := (PseudoFile_loop size file h4 hdata hcap size (le_refl _) hpos).1
  have h3 := (ReadLE_loop size (file.data.drop file.pos) h4
    (fun b hb => hdata b (List.mem_of_mem_drop hb)) size (le_refl _)).1
  refine ⟨h1, ?_, ?_, ?_, ?_⟩
  · unfold PseudoFile.ReadLE
    rw [h2]
  · unfold PseudoFile.ReadLE ReadLE
    rw [h2, h3]
    show ∑ i ∈ Finset.range size, file.data.getD (file.pos + i) 0 * 256 ^ i
      = ∑ i ∈ Finset.range size, (file.data.drop file.pos).getD i 0 * 256 ^ i
    apply Finset.sum_congr rfl
    intro i _
    simp [List.getD_eq_getElem?_getD]
  · unfold PseudoFile.ReadLE
    rw [h2]
  · unfold PseudoFile.ReadLE
    rw [h2]

/-- Witness of C20: the four bytes `78 56 34 12` read as a 32-bit value. -/
theorem C20_witness :
    ReadLE 4 [0x78, 0x56, 0x34, 0x12]
        = ∑ i ∈ Finset.range 4, [0x78, 0x56, 0x34, 0x12].getD i 0 * 256 ^ i
    ∧ (PseudoFile.ReadLE 4 { data := [0, 0x78, 0x56, 0x34, 0x12], pos := 1 }).2.pos = 1 + 4 :=
  have h := C20_ReadLE_little_endian 4 [0x78, 0x56, 0x34, 0x12]
    { data := [0, 0x78, 0x56, 0x34, 0x12], pos := 1 } (by decide) (by decide) (by decide)
    (by decide) (by decide) (by decide)
  ⟨h.1, h.2.2.2.1⟩

/-! ## `Cnv_Sine` -/

/-- C31 fails on the code: the table has 33 entries and `lut_size` is 33, so
`Cnv_Sine(33)` takes the second branch and reads `lut[2 * 33 - 33] = lut[33]`,
and `Cnv_Sine(99)` takes the last branch and reads `lut[4 * 33 - 99] = lut[33]`,
one past the last entry.  These are the only two arguments from 0 to 127 with
an access outside the table, and for every other one the result lies between
-127 and 127.  With `lut_size = 32` every access from 0 to 127 is inside the
table. -/
theorem C31_Cnv_Sine_reads_past_table :
    Cnv_Sine.lut.length = 33 ∧ Cnv_Sine.lut_size = 33
    ∧ Cnv_Sine 33 = Cnv_Sine.read (2 * Cnv_Sine.lut_size - 33)
    ∧ 2 * Cnv_Sine.lut_size - 33 = 33
    ∧ Cnv_Sine 33 = none
    ∧ Cnv_Sine 99 = (Cnv_Sine.read (4 * Cnv_Sine.lut_size - 99)).map (fun v => -v)
    ∧ 4 * Cnv_Sine.lut_size - 99 = 33
    ∧ Cnv_Sine 99 = none
    ∧ (List.range 128).filter (fun arg => (Cnv_Sine (arg : Nat)).isNone) = [33, 99]
    ∧ (List.range 128).all (fun arg =>
        match Cnv_Sine (arg : Nat) with
        | some v => decide (-127 ≤ v ∧ v ≤ 127)
        | none => true) = true
    ∧ (List.range 128).all (fun arg => (Cnv_Sine.body 32 (arg : Nat)).isSome) = true := by
  decide

/-! ## `Cnv_Fall` -/

/-- The division of `Cnv_Fall` is never by zero: the result is defined for every
argument. -/
theorem Cnv_Fall_total (fall : Int) : Cnv_Fall fall ≠ none := by
  unfold Cnv_Fall
  simp only []
  split_ifs with h1 h2 h3 h4 h5 h6 h7 h8 <;> first
    | exact Option.some_ne_none _
    | omega

/-- From one argument to the next, from 0 to `0x7F`, the result of `Cnv_Fall`
grows. -/
theorem Cnv_Fall_step :
    ∀ a : Fin 127, (Cnv_Fall ((a.val : Nat) : Int)).getD 0
      < (Cnv_Fall (((a.val + 1 : Nat)) : Int)).getD 0 := by
  decide

/-- The result of `Cnv_Fall` grows between any two arguments from 0 to `0x7F`. -/
theorem Cnv_Fall_increasing :
    ∀ (d a : Nat), a + d + 1 ≤ 0x7F →
      (Cnv_Fall (a : Nat)).getD 0 < (Cnv_Fall ((a + d + 1 : Nat) : Int)).getD 0 := by
  intro d
  induction d with
  | zero =>
    intro a h
    exact Cnv_Fall_step ⟨a, by omega⟩
  | succ d ih =>
    intro a h
    have h1 := ih a (by omega)
    have h2 := Cnv_Fall_step ⟨a + d + 1, by omega⟩
    exact lt_trans h1 h2

/-- C32: `Cnv_Fall` never divides by zero, whatever the `int` argument; an
argument with bit `0x80` set gives the result of the argument 0, which is 1;
from 0 to `0x7F` the result is strictly increasing, and it is `0x3C00` for
`0x7E` and `0xFFFF` for `0x7F`. -/
theorem C32_Cnv_Fall (fall : Int) (a b : Nat) :
    Cnv_Fall fall ≠ none
    ∧ Cnv_Fall 0 = some 1
    ∧ (Int.land fall 0x80 ≠ 0 → Cnv_Fall fall = Cnv_Fall 0)
    ∧ (a < b → b ≤ 0x7F →
        ∃ x y, Cnv_Fall (a : Nat) = some x ∧ Cnv_Fall (b : Nat) = some y ∧ x < y)
    ∧ Cnv_Fall 0x7E = some 0x3C00
    ∧ Cnv_Fall 0x7F = some 0xFFFF := by
  refine ⟨Cnv_Fall_total fall, by decide, ?_, ?_, by decide, by decide⟩
  · intro h
    have h0 : Int.land 0 0x80 = 0 := by decide
    unfold Cnv_Fall
    simp only [h, h0, ne_eq, not_false_eq_true, not_true_eq_false, if_true, if_false]
  · intro hab hb
    obtain ⟨d, hd⟩ : ∃ d, b = a + d + 1 := ⟨b - a - 1, by omega⟩
    subst hd
    have hlt := Cnv_Fall_increasing d a hb
    cases hx : Cnv_Fall (a : Nat) with
    | none => exact absurd hx (Cnv_Fall_total _)
    | some x =>
      cases hy : Cnv_Fall ((a + d + 1 : Nat) : Int) with
      | none => exact absurd hy (Cnv_Fall_total _)
      | some y =>
        rw [hx, hy] at hlt
        exact ⟨x, y, rfl, rfl, hlt⟩

/-- Witness of C32: `0x80` has bit `0x80` set, and `Cnv_Fall` goes from 99 at
`0x31` to 101 at `0x32`. -/
theorem C32_witness :
    Int.land 0x80 0x80 ≠ 0
    ∧ Cnv_Fall 0x80 = Cnv_Fall 0
    ∧ ∃ x y, Cnv_Fall ((0x31 : Nat) : Int) = some x ∧ Cnv_Fall ((0x32 : Nat) : Int) = some y
        ∧ x < y :=
  have h := C32_Cnv_Fall 0x80 0x31 0x32
  ⟨by decide, h.2.2.1 (by decide), h.2.2.2.1 (by decide) (by decide)⟩

end SSEQPlayer
